import Mathlib

/-!
# Binary greedy mesher: embedding of `src/src/mesher.h` and its specification

The C++ function `mesh` is embedded as a function into `Except MeshError`:
the bounds-checked `vector::at` reads, the unchecked reads through the input
iterator and the `while` loops over the set bits of a 64-bit word are all
explicit, so that a result `.ok _` means that the call returned normally.

Machine integers are `Nat`/`Int` with explicit reductions: 64-bit words are
naturals below `2 ^ 64`, `uint8_t` conversions reduce modulo `256`, `short`
conversions reduce into `[-32768, 32767]`.  The input vectors are arrays of
naturals; the fixed-size C arrays are arrays whose length is part of the type.
-/

namespace Mesher

/-! ## Constants and data (mesher.h, lines 10-24) -/

/-- Chunk edge in voxels. -/
def CS : Nat := 62

/-- Padded chunk edge. -/
def CS_P : Nat := CS + 2

/-- Square of the padded edge. -/
def CS_P2 : Nat := CS_P * CS_P

/-- Cube of the padded edge: the length of both input vectors. -/
def CS_P3 : Nat := CS_P * CS_P * CS_P

/-- Vertex record: three `short` coordinates and three `uint8_t` attributes. -/
structure Vertex where
  px : Int
  py : Int
  pz : Int
  type : Nat
  light : Nat
  normal : Nat
deriving DecidableEq, Repr

/-- Chunk origin, the `glm::ivec3 pos` argument. -/
structure IVec3 where
  x : Int
  y : Int
  z : Int
deriving DecidableEq, Repr

/-- Ways in which a run of the embedding stops without a result: `vector::at`
throwing `std::out_of_range`, a read through the input iterator past the end
of the vector (undefined behaviour in the source), and a `while` loop exceeding
the iteration bound of the model. -/
inductive MeshError where
  | out_of_range
  | bad_read
  | fuel
deriving DecidableEq, Repr

/-! ## Machine arithmetic -/

/-- Conversion of an `int` to `short` (two's complement, 16 bits). -/
def toShort (x : Int) : Int := (x + 32768) % 65536 - 32768

/-- Conversion of an `int` to `uint8_t`. -/
def toU8 (x : Int) : Nat := (x % 256).toNat

/-- Bitwise complement of a 64-bit word. -/
def not64 (x : Nat) : Nat := x ^^^ (2 ^ 64 - 1)

/-- Index of the lowest set bit, scanning at most `fuel` positions. -/
def ctzAux : Nat → Nat → Nat
  | 0, _ => 0
  | fuel + 1, x => if x % 2 = 1 then 0 else 1 + ctzAux fuel (x / 2)

/-- Count of trailing zeros of a 64-bit word (`_BitScanForward64`). -/
def CTZ (x : Nat) : Nat := ctzAux 64 x

/-- Flat index of the cell at in-plane position `(a, b)` and depth `c` along
`axis` (mesher.h, lines 34-38). -/
def get_axis_i (axis a b c : Int) : Int :=
  if axis = 0 then b + (a * CS_P) + (c * CS_P2)
  else if axis = 1 then a + (c * CS_P) + (b * CS_P2)
  else c + (b * CS_P) + (a * CS_P2)

/-- Bounds-checked read `v.at(i)`; a negative `int` converts to a huge
`size_t` and is out of range. -/
def vecAt (v : Array Nat) (i : Int) : Except MeshError Nat :=
  if 0 ≤ i ∧ i < v.size then .ok (v.getD i.toNat 0) else .error .out_of_range

/-- Unchecked read `*p` through the iterator at offset `p`. Past the end of the
vector the source has undefined behaviour; the embedding stops there with
`bad_read`, which marks that the run left defined behaviour and says nothing
about what the compiled program then does. -/
def deref (v : Array Nat) (p : Nat) : Except MeshError Nat :=
  if p < v.size then .ok (v.getD p 0) else .error .bad_read

/-- Fixed-size C array of `n` integer words. -/
structure Words (n : Nat) where
  data : Array Nat
  size_eq : data.size = n

/-- Zero-initialised array (`= { 0 }`). -/
def Words.zero (n : Nat) : Words n := ⟨Array.mkArray n 0, Array.size_mkArray n 0⟩

/-- Array read `arr[i]`. -/
def Words.get {n : Nat} (arr : Words n) (i : Nat) : Nat := arr.data.getD i 0

/-- Array store `arr[i] = v`. -/
def Words.set {n : Nat} (arr : Words n) (i v : Nat) : Words n :=
  ⟨arr.data.setD i v, (Array.size_setD arr.data i v).trans arr.size_eq⟩

/-- The loop `while (bits) { bit_pos = CTZ(bits); bits &= ~(1ULL << bit_pos); body }`. -/
def whileBits {σ : Type} (body : Nat → σ → Except MeshError σ) :
    Nat → Nat → σ → Except MeshError σ
  | 0, bits, s => if bits = 0 then .ok s else .error .fuel
  | fuel + 1, bits, s =>
    if bits = 0 then .ok s
    else
      match body (CTZ bits) s with
      | .ok s1 => whileBits body fuel (bits &&& not64 (1 <<< CTZ bits)) s1
      | .error e => .error e

/-! ## Step 1: binary columns (mesher.h, lines 50-65) -/

/-- State of step 1: the column words, the iterator offset and the running
word `zb`. -/
structure EncodeState where
  axis_cols : Words (CS_P2 * 3)
  p : Nat
  zb : Nat

/-- Body of the `z` loop. -/
def encodeCell (voxels : Array Nat) (y x : Nat) (st : EncodeState) (z : Nat) :
    Except MeshError EncodeState :=
  match deref voxels st.p with
  | .error e => .error e
  | .ok b =>
    if b > 0 then
      let c1 := st.axis_cols.set (x + (z * CS_P)) (st.axis_cols.get (x + (z * CS_P)) ||| (1 <<< y))
      let c2 := c1.set (z + (y * CS_P) + CS_P2) (c1.get (z + (y * CS_P) + CS_P2) ||| (1 <<< x))
      .ok { axis_cols := c2, p := st.p + 1, zb := st.zb ||| (1 <<< z) }
    else
      .ok { axis_cols := st.axis_cols, p := st.p + 1, zb := st.zb }

/-- Body of the `x` loop. -/
def encodeRow (voxels : Array Nat) (y : Nat) (st : EncodeState) (x : Nat) :
    Except MeshError EncodeState :=
  match (List.range CS_P).foldlM (encodeCell voxels y x)
      { axis_cols := st.axis_cols, p := st.p, zb := 0 } with
  | .error e => .error e
  | .ok s1 =>
    .ok { axis_cols := s1.axis_cols.set (y + (x * CS_P) + (CS_P2 * 2)) s1.zb,
          p := s1.p, zb := s1.zb }

/-- Body of the `y` loop. -/
def encodeSlab (voxels : Array Nat) (st : EncodeState) (y : Nat) :
    Except MeshError EncodeState :=
  (List.range CS_P).foldlM (encodeRow voxels y) st

/-- Step 1: the array `axis_cols`. -/
def encodeColumns (voxels : Array Nat) : Except MeshError (Words (CS_P2 * 3)) :=
  match (List.range CS_P).foldlM (encodeSlab voxels)
      { axis_cols := Words.zero (CS_P2 * 3), p := 0, zb := 0 } with
  | .error e => .error e
  | .ok s => .ok s.axis_cols

/-! ## Step 2: visible face culling (mesher.h, lines 67-74) -/

/-- Body of the `i` loop. -/
def cullColumn (axis_cols : Words (CS_P2 * 3)) (axis : Nat) (masks : Words (CS_P2 * 6))
    (i : Nat) : Words (CS_P2 * 6) :=
  let col := axis_cols.get ((CS_P2 * axis) + i)
  let m1 := masks.set ((CS_P2 * (axis * 2)) + i)
    (col &&& not64 ((col >>> 1) ||| (1 <<< (CS_P - 1))))
  m1.set ((CS_P2 * (axis * 2 + 1)) + i)
    (col &&& not64 (((col <<< 1) % 2 ^ 64) ||| 1))

/-- Step 2: the array `col_face_masks`. -/
def cullFaces (axis_cols : Words (CS_P2 * 3)) : Words (CS_P2 * 6) :=
  (List.range 3).foldl
    (fun masks axis => (List.range CS_P2).foldl (cullColumn axis_cols axis) masks)
    (Words.zero (CS_P2 * 6))

/-! ## Step 3: greedy meshing (mesher.h, lines 81-211) -/

/-- The six vertices inserted for one rectangle (mesher.h, lines 148-207). -/
def emitQuad (SX SY SZ : Int) (face mesh_left mesh_right mesh_front mesh_back mesh_up : Nat)
    (type light : Nat) : List Vertex :=
  if face = 0 then
    [ ⟨toShort (SX + mesh_left), toShort (SY + mesh_up), toShort (SZ + mesh_front), type, light, 0⟩,
      ⟨toShort (SX + mesh_left), toShort (SY + mesh_up), toShort (SZ + mesh_back), type, light, 0⟩,
      ⟨toShort (SX + mesh_right), toShort (SY + mesh_up), toShort (SZ + mesh_back), type, light, 0⟩,
      ⟨toShort (SX + mesh_right), toShort (SY + mesh_up), toShort (SZ + mesh_back), type, light, 0⟩,
      ⟨toShort (SX + mesh_right), toShort (SY + mesh_up), toShort (SZ + mesh_front), type, light, 0⟩,
      ⟨toShort (SX + mesh_left), toShort (SY + mesh_up), toShort (SZ + mesh_front), type, light, 0⟩ ]
  else if face = 1 then
    [ ⟨toShort (SX + mesh_left), toShort (SY + mesh_up), toShort (SZ + mesh_back), type, light, 1⟩,
      ⟨toShort (SX + mesh_left), toShort (SY + mesh_up), toShort (SZ + mesh_front), type, light, 1⟩,
      ⟨toShort (SX + mesh_right), toShort (SY + mesh_up), toShort (SZ + mesh_front), type, light, 1⟩,
      ⟨toShort (SX + mesh_right), toShort (SY + mesh_up), toShort (SZ + mesh_front), type, light, 1⟩,
      ⟨toShort (SX + mesh_right), toShort (SY + mesh_up), toShort (SZ + mesh_back), type, light, 1⟩,
      ⟨toShort (SX + mesh_left), toShort (SY + mesh_up), toShort (SZ + mesh_back), type, light, 1⟩ ]
  else if face = 2 then
    [ ⟨toShort (SX + mesh_up), toShort (SY + mesh_front), toShort (SZ + mesh_left), type, light, 2⟩,
      ⟨toShort (SX + mesh_up), toShort (SY + mesh_back), toShort (SZ + mesh_left), type, light, 2⟩,
      ⟨toShort (SX + mesh_up), toShort (SY + mesh_back), toShort (SZ + mesh_right), type, light, 2⟩,
      ⟨toShort (SX + mesh_up), toShort (SY + mesh_back), toShort (SZ + mesh_right), type, light, 2⟩,
      ⟨toShort (SX + mesh_up), toShort (SY + mesh_front), toShort (SZ + mesh_right), type, light, 2⟩,
      ⟨toShort (SX + mesh_up), toShort (SY + mesh_front), toShort (SZ + mesh_left), type, light, 2⟩ ]
  else if face = 3 then
    [ ⟨toShort (SX + mesh_up), toShort (SY + mesh_back), toShort (SZ + mesh_left), type, light, 3⟩,
      ⟨toShort (SX + mesh_up), toShort (SY + mesh_front), toShort (SZ + mesh_left), type, light, 3⟩,
      ⟨toShort (SX + mesh_up), toShort (SY + mesh_front), toShort (SZ + mesh_right), type, light, 3⟩,
      ⟨toShort (SX + mesh_up), toShort (SY + mesh_front), toShort (SZ + mesh_right), type, light, 3⟩,
      ⟨toShort (SX + mesh_up), toShort (SY + mesh_back), toShort (SZ + mesh_right), type, light, 3⟩,
      ⟨toShort (SX + mesh_up), toShort (SY + mesh_back), toShort (SZ + mesh_left), type, light, 3⟩ ]
  else if face = 4 then
    [ ⟨toShort (SX + mesh_front), toShort (SY + mesh_left), toShort (SZ + mesh_up), type, light, 4⟩,
      ⟨toShort (SX + mesh_back), toShort (SY + mesh_left), toShort (SZ + mesh_up), type, light, 4⟩,
      ⟨toShort (SX + mesh_back), toShort (SY + mesh_right), toShort (SZ + mesh_up), type, light, 4⟩,
      ⟨toShort (SX + mesh_back), toShort (SY + mesh_right), toShort (SZ + mesh_up), type, light, 4⟩,
      ⟨toShort (SX + mesh_front), toShort (SY + mesh_right), toShort (SZ + mesh_up), type, light, 4⟩,
      ⟨toShort (SX + mesh_front), toShort (SY + mesh_left), toShort (SZ + mesh_up), type, light, 4⟩ ]
  else if face = 5 then
    [ ⟨toShort (SX + mesh_back), toShort (SY + mesh_left), toShort (SZ + mesh_up), type, light, 5⟩,
      ⟨toShort (SX + mesh_front), toShort (SY + mesh_left), toShort (SZ + mesh_up), type, light, 5⟩,
      ⟨toShort (SX + mesh_front), toShort (SY + mesh_right), toShort (SZ + mesh_up), type, light, 5⟩,
      ⟨toShort (SX + mesh_front), toShort (SY + mesh_right), toShort (SZ + mesh_up), type, light, 5⟩,
      ⟨toShort (SX + mesh_back), toShort (SY + mesh_right), toShort (SZ + mesh_up), type, light, 5⟩,
      ⟨toShort (SX + mesh_back), toShort (SY + mesh_left), toShort (SZ + mesh_up), type, light, 5⟩ ]
  else []

/-- Mutable state of step 3 inside one `forward` row. -/
structure MergeState where
  merged_forward : Words CS_P2
  bits_walking_right : Nat
  merged_right : Words CS_P
  vertices : List Vertex

/-- State of the first inner `while` loop: `merged_forward` and
`bits_merging_forward`. -/
structure ForwardState where
  merged_forward : Words CS_P2
  bits_merging_forward : Nat

/-- The value `light_dir` of a face. -/
def lightDir (face : Nat) : Int := if face % 2 = 0 then 1 else -1

/-- The test `voxels.at(i) == voxels.at(j) && light_map.at(i2) == light_map.at(j2)`,
with the short-circuit evaluation of `&&`. -/
def sameTypeLight (voxels light_map : Array Nat) (i j i2 j2 : Int) : Except MeshError Bool :=
  match vecAt voxels i with
  | .error e => .error e
  | .ok a =>
    match vecAt voxels j with
    | .error e => .error e
    | .ok b =>
      if a = b then
        match vecAt light_map i2 with
        | .error e => .error e
        | .ok c =>
          match vecAt light_map j2 with
          | .error e => .error e
          | .ok d => .ok (decide (c = d))
      else .ok false

/-- Body of the loop over `copy_front` (mesher.h, lines 96-111). -/
def forwardStep (voxels light_map : Array Nat) (face forward right : Nat)
    (bit_pos : Nat) (st : ForwardState) : Except MeshError ForwardState :=
  match sameTypeLight voxels light_map
      (get_axis_i (face / 2 : Nat) right forward bit_pos)
      (get_axis_i (face / 2 : Nat) right (forward + 1 : Nat) bit_pos)
      (get_axis_i (face / 2 : Nat) right forward (bit_pos + lightDir face))
      (get_axis_i (face / 2 : Nat) right (forward + 1 : Nat) (bit_pos + lightDir face)) with
  | .error e => .error e
  | .ok true =>
    .ok { merged_forward := st.merged_forward.set ((right * CS_P) + bit_pos)
            (st.merged_forward.get ((right * CS_P) + bit_pos) + 1),
          bits_merging_forward := st.bits_merging_forward }
  | .ok false =>
    .ok { merged_forward := st.merged_forward,
          bits_merging_forward := st.bits_merging_forward &&& not64 (1 <<< bit_pos) }

/-- The condition of the `if` at mesher.h, lines 121-128, with the
short-circuit evaluation of `&&`. -/
def canWalkRight (voxels light_map : Array Nat) (face forward right : Nat)
    (bits_merging_right : Nat) (bit_pos : Nat) (st : MergeState) : Except MeshError Bool :=
  if (bits_merging_right &&& (1 <<< bit_pos)) ≠ 0 then
    if st.merged_forward.get ((right * CS_P) + bit_pos)
        = st.merged_forward.get ((right + 1) * CS_P + bit_pos) then
      sameTypeLight voxels light_map
        (get_axis_i (face / 2 : Nat) right forward bit_pos)
        (get_axis_i (face / 2 : Nat) (right + 1 : Nat) forward bit_pos)
        (get_axis_i (face / 2 : Nat) right forward (bit_pos + lightDir face))
        (get_axis_i (face / 2 : Nat) (right + 1 : Nat) forward (bit_pos + lightDir face))
    else .ok false
  else .ok false

/-- Body of the loop over `bits_stopped_forward` (mesher.h, lines 114-208). -/
def stoppedStep (voxels light_map : Array Nat) (SX SY SZ : Int) (face forward right : Nat)
    (bits_merging_right : Nat) (bit_pos : Nat) (st : MergeState) :
    Except MeshError MergeState :=
  if bit_pos = 0 ∨ bit_pos = CS_P - 1 then .ok st
  else
    match canWalkRight voxels light_map face forward right bits_merging_right bit_pos st with
    | .error e => .error e
    | .ok true =>
      .ok { merged_forward := st.merged_forward.set ((right * CS_P) + bit_pos) 0,
            bits_walking_right := st.bits_walking_right ||| (1 <<< bit_pos),
            merged_right := st.merged_right.set bit_pos (st.merged_right.get bit_pos + 1),
            vertices := st.vertices }
    | .ok false =>
      let mesh_left := toU8 ((right : Int) - (st.merged_right.get bit_pos : Int))
      let mesh_right := toU8 ((right : Int) + 1)
      let mesh_front := toU8 ((forward : Int) - (st.merged_forward.get ((right * CS_P) + bit_pos) : Int))
      let mesh_back := toU8 ((forward : Int) + 1)
      let mesh_up := toU8 ((bit_pos : Int) + (if face % 2 = 0 then 1 else 0))
      match vecAt voxels (get_axis_i (face / 2 : Nat) right forward bit_pos) with
      | .error e => .error e
      | .ok type =>
        match vecAt light_map (get_axis_i (face / 2 : Nat) right forward (bit_pos + lightDir face)) with
        | .error e => .error e
        | .ok light =>
          .ok { merged_forward := st.merged_forward.set ((right * CS_P) + bit_pos) 0,
                bits_walking_right := st.bits_walking_right &&& not64 (1 <<< bit_pos),
                merged_right := st.merged_right.set bit_pos 0,
                vertices := st.vertices ++
                  emitQuad SX SY SZ face mesh_left mesh_right mesh_front mesh_back mesh_up
                    type light }

/-- Body of the `right` loop (mesher.h, lines 89-208). -/
def meshCell (voxels light_map : Array Nat) (col_face_masks : Words (CS_P2 * 6)) (SX SY SZ : Int)
    (face forward : Nat) (st : MergeState) (right : Nat) : Except MeshError MergeState :=
  let bits_here := col_face_masks.get (right + (forward * CS_P) + (face * CS_P2))
  let bits_forward :=
    if forward ≥ CS then 0
    else col_face_masks.get (right + (forward * CS_P) + (face * CS_P2) + CS_P)
  let bits_right :=
    if right ≥ CS then 0
    else col_face_masks.get (right + 1 + (forward * CS_P) + (face * CS_P2))
  let bits_merging_forward := bits_here &&& bits_forward &&& not64 st.bits_walking_right
  let bits_merging_right := bits_here &&& bits_right
  match whileBits (forwardStep voxels light_map face forward right) 64 bits_merging_forward
      { merged_forward := st.merged_forward, bits_merging_forward := bits_merging_forward } with
  | .error e => .error e
  | .ok fs =>
    whileBits (stoppedStep voxels light_map SX SY SZ face forward right bits_merging_right) 64
      (bits_here &&& not64 fs.bits_merging_forward)
      { merged_forward := fs.merged_forward,
        bits_walking_right := st.bits_walking_right,
        merged_right := st.merged_right,
        vertices := st.vertices }

/-- State carried from one `forward` row to the next: `merged_forward` and the
output vector. -/
structure FaceState where
  merged_forward : Words CS_P2
  vertices : List Vertex

/-- Body of the `forward` loop (mesher.h, lines 85-210). -/
def meshRow (voxels light_map : Array Nat) (col_face_masks : Words (CS_P2 * 6)) (SX SY SZ : Int)
    (face : Nat) (st : FaceState) (forward : Nat) : Except MeshError FaceState :=
  match (List.range' 1 (CS_P - 2)).foldlM
      (meshCell voxels light_map col_face_masks SX SY SZ face forward)
      { merged_forward := st.merged_forward, bits_walking_right := 0,
        merged_right := Words.zero CS_P, vertices := st.vertices } with
  | .error e => .error e
  | .ok s => .ok { merged_forward := s.merged_forward, vertices := s.vertices }

/-- Body of the `face` loop (mesher.h, lines 82-211). -/
def meshFace (voxels light_map : Array Nat) (col_face_masks : Words (CS_P2 * 6)) (SX SY SZ : Int)
    (vertices : List Vertex) (face : Nat) : Except MeshError (List Vertex) :=
  match (List.range' 1 (CS_P - 2)).foldlM
      (meshRow voxels light_map col_face_masks SX SY SZ face)
      { merged_forward := Words.zero CS_P2, vertices := vertices } with
  | .error e => .error e
  | .ok s => .ok s.vertices

/-- The function `mesh` (mesher.h, lines 42-221): `none` is the null pointer
returned for an empty vertex vector. -/
def mesh (voxels light_map : Array Nat) (pos : IVec3) :
    Except MeshError (Option (List Vertex)) := do
  let axis_cols ← encodeColumns voxels
  let col_face_masks := cullFaces axis_cols
  let SX := toShort ((pos.x * CS) - 1)
  let SY := toShort ((pos.y * CS) - 1)
  let SZ := toShort ((pos.z * CS) - 1)
  let vertices ← (List.range 6).foldlM (meshFace voxels light_map col_face_masks SX SY SZ) []
  if vertices.length = 0 then pure none else pure (some vertices)

end Mesher

namespace Mesher

/-! ## Definitions used by the proofs -/

/-- Positions of the set bits of a 64-bit word, in ascending order. -/
def bitsOf (m : Nat) : List Nat := (List.range 64).filter (fun k => m.testBit k)

/-- Flat index of the cell `(x, y, z)` of the padded cube. -/
def cellIdx (x y z : Nat) : Nat := y * 4096 + x * 64 + z

/-- The function `get_axis_i` on natural numbers. -/
def axisIdx (axis a b c : Nat) : Nat :=
  if axis = 0 then b + a * 64 + c * 4096
  else if axis = 1 then a + c * 64 + b * 4096
  else c + b * 64 + a * 4096

/-- Invariant of step 1 for the columns along Y: bit `b` of column `(x, z)` is
set iff the cell `(x, b, z)` has been visited and is solid. -/
def ColsA (v : Array Nat) (p : Nat) (ac : Words (CS_P2 * 3)) : Prop :=
  ∀ x z b, x < 64 → z < 64 →
    ((ac.get (x + z * 64)).testBit b = true ↔
      b < 64 ∧ b * 4096 + x * 64 + z < p ∧ v.getD (b * 4096 + x * 64 + z) 0 ≠ 0)

/-- Invariant of step 1 for the columns along X. -/
def ColsB (v : Array Nat) (p : Nat) (ac : Words (CS_P2 * 3)) : Prop :=
  ∀ z y b, z < 64 → y < 64 →
    ((ac.get (z + y * 64 + 4096)).testBit b = true ↔
      b < 64 ∧ y * 4096 + b * 64 + z < p ∧ v.getD (y * 4096 + b * 64 + z) 0 ≠ 0)

/-- Invariant of step 1 for the columns along Z. -/
def ColsC (v : Array Nat) (p : Nat) (ac : Words (CS_P2 * 3)) : Prop :=
  ∀ y x b, y < 64 → x < 64 →
    ((ac.get (y + x * 64 + 8192)).testBit b = true ↔
      b < 64 ∧ y * 4096 + x * 64 + b < p ∧ v.getD (y * 4096 + x * 64 + b) 0 ≠ 0)

/-- Invariant of the `z` loop of step 1 after `i` iterations. -/
def CellInv (v : Array Nat) (y x i : Nat) (st : EncodeState) : Prop :=
  st.p = y * 4096 + x * 64 + i ∧ ColsA v st.p st.axis_cols ∧ ColsB v st.p st.axis_cols ∧
    ColsC v (y * 4096 + x * 64) st.axis_cols ∧
    ∀ b, st.zb.testBit b = true ↔ b < i ∧ v.getD (y * 4096 + x * 64 + b) 0 ≠ 0

/-- Invariant of the outer loops of step 1 when the iterator is at offset `p`. -/
def ColsInv (v : Array Nat) (p : Nat) (st : EncodeState) : Prop :=
  st.p = p ∧ ColsA v p st.axis_cols ∧ ColsB v p st.axis_cols ∧ ColsC v p st.axis_cols

/-- Face mask of a column for the ascending direction (mesher.h, line 71). -/
def ascMask (col : Nat) : Nat := col &&& not64 ((col >>> 1) ||| (1 <<< 63))

/-- Face mask of a column for the descending direction (mesher.h, line 72). -/
def descMask (col : Nat) : Nat := col &&& not64 (((col <<< 1) % 2 ^ 64) ||| 1)

/-- Invariant of step 2 after the columns before `(a, i)` have been written. -/
def MasksInv (ac : Words (CS_P2 * 3)) (a i : Nat) (m : Words (CS_P2 * 6)) : Prop :=
  ∀ a1 i1, (a1 < a ∨ (a1 = a ∧ i1 < i)) → a1 < 3 → i1 < 4096 →
    m.get (4096 * (a1 * 2) + i1) = ascMask (ac.get (4096 * a1 + i1)) ∧
    m.get (4096 * (a1 * 2 + 1) + i1) = descMask (ac.get (4096 * a1 + i1))

/-- Property of `col_face_masks` established by steps 1 and 2. -/
def MaskSpec (v : Array Nat) (cfm : Words (CS_P2 * 6)) : Prop :=
  ∀ face r f k, face < 6 → r < 64 → f < 64 →
    ((cfm.get (r + f * 64 + face * 4096)).testBit k = true ↔
      k < 64 ∧ v.getD (axisIdx (face / 2) r f k) 0 ≠ 0 ∧
        (if face % 2 = 0 then k ≠ 63 ∧ v.getD (axisIdx (face / 2) r f (k + 1)) 0 = 0
         else k ≠ 0 ∧ v.getD (axisIdx (face / 2) r f (k - 1)) 0 = 0))

/-- Depth of the cell on the exterior side of a face at depth `k`. -/
def upDepth (face k : Nat) : Nat := if face % 2 = 0 then k + 1 else k - 1

/-- Exposure of the face `face` of the cell at in-plane position `(r, f)` and
depth `k`: the cell is solid and its neighbour on the side of the face is
empty. -/
def faceBit (v : Array Nat) (face r f k : Nat) : Bool :=
  decide (v.getD (axisIdx (face / 2) r f k) 0 ≠ 0) &&
    decide (v.getD (axisIdx (face / 2) r f (upDepth face k)) 0 = 0)

/-- Voxel type of a cell and light value on the exterior side of its face. -/
def attr (v l : Array Nat) (face r f k : Nat) : Nat × Nat :=
  (v.getD (axisIdx (face / 2) r f k) 0, l.getD (axisIdx (face / 2) r f (upDepth face k)) 0)

/-- One depth plane of one face direction: which cells carry an exposed face,
and the attributes that must agree for two faces to merge. -/
structure Plane where
  E : Nat → Nat → Bool
  A : Nat → Nat → Nat × Nat

/-- The plane of face direction `face` at depth `k`. -/
def plane (v l : Array Nat) (face k : Nat) : Plane :=
  { E := fun r f => faceBit v face r f k, A := fun r f => attr v l face r f k }

/-- The part of the state of step 3 that belongs to one depth: bit `k` of
`bits_walking_right`, `merged_right[k]` and the entries of `merged_forward`
for depth `k`, by column. -/
structure Slice where
  w : Bool
  mr : Nat
  mf : Nat → Nat

/-- What step 3 does with one face bit. -/
inductive Act where
  | skip
  | fwd
  | right
  | emit
deriving DecidableEq, Repr

/-- Decision taken at the cell `(r, f)` of a plane. -/
def Plane.act (P : Plane) (r f : Nat) (s : Slice) : Act :=
  if P.E r f = false then Act.skip
  else if f < 62 ∧ P.E r (f + 1) = true ∧ s.w = false ∧ P.A r f = P.A r (f + 1) then Act.fwd
  else if r < 62 ∧ P.E (r + 1) f = true ∧ s.mf r = s.mf (r + 1) ∧ P.A r f = P.A (r + 1) f
    then Act.right
  else Act.emit

/-- Effect of the cell `(r, f)` on the state of one depth. -/
def Plane.step (P : Plane) (r f : Nat) (s : Slice) : Slice :=
  match P.act r f s with
  | Act.skip => s
  | Act.fwd => { w := s.w, mr := s.mr, mf := Function.update s.mf r (s.mf r + 1) }
  | Act.right => { w := true, mr := s.mr + 1, mf := Function.update s.mf r 0 }
  | Act.emit => { w := false, mr := 0, mf := Function.update s.mf r 0 }

/-- Rectangle emitted by step 3: face direction, extents, voxel type and
light value. -/
structure Quad where
  face : Nat
  L : Nat
  R : Nat
  F : Nat
  B : Nat
  U : Nat
  type : Nat
  light : Nat
deriving DecidableEq, Repr

/-- Rectangle emitted at the cell `(r, f)` of the plane of `face` at depth `k`,
if any. -/
def quadAt (P : Plane) (face k r f : Nat) (s : Slice) : List Quad :=
  if P.act r f s = Act.emit then
    [{ face := face,
       L := toU8 ((r : Int) - (s.mr : Int)),
       R := toU8 ((r : Int) + 1),
       F := toU8 ((f : Int) - (s.mf r : Int)),
       B := toU8 ((f : Int) + 1),
       U := toU8 ((k : Int) + (if face % 2 = 0 then 1 else 0)),
       type := (P.A r f).1,
       light := (P.A r f).2 }]
  else []

/-- Vertices inserted by step 3 for a rectangle. -/
def quadEmit (SX SY SZ : Int) (q : Quad) : List Vertex :=
  emitQuad SX SY SZ q.face q.L q.R q.F q.B q.U q.type q.light

/-- Projection of the state of step 3 onto depth `k`. -/
def proj (k : Nat) (st : MergeState) : Slice :=
  { w := st.bits_walking_right.testBit k,
    mr := st.merged_right.get k,
    mf := fun r => st.merged_forward.get (r * 64 + k) }

/-- Condition under which a face bit that stopped merging forward extends
its rectangle to the right (mesher.h, lines 121-128). -/
def walkCond (v l : Array Nat) (bmr : Nat) (mf : Words CS_P2) (face f r k : Nat) : Prop :=
  bmr.testBit k = true ∧ mf.get (r * 64 + k) = mf.get ((r + 1) * 64 + k) ∧
    attr v l face r f k = attr v l face (r + 1) f k

instance (v l : Array Nat) (bmr : Nat) (mf : Words CS_P2) (face f r k : Nat) :
    Decidable (walkCond v l bmr mf face f r k) := by
  unfold walkCond
  infer_instance

/-- Vertices inserted when the rectangle of depth `k` terminates at `(r, f)`. -/
def stopVerts (v l : Array Nat) (SX SY SZ : Int) (face f r k : Nat) (mr : Words CS_P)
    (mf : Words CS_P2) : List Vertex :=
  emitQuad SX SY SZ face
    (toU8 ((r : Int) - (mr.get k : Int)))
    (toU8 ((r : Int) + 1))
    (toU8 ((f : Int) - (mf.get (r * 64 + k) : Int)))
    (toU8 ((f : Int) + 1))
    (toU8 ((k : Int) + (if face % 2 = 0 then 1 else 0)))
    (attr v l face r f k).1 (attr v l face r f k).2

/-- State of one depth after the first `n` cells of the row `f`, from the
state `s0` at the start of the row. -/
def Plane.rowAt (P : Plane) (f : Nat) (s0 : Slice) : Nat → Slice
  | 0 => s0
  | n + 1 => P.step (n + 1) f (P.rowAt f s0 n)

/-- Entries of `merged_forward` of one depth after the first `n` rows. -/
def Plane.heights (P : Plane) : Nat → (Nat → Nat)
  | 0 => fun _ => 0
  | n + 1 => (P.rowAt (n + 1) { w := false, mr := 0, mf := P.heights n } 62).mf

/-- State of one depth on entry to the cell `(r, f)`. -/
def Plane.entry (P : Plane) (f r : Nat) : Slice :=
  P.rowAt f { w := false, mr := 0, mf := P.heights (f - 1) } (r - 1)

/-- Decision taken at the cell `(r, f)` of a plane in the run of step 3. -/
def Plane.actAt (P : Plane) (r f : Nat) : Act := P.act r f (P.entry f r)

/-- The cell `(r, f)` lies in the rectangle that terminates at `(R0, F0)`. -/
def Plane.inRect (P : Plane) (R0 F0 r f : Nat) : Prop :=
  R0 - (P.entry F0 R0).mr ≤ r ∧ r ≤ R0 ∧ F0 - P.heights (F0 - 1) R0 ≤ f ∧ f ≤ F0

/-- Rectangles emitted at the cell `(r, f)` of a face direction, by ascending
depth. -/
def cellQuads (v l : Array Nat) (face f r : Nat) : List Quad :=
  (List.range' 1 62).flatMap fun k =>
    quadAt (plane v l face k) face k r f ((plane v l face k).entry f r)

/-- Rectangles emitted in the row `f` of a face direction. -/
def rowQuads (v l : Array Nat) (face f : Nat) : List Quad :=
  (List.range' 1 62).flatMap fun r => cellQuads v l face f r

/-- Rectangles emitted for a face direction. -/
def faceQuads (v l : Array Nat) (face : Nat) : List Quad :=
  (List.range' 1 62).flatMap fun f => rowQuads v l face f

/-- Rectangles emitted by step 3, in order of emission. -/
def quadList (v l : Array Nat) : List Quad :=
  (List.range 6).flatMap fun face => faceQuads v l face

/-- Result of `mesh` for a list of emitted vertices: the null pointer when the
list is empty. -/
def packVertices (vs : List Vertex) : Option (List Vertex) :=
  if vs.length = 0 then none else some vs

end Mesher

namespace Mesher

/-! ## Vocabulary of the specification -/

/-- The five extents of a rectangle: `mesh_left`, `mesh_right`, `mesh_front`,
`mesh_back`, `mesh_up`. -/
inductive Lane where
  | L
  | R
  | F
  | B
  | U
deriving DecidableEq, Repr

/-- Extent of a rectangle by name. -/
def Quad.lane (q : Quad) : Lane → Nat
  | Lane.L => q.L
  | Lane.R => q.R
  | Lane.F => q.F
  | Lane.B => q.B
  | Lane.U => q.U

/-- The face-to-vertex permutation table of the specification (section 6):
for each face, the extents placed in the X, Y and Z lanes of its six vertices. -/
def faceTable : Nat → List (Lane × Lane × Lane)
  | 0 => [(Lane.L, Lane.U, Lane.F), (Lane.L, Lane.U, Lane.B), (Lane.R, Lane.U, Lane.B),
          (Lane.R, Lane.U, Lane.B), (Lane.R, Lane.U, Lane.F), (Lane.L, Lane.U, Lane.F)]
  | 1 => [(Lane.L, Lane.U, Lane.B), (Lane.L, Lane.U, Lane.F), (Lane.R, Lane.U, Lane.F),
          (Lane.R, Lane.U, Lane.F), (Lane.R, Lane.U, Lane.B), (Lane.L, Lane.U, Lane.B)]
  | 2 => [(Lane.U, Lane.F, Lane.L), (Lane.U, Lane.B, Lane.L), (Lane.U, Lane.B, Lane.R),
          (Lane.U, Lane.B, Lane.R), (Lane.U, Lane.F, Lane.R), (Lane.U, Lane.F, Lane.L)]
  | 3 => [(Lane.U, Lane.B, Lane.L), (Lane.U, Lane.F, Lane.L), (Lane.U, Lane.F, Lane.R),
          (Lane.U, Lane.F, Lane.R), (Lane.U, Lane.B, Lane.R), (Lane.U, Lane.B, Lane.L)]
  | 4 => [(Lane.F, Lane.L, Lane.U), (Lane.B, Lane.L, Lane.U), (Lane.B, Lane.R, Lane.U),
          (Lane.B, Lane.R, Lane.U), (Lane.F, Lane.R, Lane.U), (Lane.F, Lane.L, Lane.U)]
  | 5 => [(Lane.B, Lane.L, Lane.U), (Lane.F, Lane.L, Lane.U), (Lane.F, Lane.R, Lane.U),
          (Lane.F, Lane.R, Lane.U), (Lane.B, Lane.R, Lane.U), (Lane.B, Lane.L, Lane.U)]
  | _ => []

/-- The six vertices of a rectangle according to the table of the
specification, with the world offset `(px * CS - 1, py * CS - 1, pz * CS - 1)`
added exactly. -/
def quadVerticesExact (pos : IVec3) (q : Quad) : List Vertex :=
  (faceTable q.face).map fun t =>
    { px := (pos.x * CS) - 1 + q.lane t.1,
      py := (pos.y * CS) - 1 + q.lane t.2.1,
      pz := (pos.z * CS) - 1 + q.lane t.2.2,
      type := q.type, light := q.light, normal := q.face }

/-- The six vertices of a rectangle according to the table of the
specification, each coordinate converted to `short`. -/
def quadVertices (pos : IVec3) (q : Quad) : List Vertex :=
  (faceTable q.face).map fun t =>
    { px := toShort ((pos.x * CS) - 1 + q.lane t.1),
      py := toShort ((pos.y * CS) - 1 + q.lane t.2.1),
      pz := toShort ((pos.z * CS) - 1 + q.lane t.2.2),
      type := q.type, light := q.light, normal := q.face }

/-- Depth of the voxels whose faces a rectangle covers: `mesh_up` minus one for
an ascending face. -/
def Quad.depth (q : Quad) : Nat := q.U - (if q.face % 2 = 0 then 1 else 0)

/-- The rectangle lies inside the chunk: its face is one of the six, its
extents satisfy `1 ≤ L < R ≤ 63` and `1 ≤ F < B ≤ 63`, and its depth lies in
`[1, 62]`. The six vertices of such a rectangle determine it. -/
def Quad.inChunk (q : Quad) : Prop :=
  q.face < 6 ∧ 1 ≤ q.L ∧ q.L < q.R ∧ q.R ≤ 63 ∧ 1 ≤ q.F ∧ q.F < q.B ∧ q.B ≤ 63 ∧
    1 ≤ q.depth ∧ q.depth ≤ 62

/-- The rectangle `q` covers the face `face` of the cell `cell`. -/
def covers (q : Quad) (cell face : Nat) : Prop :=
  q.face = face ∧ ∃ r w : Nat, q.L ≤ r ∧ r < q.R ∧ q.F ≤ w ∧ w < q.B ∧
    (cell : Int) = get_axis_i ((face / 2 : Nat) : Int) (r : Int) (w : Int) (q.depth : Int)

/-- Distance in the flat index between neighbours along the axis of a face:
Y for faces 0 and 1, X for faces 2 and 3, Z for faces 4 and 5. -/
def axisStride (axis : Nat) : Nat :=
  if axis = 0 then CS_P2 else if axis = 1 then CS_P else 1

/-- The face `face` of the cell `cell` is an exposed interior face: the cell
has its three coordinates in `[1, CS]`, is solid, and its neighbour one step
along the axis of the face (up for an even face, down for an odd one) is
empty. -/
def exposedFace (v : Array Nat) (cell face : Nat) : Prop :=
  face < 6 ∧ ∃ x y z : Nat, 1 ≤ x ∧ x ≤ CS ∧ 1 ≤ y ∧ y ≤ CS ∧ 1 ≤ z ∧ z ≤ CS ∧
    cell = y * CS_P2 + x * CS_P + z ∧ v.getD cell 0 ≠ 0 ∧
    v.getD (if face % 2 = 0 then cell + axisStride (face / 2)
      else cell - axisStride (face / 2)) 0 = 0

/-- Order of emission: by face, then by the row and the column at which the
rectangle terminates, then by depth. -/
def quadBefore (q1 q2 : Quad) : Prop :=
  q1.face < q2.face ∨ (q1.face = q2.face ∧
    (q1.B < q2.B ∨ (q1.B = q2.B ∧ (q1.R < q2.R ∨ (q1.R = q2.R ∧ q1.U < q2.U)))))

/-- Integer cross product `(b - a) × (c - a)` of the positions of three vertices. -/
def cross (a b c : Vertex) : Int × Int × Int :=
  ((b.py - a.py) * (c.pz - a.pz) - (b.pz - a.pz) * (c.py - a.py),
   (b.pz - a.pz) * (c.px - a.px) - (b.px - a.px) * (c.pz - a.pz),
   (b.px - a.px) * (c.py - a.py) - (b.py - a.py) * (c.px - a.px))

/-- Outward unit normal of a face: `+Y, -Y, +X, -X, +Z, -Z`. -/
def outward : Nat → Int × Int × Int
  | 0 => (0, 1, 0)
  | 1 => (0, -1, 0)
  | 2 => (1, 0, 0)
  | 3 => (-1, 0, 0)
  | 4 => (0, 0, 1)
  | 5 => (0, 0, -1)
  | _ => (0, 0, 0)

/-- The value fits a `short`. -/
def inShort (x : Int) : Prop := -32768 ≤ x ∧ x ≤ 32767

end Mesher

namespace Mesher

/-! ## Planes that hold one rectangle, and solid boxes -/

/-- Decision of step 3 at the cell `(r, f)` of a plane whose exposed faces are
the rectangle `[r0, r1] × [f0, f1]` with uniform attributes. -/
def rectAct (r0 r1 f0 f1 r f : Nat) : Act :=
  if r0 ≤ r ∧ r ≤ r1 ∧ f0 ≤ f ∧ f ≤ f1 then
    (if f < f1 then Act.fwd else if r < r1 then Act.right else Act.emit)
  else Act.skip

/-- The exposed faces of the plane are exactly the cells of the rectangle
`[r0, r1] × [f0, f1]`, which lies in the interior, and all carry the
attributes `a`. -/
def IsRect (P : Plane) (r0 r1 f0 f1 : Nat) (a : Nat × Nat) : Prop :=
  1 ≤ r0 ∧ r0 ≤ r1 ∧ r1 ≤ 62 ∧ 1 ≤ f0 ∧ f0 ≤ f1 ∧ f1 ≤ 62 ∧
  (∀ r f, 1 ≤ r → r ≤ 62 → 1 ≤ f → f ≤ 62 →
    (P.E r f = true ↔ (r0 ≤ r ∧ r ≤ r1 ∧ f0 ≤ f ∧ f ≤ f1))) ∧
  (∀ r f, r0 ≤ r → r ≤ r1 → f0 ≤ f → f ≤ f1 → P.A r f = a)

/-- Heights of the columns of a plane that holds one rectangle, after `n` rows. -/
def rectHeight (r0 r1 f0 f1 n c : Nat) : Nat :=
  if r0 ≤ c ∧ c ≤ r1 ∧ f0 ≤ n ∧ n < f1 then n + 1 - f0 else 0

/-- The cell `(x, y, z)` lies in the box `[x0, x1] × [y0, y1] × [z0, z1]`. -/
def inBox (x0 x1 y0 y1 z0 z1 x y z : Nat) : Prop :=
  x0 ≤ x ∧ x ≤ x1 ∧ y0 ≤ y ∧ y ≤ y1 ∧ z0 ≤ z ∧ z ≤ z1

instance (x0 x1 y0 y1 z0 z1 x y z : Nat) : Decidable (inBox x0 x1 y0 y1 z0 z1 x y z) := by
  unfold inBox
  infer_instance

/-- The six sides of the box `[x0, x1] × [y0, y1] × [z0, z1]` as rectangles of
type `t` and light `lv`, one for each face direction `0..5`. -/
def boxQuads (x0 x1 y0 y1 z0 z1 t lv : Nat) : List Quad :=
  [{ face := 0, L := x0, R := x1 + 1, F := z0, B := z1 + 1, U := y1 + 1, type := t, light := lv },
   { face := 1, L := x0, R := x1 + 1, F := z0, B := z1 + 1, U := y0, type := t, light := lv },
   { face := 2, L := z0, R := z1 + 1, F := y0, B := y1 + 1, U := x1 + 1, type := t, light := lv },
   { face := 3, L := z0, R := z1 + 1, F := y0, B := y1 + 1, U := x0, type := t, light := lv },
   { face := 4, L := y0, R := y1 + 1, F := x0, B := x1 + 1, U := z1 + 1, type := t, light := lv },
   { face := 5, L := y0, R := y1 + 1, F := x0, B := x1 + 1, U := z0, type := t, light := lv }]

/-- Voxel data of length `CS_P3` that is `t` inside the box and `0` elsewhere;
the entry `i` is the cell `x = i / 64 % 64`, `y = i / 4096`, `z = i % 64`. -/
def boxVoxels (x0 x1 y0 y1 z0 z1 t : Nat) : Array Nat :=
  Array.ofFn (n := CS_P3) fun i =>
    if inBox x0 x1 y0 y1 z0 z1 (i.val / 64 % 64) (i.val / 4096) (i.val % 64) then t else 0

/-- The data is `t` inside the box `[x0, x1] × [y0, y1] × [z0, z1]` and `0`
elsewhere in the padded cube. -/
def IsBox (v : Array Nat) (x0 x1 y0 y1 z0 z1 t : Nat) : Prop :=
  ∀ x y z, x < CS_P → y < CS_P → z < CS_P →
    v.getD (y * CS_P2 + x * CS_P + z) 0 = if inBox x0 x1 y0 y1 z0 z1 x y z then t else 0

/-- Every entry of the data is `a`. -/
def IsUniform (l : Array Nat) (a : Nat) : Prop := ∀ i, i < CS_P3 → l.getD i 0 = a

/-! ## Format of the output -/

/-- The list is a concatenation of blocks of six vertices, one block for each
rectangle of `qs`, laid out by the table of the specification with the world
offset added exactly. -/
def blocksExact (pos : IVec3) (out : List Vertex) : Prop :=
  ∃ qs : List Quad, (∀ q, q ∈ qs → q.face < 6) ∧ out = qs.flatMap (quadVerticesExact pos)

/-- The list is a concatenation of the blocks inserted by step 3 for a list of
rectangles, with the world offset `(SX, SY, SZ)`. -/
def emitBlocks (SX SY SZ : Int) (vs : List Vertex) : Prop :=
  ∃ qs : List Quad, (∀ q, q ∈ qs → q.face < 6) ∧ vs = qs.flatMap (quadEmit SX SY SZ)

/-- All the coordinates of the rectangle, with the world offset added, fit a
`short`. -/
def quadInShort (pos : IVec3) (q : Quad) : Prop :=
  ∀ u, u ∈ quadVerticesExact pos q → inShort u.px ∧ inShort u.py ∧ inShort u.pz

/-- The single solid voxel of type 1 at the cell `(1, 1, 1)`. -/
def singleVoxel : Array Nat := boxVoxels 1 1 1 1 1 1 1

/-- Light data of length `CS_P3` with the value `a` everywhere. -/
def uniformLight (a : Nat) : Array Nat := Array.mkArray CS_P3 a

/-- The triangle `(a, b, c)` is counter-clockwise seen from outside the face:
its integer cross product is a strictly positive multiple of the outward unit
normal of the face. -/
def windsOutward (face : Nat) (a b c : Vertex) : Prop :=
  ∃ k : Int, 0 < k ∧
    cross a b c = (k * (outward face).1, k * (outward face).2.1, k * (outward face).2.2)

/-! ## Comparison of two vertex lists -/

/-- Vertex by vertex, the second list has the `px` of the first plus `CS` and
the same `py`, `pz`, `type`, `light` and `normal`; the lists have the same
length. -/
def shiftedX (xs ys : List Vertex) : Prop :=
  List.Forall₂ (fun a b : Vertex => b.px = a.px + CS ∧ b.py = a.py ∧ b.pz = a.pz ∧
    b.type = a.type ∧ b.light = a.light ∧ b.normal = a.normal) xs ys

/-- Vertex by vertex, the second list has the `px` of the first plus `CS`
converted to `short`, which is the `px` of the first plus `CS` when that is at
most 32767, and the same `py`, `pz`, `type`, `light` and `normal`; the lists
have the same length. -/
def shiftedXShort (xs ys : List Vertex) : Prop :=
  List.Forall₂ (fun a b : Vertex => b.px = toShort (a.px + CS) ∧
    (a.px + CS ≤ 32767 → b.px = a.px + CS) ∧ b.py = a.py ∧ b.pz = a.pz ∧
    b.type = a.type ∧ b.light = a.light ∧ b.normal = a.normal) xs ys

/-- The two results are both the null pointer, or both vertex lists related by `rel`. -/
def bothNullOr (rel : List Vertex → List Vertex → Prop)
    (a b : Except MeshError (Option (List Vertex))) : Prop :=
  (a = .ok none ∧ b = .ok none) ∨ ∃ xs ys, a = .ok (some xs) ∧ b = .ok (some ys) ∧ rel xs ys

end Mesher

namespace Mesher

/-! ## Padding -/

/-- Coordinate of a cell of the padded cube along an axis, in the numbering of
`get_axis_i`: axis `0` is Y, axis `1` is X, any other axis is Z. -/
def cellCoord (axis cell : Nat) : Nat :=
  if axis = 0 then cell / CS_P2 else if axis = 1 then cell / CS_P % CS_P else cell % CS_P

/-- The two inputs agree at every cell whose coordinate along `axis` is not
`side`: they differ at most on one side of the padded cube. -/
def agreeOffSide (axis side : Nat) (v l v2 l2 : Array Nat) : Prop :=
  ∀ cell, cell < CS_P3 → cellCoord axis cell ≠ side →
    v.getD cell 0 = v2.getD cell 0 ∧ l.getD cell 0 = l2.getD cell 0

/-- No voxel covered by the rectangle has the coordinate `c` along `axis`. -/
def quadAvoids (axis c : Nat) (q : Quad) : Prop :=
  ∀ cell face, covers q cell face → cellCoord axis cell ≠ c

/-- The coordinate lies on the padding. -/
def onBorder (c : Nat) : Prop := c = 0 ∨ c = CS_P - 1

instance (c : Nat) : Decidable (onBorder c) := by
  unfold onBorder
  infer_instance

/-- The two inputs agree at every cell that has at most one coordinate on the
padding: they differ at most on the edges and corners of the padded cube. -/
def agreeOffEdges (v l v2 l2 : Array Nat) : Prop :=
  ∀ x y z, x < CS_P → y < CS_P → z < CS_P →
    ¬ (onBorder x ∧ onBorder y) → ¬ (onBorder x ∧ onBorder z) → ¬ (onBorder y ∧ onBorder z) →
    v.getD (y * CS_P2 + x * CS_P + z) 0 = v2.getD (y * CS_P2 + x * CS_P + z) 0 ∧
    l.getD (y * CS_P2 + x * CS_P + z) 0 = l2.getD (y * CS_P2 + x * CS_P + z) 0

/-- The single voxel at `(1, 1, 1)` with the padding cell `(5, 63, 5)` set to
the type `t`. -/
def sideVoxels (t : Nat) : Array Nat :=
  Array.ofFn (n := CS_P3) fun i =>
    if i.val = 63 * CS_P2 + 5 * CS_P + 5 then t
    else if inBox 1 1 1 1 1 1 (i.val / 64 % 64) (i.val / 4096) (i.val % 64) then 1 else 0

/-- The single voxel at `(1, 1, 1)` with the corner cell `(0, 0, 0)` set to the
type `t`. -/
def cornerVoxels (t : Nat) : Array Nat :=
  Array.ofFn (n := CS_P3) fun i =>
    if i.val = 0 then t
    else if inBox 1 1 1 1 1 1 (i.val / 64 % 64) (i.val / 4096) (i.val % 64) then 1 else 0

/-! ## Order of emission, scenarios, conversion to `short` -/

/-- Strict lexicographic order of `(normal, mesh_back - 1, mesh_right - 1, depth)`:
the face, the row `forward`, the column `right` and the bit position at which
a rectangle terminates. -/
def emitBefore (q1 q2 : Quad) : Prop :=
  q1.face < q2.face ∨ (q1.face = q2.face ∧
    (q1.B - 1 < q2.B - 1 ∨ (q1.B - 1 = q2.B - 1 ∧
      (q1.R - 1 < q2.R - 1 ∨ (q1.R - 1 = q2.R - 1 ∧ q1.depth < q2.depth)))))

/-- Scenario S2: type 1 at the cells `(1, 1, 1)` and `(2, 1, 1)`, `0` elsewhere. -/
def s2Voxels : Array Nat := boxVoxels 1 2 1 1 1 1 1

/-- Scenario S6: type 1 at the interior cells, `0` on the padding. -/
def s6Voxels : Array Nat := boxVoxels 1 62 1 62 1 62 1

/-! ## Maximal rectangles -/

/-- The voxel face at in-plane position `(r, w)` of the plane of `q` (the face
direction and the depth of `q`) is an exposed interior face whose voxel type and
exterior light value agree with those of `q`. -/
def agreesAt (v l : Array Nat) (q : Quad) (r w : Nat) : Prop :=
  exposedFace v (get_axis_i ((q.face / 2 : Nat) : Int) r w q.depth).toNat q.face ∧
  v.getD (get_axis_i ((q.face / 2 : Nat) : Int) r w q.depth).toNat 0 = q.type ∧
  l.getD (get_axis_i ((q.face / 2 : Nat) : Int) r w (q.depth + lightDir q.face)).toNat 0 = q.light

/-- The rectangle `[L2, R2) × [F2, B2)` of the plane of `q` contains `q`, is
strictly larger, and consists only of exposed interior faces that agree with
`q`. -/
def extendsTo (v l : Array Nat) (q : Quad) (L2 R2 F2 B2 : Nat) : Prop :=
  L2 ≤ q.L ∧ q.R ≤ R2 ∧ F2 ≤ q.F ∧ q.B ≤ B2 ∧
  (L2 < q.L ∨ q.R < R2 ∨ F2 < q.F ∨ q.B < B2) ∧
  ∀ r w, L2 ≤ r → r < R2 → F2 ≤ w → w < B2 → agreesAt v l q r w

/-- The exposed faces of the plane are the four cells `[1, 2] × [1, 2]`; three of
them carry the attributes `a` and the cell `(2, 2)` carries `b`. -/
structure SplitPlane (P : Plane) (a b : Nat × Nat) : Prop where
  hE : ∀ r f, 1 ≤ r → r ≤ 62 → 1 ≤ f → f ≤ 62 → (P.E r f = true ↔ (r ≤ 2 ∧ f ≤ 2))
  h11 : P.A 1 1 = a
  h21 : P.A 2 1 = a
  h12 : P.A 1 2 = a
  h22 : P.A 2 2 = b
  hab : a ≠ b

/-- Scenario S3: type 1 at the four cells `(1..2, 1, 1..2)`, `0` elsewhere. -/
def s3Voxels : Array Nat := boxVoxels 1 2 1 1 1 2 1

/-- Light of scenario S5: 7 everywhere except 9 at the cell `(2, 2, 2)`, the
cell on the `+Y` side of the voxel `(2, 1, 2)`. -/
def s5Light : Array Nat :=
  Array.ofFn (n := CS_P3) fun i => if i.val = 2 * CS_P2 + 2 * CS_P + 2 then 9 else 7

/-- Rectangles of scenario S5 in order of emission: three on the top face, then
the five other sides of the slab. -/
def s5Quads : List Quad :=
  [{ face := 0, L := 2, R := 3, F := 1, B := 2, U := 2, type := 1, light := 7 },
   { face := 0, L := 1, R := 2, F := 1, B := 3, U := 2, type := 1, light := 7 },
   { face := 0, L := 2, R := 3, F := 2, B := 3, U := 2, type := 1, light := 9 },
   { face := 1, L := 1, R := 3, F := 1, B := 3, U := 1, type := 1, light := 7 },
   { face := 2, L := 1, R := 3, F := 1, B := 2, U := 3, type := 1, light := 7 },
   { face := 3, L := 1, R := 3, F := 1, B := 2, U := 1, type := 1, light := 7 },
   { face := 4, L := 1, R := 2, F := 1, B := 3, U := 3, type := 1, light := 7 },
   { face := 5, L := 1, R := 2, F := 1, B := 3, U := 1, type := 1, light := 7 }]

/-- The first `CS_P3` entries of the data (with `0` for a missing entry). -/
def firstEntries (v : Array Nat) : Array Nat :=
  Array.ofFn (n := CS_P3) fun i => v.getD i.val 0

end Mesher

namespace Mesher

/-! ## The function `mesh` with every array index, shift amount and `CTZ` argument checked

The definitions of this section repeat steps 1 to 3 of `mesh` and put a guard
before each access to a fixed-size array (`axis_cols`, `col_face_masks`,
`merged_forward`, `merged_right`), before each shift and before each call of
`CTZ`, at the place where the source performs it. -/

/-- Ways in which a run of `mesh` can leave defined behaviour or throw: the
errors of the unchecked embedding, an index outside a fixed-size array, a shift
by 64 or more, a call of `CTZ` on zero. -/
inductive Fault where
  | base (e : MeshError)
  | array_index
  | shift_amount
  | ctz_zero

/-- Result of the unchecked embedding as a checked result. -/
def liftE {α : Type} : Except MeshError α → Except Fault α
  | .ok a => .ok a
  | .error e => .error (.base e)

/-- Guard: continue with `k` when the condition holds, stop with the fault `e`
otherwise. -/
def need (c : Prop) [Decidable c] (e : Fault) {α : Type} (k : Except Fault α) :
    Except Fault α :=
  if c then k else .error e

/-- Body of the `z` loop of step 1, checked. -/
def encodeCellC (voxels : Array Nat) (y x : Nat) (st : EncodeState) (z : Nat) :
    Except Fault EncodeState :=
  match deref voxels st.p with
  | .error e => .error (.base e)
  | .ok b =>
    if b > 0 then
      need (x + (z * CS_P) < CS_P2 * 3) .array_index <|
      need (y < 64) .shift_amount <|
      need (z + (y * CS_P) + CS_P2 < CS_P2 * 3) .array_index <|
      need (x < 64) .shift_amount <|
      need (z < 64) .shift_amount <|
      let c1 := st.axis_cols.set (x + (z * CS_P)) (st.axis_cols.get (x + (z * CS_P)) ||| (1 <<< y))
      let c2 := c1.set (z + (y * CS_P) + CS_P2) (c1.get (z + (y * CS_P) + CS_P2) ||| (1 <<< x))
      .ok { axis_cols := c2, p := st.p + 1, zb := st.zb ||| (1 <<< z) }
    else
      .ok { axis_cols := st.axis_cols, p := st.p + 1, zb := st.zb }

/-- Body of the `x` loop of step 1, checked. -/
def encodeRowC (voxels : Array Nat) (y : Nat) (st : EncodeState) (x : Nat) :
    Except Fault EncodeState :=
  match (List.range CS_P).foldlM (encodeCellC voxels y x)
      { axis_cols := st.axis_cols, p := st.p, zb := 0 } with
  | .error e => .error e
  | .ok s1 =>
    need (y + (x * CS_P) + (CS_P2 * 2) < CS_P2 * 3) .array_index <|
    .ok { axis_cols := s1.axis_cols.set (y + (x * CS_P) + (CS_P2 * 2)) s1.zb,
          p := s1.p, zb := s1.zb }

/-- Body of the `y` loop of step 1, checked. -/
def encodeSlabC (voxels : Array Nat) (st : EncodeState) (y : Nat) :
    Except Fault EncodeState :=
  (List.range CS_P).foldlM (encodeRowC voxels y) st

/-- Step 1, checked. -/
def encodeColumnsC (voxels : Array Nat) : Except Fault (Words (CS_P2 * 3)) :=
  match (List.range CS_P).foldlM (encodeSlabC voxels)
      { axis_cols := Words.zero (CS_P2 * 3), p := 0, zb := 0 } with
  | .error e => .error e
  | .ok s => .ok s.axis_cols

/-- Body of the `i` loop of step 2, checked: one read of `axis_cols`, the
shifts by 1 and by `CS_P - 1`, two stores into `col_face_masks`. -/
def cullColumnC (axis_cols : Words (CS_P2 * 3)) (axis : Nat) (masks : Words (CS_P2 * 6))
    (i : Nat) : Except Fault (Words (CS_P2 * 6)) :=
  need ((CS_P2 * axis) + i < CS_P2 * 3) .array_index <|
  need (1 < 64 ∧ CS_P - 1 < 64) .shift_amount <|
  need ((CS_P2 * (axis * 2)) + i < CS_P2 * 6) .array_index <|
  need ((CS_P2 * (axis * 2 + 1)) + i < CS_P2 * 6) .array_index <|
  .ok (cullColumn axis_cols axis masks i)

/-- Step 2, checked. -/
def cullFacesC (axis_cols : Words (CS_P2 * 3)) : Except Fault (Words (CS_P2 * 6)) :=
  (List.range 3).foldlM
    (fun masks axis => (List.range CS_P2).foldlM (cullColumnC axis_cols axis) masks)
    (Words.zero (CS_P2 * 6))

/-- The loop over the set bits of a word, checked: `CTZ` is called on a
nonzero word and the shift by `bit_pos` is below 64. -/
def whileBitsC {σ : Type} (body : Nat → σ → Except Fault σ) :
    Nat → Nat → σ → Except Fault σ
  | 0, bits, s => if bits = 0 then .ok s else .error (.base .fuel)
  | fuel + 1, bits, s =>
    if bits = 0 then .ok s
    else
      need (bits ≠ 0) .ctz_zero <|
      need (CTZ bits < 64) .shift_amount <|
      match body (CTZ bits) s with
      | .ok s1 => whileBitsC body fuel (bits &&& not64 (1 <<< CTZ bits)) s1
      | .error e => .error e

/-- Body of the loop over `copy_front`, checked. -/
def forwardStepC (voxels light_map : Array Nat) (face forward right : Nat)
    (bit_pos : Nat) (st : ForwardState) : Except Fault ForwardState :=
  match sameTypeLight voxels light_map
      (get_axis_i (face / 2 : Nat) right forward bit_pos)
      (get_axis_i (face / 2 : Nat) right (forward + 1 : Nat) bit_pos)
      (get_axis_i (face / 2 : Nat) right forward (bit_pos + lightDir face))
      (get_axis_i (face / 2 : Nat) right (forward + 1 : Nat) (bit_pos + lightDir face)) with
  | .error e => .error (.base e)
  | .ok true =>
    need ((right * CS_P) + bit_pos < CS_P2) .array_index <|
    .ok { merged_forward := st.merged_forward.set ((right * CS_P) + bit_pos)
            (st.merged_forward.get ((right * CS_P) + bit_pos) + 1),
          bits_merging_forward := st.bits_merging_forward }
  | .ok false =>
    need (bit_pos < 64) .shift_amount <|
    .ok { merged_forward := st.merged_forward,
          bits_merging_forward := st.bits_merging_forward &&& not64 (1 <<< bit_pos) }

/-- The condition of the `if` at mesher.h, lines 121-128, checked. -/
def canWalkRightC (voxels light_map : Array Nat) (face forward right : Nat)
    (bits_merging_right : Nat) (bit_pos : Nat) (st : MergeState) : Except Fault Bool :=
  need (bit_pos < 64) .shift_amount <|
  if (bits_merging_right &&& (1 <<< bit_pos)) ≠ 0 then
    need ((right * CS_P) + bit_pos < CS_P2 ∧ (right + 1) * CS_P + bit_pos < CS_P2)
      .array_index <|
    if st.merged_forward.get ((right * CS_P) + bit_pos)
        = st.merged_forward.get ((right + 1) * CS_P + bit_pos) then
      liftE (sameTypeLight voxels light_map
        (get_axis_i (face / 2 : Nat) right forward bit_pos)
        (get_axis_i (face / 2 : Nat) (right + 1 : Nat) forward bit_pos)
        (get_axis_i (face / 2 : Nat) right forward (bit_pos + lightDir face))
        (get_axis_i (face / 2 : Nat) (right + 1 : Nat) forward (bit_pos + lightDir face)))
    else .ok false
  else .ok false

/-- Body of the loop over `bits_stopped_forward`, checked. -/
def stoppedStepC (voxels light_map : Array Nat) (SX SY SZ : Int) (face forward right : Nat)
    (bits_merging_right : Nat) (bit_pos : Nat) (st : MergeState) :
    Except Fault MergeState :=
  if bit_pos = 0 ∨ bit_pos = CS_P - 1 then .ok st
  else
    match canWalkRightC voxels light_map face forward right bits_merging_right bit_pos st with
    | .error e => .error e
    | .ok true =>
      need (bit_pos < 64) .shift_amount <|
      need (bit_pos < CS_P) .array_index <|
      need ((right * CS_P) + bit_pos < CS_P2) .array_index <|
      .ok { merged_forward := st.merged_forward.set ((right * CS_P) + bit_pos) 0,
            bits_walking_right := st.bits_walking_right ||| (1 <<< bit_pos),
            merged_right := st.merged_right.set bit_pos (st.merged_right.get bit_pos + 1),
            vertices := st.vertices }
    | .ok false =>
      need (bit_pos < 64) .shift_amount <|
      need (bit_pos < CS_P) .array_index <|
      need ((right * CS_P) + bit_pos < CS_P2) .array_index <|
      let mesh_left := toU8 ((right : Int) - (st.merged_right.get bit_pos : Int))
      let mesh_right := toU8 ((right : Int) + 1)
      let mesh_front := toU8 ((forward : Int) - (st.merged_forward.get ((right * CS_P) + bit_pos) : Int))
      let mesh_back := toU8 ((forward : Int) + 1)
      let mesh_up := toU8 ((bit_pos : Int) + (if face % 2 = 0 then 1 else 0))
      match vecAt voxels (get_axis_i (face / 2 : Nat) right forward bit_pos) with
      | .error e => .error (.base e)
      | .ok type =>
        match vecAt light_map (get_axis_i (face / 2 : Nat) right forward (bit_pos + lightDir face)) with
        | .error e => .error (.base e)
        | .ok light =>
          .ok { merged_forward := st.merged_forward.set ((right * CS_P) + bit_pos) 0,
                bits_walking_right := st.bits_walking_right &&& not64 (1 <<< bit_pos),
                merged_right := st.merged_right.set bit_pos 0,
                vertices := st.vertices ++
                  emitQuad SX SY SZ face mesh_left mesh_right mesh_front mesh_back mesh_up
                    type light }

/-- Body of the `right` loop, checked: the reads of `col_face_masks` for the
cell, for its neighbour forward when `forward < CS`, and for its neighbour to
the right when `right < CS`. -/
def meshCellC (voxels light_map : Array Nat) (col_face_masks : Words (CS_P2 * 6))
    (SX SY SZ : Int) (face forward : Nat) (st : MergeState) (right : Nat) :
    Except Fault MergeState :=
  need (right + (forward * CS_P) + (face * CS_P2) < CS_P2 * 6) .array_index <|
  need (forward ≥ CS ∨ right + (forward * CS_P) + (face * CS_P2) + CS_P < CS_P2 * 6)
    .array_index <|
  need (right ≥ CS ∨ right + 1 + (forward * CS_P) + (face * CS_P2) < CS_P2 * 6)
    .array_index <|
  let bits_here := col_face_masks.get (right + (forward * CS_P) + (face * CS_P2))
  let bits_forward :=
    if forward ≥ CS then 0
    else col_face_masks.get (right + (forward * CS_P) + (face * CS_P2) + CS_P)
  let bits_right :=
    if right ≥ CS then 0
    else col_face_masks.get (right + 1 + (forward * CS_P) + (face * CS_P2))
  let bits_merging_forward := bits_here &&& bits_forward &&& not64 st.bits_walking_right
  let bits_merging_right := bits_here &&& bits_right
  match whileBitsC (forwardStepC voxels light_map face forward right) 64 bits_merging_forward
      { merged_forward := st.merged_forward, bits_merging_forward := bits_merging_forward } with
  | .error e => .error e
  | .ok fs =>
    whileBitsC (stoppedStepC voxels light_map SX SY SZ face forward right bits_merging_right) 64
      (bits_here &&& not64 fs.bits_merging_forward)
      { merged_forward := fs.merged_forward,
        bits_walking_right := st.bits_walking_right,
        merged_right := st.merged_right,
        vertices := st.vertices }

/-- Body of the `forward` loop, checked. -/
def meshRowC (voxels light_map : Array Nat) (col_face_masks : Words (CS_P2 * 6))
    (SX SY SZ : Int) (face : Nat) (st : FaceState) (forward : Nat) : Except Fault FaceState :=
  match (List.range' 1 (CS_P - 2)).foldlM
      (meshCellC voxels light_map col_face_masks SX SY SZ face forward)
      { merged_forward := st.merged_forward, bits_walking_right := 0,
        merged_right := Words.zero CS_P, vertices := st.vertices } with
  | .error e => .error e
  | .ok s => .ok { merged_forward := s.merged_forward, vertices := s.vertices }

/-- Body of the `face` loop, checked. -/
def meshFaceC (voxels light_map : Array Nat) (col_face_masks : Words (CS_P2 * 6))
    (SX SY SZ : Int) (vertices : List Vertex) (face : Nat) : Except Fault (List Vertex) :=
  match (List.range' 1 (CS_P - 2)).foldlM
      (meshRowC voxels light_map col_face_masks SX SY SZ face)
      { merged_forward := Words.zero CS_P2, vertices := vertices } with
  | .error e => .error e
  | .ok s => .ok s.vertices

/-- The function `mesh`, checked. -/
def meshC (voxels light_map : Array Nat) (pos : IVec3) :
    Except Fault (Option (List Vertex)) := do
  let axis_cols ← encodeColumnsC voxels
  let col_face_masks ← cullFacesC axis_cols
  let SX := toShort ((pos.x * CS) - 1)
  let SY := toShort ((pos.y * CS) - 1)
  let SZ := toShort ((pos.z * CS) - 1)
  let vertices ← (List.range 6).foldlM (meshFaceC voxels light_map col_face_masks SX SY SZ) []
  if vertices.length = 0 then pure none else pure (some vertices)

end Mesher

namespace Mesher

/-! ## Constants -/

theorem CS_eq : CS = 62 := rfl
theorem CS_P_eq : CS_P = 64 := rfl
theorem CS_P2_eq : CS_P2 = 4096 := rfl
theorem CS_P3_eq : CS_P3 = 262144 := rfl

/-! ## Sized arrays -/

theorem Words.get_set {n : Nat} (arr : Words n) (i v j : Nat) :
    (arr.set i v).get j = if j = i ∧ i < n then v else arr.get j := by
  have hs := arr.size_eq
  unfold Words.get Words.set
  simp only [Array.getD_eq_get?, Array.setD]
  by_cases hi : i < arr.data.size
  · simp only [hi, dite_true]
    by_cases hj : j = i
    · subst hj
      have hi2 : j < n := by omega
      simp only [hi2, and_self, if_true]
      rw [Array.get?_set_eq]
      rfl
    · have : ¬ (j = i ∧ i < n) := fun h => hj h.1
      simp only [this, if_false]
      rw [Array.get?_set_ne]
      exact fun h => hj h.symm
  · have : ¬ (j = i ∧ i < n) := fun h => hi (by omega)
    simp [hi, this]

theorem Words.get_zero (n i : Nat) : (Words.zero n).get i = 0 := by
  unfold Words.get Words.zero
  by_cases h : i < n
  · simp [Array.getD, h]
  · simp [Array.getD, h]

/-! ## Count of trailing zeros -/

theorem ctzAux_spec (fuel : Nat) : ∀ x : Nat, x ≠ 0 → x < 2 ^ fuel →
    x.testBit (ctzAux fuel x) = true ∧ (∀ j, j < ctzAux fuel x → x.testBit j = false) ∧
      ctzAux fuel x < fuel := by
  induction fuel with
  | zero =>
    intro x h0 hlt
    simp at hlt
    exact absurd hlt h0
  | succ n ih =>
    intro x h0 hlt
    unfold ctzAux
    by_cases h1 : x % 2 = 1
    · simp only [h1, if_true]
      refine ⟨?_, ?_, by omega⟩
      · rw [Nat.testBit_zero]; simp [h1]
      · intro j hj; omega
    · simp only [h1, if_false]
      have hx2 : x / 2 ≠ 0 := by omega
      have hlt2 : x / 2 < 2 ^ n := by
        rw [pow_succ] at hlt; omega
      obtain ⟨a, b, c⟩ := ih (x / 2) hx2 hlt2
      refine ⟨?_, ?_, by omega⟩
      · rw [Nat.add_comm, Nat.testBit_succ]; exact a
      · intro j hj
        cases j with
        | zero => rw [Nat.testBit_zero]; simp [h1]
        | succ j =>
          rw [Nat.testBit_succ]
          exact b j (by omega)

theorem CTZ_spec (x : Nat) (h0 : x ≠ 0) (hlt : x < 2 ^ 64) :
    x.testBit (CTZ x) = true ∧ (∀ j, j < CTZ x → x.testBit j = false) ∧ CTZ x < 64 :=
  ctzAux_spec 64 x h0 hlt

/-! ## Bit operations on 64-bit words -/

theorem testBit_not64 (x k : Nat) : (not64 x).testBit k = (x.testBit k ^^ decide (k < 64)) := by
  unfold not64
  rw [Nat.testBit_xor, Nat.testBit_two_pow_sub_one]

theorem testBit_one_shiftLeft (k j : Nat) : (1 <<< k).testBit j = decide (k = j) := by
  rw [Nat.one_shiftLeft, Nat.testBit_two_pow]

theorem testBit_clear (m k j : Nat) (hj : j < 64) :
    (m &&& not64 (1 <<< k)).testBit j = (m.testBit j && decide (j ≠ k)) := by
  rw [Nat.testBit_and, testBit_not64, testBit_one_shiftLeft]
  by_cases h : k = j
  · subst h; simp [hj]
  · have h2 : j ≠ k := fun e => h e.symm
    simp [h, h2, hj]

theorem testBit_of_lt64 (m k : Nat) (hm : m < 2 ^ 64) (hk : m.testBit k = true) : k < 64 := by
  by_contra hge
  have h1 : 2 ^ 64 ≤ 2 ^ k := Nat.pow_le_pow_right (by decide) (by omega)
  have := Nat.testBit_lt_two_pow (x := m) (i := k) (by omega)
  rw [this] at hk
  exact Bool.noConfusion hk

theorem and_shift_ne_zero (m k : Nat) : (m &&& (1 <<< k)) ≠ 0 ↔ m.testBit k = true := by
  constructor
  · intro h
    by_contra hb
    apply h
    apply Nat.eq_of_testBit_eq
    intro i
    rw [Nat.testBit_and, testBit_one_shiftLeft, Nat.zero_testBit]
    by_cases hki : k = i
    · subst hki; simp [hb]
    · simp [hki]
  · intro hb h
    have := congrArg (fun z => z.testBit k) h
    simp [Nat.testBit_and, testBit_one_shiftLeft, hb] at this

/-! ## Set bits of a word -/

theorem mem_bitsOf (m k : Nat) : k ∈ bitsOf m ↔ k < 64 ∧ m.testBit k = true := by
  unfold bitsOf
  simp [List.mem_filter]

theorem bitsOf_nodup (m : Nat) : (bitsOf m).Nodup :=
  (List.nodup_range 64).filter _

theorem bitsOf_zero : bitsOf 0 = [] := by
  unfold bitsOf
  simp

theorem range64_split (k : Nat) (hk : k < 64) :
    List.range 64 = List.range k ++ k :: List.range' (k + 1) (63 - k) := by
  rw [List.range_eq_range', List.range_eq_range']
  have h2 : k :: List.range' (k + 1) (63 - k) = List.range' (0 + k) (64 - k) := by
    have : 64 - k = (63 - k) + 1 := by omega
    rw [this, List.range'_succ, Nat.zero_add]
  rw [h2, List.range'_append_1]
  congr 1
  omega

theorem bitsOf_step (m : Nat) (h0 : m ≠ 0) (hlt : m < 2 ^ 64) :
    bitsOf m = CTZ m :: bitsOf (m &&& not64 (1 <<< CTZ m)) := by
  obtain ⟨hset, hlow, hk⟩ := CTZ_spec m h0 hlt
  unfold bitsOf
  rw [range64_split (CTZ m) hk]
  simp only [List.filter_append, List.filter_cons, hset, if_true]
  have e1 : List.filter (fun k => m.testBit k) (List.range (CTZ m)) = [] := by
    rw [List.filter_eq_nil_iff]
    intro a ha
    rw [List.mem_range] at ha
    simp [hlow a ha]
  have e2 : List.filter (fun k => (m &&& not64 (1 <<< CTZ m)).testBit k)
      (List.range (CTZ m)) = [] := by
    rw [List.filter_eq_nil_iff]
    intro a ha
    rw [List.mem_range] at ha
    rw [testBit_clear _ _ _ (by omega)]
    simp [hlow a ha]
  have e3 : (m &&& not64 (1 <<< CTZ m)).testBit (CTZ m) = false := by
    rw [testBit_clear _ _ _ hk]; simp
  have e4 : List.filter (fun k => (m &&& not64 (1 <<< CTZ m)).testBit k)
      (List.range' (CTZ m + 1) (63 - CTZ m)) =
      List.filter (fun k => m.testBit k) (List.range' (CTZ m + 1) (63 - CTZ m)) := by
    apply List.filter_congr
    intro a ha
    rw [List.mem_range'_1] at ha
    rw [testBit_clear _ _ _ (by omega)]
    have : a ≠ CTZ m := by omega
    simp [this]
  rw [e1, e2, e3, e4]
  simp

theorem bitsOf_eq_nil (m : Nat) (hlt : m < 2 ^ 64) (h : bitsOf m = []) : m = 0 := by
  by_contra h0
  rw [bitsOf_step m h0 hlt] at h
  exact List.noConfusion h

theorem clear_lt (m k : Nat) (hlt : m < 2 ^ 64) : m &&& not64 (1 <<< k) < 2 ^ 64 :=
  lt_of_le_of_lt Nat.and_le_left hlt

/-- The `while` loop over the set bits of a word visits them in ascending
order and terminates within 64 iterations. -/
theorem whileBits_eq_foldlM {σ : Type} (body : Nat → σ → Except MeshError σ) :
    ∀ (fuel m : Nat) (s : σ), m < 2 ^ 64 → (bitsOf m).length ≤ fuel →
      whileBits body fuel m s = (bitsOf m).foldlM (fun s k => body k s) s := by
  intro fuel
  induction fuel with
  | zero =>
    intro m s hlt hlen
    have hnil : bitsOf m = [] := List.length_eq_zero.mp (by omega)
    have hm : m = 0 := bitsOf_eq_nil m hlt hnil
    subst hm
    simp [whileBits, bitsOf_zero]
    rfl
  | succ n ih =>
    intro m s hlt hlen
    unfold whileBits
    by_cases h0 : m = 0
    · subst h0
      simp [bitsOf_zero]
      rfl
    · simp only [h0, if_false]
      have hstep := bitsOf_step m h0 hlt
      rw [hstep, List.foldlM_cons]
      cases hb : body (CTZ m) s with
      | error e => rfl
      | ok s1 =>
        simp only []
        rw [ih _ s1 (clear_lt m _ hlt)]
        · rfl
        · rw [hstep] at hlen
          simp at hlen
          omega

theorem bitsOf_length_le (m : Nat) : (bitsOf m).length ≤ 64 := by
  unfold bitsOf
  calc (List.filter (fun k => m.testBit k) (List.range 64)).length
      ≤ (List.range 64).length := List.length_filter_le _ _
    _ = 64 := List.length_range 64

/-! ## Loop invariants -/

/-- Invariant rule for a loop over a list in `Except`: the invariant is indexed
by the list of elements already processed. -/
theorem foldlM_invariant {α σ ε : Type} (f : σ → α → Except ε σ) (Inv : List α → σ → Prop)
    (l : List α)
    (hstep : ∀ pre x post s, l = pre ++ x :: post → Inv pre s →
      ∃ s1, f s x = .ok s1 ∧ Inv (pre ++ [x]) s1) :
    ∀ (post pre : List α) (s : σ), l = pre ++ post → Inv pre s →
      ∃ s1, post.foldlM f s = .ok s1 ∧ Inv l s1 := by
  intro post
  induction post with
  | nil =>
    intro pre s hl hi
    refine ⟨s, rfl, ?_⟩
    rw [hl, List.append_nil]
    exact hi
  | cons x post ih =>
    intro pre s hl hi
    obtain ⟨s1, h1, h2⟩ := hstep pre x post s hl hi
    obtain ⟨s2, h3, h4⟩ := ih (pre ++ [x]) s1 (by rw [hl]; simp) h2
    refine ⟨s2, ?_, h4⟩
    rw [List.foldlM_cons, h1]
    exact h3

/-- Invariant rule for a counting loop in `Except`. -/
theorem foldlM_range_invariant {σ ε : Type} (f : σ → Nat → Except ε σ) (Inv : Nat → σ → Prop)
    (a n : Nat) (s0 : σ) (h0 : Inv 0 s0)
    (hstep : ∀ i s, i < n → Inv i s → ∃ s1, f s (a + i) = .ok s1 ∧ Inv (i + 1) s1) :
    ∃ s1, (List.range' a n).foldlM f s0 = .ok s1 ∧ Inv n s1 := by
  induction n with
  | zero => exact ⟨s0, rfl, h0⟩
  | succ n ih =>
    obtain ⟨s1, h1, h2⟩ := ih (fun i s hi => hstep i s (by omega))
    obtain ⟨s2, h3, h4⟩ := hstep n s1 (by omega) h2
    refine ⟨s2, ?_, h4⟩
    rw [List.range'_concat, List.foldlM_append, h1]
    simp only [Nat.one_mul]
    show List.foldlM f s1 [a + n] = Except.ok s2
    rw [List.foldlM_cons, h3]
    rfl

/-- Invariant rule for a counting loop without failure. -/
theorem foldl_range_invariant {σ : Type} (f : σ → Nat → σ) (Inv : Nat → σ → Prop)
    (a n : Nat) (s0 : σ) (h0 : Inv 0 s0)
    (hstep : ∀ i s, i < n → Inv i s → Inv (i + 1) (f s (a + i))) :
    Inv n ((List.range' a n).foldl f s0) := by
  induction n with
  | zero => exact h0
  | succ n ih =>
    rw [List.range'_concat, List.foldl_append]
    simp only [Nat.one_mul, List.foldl_cons, List.foldl_nil]
    exact hstep n _ (by omega) (ih (fun i s hi => hstep i s (by omega)))

end Mesher

namespace Mesher

/-! ## Step 1 -/

theorem Words.get_set_ne {n : Nat} (arr : Words n) (i v j : Nat) (h : j ≠ i) :
    (arr.set i v).get j = arr.get j := by
  rw [Words.get_set]
  simp [h]

theorem Words.get_set_eq {n : Nat} (arr : Words n) (i v : Nat) (h : i < n) :
    (arr.set i v).get i = v := by
  rw [Words.get_set]
  simp [h]

theorem deref_ok (v : Array Nat) (p : Nat) (h : p < v.size) :
    deref v p = .ok (v.getD p 0) := by
  unfold deref
  simp [h]

theorem encodeCell_spec (v : Array Nat) (hv : 262144 ≤ v.size) (y x z : Nat)
    (hy : y < 64) (hx : x < 64) (hz : z < 64) (st : EncodeState)
    (hinv : CellInv v y x z st) :
    ∃ s1, encodeCell v y x st z = .ok s1 ∧ CellInv v y x (z + 1) s1 := by
  obtain ⟨hp, hA, hB, hC, hZ⟩ := hinv
  have hlt : st.p < v.size := by omega
  unfold encodeCell
  rw [deref_ok v st.p hlt]
  simp only [CS_P_eq, CS_P2_eq]
  have hsz : CS_P2 * 3 = 12288 := rfl
  by_cases hb : v.getD st.p 0 > 0
  · simp only [hb, if_true]
    refine ⟨_, rfl, ?_, ?_, ?_, ?_, ?_⟩
    · simp only [hp]; omega
    · intro x1 z1 b hx1 hz1
      simp only []
      rw [Words.get_set_ne _ _ _ _ (by omega)]
      by_cases hxz : x1 + z1 * 64 = x + z * 64
      · have e1 : x1 = x := by omega
        have e2 : z1 = z := by omega
        subst e1; subst e2
        rw [Words.get_set_eq _ _ _ (by omega), Nat.testBit_or, testBit_one_shiftLeft]
        have := hA x1 z1 b hx1 hz1
        by_cases hyb : y = b
        · subst hyb
          simp only [decide_True, Bool.or_true, true_iff]
          refine ⟨hy, by omega, ?_⟩
          rw [← hp]; omega
        · simp only [hyb, decide_False, Bool.or_false]
          rw [this]
          constructor
          · rintro ⟨h1, h2, h3⟩; exact ⟨h1, by omega, h3⟩
          · rintro ⟨h1, h2, h3⟩; exact ⟨h1, by omega, h3⟩
      · rw [Words.get_set_ne _ _ _ _ hxz]
        rw [hA x1 z1 b hx1 hz1]
        constructor
        · rintro ⟨h1, h2, h3⟩; exact ⟨h1, by omega, h3⟩
        · rintro ⟨h1, h2, h3⟩; exact ⟨h1, by omega, h3⟩
    · intro z1 y1 b hz1 hy1
      simp only []
      by_cases hzy : z1 + y1 * 64 + 4096 = z + y * 64 + 4096
      · have e1 : z1 = z := by omega
        have e2 : y1 = y := by omega
        subst e1; subst e2
        rw [hzy, Words.get_set_eq _ _ _ (by omega), Nat.testBit_or, testBit_one_shiftLeft,
          Words.get_set_ne _ _ _ _ (by omega)]
        have := hB z1 y1 b hz1 hy1
        by_cases hxb : x = b
        · subst hxb
          simp only [decide_True, Bool.or_true, true_iff]
          refine ⟨hx, by omega, ?_⟩
          rw [← hp]; omega
        · simp only [hxb, decide_False, Bool.or_false]
          rw [this]
          constructor
          · rintro ⟨h1, h2, h3⟩; exact ⟨h1, by omega, h3⟩
          · rintro ⟨h1, h2, h3⟩; exact ⟨h1, by omega, h3⟩
      · rw [Words.get_set_ne _ _ _ _ hzy, Words.get_set_ne _ _ _ _ (by omega)]
        rw [hB z1 y1 b hz1 hy1]
        constructor
        · rintro ⟨h1, h2, h3⟩; exact ⟨h1, by omega, h3⟩
        · rintro ⟨h1, h2, h3⟩; exact ⟨h1, by omega, h3⟩
    · intro y1 x1 b hy1 hx1
      simp only []
      rw [Words.get_set_ne _ _ _ _ (by omega), Words.get_set_ne _ _ _ _ (by omega)]
      exact hC y1 x1 b hy1 hx1
    · intro b
      simp only []
      rw [Nat.testBit_or, testBit_one_shiftLeft]
      by_cases hzb : z = b
      · subst hzb
        simp only [decide_True, Bool.or_true, true_iff]
        refine ⟨by omega, ?_⟩
        rw [← hp]; omega
      · simp only [hzb, decide_False, Bool.or_false]
        rw [hZ b]
        constructor
        · rintro ⟨h1, h3⟩; exact ⟨by omega, h3⟩
        · rintro ⟨h1, h3⟩; exact ⟨by omega, h3⟩
  · simp only [hb, if_false]
    have hb0 : v.getD st.p 0 = 0 := by omega
    refine ⟨_, rfl, ?_, ?_, ?_, ?_, ?_⟩
    · simp only [hp]; omega
    · intro x1 z1 b hx1 hz1
      simp only []
      rw [hA x1 z1 b hx1 hz1]
      constructor
      · rintro ⟨h1, h2, h3⟩; exact ⟨h1, by omega, h3⟩
      · rintro ⟨h1, h2, h3⟩
        refine ⟨h1, ?_, h3⟩
        by_contra hc
        have : b * 4096 + x1 * 64 + z1 = st.p := by omega
        rw [this] at h3
        exact h3 hb0
    · intro z1 y1 b hz1 hy1
      simp only []
      rw [hB z1 y1 b hz1 hy1]
      constructor
      · rintro ⟨h1, h2, h3⟩; exact ⟨h1, by omega, h3⟩
      · rintro ⟨h1, h2, h3⟩
        refine ⟨h1, ?_, h3⟩
        by_contra hc
        have : y1 * 4096 + b * 64 + z1 = st.p := by omega
        rw [this] at h3
        exact h3 hb0
    · exact hC
    · intro b
      simp only []
      rw [hZ b]
      constructor
      · rintro ⟨h1, h3⟩; exact ⟨by omega, h3⟩
      · rintro ⟨h1, h3⟩
        refine ⟨?_, h3⟩
        by_contra hc
        have : y * 4096 + x * 64 + b = st.p := by omega
        rw [this] at h3
        exact h3 hb0

theorem encodeRow_spec (v : Array Nat) (hv : 262144 ≤ v.size) (y x : Nat)
    (hy : y < 64) (hx : x < 64) (st : EncodeState)
    (hinv : ColsInv v (y * 4096 + x * 64) st) :
    ∃ s1, encodeRow v y st x = .ok s1 ∧ ColsInv v (y * 4096 + (x + 1) * 64) s1 := by
  obtain ⟨hp, hA, hB, hC⟩ := hinv
  unfold encodeRow
  have hloop := foldlM_range_invariant (encodeCell v y x) (CellInv v y x) 0 64
    { axis_cols := st.axis_cols, p := st.p, zb := 0 }
    (by
      refine ⟨by simp [hp], ?_, ?_, hC, ?_⟩
      · simpa [hp] using hA
      · simpa [hp] using hB
      · intro b; simp)
    (by
      intro i s hi hs
      rw [Nat.zero_add]
      exact encodeCell_spec v hv y x i hy hx hi s hs)
  obtain ⟨s1, h1, hp1, hA1, hB1, hC1, hZ1⟩ := hloop
  rw [← List.range_eq_range'] at h1
  rw [CS_P_eq, h1]
  refine ⟨_, rfl, ?_, ?_, ?_, ?_⟩
  · simp only [hp1]; omega
  · intro x1 z1 b hx1 hz1
    simp only [CS_P_eq, CS_P2_eq]
    rw [Words.get_set_ne _ _ _ _ (by omega), hA1 x1 z1 b hx1 hz1, hp1]
    constructor
    · rintro ⟨h1, h2, h3⟩; exact ⟨h1, by omega, h3⟩
    · rintro ⟨h1, h2, h3⟩; exact ⟨h1, by omega, h3⟩
  · intro z1 y1 b hz1 hy1
    simp only [CS_P_eq, CS_P2_eq]
    rw [Words.get_set_ne _ _ _ _ (by omega), hB1 z1 y1 b hz1 hy1, hp1]
    constructor
    · rintro ⟨h1, h2, h3⟩; exact ⟨h1, by omega, h3⟩
    · rintro ⟨h1, h2, h3⟩; exact ⟨h1, by omega, h3⟩
  · intro y1 x1 b hy1 hx1
    simp only [CS_P_eq, CS_P2_eq]
    by_cases hyx : y1 + x1 * 64 + 8192 = y + x * 64 + 4096 * 2
    · have e1 : y1 = y := by omega
      have e2 : x1 = x := by omega
      subst e1; subst e2
      rw [hyx, Words.get_set_eq _ _ _ (by omega), hZ1 b]
      constructor
      · rintro ⟨h1, h3⟩; exact ⟨by omega, by omega, h3⟩
      · rintro ⟨h1, h2, h3⟩; exact ⟨by omega, h3⟩
    · rw [Words.get_set_ne _ _ _ _ hyx, hC1 y1 x1 b hy1 hx1]
      constructor
      · rintro ⟨h1, h2, h3⟩; exact ⟨h1, by omega, h3⟩
      · rintro ⟨h1, h2, h3⟩; exact ⟨h1, by omega, h3⟩

theorem encodeSlab_spec (v : Array Nat) (hv : 262144 ≤ v.size) (y : Nat)
    (hy : y < 64) (st : EncodeState) (hinv : ColsInv v (y * 4096) st) :
    ∃ s1, encodeSlab v st y = .ok s1 ∧ ColsInv v ((y + 1) * 4096) s1 := by
  unfold encodeSlab
  have hloop := foldlM_range_invariant (encodeRow v y)
    (fun i s => ColsInv v (y * 4096 + i * 64) s) 0 64 st
    (by simpa using hinv)
    (by
      intro i s hi hs
      rw [Nat.zero_add]
      exact encodeRow_spec v hv y i hy hi s hs)
  obtain ⟨s1, h1, h2⟩ := hloop
  rw [← List.range_eq_range'] at h1
  rw [CS_P_eq, h1]
  refine ⟨_, rfl, ?_⟩
  have e : (y + 1) * 4096 = y * 4096 + 64 * 64 := by omega
  rw [e]
  exact h2

/-- Step 1 returns, and bit `b` of each column word is set iff the cell at
depth `b` of that column is solid. -/
theorem encodeColumns_spec (v : Array Nat) (hv : 262144 ≤ v.size) :
    ∃ ac, encodeColumns v = .ok ac ∧
      (∀ x z b, x < 64 → z < 64 → ((ac.get (x + z * 64)).testBit b = true ↔
        b < 64 ∧ v.getD (b * 4096 + x * 64 + z) 0 ≠ 0)) ∧
      (∀ z y b, z < 64 → y < 64 → ((ac.get (z + y * 64 + 4096)).testBit b = true ↔
        b < 64 ∧ v.getD (y * 4096 + b * 64 + z) 0 ≠ 0)) ∧
      (∀ y x b, y < 64 → x < 64 → ((ac.get (y + x * 64 + 8192)).testBit b = true ↔
        b < 64 ∧ v.getD (y * 4096 + x * 64 + b) 0 ≠ 0)) := by
  unfold encodeColumns
  have hloop := foldlM_range_invariant (encodeSlab v)
    (fun i s => ColsInv v (i * 4096) s) 0 64
    { axis_cols := Words.zero (CS_P2 * 3), p := 0, zb := 0 }
    (by
      refine ⟨rfl, ?_, ?_, ?_⟩
      · intro x z b _ _; simp [Words.get_zero]
      · intro x z b _ _; simp [Words.get_zero]
      · intro x z b _ _; simp [Words.get_zero])
    (by
      intro i s hi hs
      rw [Nat.zero_add]
      exact encodeSlab_spec v hv i hi s hs)
  obtain ⟨s1, h1, hp, hA, hB, hC⟩ := hloop
  rw [← List.range_eq_range'] at h1
  rw [CS_P_eq, h1]
  refine ⟨_, rfl, ?_, ?_, ?_⟩
  · intro x z b hx hz
    rw [hA x z b hx hz]
    constructor
    · rintro ⟨h1, h2, h3⟩; exact ⟨h1, h3⟩
    · rintro ⟨h1, h3⟩; exact ⟨h1, by omega, h3⟩
  · intro x z b hx hz
    rw [hB x z b hx hz]
    constructor
    · rintro ⟨h1, h2, h3⟩; exact ⟨h1, h3⟩
    · rintro ⟨h1, h3⟩; exact ⟨h1, by omega, h3⟩
  · intro x z b hx hz
    rw [hC x z b hx hz]
    constructor
    · rintro ⟨h1, h2, h3⟩; exact ⟨h1, h3⟩
    · rintro ⟨h1, h3⟩; exact ⟨h1, by omega, h3⟩

end Mesher

namespace Mesher

/-! ## Step 2 -/

theorem cullColumn_spec (ac : Words (CS_P2 * 3)) (a i : Nat) (ha : a < 3) (hi : i < 4096)
    (m : Words (CS_P2 * 6)) (hinv : MasksInv ac a i m) :
    MasksInv ac a (i + 1) (cullColumn ac a m i) := by
  intro a1 i1 hlt ha1 hi1
  unfold cullColumn
  simp only [CS_P_eq, CS_P2_eq]
  by_cases hcur : a1 = a ∧ i1 = i
  · obtain ⟨e1, e2⟩ := hcur
    subst e1; subst e2
    constructor
    · rw [Words.get_set_ne _ _ _ _ (by omega), Words.get_set_eq _ _ _ (by omega)]
      rfl
    · rw [Words.get_set_eq _ _ _ (by omega)]
      rfl
  · have hprev : a1 < a ∨ (a1 = a ∧ i1 < i) := by omega
    obtain ⟨h1, h2⟩ := hinv a1 i1 hprev ha1 hi1
    constructor
    · rw [Words.get_set_ne _ _ _ _ (by omega), Words.get_set_ne _ _ _ _ (by omega)]
      exact h1
    · rw [Words.get_set_ne _ _ _ _ (by omega), Words.get_set_ne _ _ _ _ (by omega)]
      exact h2

theorem cullFaces_get (ac : Words (CS_P2 * 3)) (a i : Nat) (ha : a < 3) (hi : i < 4096) :
    (cullFaces ac).get (4096 * (a * 2) + i) = ascMask (ac.get (4096 * a + i)) ∧
    (cullFaces ac).get (4096 * (a * 2 + 1) + i) = descMask (ac.get (4096 * a + i)) := by
  have houter := foldl_range_invariant
    (fun masks axis => (List.range CS_P2).foldl (cullColumn ac axis) masks)
    (fun n m => MasksInv ac n 0 m) 0 3 (Words.zero (CS_P2 * 6))
    (by intro a1 i1 h; omega)
    (by
      intro n m hn hm
      rw [Nat.zero_add]
      show MasksInv ac (n + 1) 0 (List.foldl (cullColumn ac n) m (List.range 4096))
      rw [List.range_eq_range']
      have hinner := foldl_range_invariant (cullColumn ac n)
        (fun j m => MasksInv ac n j m) 0 4096 m hm
        (by
          intro j m1 hj hm1
          rw [Nat.zero_add]
          exact cullColumn_spec ac n j hn hj m1 hm1)
      intro a1 i1 h ha1 hi1
      exact hinner a1 i1 (by omega) ha1 hi1)
  rw [← List.range_eq_range'] at houter
  exact houter a i (by omega) ha hi

theorem testBit_ascMask (col k : Nat) (hcol : ∀ b, col.testBit b = true → b < 64) :
    (ascMask col).testBit k = true ↔
      col.testBit k = true ∧ k ≠ 63 ∧ col.testBit (k + 1) = false := by
  unfold ascMask
  rw [Nat.testBit_and, testBit_not64, Nat.testBit_or, Nat.testBit_shiftRight,
    testBit_one_shiftLeft]
  by_cases hk : col.testBit k = true
  · have hk64 := hcol k hk
    have e : 1 + k = k + 1 := by omega
    rw [e]
    by_cases h63 : (63 : Nat) = k
    · subst h63; simp [hk]
    · have h63b : k ≠ 63 := fun h => h63 h.symm
      cases hb : col.testBit (k + 1) <;> simp [hk, hk64, h63, h63b, hb]
  · simp [hk]

theorem testBit_descMask (col k : Nat) (hcol : ∀ b, col.testBit b = true → b < 64) :
    (descMask col).testBit k = true ↔
      col.testBit k = true ∧ k ≠ 0 ∧ col.testBit (k - 1) = false := by
  unfold descMask
  rw [Nat.testBit_and, testBit_not64, Nat.testBit_or, Nat.testBit_mod_two_pow,
    Nat.testBit_shiftLeft]
  have h1 : (1 : Nat).testBit k = decide (0 = k) := by
    have := @Nat.testBit_two_pow 0 k
    simpa using this
  rw [h1]
  by_cases hk : col.testBit k = true
  · have hk64 := hcol k hk
    by_cases h0 : (0 : Nat) = k
    · subst h0; simp [hk]
    · have h0b : k ≠ 0 := fun h => h0 h.symm
      have hge : k ≥ 1 := by omega
      cases hb : col.testBit (k - 1) <;> simp [hk, hk64, h0, h0b, hb, hge]
  · simp [hk]

/-- Columns of step 1, indexed uniformly by axis. -/
theorem encodeColumns_axis (v : Array Nat) (hv : 262144 ≤ v.size) :
    ∃ ac, encodeColumns v = .ok ac ∧
      ∀ a r f b, a < 3 → r < 64 → f < 64 →
        ((ac.get (4096 * a + (r + f * 64))).testBit b = true ↔
          b < 64 ∧ v.getD (axisIdx a r f b) 0 ≠ 0) := by
  obtain ⟨ac, h, hA, hB, hC⟩ := encodeColumns_spec v hv
  refine ⟨ac, h, ?_⟩
  intro a r f b ha hr hf
  unfold axisIdx
  have hcases : a = 0 ∨ a = 1 ∨ a = 2 := by omega
  rcases hcases with e | e | e
  · subst e
    have := hA r f b hr hf
    simp only [Nat.mul_zero, Nat.zero_add, if_true]
    rw [this]
    have e2 : b * 4096 + r * 64 + f = f + r * 64 + b * 4096 := by omega
    rw [e2]
  · subst e
    have := hB r f b hr hf
    have e1 : 4096 * 1 + (r + f * 64) = r + f * 64 + 4096 := by omega
    have e2 : f * 4096 + b * 64 + r = r + b * 64 + f * 4096 := by omega
    rw [e1, this, e2]
    simp
  · subst e
    have := hC r f b hr hf
    have e1 : 4096 * 2 + (r + f * 64) = r + f * 64 + 8192 := by omega
    have e2 : r * 4096 + f * 64 + b = b + f * 64 + r * 4096 := by omega
    rw [e1, this, e2]
    simp

/-- Steps 1 and 2 composed: bit `k` of the mask of face `face` at `(r, f)` is
set iff the cell at depth `k` is solid, its neighbour on the side of the face
is empty, and `k` is not the last depth on that side. -/
theorem masks_spec (v : Array Nat) (hv : 262144 ≤ v.size) :
    ∃ ac, encodeColumns v = .ok ac ∧
      ∀ face r f k, face < 6 → r < 64 → f < 64 →
        (((cullFaces ac).get (r + f * 64 + face * 4096)).testBit k = true ↔
          k < 64 ∧ v.getD (axisIdx (face / 2) r f k) 0 ≠ 0 ∧
            (if face % 2 = 0 then k ≠ 63 ∧ v.getD (axisIdx (face / 2) r f (k + 1)) 0 = 0
             else k ≠ 0 ∧ v.getD (axisIdx (face / 2) r f (k - 1)) 0 = 0)) := by
  obtain ⟨ac, h, hcol⟩ := encodeColumns_axis v hv
  refine ⟨ac, h, ?_⟩
  intro face r f k hface hr hf
  have ha : face / 2 < 3 := by omega
  have hi : r + f * 64 < 4096 := by omega
  obtain ⟨g1, g2⟩ := cullFaces_get ac (face / 2) (r + f * 64) ha hi
  have hb64 : ∀ b, (ac.get (4096 * (face / 2) + (r + f * 64))).testBit b = true → b < 64 :=
    fun b hb => ((hcol (face / 2) r f b ha hr hf).mp hb).1
  by_cases hev : face % 2 = 0
  · have e : r + f * 64 + face * 4096 = 4096 * (face / 2 * 2) + (r + f * 64) := by omega
    rw [e, g1, testBit_ascMask _ _ hb64, hcol (face / 2) r f k ha hr hf]
    simp only [hev, if_true]
    constructor
    · rintro ⟨⟨h1, h2⟩, h3, h4⟩
      refine ⟨h1, h2, h3, ?_⟩
      by_contra hc
      have := (hcol (face / 2) r f (k + 1) ha hr hf).mpr ⟨by omega, hc⟩
      rw [this] at h4
      exact Bool.noConfusion h4
    · rintro ⟨h1, h2, h3, h4⟩
      refine ⟨⟨h1, h2⟩, h3, ?_⟩
      by_contra hc
      have hc2 : (ac.get (4096 * (face / 2) + (r + f * 64))).testBit (k + 1) = true := by
        simpa using hc
      exact ((hcol (face / 2) r f (k + 1) ha hr hf).mp hc2).2 h4
  · have e : r + f * 64 + face * 4096 = 4096 * (face / 2 * 2 + 1) + (r + f * 64) := by omega
    rw [e, g2, testBit_descMask _ _ hb64, hcol (face / 2) r f k ha hr hf]
    simp only [hev, if_false]
    constructor
    · rintro ⟨⟨h1, h2⟩, h3, h4⟩
      refine ⟨h1, h2, h3, ?_⟩
      by_contra hc
      have := (hcol (face / 2) r f (k - 1) ha hr hf).mpr ⟨by omega, hc⟩
      rw [this] at h4
      exact Bool.noConfusion h4
    · rintro ⟨h1, h2, h3, h4⟩
      refine ⟨⟨h1, h2⟩, h3, ?_⟩
      by_contra hc
      have hc2 : (ac.get (4096 * (face / 2) + (r + f * 64))).testBit (k - 1) = true := by
        simpa using hc
      exact ((hcol (face / 2) r f (k - 1) ha hr hf).mp hc2).2 h4

end Mesher

namespace Mesher

/-! ## Reads of the input vectors in step 3 -/

theorem get_axis_i_cast (a r f k : Nat) :
    get_axis_i (a : Int) (r : Int) (f : Int) (k : Int) = ((axisIdx a r f k : Nat) : Int) := by
  unfold get_axis_i axisIdx
  simp only [CS_P_eq, CS_P2_eq]
  by_cases h0 : a = 0
  · subst h0; simp
  · by_cases h1 : a = 1
    · subst h1; simp
    · have h0i : (a : Int) ≠ 0 := by exact_mod_cast h0
      have h1i : (a : Int) ≠ 1 := by exact_mod_cast h1
      simp [h0, h1, h0i, h1i]

theorem axisIdx_lt (a r f k : Nat) (hr : r < 64) (hf : f < 64) (hk : k < 64) :
    axisIdx a r f k < 262144 := by
  unfold axisIdx
  split
  · omega
  · split <;> omega

theorem depth_cast (face k : Nat) (h : face % 2 = 0 ∨ 1 ≤ k) :
    (k : Int) + lightDir face = ((upDepth face k : Nat) : Int) := by
  unfold lightDir upDepth
  by_cases hev : face % 2 = 0
  · simp [hev]
  · simp only [hev, if_false]
    have : 1 ≤ k := by omega
    omega

theorem vecAt_ok (v : Array Nat) (hv : 262144 ≤ v.size) (i : Nat) (hi : i < 262144) :
    vecAt v (i : Int) = .ok (v.getD i 0) := by
  unfold vecAt
  have h : 0 ≤ (i : Int) ∧ (i : Int) < (v.size : Int) := by
    constructor <;> omega
  simp only [h, and_self, if_true, Int.toNat_ofNat]

theorem sameTypeLight_ok (v l : Array Nat) (hv : 262144 ≤ v.size) (hl : 262144 ≤ l.size)
    (i j i2 j2 : Nat) (hi : i < 262144) (hj : j < 262144) (hi2 : i2 < 262144)
    (hj2 : j2 < 262144) :
    sameTypeLight v l (i : Int) (j : Int) (i2 : Int) (j2 : Int) =
      .ok (decide ((v.getD i 0, l.getD i2 0) = (v.getD j 0, l.getD j2 0))) := by
  unfold sameTypeLight
  rw [vecAt_ok v hv i hi, vecAt_ok v hv j hj]
  simp only []
  by_cases hab : v.getD i 0 = v.getD j 0
  · simp only [hab, if_true]
    rw [vecAt_ok l hl i2 hi2, vecAt_ok l hl j2 hj2]
    simp only [Prod.mk.injEq, true_and]
  · simp only [hab, if_false, Prod.mk.injEq, false_and, decide_False]

end Mesher

namespace Mesher

/-! ## The forward-merge loop -/

theorem upDepth_lt (face k : Nat) (hk : k < 64) (h : face % 2 = 0 → k ≤ 62) :
    upDepth face k < 64 := by
  unfold upDepth
  split
  · have := h (by assumption); omega
  · omega

theorem forwardStep_ok (v l : Array Nat) (hv : 262144 ≤ v.size) (hl : 262144 ≤ l.size)
    (face f r k : Nat) (hr : r < 64) (hf : f + 1 < 64) (hk : k < 64)
    (hev : face % 2 = 0 → k ≤ 62) (hodd : face % 2 ≠ 0 → 1 ≤ k) (st : ForwardState) :
    forwardStep v l face f r k st =
      .ok (if attr v l face r f k = attr v l face r (f + 1) k then
          { merged_forward := st.merged_forward.set (r * 64 + k)
              (st.merged_forward.get (r * 64 + k) + 1),
            bits_merging_forward := st.bits_merging_forward }
        else
          { merged_forward := st.merged_forward,
            bits_merging_forward := st.bits_merging_forward &&& not64 (1 <<< k) }) := by
  have hd : face % 2 = 0 ∨ 1 ≤ k := by
    by_cases h : face % 2 = 0
    · exact Or.inl h
    · exact Or.inr (hodd h)
  have hu := upDepth_lt face k hk hev
  unfold forwardStep
  rw [depth_cast face k hd]
  simp only [get_axis_i_cast]
  rw [sameTypeLight_ok v l hv hl _ _ _ _ (axisIdx_lt _ _ _ _ hr (by omega) hk)
    (axisIdx_lt _ _ _ _ hr hf hk) (axisIdx_lt _ _ _ _ hr (by omega) hu)
    (axisIdx_lt _ _ _ _ hr hf hu)]
  have e : decide ((v.getD (axisIdx (face / 2) r f k) 0,
      l.getD (axisIdx (face / 2) r f (upDepth face k)) 0) =
      (v.getD (axisIdx (face / 2) r (f + 1) k) 0,
      l.getD (axisIdx (face / 2) r (f + 1) (upDepth face k)) 0)) =
      decide (attr v l face r f k = attr v l face r (f + 1) k) := rfl
  rw [e]
  simp only [CS_P_eq]
  by_cases h : attr v l face r f k = attr v l face r (f + 1) k
  · rw [decide_eq_true h, if_pos h]
  · rw [decide_eq_false h, if_neg h]

theorem not_mem_of_split {l pre post : List Nat} {x : Nat} (hn : l.Nodup)
    (hl : l = pre ++ x :: post) : x ∉ pre := by
  rw [hl] at hn
  intro hx
  have := (List.nodup_append.mp hn).2.2
  exact this hx (List.mem_cons_self x post) 

theorem mem_of_split {l pre post : List Nat} {x : Nat} (hl : l = pre ++ x :: post) : x ∈ l := by
  rw [hl]; simp

theorem words_idx (r1 k r x : Nat) (hk : k < 64) (hx : x < 64) :
    r1 * 64 + k = r * 64 + x ↔ r1 = r ∧ k = x := by
  omega

theorem forwardLoop_spec (v l : Array Nat) (hv : 262144 ≤ v.size) (hl : 262144 ≤ l.size)
    (face f r : Nat) (hr : r < 63) (mf : Words CS_P2) (m : Nat) (hm : m < 2 ^ 64)
    (hbits : ∀ k, m.testBit k = true →
      f + 1 < 64 ∧ (face % 2 = 0 → k ≤ 62) ∧ (face % 2 ≠ 0 → 1 ≤ k)) :
    ∃ fs, whileBits (forwardStep v l face f r) 64 m
        { merged_forward := mf, bits_merging_forward := m } = .ok fs ∧
      (∀ k, k < 64 → (fs.bits_merging_forward.testBit k = true ↔
        m.testBit k = true ∧ attr v l face r f k = attr v l face r (f + 1) k)) ∧
      (∀ r1 k, k < 64 → fs.merged_forward.get (r1 * 64 + k) =
        if r1 = r ∧ m.testBit k = true ∧ attr v l face r f k = attr v l face r (f + 1) k
        then mf.get (r1 * 64 + k) + 1 else mf.get (r1 * 64 + k)) := by
  rw [whileBits_eq_foldlM _ 64 m _ hm (bitsOf_length_le m)]
  have hloop := foldlM_invariant (fun s k => forwardStep v l face f r k s)
    (fun pre fs =>
      (∀ k, k < 64 → (fs.bits_merging_forward.testBit k = true ↔
        m.testBit k = true ∧ (k ∈ pre → attr v l face r f k = attr v l face r (f + 1) k))) ∧
      (∀ r1 k, k < 64 → fs.merged_forward.get (r1 * 64 + k) =
        if r1 = r ∧ k ∈ pre ∧ attr v l face r f k = attr v l face r (f + 1) k
        then mf.get (r1 * 64 + k) + 1 else mf.get (r1 * 64 + k)))
    (bitsOf m)
    (by
      intro pre x post s hsplit hinv
      obtain ⟨hb, hmf⟩ := hinv
      have hxm : x ∈ bitsOf m := mem_of_split hsplit
      have hxn : x ∉ pre := not_mem_of_split (bitsOf_nodup m) hsplit
      obtain ⟨hx64, hxbit⟩ := (mem_bitsOf m x).mp hxm
      obtain ⟨hf, hev, hodd⟩ := hbits x hxbit
      refine ⟨_, forwardStep_ok v l hv hl face f r x (by omega) hf hx64 hev hodd s, ?_⟩
      by_cases hattr : attr v l face r f x = attr v l face r (f + 1) x
      · simp only [hattr, if_true]
        constructor
        · intro k hk
          rw [hb k hk]
          simp only [List.mem_append, List.mem_singleton]
          constructor
          · rintro ⟨h1, h2⟩
            refine ⟨h1, ?_⟩
            rintro (h3 | h3)
            · exact h2 h3
            · rw [h3]; exact hattr
          · rintro ⟨h1, h2⟩
            exact ⟨h1, fun h3 => h2 (Or.inl h3)⟩
        · intro r1 k hk
          rw [Words.get_set]
          simp only [CS_P2_eq, List.mem_append, List.mem_singleton]
          by_cases hidx : r1 * 64 + k = r * 64 + x
          · obtain ⟨e1, e2⟩ := (words_idx r1 k r x hk hx64).mp hidx
            subst e1; subst e2
            have hlt : r1 * 64 + k < 4096 := by omega
            rw [hmf r1 k hk]
            simp [hxn, hattr, hlt]
          · have hne : ¬ (r1 = r ∧ k = x) := fun h => hidx ((words_idx r1 k r x hk hx64).mpr h)
            rw [hmf r1 k hk]
            have hiff : (r1 = r ∧ (k ∈ pre ∨ k = x) ∧
                attr v l face r f k = attr v l face r (f + 1) k) ↔
                (r1 = r ∧ k ∈ pre ∧ attr v l face r f k = attr v l face r (f + 1) k) := by
              constructor
              · rintro ⟨h1, h2 | h2, h3⟩
                · exact ⟨h1, h2, h3⟩
                · exact absurd ⟨h1, h2⟩ hne
              · rintro ⟨h1, h2, h3⟩
                exact ⟨h1, Or.inl h2, h3⟩
            simp only [hidx, false_and, if_false, hiff]
      · simp only [hattr, if_false]
        constructor
        · intro k hk
          rw [testBit_clear _ _ _ hk]
          simp only [Bool.and_eq_true, decide_eq_true_eq, List.mem_append, List.mem_singleton]
          rw [hb k hk]
          constructor
          · rintro ⟨⟨h1, h2⟩, h3⟩
            refine ⟨h1, ?_⟩
            rintro (h4 | h4)
            · exact h2 h4
            · exact absurd h4 h3
          · rintro ⟨h1, h2⟩
            refine ⟨⟨h1, fun h3 => h2 (Or.inl h3)⟩, ?_⟩
            intro h3
            subst h3
            exact hattr (h2 (Or.inr rfl))
        · intro r1 k hk
          rw [hmf r1 k hk]
          simp only [List.mem_append, List.mem_singleton]
          have hiff : (r1 = r ∧ (k ∈ pre ∨ k = x) ∧
              attr v l face r f k = attr v l face r (f + 1) k) ↔
              (r1 = r ∧ k ∈ pre ∧ attr v l face r f k = attr v l face r (f + 1) k) := by
            constructor
            · rintro ⟨h1, h2 | h2, h3⟩
              · exact ⟨h1, h2, h3⟩
              · subst h2; exact absurd h3 hattr
            · rintro ⟨h1, h2, h3⟩
              exact ⟨h1, Or.inl h2, h3⟩
          simp only [hiff])
  obtain ⟨fs, h1, h2, h3⟩ := hloop (bitsOf m) []
    { merged_forward := mf, bits_merging_forward := m } (by simp)
    ⟨by
      intro k hk
      simp,
     by
      intro r1 k hk
      simp⟩
  refine ⟨fs, h1, ?_, ?_⟩
  · intro k hk
    rw [h2 k hk]
    constructor
    · rintro ⟨a, b⟩
      exact ⟨a, b ((mem_bitsOf m k).mpr ⟨hk, a⟩)⟩
    · rintro ⟨a, b⟩
      exact ⟨a, fun _ => b⟩
  · intro r1 k hk
    rw [h3 r1 k hk]
    have hiff : (r1 = r ∧ k ∈ bitsOf m ∧ attr v l face r f k = attr v l face r (f + 1) k) ↔
        (r1 = r ∧ m.testBit k = true ∧ attr v l face r f k = attr v l face r (f + 1) k) := by
      rw [mem_bitsOf]
      constructor
      · rintro ⟨a, ⟨_, b⟩, c⟩; exact ⟨a, b, c⟩
      · rintro ⟨a, b, c⟩; exact ⟨a, ⟨hk, b⟩, c⟩
    simp only [hiff]

end Mesher

namespace Mesher

/-! ## The loop over the bits that stopped merging forward -/

theorem upDepth_lt_mid (face k : Nat) (hk : k ≤ 62) : upDepth face k < 64 := by
  unfold upDepth
  split <;> omega

theorem canWalkRight_ok (v l : Array Nat) (hv : 262144 ≤ v.size) (hl : 262144 ≤ l.size)
    (face f r bmr k : Nat) (hr : r + 1 < 64) (hf : f < 64) (hk1 : 1 ≤ k) (hk2 : k ≤ 62)
    (st : MergeState) :
    canWalkRight v l face f r bmr k st =
      .ok (decide (walkCond v l bmr st.merged_forward face f r k)) := by
  have hu := upDepth_lt_mid face k hk2
  unfold canWalkRight walkCond
  rw [depth_cast face k (Or.inr hk1)]
  simp only [get_axis_i_cast, CS_P_eq]
  rw [sameTypeLight_ok v l hv hl _ _ _ _ (axisIdx_lt _ _ _ _ (by omega) hf (by omega))
    (axisIdx_lt _ _ _ _ hr hf (by omega)) (axisIdx_lt _ _ _ _ (by omega) hf hu)
    (axisIdx_lt _ _ _ _ hr hf hu)]
  have e : decide ((v.getD (axisIdx (face / 2) r f k) 0,
      l.getD (axisIdx (face / 2) r f (upDepth face k)) 0) =
      (v.getD (axisIdx (face / 2) (r + 1) f k) 0,
      l.getD (axisIdx (face / 2) (r + 1) f (upDepth face k)) 0)) =
      decide (attr v l face r f k = attr v l face (r + 1) f k) := rfl
  rw [e]
  by_cases h1 : bmr.testBit k = true
  · have h1b : (bmr &&& (1 <<< k)) ≠ 0 := (and_shift_ne_zero bmr k).mpr h1
    rw [if_pos h1b]
    by_cases h2 : st.merged_forward.get (r * 64 + k) = st.merged_forward.get ((r + 1) * 64 + k)
    · rw [if_pos h2]
      simp [h1, h2]
    · rw [if_neg h2]
      simp [h2]
  · have h1b : ¬ (bmr &&& (1 <<< k)) ≠ 0 := fun h => h1 ((and_shift_ne_zero bmr k).mp h)
    rw [if_neg h1b]
    simp [h1]

theorem stoppedStep_skip (v l : Array Nat) (SX SY SZ : Int) (face f r bmr k : Nat)
    (hk : k = 0 ∨ k = 63) (st : MergeState) :
    stoppedStep v l SX SY SZ face f r bmr k st = .ok st := by
  unfold stoppedStep
  simp only [CS_P_eq]
  rw [if_pos hk]

theorem stoppedStep_ok (v l : Array Nat) (hv : 262144 ≤ v.size) (hl : 262144 ≤ l.size)
    (SX SY SZ : Int) (face f r bmr k : Nat) (hr : r + 1 < 64) (hf : f < 64)
    (hk1 : 1 ≤ k) (hk2 : k ≤ 62) (st : MergeState) :
    stoppedStep v l SX SY SZ face f r bmr k st =
      .ok (if walkCond v l bmr st.merged_forward face f r k then
          { merged_forward := st.merged_forward.set (r * 64 + k) 0,
            bits_walking_right := st.bits_walking_right ||| (1 <<< k),
            merged_right := st.merged_right.set k (st.merged_right.get k + 1),
            vertices := st.vertices }
        else
          { merged_forward := st.merged_forward.set (r * 64 + k) 0,
            bits_walking_right := st.bits_walking_right &&& not64 (1 <<< k),
            merged_right := st.merged_right.set k 0,
            vertices := st.vertices ++
              stopVerts v l SX SY SZ face f r k st.merged_right st.merged_forward }) := by
  have hu := upDepth_lt_mid face k hk2
  unfold stoppedStep
  have hk : ¬ (k = 0 ∨ k = CS_P - 1) := by
    rw [CS_P_eq]; omega
  rw [if_neg hk, canWalkRight_ok v l hv hl face f r bmr k hr hf hk1 hk2 st]
  by_cases hw : walkCond v l bmr st.merged_forward face f r k
  · rw [decide_eq_true hw, if_pos hw]
    simp only [CS_P_eq]
  · rw [decide_eq_false hw, if_neg hw]
    simp only []
    rw [depth_cast face k (Or.inr hk1)]
    simp only [get_axis_i_cast]
    rw [vecAt_ok v hv _ (axisIdx_lt _ _ _ _ (by omega) hf (by omega)),
      vecAt_ok l hl _ (axisIdx_lt _ _ _ _ (by omega) hf hu)]
    simp only [CS_P_eq]
    rfl

end Mesher

namespace Mesher

theorem walkCond_congr (v l : Array Nat) (bmr : Nat) (mf1 mf2 : Words CS_P2)
    (face f r k : Nat) (h1 : mf1.get (r * 64 + k) = mf2.get (r * 64 + k))
    (h2 : mf1.get ((r + 1) * 64 + k) = mf2.get ((r + 1) * 64 + k)) :
    walkCond v l bmr mf1 face f r k ↔ walkCond v l bmr mf2 face f r k := by
  unfold walkCond
  rw [h1, h2]

theorem stopVerts_congr (v l : Array Nat) (SX SY SZ : Int) (face f r k : Nat)
    (mr1 mr2 : Words CS_P) (mf1 mf2 : Words CS_P2)
    (h1 : mr1.get k = mr2.get k) (h2 : mf1.get (r * 64 + k) = mf2.get (r * 64 + k)) :
    stopVerts v l SX SY SZ face f r k mr1 mf1 = stopVerts v l SX SY SZ face f r k mr2 mf2 := by
  unfold stopVerts
  rw [h1, h2]

theorem stoppedLoop_spec (v l : Array Nat) (hv : 262144 ≤ v.size) (hl : 262144 ≤ l.size)
    (SX SY SZ : Int) (face f r bmr : Nat) (hr : r + 1 < 64) (hf : f < 64)
    (sm : Nat) (hsm : sm < 2 ^ 64) (st : MergeState) :
    ∃ s1, whileBits (stoppedStep v l SX SY SZ face f r bmr) 64 sm st = .ok s1 ∧
      (∀ k, k < 64 → s1.bits_walking_right.testBit k =
        if sm.testBit k = true ∧ 1 ≤ k ∧ k ≤ 62
        then decide (walkCond v l bmr st.merged_forward face f r k)
        else st.bits_walking_right.testBit k) ∧
      (∀ k, k < 64 → s1.merged_right.get k =
        if sm.testBit k = true ∧ 1 ≤ k ∧ k ≤ 62
        then (if walkCond v l bmr st.merged_forward face f r k
          then st.merged_right.get k + 1 else 0)
        else st.merged_right.get k) ∧
      (∀ r1 k, k < 64 → s1.merged_forward.get (r1 * 64 + k) =
        if r1 = r ∧ sm.testBit k = true ∧ 1 ≤ k ∧ k ≤ 62 then 0
        else st.merged_forward.get (r1 * 64 + k)) ∧
      s1.vertices = st.vertices ++ (bitsOf sm).flatMap (fun k =>
        if 1 ≤ k ∧ k ≤ 62 ∧ ¬ walkCond v l bmr st.merged_forward face f r k
        then stopVerts v l SX SY SZ face f r k st.merged_right st.merged_forward
        else []) := by
  rw [whileBits_eq_foldlM _ 64 sm _ hsm (bitsOf_length_le sm)]
  have hloop := foldlM_invariant (fun s k => stoppedStep v l SX SY SZ face f r bmr k s)
    (fun pre s1 =>
      (∀ k, k < 64 → s1.bits_walking_right.testBit k =
        if k ∈ pre ∧ 1 ≤ k ∧ k ≤ 62
        then decide (walkCond v l bmr st.merged_forward face f r k)
        else st.bits_walking_right.testBit k) ∧
      (∀ k, k < 64 → s1.merged_right.get k =
        if k ∈ pre ∧ 1 ≤ k ∧ k ≤ 62
        then (if walkCond v l bmr st.merged_forward face f r k
          then st.merged_right.get k + 1 else 0)
        else st.merged_right.get k) ∧
      (∀ r1 k, k < 64 → s1.merged_forward.get (r1 * 64 + k) =
        if r1 = r ∧ k ∈ pre ∧ 1 ≤ k ∧ k ≤ 62 then 0
        else st.merged_forward.get (r1 * 64 + k)) ∧
      s1.vertices = st.vertices ++ pre.flatMap (fun k =>
        if 1 ≤ k ∧ k ≤ 62 ∧ ¬ walkCond v l bmr st.merged_forward face f r k
        then stopVerts v l SX SY SZ face f r k st.merged_right st.merged_forward
        else []))
    (bitsOf sm)
    (by
      intro pre x post s hsplit hinv
      obtain ⟨hW, hMR, hMF, hV⟩ := hinv
      have hxm : x ∈ bitsOf sm := mem_of_split hsplit
      have hxn : x ∉ pre := not_mem_of_split (bitsOf_nodup sm) hsplit
      obtain ⟨hx64, hxbit⟩ := (mem_bitsOf sm x).mp hxm
      by_cases hedge : x = 0 ∨ x = 63
      · refine ⟨s, stoppedStep_skip v l SX SY SZ face f r bmr x hedge s, ?_, ?_, ?_, ?_⟩
        · intro k hk
          rw [hW k hk]
          have hiff : (k ∈ pre ++ [x] ∧ 1 ≤ k ∧ k ≤ 62) ↔ (k ∈ pre ∧ 1 ≤ k ∧ k ≤ 62) := by
            simp only [List.mem_append, List.mem_singleton]
            constructor
            · rintro ⟨h1 | h1, h2, h3⟩
              · exact ⟨h1, h2, h3⟩
              · omega
            · rintro ⟨h1, h2, h3⟩; exact ⟨Or.inl h1, h2, h3⟩
          simp only [hiff]
        · intro k hk
          rw [hMR k hk]
          have hiff : (k ∈ pre ++ [x] ∧ 1 ≤ k ∧ k ≤ 62) ↔ (k ∈ pre ∧ 1 ≤ k ∧ k ≤ 62) := by
            simp only [List.mem_append, List.mem_singleton]
            constructor
            · rintro ⟨h1 | h1, h2, h3⟩
              · exact ⟨h1, h2, h3⟩
              · omega
            · rintro ⟨h1, h2, h3⟩; exact ⟨Or.inl h1, h2, h3⟩
          simp only [hiff]
        · intro r1 k hk
          rw [hMF r1 k hk]
          have hiff : (r1 = r ∧ k ∈ pre ++ [x] ∧ 1 ≤ k ∧ k ≤ 62) ↔
              (r1 = r ∧ k ∈ pre ∧ 1 ≤ k ∧ k ≤ 62) := by
            simp only [List.mem_append, List.mem_singleton]
            constructor
            · rintro ⟨h0, h1 | h1, h2, h3⟩
              · exact ⟨h0, h1, h2, h3⟩
              · omega
            · rintro ⟨h0, h1, h2, h3⟩; exact ⟨h0, Or.inl h1, h2, h3⟩
          simp only [hiff]
        · rw [hV, List.flatMap_append]
          have hx : ¬ (1 ≤ x ∧ x ≤ 62 ∧ ¬ walkCond v l bmr st.merged_forward face f r x) := by
            omega
          simp [hx]
      · have hx1 : 1 ≤ x := by omega
        have hx2 : x ≤ 62 := by omega
        have hmfx : s.merged_forward.get (r * 64 + x) = st.merged_forward.get (r * 64 + x) := by
          rw [hMF r x hx64]
          simp [hxn]
        have hmfx2 : s.merged_forward.get ((r + 1) * 64 + x) =
            st.merged_forward.get ((r + 1) * 64 + x) := by
          rw [hMF (r + 1) x hx64]
          simp
        have hmrx : s.merged_right.get x = st.merged_right.get x := by
          rw [hMR x hx64]
          simp [hxn]
        have hwc := walkCond_congr v l bmr s.merged_forward st.merged_forward face f r x
          hmfx hmfx2
        have hsv := stopVerts_congr v l SX SY SZ face f r x s.merged_right st.merged_right
          s.merged_forward st.merged_forward hmrx hmfx
        refine ⟨_, stoppedStep_ok v l hv hl SX SY SZ face f r bmr x hr hf hx1 hx2 s, ?_⟩
        by_cases hw : walkCond v l bmr st.merged_forward face f r x
        · rw [if_pos (hwc.mpr hw)]
          refine ⟨?_, ?_, ?_, ?_⟩
          · intro k hk
            simp only [Nat.testBit_or, testBit_one_shiftLeft, List.mem_append,
              List.mem_singleton]
            by_cases hkx : k = x
            · subst hkx
              simp [hw, hx1, hx2]
            · have hxk : ¬ x = k := fun h => hkx h.symm
              rw [hW k hk]
              simp [hkx, hxk]
          · intro k hk
            simp only [List.mem_append, List.mem_singleton]
            rw [Words.get_set]
            by_cases hkx : k = x
            · subst hkx
              simp [hw, hx1, hx2, hmrx, CS_P_eq, hk]
            · rw [hMR k hk]
              simp [hkx]
          · intro r1 k hk
            simp only [List.mem_append, List.mem_singleton]
            rw [Words.get_set]
            by_cases hidx : r1 * 64 + k = r * 64 + x
            · obtain ⟨e1, e2⟩ := (words_idx r1 k r x hk hx64).mp hidx
              subst e1; subst e2
              have hlt : r1 * 64 + k < CS_P2 := by rw [CS_P2_eq]; omega
              simp [hx1, hx2, hlt]
            · have hne : ¬ (r1 = r ∧ k = x) :=
                fun h => hidx ((words_idx r1 k r x hk hx64).mpr h)
              rw [hMF r1 k hk]
              have hiff : (r1 = r ∧ (k ∈ pre ∨ k = x) ∧ 1 ≤ k ∧ k ≤ 62) ↔
                  (r1 = r ∧ k ∈ pre ∧ 1 ≤ k ∧ k ≤ 62) := by
                constructor
                · rintro ⟨h0, h1 | h1, h2, h3⟩
                  · exact ⟨h0, h1, h2, h3⟩
                  · exact absurd ⟨h0, h1⟩ hne
                · rintro ⟨h0, h1, h2, h3⟩; exact ⟨h0, Or.inl h1, h2, h3⟩
              simp only [hidx, false_and, if_false, hiff]
          · simp only []
            rw [hV, List.flatMap_append]
            simp [hw]
        · rw [if_neg (fun h => hw (hwc.mp h))]
          refine ⟨?_, ?_, ?_, ?_⟩
          · intro k hk
            simp only [List.mem_append, List.mem_singleton]
            rw [testBit_clear _ _ _ hk]
            by_cases hkx : k = x
            · subst hkx
              simp [hw, hx1, hx2]
            · rw [hW k hk]
              simp [hkx]
          · intro k hk
            simp only [List.mem_append, List.mem_singleton]
            rw [Words.get_set]
            by_cases hkx : k = x
            · subst hkx
              simp [hw, hx1, hx2, CS_P_eq, hk]
            · rw [hMR k hk]
              simp [hkx]
          · intro r1 k hk
            simp only [List.mem_append, List.mem_singleton]
            rw [Words.get_set]
            by_cases hidx : r1 * 64 + k = r * 64 + x
            · obtain ⟨e1, e2⟩ := (words_idx r1 k r x hk hx64).mp hidx
              subst e1; subst e2
              have hlt : r1 * 64 + k < CS_P2 := by rw [CS_P2_eq]; omega
              simp [hx1, hx2, hlt]
            · have hne : ¬ (r1 = r ∧ k = x) :=
                fun h => hidx ((words_idx r1 k r x hk hx64).mpr h)
              rw [hMF r1 k hk]
              have hiff : (r1 = r ∧ (k ∈ pre ∨ k = x) ∧ 1 ≤ k ∧ k ≤ 62) ↔
                  (r1 = r ∧ k ∈ pre ∧ 1 ≤ k ∧ k ≤ 62) := by
                constructor
                · rintro ⟨h0, h1 | h1, h2, h3⟩
                  · exact ⟨h0, h1, h2, h3⟩
                  · exact absurd ⟨h0, h1⟩ hne
                · rintro ⟨h0, h1, h2, h3⟩; exact ⟨h0, Or.inl h1, h2, h3⟩
              simp only [hidx, false_and, if_false, hiff]
          · simp only []
            rw [hV, List.flatMap_append, hsv]
            simp [hw, hx1, hx2])
  obtain ⟨s1, h1, hW, hMR, hMF, hV⟩ := hloop (bitsOf sm) [] st (by simp)
    ⟨by intro k hk; simp, by intro k hk; simp, by intro r1 k hk; simp, by simp⟩
  refine ⟨s1, h1, ?_, ?_, ?_, hV⟩
  · intro k hk
    rw [hW k hk]
    simp only [mem_bitsOf, hk, true_and]
  · intro k hk
    rw [hMR k hk]
    simp only [mem_bitsOf, hk, true_and]
  · intro r1 k hk
    rw [hMF r1 k hk]
    simp only [mem_bitsOf, hk, true_and]

end Mesher

namespace Mesher

/-! ## One cell of step 3 -/

theorem mask_lt (v : Array Nat) (cfm : Words (CS_P2 * 6)) (hmask : MaskSpec v cfm)
    (face r f : Nat) (hface : face < 6) (hr : r < 64) (hf : f < 64) :
    cfm.get (r + f * 64 + face * 4096) < 2 ^ 64 := by
  apply Nat.lt_pow_two_of_testBit
  intro i hi
  by_contra hc
  have hc2 : (cfm.get (r + f * 64 + face * 4096)).testBit i = true := by simpa using hc
  have := ((hmask face r f i hface hr hf).mp hc2).1
  omega

theorem mask_faceBit (v : Array Nat) (cfm : Words (CS_P2 * 6)) (hmask : MaskSpec v cfm)
    (face r f k : Nat) (hface : face < 6) (hr : r < 64) (hf : f < 64)
    (hk1 : 1 ≤ k) (hk2 : k ≤ 62) :
    (cfm.get (r + f * 64 + face * 4096)).testBit k = faceBit v face r f k := by
  have h := hmask face r f k hface hr hf
  unfold faceBit upDepth
  by_cases hev : face % 2 = 0
  · simp only [hev, if_true] at h ⊢
    by_cases hb : (cfm.get (r + f * 64 + face * 4096)).testBit k = true
    · obtain ⟨_, h2, _, h4⟩ := h.mp hb
      rw [hb, decide_eq_true h2, decide_eq_true h4]
      rfl
    · have hb2 : (cfm.get (r + f * 64 + face * 4096)).testBit k = false := by simpa using hb
      rw [hb2]
      symm
      by_contra hc
      have hc2 : (decide (v.getD (axisIdx (face / 2) r f k) 0 ≠ 0) &&
          decide (v.getD (axisIdx (face / 2) r f (k + 1)) 0 = 0)) = true := by simpa using hc
      simp only [Bool.and_eq_true, decide_eq_true_eq] at hc2
      exact hb (h.mpr ⟨by omega, hc2.1, by omega, hc2.2⟩)
  · simp only [hev, if_false] at h ⊢
    by_cases hb : (cfm.get (r + f * 64 + face * 4096)).testBit k = true
    · obtain ⟨_, h2, _, h4⟩ := h.mp hb
      rw [hb, decide_eq_true h2, decide_eq_true h4]
      rfl
    · have hb2 : (cfm.get (r + f * 64 + face * 4096)).testBit k = false := by simpa using hb
      rw [hb2]
      symm
      by_contra hc
      have hc2 : (decide (v.getD (axisIdx (face / 2) r f k) 0 ≠ 0) &&
          decide (v.getD (axisIdx (face / 2) r f (k - 1)) 0 = 0)) = true := by simpa using hc
      simp only [Bool.and_eq_true, decide_eq_true_eq] at hc2
      exact hb (h.mpr ⟨by omega, hc2.1, by omega, hc2.2⟩)

theorem flatMap_congr_mem {α β : Type} (l : List α) (f g : α → List β)
    (h : ∀ x, x ∈ l → f x = g x) : l.flatMap f = l.flatMap g := by
  induction l with
  | nil => rfl
  | cons a t ih =>
    rw [List.flatMap_cons, List.flatMap_cons, h a (List.mem_cons_self a t),
      ih (fun x hx => h x (List.mem_cons_of_mem a hx))]

theorem flatMap_filter_eq {α β : Type} (l : List α) (p : α → Bool) (g : α → List β) :
    (l.filter p).flatMap g = l.flatMap (fun x => if p x = true then g x else []) := by
  induction l with
  | nil => rfl
  | cons a t ih =>
    by_cases hp : p a = true
    · rw [List.filter_cons_of_pos hp, List.flatMap_cons, List.flatMap_cons, ih, if_pos hp]
    · rw [List.filter_cons_of_neg hp, List.flatMap_cons, ih, if_neg hp, List.nil_append]

theorem range64_mid : List.range 64 = 0 :: (List.range' 1 62 ++ [63]) := by
  rw [List.range_eq_range']
  have h1 : List.range' 0 (63 + 1) = 0 :: List.range' (0 + 1) 63 := List.range'_succ 0 63 1
  have h2 : List.range' 1 (62 + 1) = List.range' 1 62 ++ [1 + 1 * 62] := List.range'_concat 1 62
  exact h1.trans (by rw [h2])

theorem range64_flatMap {β : Type} (F : Nat → List β) (h0 : F 0 = []) (h63 : F 63 = []) :
    (List.range 64).flatMap F = (List.range' 1 62).flatMap F := by
  rw [range64_mid, List.flatMap_cons, List.flatMap_append, List.flatMap_cons, List.flatMap_nil,
    h0, h63, List.nil_append, List.append_nil, List.append_nil]

theorem bits_flatMap {β : Type} (m : Nat) (g : Nat → List β) (h0 : g 0 = []) (h63 : g 63 = []) :
    (bitsOf m).flatMap g =
      (List.range' 1 62).flatMap (fun k => if m.testBit k = true then g k else []) := by
  have e : bitsOf m = (List.range 64).filter (fun k => m.testBit k) := rfl
  rw [e, flatMap_filter_eq]
  apply range64_flatMap
  · show (if m.testBit 0 = true then g 0 else []) = []
    rw [h0, ite_self]
  · show (if m.testBit 63 = true then g 63 else []) = []
    rw [h63, ite_self]

end Mesher

namespace Mesher

/-- What one cell of step 3 does at depth `k`, given the word `m0` of
candidate forward merges and the word `sm` of stopped bits. -/
theorem plane_act_cases (v l : Array Nat) (face f r k : Nat) (st : MergeState)
    (mf1 : Words CS_P2) (here fwd rgt bmf : Nat)
    (hE : here.testBit k = faceBit v face r f k)
    (hEf : fwd.testBit k = (decide (f < 62) && faceBit v face r (f + 1) k))
    (hEr : rgt.testBit k = (decide (r < 62) && faceBit v face (r + 1) f k))
    (hk : k < 64)
    (hB : bmf.testBit k = true ↔
      (here &&& fwd &&& not64 st.bits_walking_right).testBit k = true ∧
        attr v l face r f k = attr v l face r (f + 1) k)
    (hM : ∀ r1, mf1.get (r1 * 64 + k) =
      if r1 = r ∧ (here &&& fwd &&& not64 st.bits_walking_right).testBit k = true ∧
        attr v l face r f k = attr v l face r (f + 1) k
      then st.merged_forward.get (r1 * 64 + k) + 1 else st.merged_forward.get (r1 * 64 + k)) :
    ((plane v l face k).act r f (proj k st) = Act.skip ∧
        (here &&& not64 bmf).testBit k = false ∧
        ∀ r1, mf1.get (r1 * 64 + k) = st.merged_forward.get (r1 * 64 + k)) ∨
    ((plane v l face k).act r f (proj k st) = Act.fwd ∧
        (here &&& not64 bmf).testBit k = false ∧
        ∀ r1, mf1.get (r1 * 64 + k) =
          if r1 = r then st.merged_forward.get (r1 * 64 + k) + 1
          else st.merged_forward.get (r1 * 64 + k)) ∨
    ((plane v l face k).act r f (proj k st) = Act.right ∧
        (here &&& not64 bmf).testBit k = true ∧
        walkCond v l (here &&& rgt) mf1 face f r k ∧
        ∀ r1, mf1.get (r1 * 64 + k) = st.merged_forward.get (r1 * 64 + k)) ∨
    ((plane v l face k).act r f (proj k st) = Act.emit ∧
        (here &&& not64 bmf).testBit k = true ∧
        ¬ walkCond v l (here &&& rgt) mf1 face f r k ∧
        ∀ r1, mf1.get (r1 * 64 + k) = st.merged_forward.get (r1 * 64 + k)) := by
  have hm0 : (here &&& fwd &&& not64 st.bits_walking_right).testBit k =
      (faceBit v face r f k && (decide (f < 62) && faceBit v face r (f + 1) k) &&
        !st.bits_walking_right.testBit k) := by
    rw [Nat.testBit_and, Nat.testBit_and, testBit_not64, hE, hEf]
    simp [hk]
  have hsm : (here &&& not64 bmf).testBit k = (faceBit v face r f k && !bmf.testBit k) := by
    rw [Nat.testBit_and, testBit_not64, hE]
    simp [hk]
  have hbmr : (here &&& rgt).testBit k =
      (faceBit v face r f k && (decide (r < 62) && faceBit v face (r + 1) f k)) := by
    rw [Nat.testBit_and, hE, hEr]
  unfold Plane.act walkCond
  simp only [plane, proj]
  rw [hsm, hbmr]
  by_cases hEb : faceBit v face r f k = true
  · by_cases hF : f < 62 ∧ faceBit v face r (f + 1) k = true ∧
        st.bits_walking_right.testBit k = false ∧
        attr v l face r f k = attr v l face r (f + 1) k
    · right; left
      have hm0t : (here &&& fwd &&& not64 st.bits_walking_right).testBit k = true := by
        rw [hm0]; simp [hEb, hF.1, hF.2.1, hF.2.2.1]
      have hbt : bmf.testBit k = true := hB.mpr ⟨hm0t, hF.2.2.2⟩
      refine ⟨?_, ?_, ?_⟩
      · rw [if_neg (by simp [hEb]), if_pos hF]
      · simp [hbt]
      · intro r1
        rw [hM r1]
        simp only [hm0t, hF.2.2.2, and_true]
    · right; right
      have hm0f : ¬ ((here &&& fwd &&& not64 st.bits_walking_right).testBit k = true ∧
          attr v l face r f k = attr v l face r (f + 1) k) := by
        rintro ⟨h1, h2⟩
        rw [hm0] at h1
        simp only [Bool.and_eq_true, decide_eq_true_eq, Bool.not_eq_true'] at h1
        exact hF ⟨h1.1.2.1, h1.1.2.2, h1.2, h2⟩
      have hbf : bmf.testBit k = false := by
        by_contra hc
        exact hm0f (hB.mp (by simpa using hc))
      have hmf : ∀ r1, mf1.get (r1 * 64 + k) = st.merged_forward.get (r1 * 64 + k) := by
        intro r1
        rw [hM r1, if_neg (fun h => hm0f h.2)]
      by_cases hR : r < 62 ∧ faceBit v face (r + 1) f k = true ∧
          st.merged_forward.get (r * 64 + k) = st.merged_forward.get ((r + 1) * 64 + k) ∧
          attr v l face r f k = attr v l face (r + 1) f k
      · left
        refine ⟨?_, ?_, ?_, hmf⟩
        · rw [if_neg (by simp [hEb]), if_neg hF, if_pos hR]
        · simp [hEb, hbf]
        · rw [hmf r, hmf (r + 1)]
          refine ⟨?_, hR.2.2.1, hR.2.2.2⟩
          simp [hEb, hR.1, hR.2.1]
      · right
        refine ⟨?_, ?_, ?_, hmf⟩
        · rw [if_neg (by simp [hEb]), if_neg hF, if_neg hR]
        · simp [hEb, hbf]
        · rw [hmf r, hmf (r + 1)]
          rintro ⟨h1, h2, h3⟩
          simp only [Bool.and_eq_true, decide_eq_true_eq] at h1
          exact hR ⟨h1.2.1, h1.2.2, h2, h3⟩
  · left
    have hEf2 : faceBit v face r f k = false := by simpa using hEb
    have hm0f : ¬ ((here &&& fwd &&& not64 st.bits_walking_right).testBit k = true ∧
        attr v l face r f k = attr v l face r (f + 1) k) := by
      rintro ⟨h1, _⟩
      rw [hm0, hEf2] at h1
      simp at h1
    refine ⟨?_, ?_, ?_⟩
    · rw [if_pos hEf2]
    · simp [hEf2]
    · intro r1
      rw [hM r1, if_neg (fun h => hm0f h.2)]

theorem meshCell_spec (v l : Array Nat) (hv : 262144 ≤ v.size) (hl : 262144 ≤ l.size)
    (cfm : Words (CS_P2 * 6)) (hmask : MaskSpec v cfm) (SX SY SZ : Int)
    (face f r : Nat) (hface : face < 6) (hf1 : 1 ≤ f) (hf2 : f ≤ 62)
    (hr1 : 1 ≤ r) (hr2 : r ≤ 62) (st : MergeState) :
    ∃ s1, meshCell v l cfm SX SY SZ face f st r = .ok s1 ∧
      (∀ k, 1 ≤ k → k ≤ 62 → proj k s1 = (plane v l face k).step r f (proj k st)) ∧
      s1.vertices = st.vertices ++ (List.range' 1 62).flatMap (fun k =>
        (quadAt (plane v l face k) face k r f (proj k st)).flatMap (quadEmit SX SY SZ)) := by
  unfold meshCell
  simp only [CS_eq, CS_P_eq, CS_P2_eq]
  have hhere_lt := mask_lt v cfm hmask face r f hface (by omega) (by omega)
  -- the forward-merge loop
  have hm_lt : cfm.get (r + f * 64 + face * 4096) &&&
      (if f ≥ 62 then 0 else cfm.get (r + f * 64 + face * 4096 + 64)) &&&
      not64 st.bits_walking_right < 2 ^ 64 :=
    lt_of_le_of_lt (le_trans Nat.and_le_left Nat.and_le_left) hhere_lt
  have hm_bits : ∀ k, (cfm.get (r + f * 64 + face * 4096) &&&
      (if f ≥ 62 then 0 else cfm.get (r + f * 64 + face * 4096 + 64)) &&&
      not64 st.bits_walking_right).testBit k = true →
      f + 1 < 64 ∧ (face % 2 = 0 → k ≤ 62) ∧ (face % 2 ≠ 0 → 1 ≤ k) := by
    intro k hk
    rw [Nat.testBit_and, Nat.testBit_and] at hk
    simp only [Bool.and_eq_true] at hk
    obtain ⟨⟨h1, h2⟩, _⟩ := hk
    have hf : f < 62 := by
      by_contra hc
      rw [if_pos (by omega)] at h2
      simp at h2
    obtain ⟨_, _, h3⟩ := (hmask face r f k hface (by omega) (by omega)).mp h1
    refine ⟨by omega, ?_, ?_⟩
    · intro hev
      rw [if_pos hev] at h3
      omega
    · intro hodd
      rw [if_neg hodd] at h3
      omega
  obtain ⟨fs, hfs, hfsB, hfsM⟩ := forwardLoop_spec v l hv hl face f r (by omega)
    st.merged_forward _ hm_lt hm_bits
  rw [hfs]
  simp only []
  -- the loop over the stopped bits
  have hsm_lt : cfm.get (r + f * 64 + face * 4096) &&& not64 fs.bits_merging_forward < 2 ^ 64 :=
    lt_of_le_of_lt Nat.and_le_left hhere_lt
  obtain ⟨s1, hs1, hW, hMR, hMF, hV⟩ := stoppedLoop_spec v l hv hl SX SY SZ face f r
    (cfm.get (r + f * 64 + face * 4096) &&&
      (if r ≥ 62 then 0 else cfm.get (r + 1 + f * 64 + face * 4096)))
    (by omega) (by omega) _ hsm_lt
    { merged_forward := fs.merged_forward, bits_walking_right := st.bits_walking_right,
      merged_right := st.merged_right, vertices := st.vertices }
  -- the effect on each depth
  have hcase : ∀ k, 1 ≤ k → k ≤ 62 → _ := fun k hk1 hk2 =>
    plane_act_cases v l face f r k st fs.merged_forward
      (cfm.get (r + f * 64 + face * 4096))
      (if f ≥ 62 then 0 else cfm.get (r + f * 64 + face * 4096 + 64))
      (if r ≥ 62 then 0 else cfm.get (r + 1 + f * 64 + face * 4096))
      fs.bits_merging_forward
      (mask_faceBit v cfm hmask face r f k hface (by omega) (by omega) hk1 hk2)
      (by
        by_cases hf : f ≥ 62
        · rw [if_pos hf]
          have : ¬ f < 62 := by omega
          simp [this]
        · rw [if_neg hf]
          have e : r + f * 64 + face * 4096 + 64 = r + (f + 1) * 64 + face * 4096 := by omega
          rw [e, mask_faceBit v cfm hmask face r (f + 1) k hface (by omega) (by omega) hk1 hk2]
          have : f < 62 := by omega
          simp [this])
      (by
        by_cases hr : r ≥ 62
        · rw [if_pos hr]
          have : ¬ r < 62 := by omega
          simp [this]
        · rw [if_neg hr]
          rw [mask_faceBit v cfm hmask face (r + 1) f k hface (by omega) (by omega) hk1 hk2]
          have : r < 62 := by omega
          simp [this])
      (by omega)
      (hfsB k (by omega))
      (fun r1 => hfsM r1 k (by omega))
  refine ⟨s1, hs1, ?_, ?_⟩
  · intro k hk1 hk2
    have hk64 : k < 64 := by omega
    have hWk := hW k hk64
    have hMRk := hMR k hk64
    have hMFk := fun r1 => hMF r1 k hk64
    simp only [] at hWk hMRk hMFk
    unfold Plane.step
    rcases hcase k hk1 hk2 with ⟨hact, hsm, hmf⟩ | ⟨hact, hsm, hmf⟩ | ⟨hact, hsm, hwc, hmf⟩ |
      ⟨hact, hsm, hwc, hmf⟩
    · rw [hact]
      simp only [proj, Slice.mk.injEq]
      rw [hsm] at hWk hMRk hMFk
      refine ⟨?_, ?_, ?_⟩
      · rw [hWk]; simp
      · rw [hMRk]; simp
      · funext r1
        rw [hMFk r1, ← hmf r1]; simp
    · rw [hact]
      simp only [proj, Slice.mk.injEq]
      rw [hsm] at hWk hMRk hMFk
      refine ⟨?_, ?_, ?_⟩
      · rw [hWk]; simp
      · rw [hMRk]; simp
      · funext r1
        rw [hMFk r1, Function.update_apply]
        simp only [Bool.false_eq_true, false_and, and_false, if_false]
        rw [hmf r1]
        by_cases hr : r1 = r
        · subst hr; simp
        · simp [hr]
    · rw [hact]
      simp only [proj, Slice.mk.injEq]
      rw [hsm] at hWk hMRk hMFk
      refine ⟨?_, ?_, ?_⟩
      · rw [hWk]; simp [hk1, hk2, hwc]
      · rw [hMRk]; simp [hk1, hk2, hwc]
      · funext r1
        rw [hMFk r1, Function.update_apply]
        simp only [hk1, hk2, and_true, true_and]
        by_cases hr : r1 = r
        · simp [hr]
        · simp only [hr, if_false]
          exact hmf r1
    · rw [hact]
      simp only [proj, Slice.mk.injEq]
      rw [hsm] at hWk hMRk hMFk
      refine ⟨?_, ?_, ?_⟩
      · rw [hWk]; simp [hk1, hk2, hwc]
      · rw [hMRk]; simp [hk1, hk2, hwc]
      · funext r1
        rw [hMFk r1, Function.update_apply]
        simp only [hk1, hk2, and_true, true_and]
        by_cases hr : r1 = r
        · simp [hr]
        · simp only [hr, if_false]
          exact hmf r1
  · rw [hV]
    simp only []
    rw [bits_flatMap _ _ (by simp) (by simp)]
    congr 1
    apply flatMap_congr_mem
    intro k hk
    rw [List.mem_range'_1] at hk
    have hk1 : 1 ≤ k := hk.1
    have hk2 : k ≤ 62 := by omega
    unfold quadAt
    rcases hcase k hk1 hk2 with ⟨hact, hsm, hmf⟩ | ⟨hact, hsm, hmf⟩ | ⟨hact, hsm, hwc, hmf⟩ |
      ⟨hact, hsm, hwc, hmf⟩
    · rw [hact, hsm]; simp
    · rw [hact, hsm]; simp
    · rw [hact, hsm]; simp [hwc]
    · rw [hact, hsm]
      simp only [if_true, List.flatMap_cons, List.flatMap_nil, List.append_nil]
      rw [if_pos ⟨hk1, hk2, hwc⟩]
      unfold stopVerts quadEmit
      simp only [proj, plane]
      rw [hmf r]

end Mesher

namespace Mesher

/-! ## Rows, faces and the whole of step 3 -/

theorem meshRow_spec (v l : Array Nat) (hv : 262144 ≤ v.size) (hl : 262144 ≤ l.size)
    (cfm : Words (CS_P2 * 6)) (hmask : MaskSpec v cfm) (SX SY SZ : Int)
    (face f : Nat) (hface : face < 6) (hf1 : 1 ≤ f) (hf2 : f ≤ 62) (st : FaceState)
    (hst : ∀ k, 1 ≤ k → k ≤ 62 →
      (fun r => st.merged_forward.get (r * 64 + k)) = (plane v l face k).heights (f - 1)) :
    ∃ s1, meshRow v l cfm SX SY SZ face st f = .ok s1 ∧
      (∀ k, 1 ≤ k → k ≤ 62 →
        (fun r => s1.merged_forward.get (r * 64 + k)) = (plane v l face k).heights f) ∧
      s1.vertices = st.vertices ++ (rowQuads v l face f).flatMap (quadEmit SX SY SZ) := by
  unfold meshRow
  have hloop := foldlM_range_invariant (meshCell v l cfm SX SY SZ face f)
    (fun i s =>
      (∀ k, 1 ≤ k → k ≤ 62 → proj k s = (plane v l face k).rowAt f
        { w := false, mr := 0, mf := (plane v l face k).heights (f - 1) } i) ∧
      s.vertices = st.vertices ++
        ((List.range' 1 i).flatMap fun r => cellQuads v l face f r).flatMap (quadEmit SX SY SZ))
    1 62
    { merged_forward := st.merged_forward, bits_walking_right := 0,
      merged_right := Words.zero CS_P, vertices := st.vertices }
    (by
      constructor
      · intro k hk1 hk2
        unfold proj Plane.rowAt
        simp only [Nat.zero_testBit, Words.get_zero, Slice.mk.injEq, true_and]
        exact hst k hk1 hk2
      · simp)
    (by
      intro i s hi hinv
      obtain ⟨hP, hVs⟩ := hinv
      obtain ⟨s1, h1, h2, h3⟩ := meshCell_spec v l hv hl cfm hmask SX SY SZ face f (1 + i)
        hface hf1 hf2 (by omega) (by omega) s
      refine ⟨s1, h1, ?_, ?_⟩
      · intro k hk1 hk2
        rw [h2 k hk1 hk2, hP k hk1 hk2]
        have e : 1 + i = i + 1 := by omega
        rw [e]
        rfl
      · rw [h3, hVs, List.range'_concat 1 i, List.flatMap_append, List.flatMap_append,
          List.append_assoc]
        have key : ((List.range' 1 62).flatMap fun k =>
            (quadAt (plane v l face k) face k (1 + i) f (proj k s)).flatMap
              (quadEmit SX SY SZ)) =
            (cellQuads v l face f (1 + i)).flatMap (quadEmit SX SY SZ) := by
          unfold cellQuads
          rw [List.flatMap_assoc]
          apply flatMap_congr_mem
          intro k hk
          rw [List.mem_range'_1] at hk
          unfold Plane.entry
          have e : 1 + i - 1 = i := by omega
          rw [e, ← hP k hk.1 (by omega)]
        rw [key]
        simp only [Nat.one_mul, List.flatMap_cons, List.flatMap_nil, List.append_nil])
  obtain ⟨s1, h1, hP, hVs⟩ := hloop
  have e62 : CS_P - 2 = 62 := rfl
  rw [e62, h1]
  refine ⟨_, rfl, ?_, ?_⟩
  · intro k hk1 hk2
    have := hP k hk1 hk2
    have hh : (plane v l face k).heights f = ((plane v l face k).rowAt f
        { w := false, mr := 0, mf := (plane v l face k).heights (f - 1) } 62).mf := by
      obtain ⟨n, rfl⟩ : ∃ n, f = n + 1 := ⟨f - 1, by omega⟩
      rfl
    rw [hh, ← this]
    rfl
  · exact hVs

theorem meshFace_spec (v l : Array Nat) (hv : 262144 ≤ v.size) (hl : 262144 ≤ l.size)
    (cfm : Words (CS_P2 * 6)) (hmask : MaskSpec v cfm) (SX SY SZ : Int)
    (face : Nat) (hface : face < 6) (vs : List Vertex) :
    meshFace v l cfm SX SY SZ vs face =
      .ok (vs ++ (faceQuads v l face).flatMap (quadEmit SX SY SZ)) := by
  unfold meshFace
  have hloop := foldlM_range_invariant (meshRow v l cfm SX SY SZ face)
    (fun i s =>
      (∀ k, 1 ≤ k → k ≤ 62 →
        (fun r => s.merged_forward.get (r * 64 + k)) = (plane v l face k).heights i) ∧
      s.vertices = vs ++
        ((List.range' 1 i).flatMap fun f => rowQuads v l face f).flatMap (quadEmit SX SY SZ))
    1 62
    { merged_forward := Words.zero CS_P2, vertices := vs }
    (by
      constructor
      · intro k hk1 hk2
        funext r
        simp only [Words.get_zero]
        rfl
      · simp)
    (by
      intro i s hi hinv
      obtain ⟨hP, hVs⟩ := hinv
      obtain ⟨s1, h1, h2, h3⟩ := meshRow_spec v l hv hl cfm hmask SX SY SZ face (1 + i)
        hface (by omega) (by omega) s
        (by
          intro k hk1 hk2
          have e : 1 + i - 1 = i := by omega
          rw [e]
          exact hP k hk1 hk2)
      refine ⟨s1, h1, ?_, ?_⟩
      · intro k hk1 hk2
        have e : i + 1 = 1 + i := by omega
        rw [e]
        exact h2 k hk1 hk2
      · rw [h3, hVs, List.range'_concat 1 i, List.flatMap_append, List.flatMap_append,
          List.append_assoc]
        simp only [Nat.one_mul, List.flatMap_cons, List.flatMap_nil, List.append_nil])
  obtain ⟨s1, h1, hP, hVs⟩ := hloop
  have e62 : CS_P - 2 = 62 := rfl
  rw [e62, h1]
  simp only []
  rw [hVs]
  rfl

theorem meshFaces_spec (v l : Array Nat) (hv : 262144 ≤ v.size) (hl : 262144 ≤ l.size)
    (cfm : Words (CS_P2 * 6)) (hmask : MaskSpec v cfm) (SX SY SZ : Int) :
    (List.range 6).foldlM (meshFace v l cfm SX SY SZ) [] =
      .ok ((quadList v l).flatMap (quadEmit SX SY SZ)) := by
  have hloop := foldlM_range_invariant (meshFace v l cfm SX SY SZ)
    (fun i vs => vs = ((List.range' 0 i).flatMap fun face => faceQuads v l face).flatMap
      (quadEmit SX SY SZ))
    0 6 [] (by simp)
    (by
      intro i vs hi hinv
      refine ⟨_, meshFace_spec v l hv hl cfm hmask SX SY SZ (0 + i) (by omega) vs, ?_⟩
      show _ = ((List.range' 0 (i + 1)).flatMap fun face => faceQuads v l face).flatMap
        (quadEmit SX SY SZ)
      rw [hinv, List.range'_concat 0 i, List.flatMap_append, List.flatMap_append]
      simp only [Nat.one_mul, List.flatMap_cons, List.flatMap_nil, List.append_nil])
  obtain ⟨s1, h1, h2⟩ := hloop
  rw [List.range_eq_range', h1, h2]
  unfold quadList
  rw [List.range_eq_range']

theorem ok_bind {ε α β : Type} (a : α) (f : α → Except ε β) :
    (Except.ok a >>= f) = f a := rfl

theorem mesh_of_faces (v l : Array Nat) (pos : IVec3) (ac : Words (CS_P2 * 3))
    (vs : List Vertex) (hac : encodeColumns v = .ok ac)
    (h3 : (List.range 6).foldlM (meshFace v l (cullFaces ac) (toShort ((pos.x * CS) - 1))
      (toShort ((pos.y * CS) - 1)) (toShort ((pos.z * CS) - 1))) [] = .ok vs) :
    mesh v l pos = .ok (packVertices vs) := by
  unfold mesh
  rw [hac, ok_bind]
  simp only []
  rw [h3, ok_bind]
  unfold packVertices
  by_cases h : vs.length = 0
  · rw [if_pos h, if_pos h]; rfl
  · rw [if_neg h, if_neg h]; rfl

/-- The function `mesh` returns for every input that has at least the expected
length, and its result is the list of rectangles `quadList`, six vertices each. -/
theorem mesh_eq_ge (v l : Array Nat) (pos : IVec3) (hv : CS_P3 ≤ v.size)
    (hl : CS_P3 ≤ l.size) :
    mesh v l pos = .ok (packVertices ((quadList v l).flatMap
      (quadEmit (toShort ((pos.x * CS) - 1)) (toShort ((pos.y * CS) - 1))
        (toShort ((pos.z * CS) - 1))))) := by
  rw [CS_P3_eq] at hv hl
  obtain ⟨ac, hac, hmask⟩ := masks_spec v hv
  exact mesh_of_faces v l pos ac _ hac (meshFaces_spec v l hv hl (cullFaces ac) hmask _ _ _)

/-- The function `mesh` returns for every input of the expected length, and
its result is the list of rectangles `quadList`, six vertices each. -/
theorem mesh_eq (v l : Array Nat) (pos : IVec3) (hv : v.size = CS_P3) (hl : l.size = CS_P3) :
    mesh v l pos = .ok (packVertices ((quadList v l).flatMap
      (quadEmit (toShort ((pos.x * CS) - 1)) (toShort ((pos.y * CS) - 1))
        (toShort ((pos.z * CS) - 1))))) :=
  mesh_eq_ge v l pos (le_of_eq hv.symm) (le_of_eq hl.symm)

end Mesher

namespace Mesher

/-! ## The run of step 3 on one plane -/

theorem Plane.entry_one (P : Plane) (f : Nat) :
    P.entry f 1 = { w := false, mr := 0, mf := P.heights (f - 1) } := rfl

theorem Plane.entry_succ (P : Plane) (f r : Nat) (hr : 1 ≤ r) :
    P.entry f (r + 1) = P.step r f (P.entry f r) := by
  obtain ⟨n, rfl⟩ : ∃ n, r = n + 1 := ⟨r - 1, by omega⟩
  rfl

theorem Plane.heights_succ (P : Plane) (n : Nat) :
    P.heights (n + 1) = (P.entry (n + 1) 63).mf := rfl

theorem Plane.step_mf_ne (P : Plane) (r f c : Nat) (s : Slice) (h : c ≠ r) :
    (P.step r f s).mf c = s.mf c := by
  unfold Plane.step
  cases P.act r f s <;> simp [Function.update_apply, h]

theorem Plane.step_mf_eq (P : Plane) (r f : Nat) (s : Slice) :
    (P.step r f s).mf r =
      match P.act r f s with
      | Act.skip => s.mf r
      | Act.fwd => s.mf r + 1
      | Act.right => 0
      | Act.emit => 0 := by
  unfold Plane.step
  cases P.act r f s <;> simp

theorem Plane.step_w (P : Plane) (r f : Nat) (s : Slice) :
    (P.step r f s).w =
      match P.act r f s with
      | Act.skip => s.w
      | Act.fwd => s.w
      | Act.right => true
      | Act.emit => false := by
  unfold Plane.step
  cases P.act r f s <;> rfl

theorem Plane.step_mr (P : Plane) (r f : Nat) (s : Slice) :
    (P.step r f s).mr =
      match P.act r f s with
      | Act.skip => s.mr
      | Act.fwd => s.mr
      | Act.right => s.mr + 1
      | Act.emit => 0 := by
  unfold Plane.step
  cases P.act r f s <;> rfl

/-- Columns not yet visited in the row still hold the heights of the previous row. -/
theorem Plane.entry_mf_ge (P : Plane) (f : Nat) :
    ∀ r, 1 ≤ r → ∀ c, r ≤ c → (P.entry f r).mf c = P.heights (f - 1) c := by
  intro r hr
  induction r, hr using Nat.le_induction with
  | base => intro c _; rfl
  | succ r hr ih =>
    intro c hc
    rw [P.entry_succ f r hr, P.step_mf_ne r f c _ (by omega)]
    exact ih c (by omega)

/-- Columns already visited in the row keep the value set at their cell. -/
theorem Plane.entry_mf_lt (P : Plane) (f c : Nat) (hc : 1 ≤ c) :
    ∀ r, c + 1 ≤ r → (P.entry f r).mf c = (P.entry f (c + 1)).mf c := by
  intro r hr
  induction r, hr using Nat.le_induction with
  | base => rfl
  | succ r hr ih =>
    rw [P.entry_succ f r (by omega), P.step_mf_ne r f c _ (by omega)]
    exact ih

theorem Plane.entry_mf_self (P : Plane) (f r : Nat) (hr : 1 ≤ r) :
    (P.entry f r).mf r = P.heights (f - 1) r :=
  P.entry_mf_ge f r hr r (le_refl r)

theorem Plane.entry_mf_next (P : Plane) (f r : Nat) (hr : 1 ≤ r) :
    (P.entry f r).mf (r + 1) = P.heights (f - 1) (r + 1) :=
  P.entry_mf_ge f r hr (r + 1) (by omega)

/-- The decision at a cell in terms of the heights of the previous row and of
the walking flag. -/
theorem Plane.actAt_eq (P : Plane) (r f : Nat) (hr : 1 ≤ r) :
    P.actAt r f =
      if P.E r f = false then Act.skip
      else if f < 62 ∧ P.E r (f + 1) = true ∧ (P.entry f r).w = false ∧ P.A r f = P.A r (f + 1)
        then Act.fwd
      else if r < 62 ∧ P.E (r + 1) f = true ∧
          P.heights (f - 1) r = P.heights (f - 1) (r + 1) ∧ P.A r f = P.A (r + 1) f
        then Act.right
      else Act.emit := by
  unfold Plane.actAt Plane.act
  rw [P.entry_mf_self f r hr, P.entry_mf_next f r hr]

/-- Height of a column after a row, from its height before the row. -/
theorem Plane.heights_rec (P : Plane) (n c : Nat) (hc1 : 1 ≤ c) (hc2 : c ≤ 62) :
    P.heights (n + 1) c =
      match P.actAt c (n + 1) with
      | Act.skip => P.heights n c
      | Act.fwd => P.heights n c + 1
      | Act.right => 0
      | Act.emit => 0 := by
  rw [P.heights_succ n, P.entry_mf_lt (n + 1) c hc1 63 (by omega), P.entry_succ (n + 1) c hc1,
    P.step_mf_eq, P.entry_mf_self (n + 1) c hc1]
  rfl

theorem Plane.entry_w_succ (P : Plane) (f r : Nat) (hr : 1 ≤ r) :
    (P.entry f (r + 1)).w =
      match P.actAt r f with
      | Act.skip => (P.entry f r).w
      | Act.fwd => (P.entry f r).w
      | Act.right => true
      | Act.emit => false := by
  rw [P.entry_succ f r hr, P.step_w]
  rfl

theorem Plane.entry_mr_succ (P : Plane) (f r : Nat) (hr : 1 ≤ r) :
    (P.entry f (r + 1)).mr =
      match P.actAt r f with
      | Act.skip => (P.entry f r).mr
      | Act.fwd => (P.entry f r).mr
      | Act.right => (P.entry f r).mr + 1
      | Act.emit => 0 := by
  rw [P.entry_succ f r hr, P.step_mr]
  rfl

end Mesher

namespace Mesher

/-! ## Decisions and their conditions -/

theorem Plane.actAt_skip_iff (P : Plane) (r f : Nat) (hr : 1 ≤ r) :
    P.actAt r f = Act.skip ↔ P.E r f = false := by
  rw [P.actAt_eq r f hr]
  constructor
  · intro h
    by_contra hE
    rw [if_neg hE] at h
    split at h
    · exact Act.noConfusion h
    · split at h <;> exact Act.noConfusion h
  · intro h
    rw [if_pos h]

theorem Plane.actAt_E (P : Plane) (r f : Nat) (hr : 1 ≤ r) (h : P.actAt r f ≠ Act.skip) :
    P.E r f = true := by
  by_contra hE
  exact h ((P.actAt_skip_iff r f hr).mpr (by simpa using hE))

theorem Plane.actAt_fwd (P : Plane) (r f : Nat) (hr : 1 ≤ r) (h : P.actAt r f = Act.fwd) :
    f < 62 ∧ P.E r (f + 1) = true ∧ (P.entry f r).w = false ∧ P.A r f = P.A r (f + 1) := by
  rw [P.actAt_eq r f hr] at h
  split at h
  · exact Act.noConfusion h
  · split at h
    · assumption
    · split at h <;> exact Act.noConfusion h

theorem Plane.actAt_right (P : Plane) (r f : Nat) (hr : 1 ≤ r) (h : P.actAt r f = Act.right) :
    r < 62 ∧ P.E (r + 1) f = true ∧
      P.heights (f - 1) r = P.heights (f - 1) (r + 1) ∧ P.A r f = P.A (r + 1) f := by
  rw [P.actAt_eq r f hr] at h
  split at h
  · exact Act.noConfusion h
  · split at h
    · exact Act.noConfusion h
    · split at h
      · assumption
      · exact Act.noConfusion h

theorem Plane.actAt_not_fwd_of_w (P : Plane) (r f : Nat) (hr : 1 ≤ r)
    (hw : (P.entry f r).w = true) : P.actAt r f ≠ Act.fwd := by
  intro h
  have := (P.actAt_fwd r f hr h).2.2.1
  rw [hw] at this
  exact Bool.noConfusion this

/-! ## Invariant of a row: the walking flag and `merged_right` -/

/-- Invariant on entry to the cell `(r, f)`: the flag is set only over an
exposed face, `merged_right` counts the cells immediately to the left that
extended their rectangle to the right, and that run is maximal. -/
theorem Plane.row_invariant (P : Plane) (f : Nat) :
    ∀ r, 1 ≤ r →
      ((P.entry f r).w = true → P.E r f = true) ∧
      ((P.entry f r).w = false → (P.entry f r).mr = 0) ∧
      ((P.entry f r).w = true → 1 ≤ (P.entry f r).mr) ∧
      (P.entry f r).mr + 1 ≤ r ∧
      (∀ j, j < (P.entry f r).mr → P.actAt (r - 1 - j) f = Act.right) ∧
      ((P.entry f r).mr + 2 ≤ r → P.actAt (r - 1 - (P.entry f r).mr) f ≠ Act.right) := by
  intro r hr
  induction r, hr using Nat.le_induction with
  | base =>
    rw [P.entry_one]
    refine ⟨fun h => Bool.noConfusion h, fun _ => rfl, fun h => Bool.noConfusion h, by simp,
      fun j hj => absurd hj (by simp), fun h => absurd h (by simp)⟩
  | succ r hr ih =>
    obtain ⟨ihE, ih0, ih1, ihle, ihrun, ihmax⟩ := ih
    have hw := P.entry_w_succ f r hr
    have hm := P.entry_mr_succ f r hr
    have e1 : r + 1 - 1 = r := by omega
    generalize P.entry f (r + 1) = s1 at hw hm ⊢
    generalize hs : P.entry f r = s at ihE ih0 ih1 ihle ihrun ihmax hw hm ⊢
    cases hact : P.actAt r f with
    | skip =>
      have hwf : s.w = false := by
        by_contra hc
        have hE := ihE (by simpa using hc)
        rw [(P.actAt_skip_iff r f hr).mp hact] at hE
        exact Bool.noConfusion hE
      have hm0 : s.mr = 0 := ih0 hwf
      have hw1 : s1.w = false := by rw [hact] at hw; exact hw.trans hwf
      have hm1 : s1.mr = 0 := by rw [hact] at hm; exact hm.trans hm0
      rw [hw1, hm1]
      refine ⟨fun h => Bool.noConfusion h, fun _ => rfl, fun h => Bool.noConfusion h, by omega,
        fun j hj => absurd hj (by simp), fun _ => ?_⟩
      rw [e1, Nat.sub_zero, hact]
      exact fun h => Act.noConfusion h
    | fwd =>
      have hwf : s.w = false := by
        have := (P.actAt_fwd r f hr hact).2.2.1
        rw [hs] at this
        exact this
      have hm0 : s.mr = 0 := ih0 hwf
      have hw1 : s1.w = false := by rw [hact] at hw; exact hw.trans hwf
      have hm1 : s1.mr = 0 := by rw [hact] at hm; exact hm.trans hm0
      rw [hw1, hm1]
      refine ⟨fun h => Bool.noConfusion h, fun _ => rfl, fun h => Bool.noConfusion h, by omega,
        fun j hj => absurd hj (by simp), fun _ => ?_⟩
      rw [e1, Nat.sub_zero, hact]
      exact fun h => Act.noConfusion h
    | right =>
      have hw1 : s1.w = true := by rw [hact] at hw; exact hw
      have hm1 : s1.mr = s.mr + 1 := by rw [hact] at hm; exact hm
      rw [hw1, hm1]
      refine ⟨fun _ => (P.actAt_right r f hr hact).2.1, fun h => Bool.noConfusion h,
        fun _ => by omega, by omega, ?_, ?_⟩
      · intro j hj
        rw [e1]
        cases j with
        | zero => rw [Nat.sub_zero]; exact hact
        | succ j =>
          have e2 : r - (j + 1) = r - 1 - j := by omega
          rw [e2]
          exact ihrun j (by omega)
      · intro h
        have e2 : r + 1 - 1 - (s.mr + 1) = r - 1 - s.mr := by omega
        rw [e2]
        exact ihmax (by omega)
    | emit =>
      have hw1 : s1.w = false := by rw [hact] at hw; exact hw
      have hm1 : s1.mr = 0 := by rw [hact] at hm; exact hm
      rw [hw1, hm1]
      refine ⟨fun h => Bool.noConfusion h, fun _ => rfl, fun h => Bool.noConfusion h, by omega,
        fun j hj => absurd hj (by simp), fun _ => ?_⟩
      rw [e1, Nat.sub_zero, hact]
      exact fun h => Act.noConfusion h

/-! ## Invariant of a column: `merged_forward` -/

/-- Invariant after `n` rows: `merged_forward` of a column counts the cells
immediately before the next row that merged forward, that chain is maximal, and
a positive count means the next cell of the column carries a face. -/
theorem Plane.heights_invariant (P : Plane) (c : Nat) (hc1 : 1 ≤ c) (hc2 : c ≤ 62) :
    ∀ n,
      P.heights n c ≤ n ∧
      (∀ j, j < P.heights n c → P.actAt c (n - j) = Act.fwd) ∧
      (P.heights n c + 1 ≤ n → P.actAt c (n - P.heights n c) ≠ Act.fwd) ∧
      (1 ≤ P.heights n c → P.E c (n + 1) = true) := by
  intro n
  induction n with
  | zero =>
    have h0 : P.heights 0 c = 0 := rfl
    rw [h0]
    refine ⟨by omega, fun j hj => absurd hj (by simp), fun h => absurd h (by simp),
      fun h => absurd h (by simp)⟩
  | succ n ih =>
    obtain ⟨ihle, ihrun, ihmax, ihE⟩ := ih
    have hrec := P.heights_rec n c hc1 hc2
    generalize P.heights (n + 1) c = g1 at hrec ⊢
    generalize P.heights n c = g at ihle ihrun ihmax ihE hrec ⊢
    cases hact : P.actAt c (n + 1) with
    | skip =>
      have h0 : g = 0 := by
        by_contra hne
        have hE := ihE (by omega)
        rw [(P.actAt_skip_iff c (n + 1) hc1).mp hact] at hE
        exact Bool.noConfusion hE
      have h1 : g1 = 0 := by rw [hact] at hrec; exact hrec.trans h0
      rw [h1]
      refine ⟨by omega, fun j hj => absurd hj (by simp), fun _ => ?_,
        fun h => absurd h (by simp)⟩
      rw [Nat.sub_zero, hact]
      exact fun h => Act.noConfusion h
    | fwd =>
      have h1 : g1 = g + 1 := by rw [hact] at hrec; exact hrec
      rw [h1]
      refine ⟨by omega, ?_, ?_, fun _ => (P.actAt_fwd c (n + 1) hc1 hact).2.1⟩
      · intro j hj
        cases j with
        | zero => rw [Nat.sub_zero]; exact hact
        | succ j =>
          have e : n + 1 - (j + 1) = n - j := by omega
          rw [e]
          exact ihrun j (by omega)
      · intro hlt
        have e : n + 1 - (g + 1) = n - g := by omega
        rw [e]
        exact ihmax (by omega)
    | right =>
      have h1 : g1 = 0 := by rw [hact] at hrec; exact hrec
      rw [h1]
      refine ⟨by omega, fun j hj => absurd hj (by simp), fun _ => ?_,
        fun h => absurd h (by simp)⟩
      rw [Nat.sub_zero, hact]
      exact fun h => Act.noConfusion h
    | emit =>
      have h1 : g1 = 0 := by rw [hact] at hrec; exact hrec
      rw [h1]
      refine ⟨by omega, fun j hj => absurd hj (by simp), fun _ => ?_,
        fun h => absurd h (by simp)⟩
      rw [Nat.sub_zero, hact]
      exact fun h => Act.noConfusion h

end Mesher

namespace Mesher

/-! ## The rectangle that terminates at a cell -/

theorem chain_eq {α : Type} (g : Nat → α) (a : Nat) :
    ∀ b, a ≤ b → (∀ i, a ≤ i → i < b → g i = g (i + 1)) → g a = g b := by
  intro b hab
  induction b, hab using Nat.le_induction with
  | base => intro _; rfl
  | succ b hab ih =>
    intro h
    rw [ih (fun i h1 h2 => h i h1 (by omega))]
    exact h b hab (by omega)

theorem Plane.run_right (P : Plane) (R0 F0 r : Nat) (h1 : 1 ≤ R0)
    (hlo : R0 - (P.entry F0 R0).mr ≤ r) (hhi : r < R0) : P.actAt r F0 = Act.right := by
  obtain ⟨_, _, _, hle, hrun, _⟩ := P.row_invariant F0 R0 h1
  generalize (P.entry F0 R0).mr = m at hlo hle hrun
  have := hrun (R0 - 1 - r) (by omega)
  have e : R0 - 1 - (R0 - 1 - r) = r := by omega
  rw [e] at this
  exact this

theorem Plane.run_lo (P : Plane) (R0 F0 : Nat) (h1 : 1 ≤ R0) :
    1 ≤ R0 - (P.entry F0 R0).mr := by
  obtain ⟨_, _, _, hle, _, _⟩ := P.row_invariant F0 R0 h1
  generalize (P.entry F0 R0).mr = m at hle ⊢
  omega

theorem Plane.run_heights (P : Plane) (R0 F0 r : Nat) (h1 : 1 ≤ R0)
    (hlo : R0 - (P.entry F0 R0).mr ≤ r) (hhi : r ≤ R0) :
    P.heights (F0 - 1) r = P.heights (F0 - 1) R0 := by
  have hr1 : 1 ≤ R0 - (P.entry F0 R0).mr := P.run_lo R0 F0 h1
  apply chain_eq (fun i => P.heights (F0 - 1) i) r R0 hhi
  intro i hi1 hi2
  have hright := P.run_right R0 F0 i h1 (by omega) hi2
  exact (P.actAt_right i F0 (by omega) hright).2.2.1

theorem Plane.rect_lo (P : Plane) (R0 F0 : Nat) (h1 : 1 ≤ R0) (h2 : R0 ≤ 62) (hF : 1 ≤ F0) :
    1 ≤ F0 - P.heights (F0 - 1) R0 := by
  have := (P.heights_invariant R0 h1 h2 (F0 - 1)).1
  generalize P.heights (F0 - 1) R0 = g at this ⊢
  omega

/-- Cells of the rectangle that terminates at `(R0, F0)`: those before the last
row merged forward, those of the last row before the last column extended to
the right. -/
theorem Plane.rect_act (P : Plane) (R0 F0 r f : Nat) (h1 : 1 ≤ R0) (h2 : R0 ≤ 62)
    (hF : 1 ≤ F0) (hin : P.inRect R0 F0 r f) :
    1 ≤ r ∧ 1 ≤ f ∧ (f < F0 → P.actAt r f = Act.fwd) ∧
      (f = F0 → r < R0 → P.actAt r f = Act.right) := by
  obtain ⟨hr1, hr2, hf1, hf2⟩ := hin
  have hlo := P.run_lo R0 F0 h1
  have hflo := P.rect_lo R0 F0 h1 h2 hF
  have hr : 1 ≤ r := by omega
  refine ⟨hr, by omega, ?_, ?_⟩
  · intro hlt
    have hH := P.run_heights R0 F0 r h1 hr1 hr2
    obtain ⟨_, hrun, _, _⟩ := P.heights_invariant r hr (by omega) (F0 - 1)
    rw [hH] at hrun
    generalize P.heights (F0 - 1) R0 = g at hf1 hrun hflo
    have := hrun (F0 - 1 - f) (by omega)
    have e : F0 - 1 - (F0 - 1 - f) = f := by omega
    rw [e] at this
    exact this
  · intro he hlt
    subst he
    exact P.run_right R0 f r h1 hr1 hlt

/-- All cells of a rectangle carry the attributes of the cell at which it
terminates. -/
theorem Plane.rect_attr (P : Plane) (R0 F0 r f : Nat) (h1 : 1 ≤ R0) (h2 : R0 ≤ 62)
    (hF : 1 ≤ F0) (hin : P.inRect R0 F0 r f) : P.A r f = P.A R0 F0 := by
  have hin' := hin
  obtain ⟨hr1, hr2, hf1, hf2⟩ := hin
  have hlo := P.run_lo R0 F0 h1
  have hflo := P.rect_lo R0 F0 h1 h2 hF
  have e1 : P.A r f = P.A r F0 := by
    apply chain_eq (fun i => P.A r i) f F0 hf2
    intro i hi1 hi2
    have hi : P.inRect R0 F0 r i := ⟨hr1, hr2, by omega, by omega⟩
    have hfwd := (P.rect_act R0 F0 r i h1 h2 hF hi).2.2.1 hi2
    exact (P.actAt_fwd r i (by omega) hfwd).2.2.2
  have e2 : P.A r F0 = P.A R0 F0 := by
    apply chain_eq (fun i => P.A i F0) r R0 hr2
    intro i hi1 hi2
    have hright := P.run_right R0 F0 i h1 (by omega) hi2
    exact (P.actAt_right i F0 (by omega) hright).2.2.2
  rw [e1, e2]

/-- Every cell of a rectangle carries an exposed face. -/
theorem Plane.rect_E (P : Plane) (R0 F0 r f : Nat) (h1 : 1 ≤ R0) (h2 : R0 ≤ 62)
    (hF : 1 ≤ F0) (hemit : P.actAt R0 F0 = Act.emit) (hin : P.inRect R0 F0 r f) :
    P.E r f = true := by
  obtain ⟨hr, hf, hfwd, hright⟩ := P.rect_act R0 F0 r f h1 h2 hF hin
  apply P.actAt_E r f hr
  obtain ⟨hr1, hr2, hf1, hf2⟩ := hin
  by_cases hlt : f < F0
  · rw [hfwd hlt]; exact fun h => Act.noConfusion h
  · have he : f = F0 := by omega
    by_cases hlt2 : r < R0
    · rw [hright he hlt2]; exact fun h => Act.noConfusion h
    · have he2 : r = R0 := by omega
      rw [he, he2, hemit]; exact fun h => Act.noConfusion h

end Mesher

namespace Mesher

/-! ## Every exposed face lies in exactly one rectangle -/

theorem Plane.rect_last_row (P : Plane) (R0 F0 r f : Nat) (h1 : 1 ≤ R0) (h2 : R0 ≤ 62)
    (hF : 1 ≤ F0) (hemit : P.actAt R0 F0 = Act.emit) (hin : P.inRect R0 F0 r f) :
    P.actAt r F0 ≠ Act.fwd := by
  obtain ⟨hr1, hr2, hf1, hf2⟩ := hin
  have hin2 : P.inRect R0 F0 r F0 := ⟨hr1, hr2, Nat.sub_le _ _, le_refl _⟩
  obtain ⟨_, _, _, hright⟩ := P.rect_act R0 F0 r F0 h1 h2 hF hin2
  by_cases hlt : r < R0
  · rw [hright rfl hlt]; exact fun h => Act.noConfusion h
  · have he : r = R0 := by omega
    rw [he, hemit]; exact fun h => Act.noConfusion h

/-- Every cell that carries an exposed face lies in the rectangle of some cell
at which a rectangle terminates. -/
theorem Plane.cover (P : Plane) :
    ∀ m r f, 1 ≤ r → r ≤ 62 → 1 ≤ f → f ≤ 62 → (62 - r) + (62 - f) ≤ m →
      P.actAt r f ≠ Act.skip →
      ∃ R0 F0, r ≤ R0 ∧ R0 ≤ 62 ∧ f ≤ F0 ∧ F0 ≤ 62 ∧ P.actAt R0 F0 = Act.emit ∧
        P.inRect R0 F0 r f := by
  intro m
  induction m with
  | zero =>
    intro r f hr1 hr2 hf1 hf2 hm hns
    have er : r = 62 := by omega
    have ef : f = 62 := by omega
    subst er; subst ef
    cases hact : P.actAt 62 62 with
    | skip => exact absurd hact hns
    | fwd => have := (P.actAt_fwd 62 62 hr1 hact).1; omega
    | right => have := (P.actAt_right 62 62 hr1 hact).1; omega
    | emit =>
      exact ⟨62, 62, le_refl _, le_refl _, le_refl _, le_refl _, hact,
        Nat.sub_le _ _, le_refl _, Nat.sub_le _ _, le_refl _⟩
  | succ m ih =>
    intro r f hr1 hr2 hf1 hf2 hm hns
    cases hact : P.actAt r f with
    | skip => exact absurd hact hns
    | emit =>
      exact ⟨r, f, le_refl _, hr2, le_refl _, hf2, hact,
        Nat.sub_le _ _, le_refl _, Nat.sub_le _ _, le_refl _⟩
    | fwd =>
      obtain ⟨hf62, hE, _, _⟩ := P.actAt_fwd r f hr1 hact
      have hns2 : P.actAt r (f + 1) ≠ Act.skip := by
        intro h
        rw [(P.actAt_skip_iff r (f + 1) hr1).mp h] at hE
        exact Bool.noConfusion hE
      obtain ⟨R0, F0, hR1, hR2, hF1, hF2, hemit, hin⟩ :=
        ih r (f + 1) hr1 hr2 (by omega) (by omega) (by omega) hns2
      refine ⟨R0, F0, hR1, hR2, by omega, hF2, hemit, ?_⟩
      obtain ⟨a, b, c, d⟩ := hin
      refine ⟨a, b, ?_, by omega⟩
      by_contra hc
      have hH := P.run_heights R0 F0 r (by omega) a b
      obtain ⟨_, _, hmax, _⟩ := P.heights_invariant r hr1 hr2 (F0 - 1)
      rw [hH] at hmax
      generalize P.heights (F0 - 1) R0 = g at c hc hmax
      have e : F0 - 1 - g = f := by omega
      rw [e] at hmax
      exact hmax (by omega) hact
    | right =>
      obtain ⟨hr62, hE, _, _⟩ := P.actAt_right r f hr1 hact
      have hw : (P.entry f (r + 1)).w = true := by
        rw [P.entry_w_succ f r hr1, hact]
      have hnf := P.actAt_not_fwd_of_w (r + 1) f (by omega) hw
      have hns2 : P.actAt (r + 1) f ≠ Act.skip := by
        intro h
        rw [(P.actAt_skip_iff (r + 1) f (by omega)).mp h] at hE
        exact Bool.noConfusion hE
      obtain ⟨R0, F0, hR1, hR2, hF1, hF2, hemit, hin⟩ :=
        ih (r + 1) f (by omega) (by omega) hf1 hf2 (by omega) hns2
      have hfe : f = F0 := by
        by_contra hne
        exact hnf ((P.rect_act R0 F0 (r + 1) f (by omega) hR2 (by omega) hin).2.2.1 (by omega))
      subst hfe
      refine ⟨R0, f, by omega, hR2, le_refl _, hF2, hemit, ?_⟩
      obtain ⟨a, b, c, d⟩ := hin
      refine ⟨?_, by omega, c, d⟩
      by_contra hc
      obtain ⟨_, _, _, _, _, hmax⟩ := P.row_invariant f R0 (by omega)
      generalize (P.entry f R0).mr = g at a hc hmax
      have e : R0 - 1 - g = r := by omega
      rw [e] at hmax
      exact hmax (by omega) hact

/-- A cell lies in the rectangle of at most one terminating cell. -/
theorem Plane.rect_unique (P : Plane) (R1 F1 R2 F2 r f : Nat)
    (h11 : 1 ≤ R1) (h12 : R1 ≤ 62) (hF1 : 1 ≤ F1)
    (h21 : 1 ≤ R2) (h22 : R2 ≤ 62) (hF2 : 1 ≤ F2)
    (he1 : P.actAt R1 F1 = Act.emit) (he2 : P.actAt R2 F2 = Act.emit)
    (hin1 : P.inRect R1 F1 r f) (hin2 : P.inRect R2 F2 r f) : R1 = R2 ∧ F1 = F2 := by
  have hF : F1 = F2 := by
    by_contra hne
    obtain ⟨a1, b1, c1, d1⟩ := hin1
    obtain ⟨a2, b2, c2, d2⟩ := hin2
    rcases Nat.lt_or_gt_of_ne hne with hlt | hgt
    · have hin : P.inRect R2 F2 r F1 := ⟨a2, b2, by omega, by omega⟩
      have hfwd := (P.rect_act R2 F2 r F1 h21 h22 hF2 hin).2.2.1 hlt
      exact P.rect_last_row R1 F1 r f h11 h12 hF1 he1 ⟨a1, b1, c1, d1⟩ hfwd
    · have hin : P.inRect R1 F1 r F2 := ⟨a1, b1, by omega, by omega⟩
      have hfwd := (P.rect_act R1 F1 r F2 h11 h12 hF1 hin).2.2.1 hgt
      exact P.rect_last_row R2 F2 r f h21 h22 hF2 he2 ⟨a2, b2, c2, d2⟩ hfwd
  subst hF
  refine ⟨?_, rfl⟩
  by_contra hne
  obtain ⟨a1, b1, c1, d1⟩ := hin1
  obtain ⟨a2, b2, c2, d2⟩ := hin2
  rcases Nat.lt_or_gt_of_ne hne with hlt | hgt
  · have hin : P.inRect R2 F1 R1 F1 := ⟨by omega, by omega, Nat.sub_le _ _, le_refl _⟩
    have := (P.rect_act R2 F1 R1 F1 h21 h22 hF2 hin).2.2.2 rfl hlt
    rw [he1] at this
    exact Act.noConfusion this
  · have hin : P.inRect R1 F1 R2 F1 := ⟨by omega, by omega, Nat.sub_le _ _, le_refl _⟩
    have := (P.rect_act R1 F1 R2 F1 h11 h12 hF1 hin).2.2.2 rfl hgt
    rw [he2] at this
    exact Act.noConfusion this

end Mesher

namespace Mesher

/-! ## The emitted rectangles -/

theorem toU8_natCast (n : Nat) (h : n < 256) : toU8 (n : Int) = n := by
  unfold toU8
  omega

theorem toU8_sub (r m : Nat) (hm : m ≤ r) (hr : r < 256) :
    toU8 ((r : Int) - (m : Int)) = r - m := by
  unfold toU8
  omega

theorem toU8_succ (r : Nat) (hr : r + 1 < 256) : toU8 ((r : Int) + 1) = r + 1 := by
  unfold toU8
  omega

theorem toU8_up (face k : Nat) (hk : k + 1 < 256) :
    toU8 ((k : Int) + (if face % 2 = 0 then 1 else 0)) = k + (if face % 2 = 0 then 1 else 0) := by
  unfold toU8
  split <;> omega

/-- The rectangle that terminates at the cell `(r, f)` of the plane of `face`
at depth `k`. -/
theorem mem_quadAt_entry (v l : Array Nat) (face k r f : Nat) (hr1 : 1 ≤ r) (hr2 : r ≤ 62)
    (hf1 : 1 ≤ f) (hf2 : f ≤ 62) (hk2 : k ≤ 62) (q : Quad) :
    q ∈ quadAt (plane v l face k) face k r f ((plane v l face k).entry f r) ↔
      (plane v l face k).actAt r f = Act.emit ∧
      q = { face := face,
            L := r - ((plane v l face k).entry f r).mr,
            R := r + 1,
            F := f - (plane v l face k).heights (f - 1) r,
            B := f + 1,
            U := k + (if face % 2 = 0 then 1 else 0),
            type := (attr v l face r f k).1,
            light := (attr v l face r f k).2 } := by
  unfold quadAt
  have hact : (plane v l face k).act r f ((plane v l face k).entry f r) =
      (plane v l face k).actAt r f := rfl
  rw [hact]
  have hmr := ((plane v l face k).row_invariant f r hr1).2.2.2.1
  have hh := ((plane v l face k).heights_invariant r hr1 hr2 (f - 1)).1
  rw [(plane v l face k).entry_mf_self f r hr1]
  rw [toU8_sub r _ (by omega) (by omega), toU8_succ r (by omega),
    toU8_sub f _ (by omega) (by omega), toU8_succ f (by omega), toU8_up face k (by omega)]
  by_cases he : (plane v l face k).actAt r f = Act.emit
  · rw [if_pos he]
    simp only [List.mem_singleton, he, true_and]
    rfl
  · rw [if_neg he]
    simp [he]

theorem mem_quadList (v l : Array Nat) (q : Quad) :
    q ∈ quadList v l ↔
      ∃ face f r k, face < 6 ∧ 1 ≤ f ∧ f ≤ 62 ∧ 1 ≤ r ∧ r ≤ 62 ∧ 1 ≤ k ∧ k ≤ 62 ∧
        (plane v l face k).actAt r f = Act.emit ∧
        q = { face := face,
              L := r - ((plane v l face k).entry f r).mr,
              R := r + 1,
              F := f - (plane v l face k).heights (f - 1) r,
              B := f + 1,
              U := k + (if face % 2 = 0 then 1 else 0),
              type := (attr v l face r f k).1,
              light := (attr v l face r f k).2 } := by
  unfold quadList faceQuads rowQuads cellQuads
  simp only [List.mem_flatMap, List.mem_range, List.mem_range'_1]
  constructor
  · rintro ⟨face, hface, f, ⟨hf1, hf2⟩, r, ⟨hr1, hr2⟩, k, ⟨hk1, hk2⟩, hq⟩
    have := (mem_quadAt_entry v l face k r f hr1 (by omega) hf1 (by omega) (by omega) q).mp hq
    exact ⟨face, f, r, k, hface, hf1, by omega, hr1, by omega, hk1, by omega, this.1, this.2⟩
  · rintro ⟨face, f, r, k, hface, hf1, hf2, hr1, hr2, hk1, hk2, hact, hq⟩
    exact ⟨face, hface, f, ⟨hf1, by omega⟩, r, ⟨hr1, by omega⟩, k, ⟨hk1, by omega⟩,
      (mem_quadAt_entry v l face k r f hr1 hr2 hf1 hf2 hk2 q).mpr ⟨hact, hq⟩⟩

/-! ## Order of emission -/

theorem quadAt_key (P : Plane) (face k r f : Nat) (s : Slice) (hr : r ≤ 62) (hf : f ≤ 62)
    (hk : k ≤ 62) (q : Quad) (hq : q ∈ quadAt P face k r f s) :
    q.face = face ∧ q.B = f + 1 ∧ q.R = r + 1 ∧ q.U = k + (if face % 2 = 0 then 1 else 0) := by
  unfold quadAt at hq
  split at hq
  · rw [List.mem_singleton] at hq
    subst hq
    exact ⟨rfl, toU8_succ f (by omega), toU8_succ r (by omega), toU8_up face k (by omega)⟩
  · exact absurd hq (List.not_mem_nil q)

theorem quadAt_pairwise (P : Plane) (face k r f : Nat) (s : Slice) :
    (quadAt P face k r f s).Pairwise quadBefore := by
  unfold quadAt
  split
  · exact List.pairwise_singleton _ _
  · exact List.Pairwise.nil

theorem cellQuads_key (v l : Array Nat) (face f r : Nat) (hr : r ≤ 62) (hf : f ≤ 62)
    (q : Quad) (hq : q ∈ cellQuads v l face f r) :
    q.face = face ∧ q.B = f + 1 ∧ q.R = r + 1 := by
  unfold cellQuads at hq
  rw [List.mem_flatMap] at hq
  obtain ⟨k, hk, hq⟩ := hq
  rw [List.mem_range'_1] at hk
  have := quadAt_key _ face k r f _ hr hf (by omega) q hq
  exact ⟨this.1, this.2.1, this.2.2.1⟩

theorem cellQuads_pairwise (v l : Array Nat) (face f r : Nat) (hr : r ≤ 62) (hf : f ≤ 62) :
    (cellQuads v l face f r).Pairwise quadBefore := by
  unfold cellQuads
  rw [List.pairwise_flatMap]
  refine ⟨fun k _ => quadAt_pairwise _ _ _ _ _ _, ?_⟩
  have hlt := List.pairwise_lt_range' 1 62
  refine List.Pairwise.imp_of_mem ?_ hlt
  intro a b ha hb hab x hx y hy
  rw [List.mem_range'_1] at ha hb
  have kx := quadAt_key _ face a r f _ hr hf (by omega) x hx
  have ky := quadAt_key _ face b r f _ hr hf (by omega) y hy
  unfold quadBefore
  right
  refine ⟨by rw [kx.1, ky.1], Or.inr ⟨by rw [kx.2.1, ky.2.1], Or.inr ⟨by rw [kx.2.2.1, ky.2.2.1], ?_⟩⟩⟩
  rw [kx.2.2.2, ky.2.2.2]
  omega

theorem rowQuads_key (v l : Array Nat) (face f : Nat) (hf : f ≤ 62)
    (q : Quad) (hq : q ∈ rowQuads v l face f) : q.face = face ∧ q.B = f + 1 := by
  unfold rowQuads at hq
  rw [List.mem_flatMap] at hq
  obtain ⟨r, hr, hq⟩ := hq
  rw [List.mem_range'_1] at hr
  have := cellQuads_key v l face f r (by omega) hf q hq
  exact ⟨this.1, this.2.1⟩

theorem rowQuads_pairwise (v l : Array Nat) (face f : Nat) (hf : f ≤ 62) :
    (rowQuads v l face f).Pairwise quadBefore := by
  unfold rowQuads
  rw [List.pairwise_flatMap]
  refine ⟨fun r hr => ?_, ?_⟩
  · rw [List.mem_range'_1] at hr
    exact cellQuads_pairwise v l face f r (by omega) hf
  · have hlt := List.pairwise_lt_range' 1 62
    refine List.Pairwise.imp_of_mem ?_ hlt
    intro a b ha hb hab x hx y hy
    rw [List.mem_range'_1] at ha hb
    have kx := cellQuads_key v l face f a (by omega) hf x hx
    have ky := cellQuads_key v l face f b (by omega) hf y hy
    unfold quadBefore
    right
    refine ⟨by rw [kx.1, ky.1], Or.inr ⟨by rw [kx.2.1, ky.2.1], Or.inl ?_⟩⟩
    rw [kx.2.2, ky.2.2]
    omega

theorem faceQuads_key (v l : Array Nat) (face : Nat)
    (q : Quad) (hq : q ∈ faceQuads v l face) : q.face = face := by
  unfold faceQuads at hq
  rw [List.mem_flatMap] at hq
  obtain ⟨f, hf, hq⟩ := hq
  rw [List.mem_range'_1] at hf
  exact (rowQuads_key v l face f (by omega) q hq).1

theorem faceQuads_pairwise (v l : Array Nat) (face : Nat) :
    (faceQuads v l face).Pairwise quadBefore := by
  unfold faceQuads
  rw [List.pairwise_flatMap]
  refine ⟨fun f hf => ?_, ?_⟩
  · rw [List.mem_range'_1] at hf
    exact rowQuads_pairwise v l face f (by omega)
  · have hlt := List.pairwise_lt_range' 1 62
    refine List.Pairwise.imp_of_mem ?_ hlt
    intro a b ha hb hab x hx y hy
    rw [List.mem_range'_1] at ha hb
    have kx := rowQuads_key v l face a (by omega) x hx
    have ky := rowQuads_key v l face b (by omega) y hy
    unfold quadBefore
    right
    refine ⟨by rw [kx.1, ky.1], Or.inl ?_⟩
    rw [kx.2, ky.2]
    omega

/-- The rectangles are emitted in strictly increasing order of
`(face, forward, right, depth)` of the cell at which they terminate. -/
theorem quadList_sorted (v l : Array Nat) : (quadList v l).Pairwise quadBefore := by
  unfold quadList
  rw [List.pairwise_flatMap]
  refine ⟨fun face _ => faceQuads_pairwise v l face, ?_⟩
  have hlt := List.pairwise_lt_range 6
  refine List.Pairwise.imp_of_mem ?_ hlt
  intro a b _ _ hab x hx y hy
  have kx := faceQuads_key v l a x hx
  have ky := faceQuads_key v l b y hy
  unfold quadBefore
  left
  rw [kx, ky]
  exact hab

theorem quadBefore_irrefl (q : Quad) : ¬ quadBefore q q := by
  unfold quadBefore
  omega

end Mesher

namespace Mesher

/-! ## Vertices of the emitted rectangles -/

theorem toShort_toShort_add (a b : Int) : toShort (toShort a + b) = toShort (a + b) := by
  unfold toShort
  omega

theorem toShort_of_inShort (x : Int) (h : inShort x) : toShort x = x := by
  unfold inShort at h
  unfold toShort
  omega

theorem quadEmit_eq (pos : IVec3) (q : Quad) (hface : q.face < 6) :
    quadEmit (toShort ((pos.x * CS) - 1)) (toShort ((pos.y * CS) - 1))
      (toShort ((pos.z * CS) - 1)) q = quadVertices pos q := by
  obtain ⟨face, L, R, F, B, U, ty, li⟩ := q
  simp only at hface
  unfold quadEmit emitQuad quadVertices
  simp only
  interval_cases face <;>
    simp [faceTable, Quad.lane, toShort_toShort_add]

theorem quadList_face (v l : Array Nat) (q : Quad) (hq : q ∈ quadList v l) : q.face < 6 := by
  obtain ⟨face, f, r, k, hface, _, _, _, _, _, _, _, he⟩ := (mem_quadList v l q).mp hq
  rw [he]
  exact hface

/-- The result of `mesh` in terms of the table of the specification, for
inputs that have at least the expected length. -/
theorem mesh_eq_table_ge (v l : Array Nat) (pos : IVec3) (hv : CS_P3 ≤ v.size)
    (hl : CS_P3 ≤ l.size) :
    mesh v l pos = .ok (packVertices ((quadList v l).flatMap (quadVertices pos))) := by
  rw [mesh_eq_ge v l pos hv hl]
  congr 2
  apply flatMap_congr_mem
  intro q hq
  exact quadEmit_eq pos q (quadList_face v l q hq)

/-- The result of `mesh` in terms of the table of the specification. -/
theorem mesh_eq_table (v l : Array Nat) (pos : IVec3) (hv : v.size = CS_P3)
    (hl : l.size = CS_P3) :
    mesh v l pos = .ok (packVertices ((quadList v l).flatMap (quadVertices pos))) :=
  mesh_eq_table_ge v l pos (le_of_eq hv.symm) (le_of_eq hl.symm)

theorem axisIdx_inj (a r w k r1 w1 k1 : Nat) (hr : r < 64) (hw : w < 64) (hk : k < 64)
    (hr1 : r1 < 64) (hw1 : w1 < 64) (hk1 : k1 < 64)
    (h : axisIdx a r w k = axisIdx a r1 w1 k1) : r = r1 ∧ w = w1 ∧ k = k1 := by
  unfold axisIdx at h
  split at h
  · omega
  · split at h <;> omega

theorem covers_iff (face r f k mr H cell face1 : Nat) (ty li : Nat) :
    covers { face := face, L := r - mr, R := r + 1, F := f - H, B := f + 1,
             U := k + (if face % 2 = 0 then 1 else 0), type := ty, light := li } cell face1 ↔
      face = face1 ∧ ∃ r1 w1, r - mr ≤ r1 ∧ r1 ≤ r ∧ f - H ≤ w1 ∧ w1 ≤ f ∧
        cell = axisIdx (face / 2) r1 w1 k := by
  unfold covers Quad.depth
  simp only
  have hd : k + (if face % 2 = 0 then 1 else 0) - (if face % 2 = 0 then 1 else 0) = k := by
    split <;> omega
  rw [hd]
  constructor
  · rintro ⟨he, r1, w1, h1, h2, h3, h4, h5⟩
    subst he
    refine ⟨rfl, r1, w1, h1, by omega, h3, by omega, ?_⟩
    rw [get_axis_i_cast] at h5
    exact_mod_cast h5
  · rintro ⟨he, r1, w1, h1, h2, h3, h4, h5⟩
    subst he
    refine ⟨rfl, r1, w1, h1, by omega, h3, by omega, ?_⟩
    rw [get_axis_i_cast, h5]

theorem exposedFace_iff (v : Array Nat) (cell face : Nat) (hface : face < 6) :
    exposedFace v cell face ↔
      ∃ r f k, 1 ≤ r ∧ r ≤ 62 ∧ 1 ≤ f ∧ f ≤ 62 ∧ 1 ≤ k ∧ k ≤ 62 ∧
        cell = axisIdx (face / 2) r f k ∧ faceBit v face r f k = true := by
  unfold exposedFace faceBit upDepth axisStride axisIdx
  simp only [CS_eq, CS_P_eq, CS_P2_eq, hface, true_and, Bool.and_eq_true, decide_eq_true_eq]
  have ha : face / 2 = 0 ∨ face / 2 = 1 ∨ face / 2 = 2 := by omega
  by_cases hev : face % 2 = 0
  · simp only [hev, if_true]
    rcases ha with ha | ha | ha
    · rw [ha]
      simp only [if_true]
      constructor
      · rintro ⟨x, y, z, h1, h2, h3, h4, h5, h6, rfl, h7, h8⟩
        refine ⟨x, z, y, h1, h2, h5, h6, h3, h4, by omega, ?_, ?_⟩
        · have e : z + x * 64 + y * 4096 = y * 4096 + x * 64 + z := by omega
          rw [e]; exact h7
        · have e : z + x * 64 + (y + 1) * 4096 = y * 4096 + x * 64 + z + 4096 := by omega
          rw [e]; exact h8
      · rintro ⟨r, f, k, h1, h2, h3, h4, h5, h6, rfl, h7, h8⟩
        refine ⟨r, k, f, h1, h2, h5, h6, h3, h4, by omega, h7, ?_⟩
        have e : f + r * 64 + k * 4096 + 4096 = f + r * 64 + (k + 1) * 4096 := by omega
        rw [e]; exact h8
    · rw [ha]
      simp only [if_true, OfNat.one_ne_ofNat, one_ne_zero, if_false]
      constructor
      · rintro ⟨x, y, z, h1, h2, h3, h4, h5, h6, rfl, h7, h8⟩
        refine ⟨z, y, x, h5, h6, h3, h4, h1, h2, by omega, ?_, ?_⟩
        · have e : z + x * 64 + y * 4096 = y * 4096 + x * 64 + z := by omega
          rw [e]; exact h7
        · have e : z + (x + 1) * 64 + y * 4096 = y * 4096 + x * 64 + z + 64 := by omega
          rw [e]; exact h8
      · rintro ⟨r, f, k, h1, h2, h3, h4, h5, h6, rfl, h7, h8⟩
        refine ⟨k, f, r, h5, h6, h3, h4, h1, h2, by omega, h7, ?_⟩
        have e : r + k * 64 + f * 4096 + 64 = r + (k + 1) * 64 + f * 4096 := by omega
        rw [e]; exact h8
    · rw [ha]
      simp only [OfNat.ofNat_ne_zero, OfNat.ofNat_ne_one, if_false]
      constructor
      · rintro ⟨x, y, z, h1, h2, h3, h4, h5, h6, rfl, h7, h8⟩
        refine ⟨y, x, z, h3, h4, h1, h2, h5, h6, by omega, ?_, ?_⟩
        · have e : z + x * 64 + y * 4096 = y * 4096 + x * 64 + z := by omega
          rw [e]; exact h7
        · have e : z + 1 + x * 64 + y * 4096 = y * 4096 + x * 64 + z + 1 := by omega
          rw [e]; exact h8
      · rintro ⟨r, f, k, h1, h2, h3, h4, h5, h6, rfl, h7, h8⟩
        refine ⟨f, r, k, h3, h4, h1, h2, h5, h6, by omega, h7, ?_⟩
        have e : k + f * 64 + r * 4096 + 1 = k + 1 + f * 64 + r * 4096 := by omega
        rw [e]; exact h8
  · simp only [hev, if_false]
    rcases ha with ha | ha | ha
    · rw [ha]
      simp only [if_true]
      constructor
      · rintro ⟨x, y, z, h1, h2, h3, h4, h5, h6, rfl, h7, h8⟩
        refine ⟨x, z, y, h1, h2, h5, h6, h3, h4, by omega, ?_, ?_⟩
        · have e : z + x * 64 + y * 4096 = y * 4096 + x * 64 + z := by omega
          rw [e]; exact h7
        · have e : z + x * 64 + (y - 1) * 4096 = y * 4096 + x * 64 + z - 4096 := by omega
          rw [e]; exact h8
      · rintro ⟨r, f, k, h1, h2, h3, h4, h5, h6, rfl, h7, h8⟩
        refine ⟨r, k, f, h1, h2, h5, h6, h3, h4, by omega, h7, ?_⟩
        have e : f + r * 64 + k * 4096 - 4096 = f + r * 64 + (k - 1) * 4096 := by omega
        rw [e]; exact h8
    · rw [ha]
      simp only [if_true, OfNat.one_ne_ofNat, one_ne_zero, if_false]
      constructor
      · rintro ⟨x, y, z, h1, h2, h3, h4, h5, h6, rfl, h7, h8⟩
        refine ⟨z, y, x, h5, h6, h3, h4, h1, h2, by omega, ?_, ?_⟩
        · have e : z + x * 64 + y * 4096 = y * 4096 + x * 64 + z := by omega
          rw [e]; exact h7
        · have e : z + (x - 1) * 64 + y * 4096 = y * 4096 + x * 64 + z - 64 := by omega
          rw [e]; exact h8
      · rintro ⟨r, f, k, h1, h2, h3, h4, h5, h6, rfl, h7, h8⟩
        refine ⟨k, f, r, h5, h6, h3, h4, h1, h2, by omega, h7, ?_⟩
        have e : r + k * 64 + f * 4096 - 64 = r + (k - 1) * 64 + f * 4096 := by omega
        rw [e]; exact h8
    · rw [ha]
      simp only [OfNat.ofNat_ne_zero, OfNat.ofNat_ne_one, if_false]
      constructor
      · rintro ⟨x, y, z, h1, h2, h3, h4, h5, h6, rfl, h7, h8⟩
        refine ⟨y, x, z, h3, h4, h1, h2, h5, h6, by omega, ?_, ?_⟩
        · have e : z + x * 64 + y * 4096 = y * 4096 + x * 64 + z := by omega
          rw [e]; exact h7
        · have e : z - 1 + x * 64 + y * 4096 = y * 4096 + x * 64 + z - 1 := by omega
          rw [e]; exact h8
      · rintro ⟨r, f, k, h1, h2, h3, h4, h5, h6, rfl, h7, h8⟩
        refine ⟨f, r, k, h3, h4, h1, h2, h5, h6, by omega, h7, ?_⟩
        have e : k + f * 64 + r * 4096 - 1 = k - 1 + f * 64 + r * 4096 := by omega
        rw [e]; exact h8

end Mesher

namespace Mesher

/-! ## Properties of the emitted rectangles -/

theorem quadList_data (v l : Array Nat) (q : Quad) (hq : q ∈ quadList v l) :
    ∃ face f r k mr H, face < 6 ∧ 1 ≤ f ∧ f ≤ 62 ∧ 1 ≤ r ∧ r ≤ 62 ∧ 1 ≤ k ∧ k ≤ 62 ∧
      (plane v l face k).actAt r f = Act.emit ∧
      mr = ((plane v l face k).entry f r).mr ∧ H = (plane v l face k).heights (f - 1) r ∧
      mr + 1 ≤ r ∧ H + 1 ≤ f ∧
      q = { face := face, L := r - mr, R := r + 1, F := f - H, B := f + 1,
            U := k + (if face % 2 = 0 then 1 else 0),
            type := (attr v l face r f k).1, light := (attr v l face r f k).2 } := by
  obtain ⟨face, f, r, k, hface, hf1, hf2, hr1, hr2, hk1, hk2, hact, he⟩ :=
    (mem_quadList v l q).mp hq
  have hmr := ((plane v l face k).row_invariant f r hr1).2.2.2.1
  have hh := ((plane v l face k).heights_invariant r hr1 hr2 (f - 1)).1
  exact ⟨face, f, r, k, _, _, hface, hf1, hf2, hr1, hr2, hk1, hk2, hact, rfl, rfl, hmr,
    by omega, he⟩

/-- A rectangle of the output covers only exposed interior faces. -/
theorem covers_exposed (v l : Array Nat) (q : Quad) (hq : q ∈ quadList v l)
    (cell face : Nat) (hc : covers q cell face) : exposedFace v cell face := by
  obtain ⟨face0, f, r, k, mr, H, hface, hf1, hf2, hr1, hr2, hk1, hk2, hact, hmr, hH, hmr1, hH1,
    he⟩ := quadList_data v l q hq
  rw [he, covers_iff] at hc
  obtain ⟨hfe, r1, w1, h1, h2, h3, h4, h5⟩ := hc
  subst hfe
  have hin : (plane v l face0 k).inRect r f r1 w1 := by
    unfold Plane.inRect
    rw [← hmr, ← hH]
    exact ⟨h1, h2, h3, h4⟩
  have hE := (plane v l face0 k).rect_E r f r1 w1 hr1 hr2 hf1 hact hin
  obtain ⟨hr1', hw1', _, _⟩ := (plane v l face0 k).rect_act r f r1 w1 hr1 hr2 hf1 hin
  exact (exposedFace_iff v cell face0 hface).mpr
    ⟨r1, w1, k, hr1', by omega, hw1', by omega, hk1, hk2, h5, hE⟩

/-- Every exposed interior face is covered by a rectangle of the output. -/
theorem exposed_covered (v l : Array Nat) (cell face : Nat) (hx : exposedFace v cell face) :
    ∃ q, q ∈ quadList v l ∧ covers q cell face := by
  have hface : face < 6 := hx.1
  obtain ⟨r, f, k, hr1, hr2, hf1, hf2, hk1, hk2, hcell, hE⟩ :=
    (exposedFace_iff v cell face hface).mp hx
  have hns : (plane v l face k).actAt r f ≠ Act.skip := by
    intro h
    have := ((plane v l face k).actAt_skip_iff r f hr1).mp h
    have hE2 : (plane v l face k).E r f = true := hE
    rw [this] at hE2
    exact Bool.noConfusion hE2
  obtain ⟨R0, F0, hR1, hR2, hF1, hF2, hemit, hin⟩ :=
    (plane v l face k).cover 124 r f hr1 hr2 hf1 hf2 (by omega) hns
  refine ⟨_, (mem_quadList v l _).mpr ⟨face, F0, R0, k, hface, by omega, hF2, by omega, hR2,
    hk1, hk2, hemit, rfl⟩, ?_⟩
  rw [covers_iff]
  obtain ⟨a, b, c, d⟩ := hin
  exact ⟨rfl, r, f, a, b, c, d, hcell⟩

/-- Two rectangles of the output that cover a common face are the same
rectangle. -/
theorem covers_unique (v l : Array Nat) (q1 q2 : Quad) (h1 : q1 ∈ quadList v l)
    (h2 : q2 ∈ quadList v l) (cell face : Nat) (hc1 : covers q1 cell face)
    (hc2 : covers q2 cell face) : q1 = q2 := by
  obtain ⟨face1, f1, r1, k1, mr1, H1, hface1, hf11, hf12, hr11, hr12, hk11, hk12, hact1, hmr1,
    hH1, hmr11, hH11, he1⟩ := quadList_data v l q1 h1
  obtain ⟨face2, f2, r2, k2, mr2, H2, hface2, hf21, hf22, hr21, hr22, hk21, hk22, hact2, hmr2,
    hH2, hmr21, hH21, he2⟩ := quadList_data v l q2 h2
  rw [he1, covers_iff] at hc1
  rw [he2, covers_iff] at hc2
  obtain ⟨hfe1, a1, b1, x1, x2, x3, x4, x5⟩ := hc1
  obtain ⟨hfe2, a2, b2, y1, y2, y3, y4, y5⟩ := hc2
  subst hfe1
  subst hfe2
  rw [x5] at y5
  obtain ⟨ea, eb, ek⟩ := axisIdx_inj (face2 / 2) a1 b1 k1 a2 b2 k2 (by omega) (by omega)
    (by omega) (by omega) (by omega) (by omega) y5
  subst ea; subst eb; subst ek
  have hin1 : (plane v l face2 k1).inRect r1 f1 a1 b1 := by
    unfold Plane.inRect
    rw [← hmr1, ← hH1]
    exact ⟨x1, x2, x3, x4⟩
  have hin2 : (plane v l face2 k1).inRect r2 f2 a1 b1 := by
    unfold Plane.inRect
    rw [← hmr2, ← hH2]
    exact ⟨y1, y2, y3, y4⟩
  obtain ⟨er, ef⟩ := (plane v l face2 k1).rect_unique r1 f1 r2 f2 a1 b1 hr11 hr12 hf11
    hr21 hr22 hf21 hact1 hact2 hin1 hin2
  subst er; subst ef
  rw [he1, he2, hmr1, hmr2, hH1, hH2]

end Mesher

namespace Mesher

/-! ## Concrete inputs -/

theorem boxVoxels_size (x0 x1 y0 y1 z0 z1 t : Nat) :
    (boxVoxels x0 x1 y0 y1 z0 z1 t).size = CS_P3 := by
  unfold boxVoxels
  exact Array.size_ofFn _

theorem singleVoxel_size : singleVoxel.size = CS_P3 := boxVoxels_size 1 1 1 1 1 1 1

theorem uniformLight_size (a : Nat) : (uniformLight a).size = CS_P3 :=
  Array.size_mkArray _ _

/-- Every rectangle of the output lies inside the chunk. -/
theorem quadList_inChunk (v l : Array Nat) (q : Quad) (hq : q ∈ quadList v l) : q.inChunk := by
  obtain ⟨face, f, r, k, mr, H, hface, hf1, hf2, hr1, hr2, hk1, hk2, hact, hmr, hH, hmr1, hH1,
    he⟩ := quadList_data v l q hq
  have hd : q.depth = k := by
    rw [he]
    unfold Quad.depth
    simp only
    split <;> omega
  unfold Quad.inChunk
  rw [hd, he]
  simp only
  omega

end Mesher

namespace Mesher

/-! ## Claims C1 to C4 -/

/-- C1 (coverage): for inputs of length `CS_P3` and every origin, `mesh`
returns the vertices of a list of rectangles, each inside the chunk (so that
the vertices determine the rectangles), whose covered voxel faces are exactly
the exposed interior faces. -/
theorem mesh_coverage (v l : Array Nat) (pos : IVec3) (hv : v.size = CS_P3)
    (hl : l.size = CS_P3) :
    ∃ qs : List Quad, mesh v l pos = .ok (packVertices (qs.flatMap (quadVertices pos))) ∧
      (∀ q, q ∈ qs → q.inChunk) ∧
      ∀ cell face, (∃ q, q ∈ qs ∧ covers q cell face) ↔ exposedFace v cell face := by
  refine ⟨quadList v l, mesh_eq_table v l pos hv hl, quadList_inChunk v l, ?_⟩
  intro cell face
  constructor
  · rintro ⟨q, hq, hc⟩
    exact covers_exposed v l q hq cell face hc
  · intro hx
    exact exposed_covered v l cell face hx

/-- Witness of C1 at the single voxel `(1, 1, 1)` with light 7. -/
theorem mesh_coverage_witness :
    singleVoxel.size = CS_P3 ∧ (uniformLight 7).size = CS_P3 ∧
    ∃ qs : List Quad, mesh singleVoxel (uniformLight 7) ⟨0, 0, 0⟩ =
        .ok (packVertices (qs.flatMap (quadVertices ⟨0, 0, 0⟩))) ∧
      (∀ q, q ∈ qs → q.inChunk) ∧
      ∀ cell face, (∃ q, q ∈ qs ∧ covers q cell face) ↔
        exposedFace singleVoxel cell face :=
  ⟨singleVoxel_size, uniformLight_size 7,
    mesh_coverage singleVoxel (uniformLight 7) ⟨0, 0, 0⟩
      singleVoxel_size (uniformLight_size 7)⟩

/-- C2 (no double cover): for inputs of length `CS_P3` and every origin, `mesh`
returns the vertices of a list of rectangles, each inside the chunk (so that
the vertices determine the rectangles), and no voxel face is covered by two
rectangles at different positions of that list. -/
theorem mesh_no_double_cover (v l : Array Nat) (pos : IVec3) (hv : v.size = CS_P3)
    (hl : l.size = CS_P3) :
    ∃ qs : List Quad, mesh v l pos = .ok (packVertices (qs.flatMap (quadVertices pos))) ∧
      (∀ q, q ∈ qs → q.inChunk) ∧
      qs.Pairwise (fun q1 q2 => ¬ ∃ cell face, covers q1 cell face ∧ covers q2 cell face) := by
  refine ⟨quadList v l, mesh_eq_table v l pos hv hl, quadList_inChunk v l, ?_⟩
  refine List.Pairwise.imp_of_mem ?_ (quadList_sorted v l)
  intro q1 q2 h1 h2 hlt
  rintro ⟨cell, face, hc1, hc2⟩
  have := covers_unique v l q1 q2 h1 h2 cell face hc1 hc2
  rw [this] at hlt
  exact quadBefore_irrefl q2 hlt

/-- Witness of C2 at the single voxel `(1, 1, 1)` with light 7. -/
theorem mesh_no_double_cover_witness :
    singleVoxel.size = CS_P3 ∧ (uniformLight 7).size = CS_P3 ∧
    ∃ qs : List Quad, mesh singleVoxel (uniformLight 7) ⟨0, 0, 0⟩ =
        .ok (packVertices (qs.flatMap (quadVertices ⟨0, 0, 0⟩))) ∧
      (∀ q, q ∈ qs → q.inChunk) ∧
      qs.Pairwise (fun q1 q2 => ¬ ∃ cell face, covers q1 cell face ∧ covers q2 cell face) :=
  ⟨singleVoxel_size, uniformLight_size 7,
    mesh_no_double_cover singleVoxel (uniformLight 7) ⟨0, 0, 0⟩
      singleVoxel_size (uniformLight_size 7)⟩

theorem quadVertices_attr (pos : IVec3) (q : Quad) (u : Vertex) (hu : u ∈ quadVertices pos q) :
    u.type = q.type ∧ u.light = q.light ∧ u.normal = q.face := by
  unfold quadVertices at hu
  rw [List.mem_map] at hu
  obtain ⟨t, _, rfl⟩ := hu
  exact ⟨rfl, rfl, rfl⟩

/-- C3 (type and light constancy): for inputs of length `CS_P3`, `mesh` returns
the vertices of a list of rectangles, each inside the chunk (so that the
vertices determine the rectangles); the six vertices of every rectangle carry
its type and light, the type equals the voxel value of every covered cell, and
the light equals the light value of the cell one step on the exterior side of
every covered cell. -/
theorem mesh_type_light_constant (v l : Array Nat) (pos : IVec3) (hv : v.size = CS_P3)
    (hl : l.size = CS_P3) :
    ∃ qs : List Quad, mesh v l pos = .ok (packVertices (qs.flatMap (quadVertices pos))) ∧
      (∀ q, q ∈ qs → q.inChunk) ∧
      ∀ q, q ∈ qs →
        (∀ u, u ∈ quadVertices pos q → u.type = q.type ∧ u.light = q.light) ∧
        ∀ r w : Nat, q.L ≤ r → r < q.R → q.F ≤ w → w < q.B →
          q.type = v.getD (get_axis_i ((q.face / 2 : Nat) : Int) r w q.depth).toNat 0 ∧
          q.light = l.getD (get_axis_i ((q.face / 2 : Nat) : Int) r w
            (q.depth + lightDir q.face)).toNat 0 := by
  refine ⟨quadList v l, mesh_eq_table v l pos hv hl, quadList_inChunk v l, ?_⟩
  intro q hq
  refine ⟨fun u hu => ⟨(quadVertices_attr pos q u hu).1, (quadVertices_attr pos q u hu).2.1⟩, ?_⟩
  obtain ⟨face, f, r, k, mr, H, hface, hf1, hf2, hr1, hr2, hk1, hk2, hact, hmr, hH, hmr1, hH1,
    he⟩ := quadList_data v l q hq
  intro r1 w1 h1 h2 h3 h4
  rw [he] at h1 h2 h3 h4
  simp only at h1 h2 h3 h4
  have hin : (plane v l face k).inRect r f r1 w1 := by
    unfold Plane.inRect
    rw [← hmr, ← hH]
    exact ⟨h1, by omega, h3, by omega⟩
  have hattr := (plane v l face k).rect_attr r f r1 w1 hr1 hr2 hf1 hin
  have hattr2 : attr v l face r1 w1 k = attr v l face r f k := hattr
  have hd : q.depth = k := by
    rw [he]
    unfold Quad.depth
    simp only
    split <;> omega
  rw [hd, he]
  simp only
  rw [depth_cast face k (Or.inr hk1), get_axis_i_cast, get_axis_i_cast, Int.toNat_ofNat,
    Int.toNat_ofNat, ← hattr2]
  exact ⟨rfl, rfl⟩

/-- Witness of C3 at the single voxel `(1, 1, 1)` with light 7. -/
theorem mesh_type_light_constant_witness :
    singleVoxel.size = CS_P3 ∧ (uniformLight 7).size = CS_P3 ∧
    ∃ qs : List Quad, mesh singleVoxel (uniformLight 7) ⟨0, 0, 0⟩ =
        .ok (packVertices (qs.flatMap (quadVertices ⟨0, 0, 0⟩))) ∧
      (∀ q, q ∈ qs → q.inChunk) ∧
      ∀ q, q ∈ qs →
        (∀ u, u ∈ quadVertices ⟨0, 0, 0⟩ q → u.type = q.type ∧ u.light = q.light) ∧
        ∀ r w : Nat, q.L ≤ r → r < q.R → q.F ≤ w → w < q.B →
          q.type = singleVoxel.getD
            (get_axis_i ((q.face / 2 : Nat) : Int) r w q.depth).toNat 0 ∧
          q.light = (uniformLight 7).getD (get_axis_i ((q.face / 2 : Nat) : Int) r w
            (q.depth + lightDir q.face)).toNat 0 :=
  ⟨singleVoxel_size, uniformLight_size 7,
    mesh_type_light_constant singleVoxel (uniformLight 7) ⟨0, 0, 0⟩
      singleVoxel_size (uniformLight_size 7)⟩

/-- C4 (padding is never emitted): for inputs of length `CS_P3`, every emitted
rectangle comes from a depth in `[1, 62]` and has `1 ≤ mesh_left < mesh_right ≤ 63`
and `1 ≤ mesh_front < mesh_back ≤ 63` (so the 8-bit subtractions did not wrap),
and every cell it covers has its three coordinates in `[1, CS]`. -/
theorem mesh_interior_only (v l : Array Nat) (pos : IVec3) (hv : v.size = CS_P3)
    (hl : l.size = CS_P3) :
    ∃ qs : List Quad, mesh v l pos = .ok (packVertices (qs.flatMap (quadVertices pos))) ∧
      ∀ q, q ∈ qs →
        q.face < 6 ∧ 1 ≤ q.depth ∧ q.depth ≤ 62 ∧
        1 ≤ q.L ∧ q.L < q.R ∧ q.R ≤ 63 ∧ 1 ≤ q.F ∧ q.F < q.B ∧ q.B ≤ 63 ∧
        ∀ cell face, covers q cell face →
          ∃ x y z : Nat, 1 ≤ x ∧ x ≤ CS ∧ 1 ≤ y ∧ y ≤ CS ∧ 1 ≤ z ∧ z ≤ CS ∧
            cell = y * CS_P2 + x * CS_P + z := by
  refine ⟨quadList v l, mesh_eq_table v l pos hv hl, ?_⟩
  intro q hq
  obtain ⟨face, f, r, k, mr, H, hface, hf1, hf2, hr1, hr2, hk1, hk2, hact, hmr, hH, hmr1, hH1,
    he⟩ := quadList_data v l q hq
  have hd : q.depth = k := by
    rw [he]
    unfold Quad.depth
    simp only
    split <;> omega
  refine ⟨?_, ?_, ?_, ?_, ?_, ?_, ?_, ?_, ?_, ?_⟩
  · rw [he]; exact hface
  · rw [hd]; exact hk1
  · rw [hd]; exact hk2
  · rw [he]; simp only; omega
  · rw [he]; simp only; omega
  · rw [he]; simp only; omega
  · rw [he]; simp only; omega
  · rw [he]; simp only; omega
  · rw [he]; simp only; omega
  · intro cell face1 hc
    obtain ⟨_, x, y, z, h1, h2, h3, h4, h5, h6, h7, _⟩ := covers_exposed v l q hq cell face1 hc
    exact ⟨x, y, z, h1, h2, h3, h4, h5, h6, h7⟩

/-- Witness of C4 at the single voxel `(1, 1, 1)` with light 7. -/
theorem mesh_interior_only_witness :
    singleVoxel.size = CS_P3 ∧ (uniformLight 7).size = CS_P3 ∧
    ∃ qs : List Quad, mesh singleVoxel (uniformLight 7) ⟨0, 0, 0⟩ =
        .ok (packVertices (qs.flatMap (quadVertices ⟨0, 0, 0⟩))) ∧
      ∀ q, q ∈ qs →
        q.face < 6 ∧ 1 ≤ q.depth ∧ q.depth ≤ 62 ∧
        1 ≤ q.L ∧ q.L < q.R ∧ q.R ≤ 63 ∧ 1 ≤ q.F ∧ q.F < q.B ∧ q.B ≤ 63 ∧
        ∀ cell face, covers q cell face →
          ∃ x y z : Nat, 1 ≤ x ∧ x ≤ CS ∧ 1 ≤ y ∧ y ≤ CS ∧ 1 ≤ z ∧ z ≤ CS ∧
            cell = y * CS_P2 + x * CS_P + z :=
  ⟨singleVoxel_size, uniformLight_size 7,
    mesh_interior_only singleVoxel (uniformLight 7) ⟨0, 0, 0⟩
      singleVoxel_size (uniformLight_size 7)⟩

end Mesher

namespace Mesher

/-! ## Inputs without exposed faces -/

theorem quadList_eq_nil (v l : Array Nat)
    (h : ∀ face r f k, face < 6 → 1 ≤ r → r ≤ 62 → 1 ≤ f → f ≤ 62 → 1 ≤ k → k ≤ 62 →
      faceBit v face r f k = false) : quadList v l = [] := by
  rw [List.eq_nil_iff_forall_not_mem]
  intro q hq
  obtain ⟨face, f, r, k, hface, hf1, hf2, hr1, hr2, hk1, hk2, hact, _⟩ :=
    (mem_quadList v l q).mp hq
  have hskip := ((plane v l face k).actAt_skip_iff r f hr1).mpr
    (h face r f k hface hr1 hr2 hf1 hf2 hk1 hk2)
  rw [hskip] at hact
  exact Act.noConfusion hact

theorem mesh_of_quadList_nil (v l : Array Nat) (pos : IVec3) (hv : v.size = CS_P3)
    (hl : l.size = CS_P3) (h : quadList v l = []) : mesh v l pos = .ok none := by
  rw [mesh_eq_table v l pos hv hl, h]
  rfl

/-- C8 (empty input): if every entry of `voxels` is `0`, `mesh` returns the
null pointer. -/
theorem mesh_empty (v l : Array Nat) (pos : IVec3) (hv : v.size = CS_P3) (hl : l.size = CS_P3)
    (h0 : ∀ i, i < CS_P3 → v.getD i 0 = 0) : mesh v l pos = .ok none := by
  apply mesh_of_quadList_nil v l pos hv hl
  apply quadList_eq_nil
  intro face r f k hface hr1 hr2 hf1 hf2 hk1 hk2
  unfold faceBit
  have hz := h0 (axisIdx (face / 2) r f k)
    (by rw [CS_P3_eq]; exact axisIdx_lt _ _ _ _ (by omega) (by omega) (by omega))
  rw [hz]
  rfl

theorem getD_mkArray (n a i : Nat) (hi : i < n) : (Array.mkArray n a).getD i 0 = a := by
  simp [Array.getD, hi]

/-- Witness of C8 at the all-zero voxel vector with light 7 everywhere. -/
theorem mesh_empty_witness :
    (Array.mkArray CS_P3 0).size = CS_P3 ∧ (Array.mkArray CS_P3 7).size = CS_P3 ∧
    (∀ i, i < CS_P3 → (Array.mkArray CS_P3 0).getD i 0 = 0) ∧
    mesh (Array.mkArray CS_P3 0) (Array.mkArray CS_P3 7) ⟨0, 0, 0⟩ = .ok none :=
  ⟨Array.size_mkArray _ _, Array.size_mkArray _ _, fun i hi => getD_mkArray CS_P3 0 i hi,
    mesh_empty (Array.mkArray CS_P3 0) (Array.mkArray CS_P3 7) ⟨0, 0, 0⟩
      (Array.size_mkArray _ _) (Array.size_mkArray _ _)
      (fun i hi => getD_mkArray CS_P3 0 i hi)⟩

/-- C9 (full input): if every entry of `voxels`, padding included, is the same
nonzero type, `mesh` returns the null pointer. -/
theorem mesh_full (v l : Array Nat) (pos : IVec3) (t : Nat) (hv : v.size = CS_P3)
    (hl : l.size = CS_P3) (ht : t ≠ 0) (hfull : ∀ i, i < CS_P3 → v.getD i 0 = t) :
    mesh v l pos = .ok none := by
  apply mesh_of_quadList_nil v l pos hv hl
  apply quadList_eq_nil
  intro face r f k hface hr1 hr2 hf1 hf2 hk1 hk2
  unfold faceBit
  have hu := upDepth_lt_mid face k hk2
  have hz := hfull (axisIdx (face / 2) r f (upDepth face k))
    (by rw [CS_P3_eq]; exact axisIdx_lt _ _ _ _ (by omega) (by omega) hu)
  rw [hz, decide_eq_false ht, Bool.and_false]

/-- Witness of C9 at the voxel vector of type 3 everywhere. -/
theorem mesh_full_witness :
    (Array.mkArray CS_P3 3).size = CS_P3 ∧ (Array.mkArray CS_P3 7).size = CS_P3 ∧
    (3 : Nat) ≠ 0 ∧ (∀ i, i < CS_P3 → (Array.mkArray CS_P3 3).getD i 0 = 3) ∧
    mesh (Array.mkArray CS_P3 3) (Array.mkArray CS_P3 7) ⟨0, 0, 0⟩ = .ok none :=
  ⟨Array.size_mkArray _ _, Array.size_mkArray _ _, by decide,
    fun i hi => getD_mkArray CS_P3 3 i hi,
    mesh_full (Array.mkArray CS_P3 3) (Array.mkArray CS_P3 7) ⟨0, 0, 0⟩ 3
      (Array.size_mkArray _ _) (Array.size_mkArray _ _) (by decide)
      (fun i hi => getD_mkArray CS_P3 3 i hi)⟩

end Mesher

namespace Mesher

/-! ## Run of step 3 on a plane that holds one rectangle -/

theorem IsRect.E_false {P : Plane} {r0 r1 f0 f1 : Nat} {a : Nat × Nat}
    (h : IsRect P r0 r1 f0 f1 a) (r f : Nat) (hr1 : 1 ≤ r) (hr2 : r ≤ 62) (hf1 : 1 ≤ f)
    (hf2 : f ≤ 62) (hn : ¬ (r0 ≤ r ∧ r ≤ r1 ∧ f0 ≤ f ∧ f ≤ f1)) : P.E r f = false := by
  obtain ⟨_, _, _, _, _, _, hE, _⟩ := h
  cases hb : P.E r f
  · rfl
  · exact absurd ((hE r f hr1 hr2 hf1 hf2).mp hb) hn

theorem IsRect.E_true {P : Plane} {r0 r1 f0 f1 : Nat} {a : Nat × Nat}
    (h : IsRect P r0 r1 f0 f1 a) (r f : Nat) (h1 : r0 ≤ r) (h2 : r ≤ r1) (h3 : f0 ≤ f)
    (h4 : f ≤ f1) : P.E r f = true := by
  obtain ⟨_, _, _, _, _, _, hE, _⟩ := h
  exact (hE r f (by omega) (by omega) (by omega) (by omega)).mpr ⟨h1, h2, h3, h4⟩

/-- The decision at a cell, from the walking flag on entry and the heights of
the previous row. -/
theorem IsRect.actAt_of {P : Plane} {r0 r1 f0 f1 : Nat} {a : Nat × Nat}
    (h : IsRect P r0 r1 f0 f1 a) (r f : Nat) (hr1 : 1 ≤ r) (hr2 : r ≤ 62) (hf1 : 1 ≤ f)
    (hf2 : f ≤ 62)
    (hw : (P.entry f r).w = true → f = f1)
    (hH : f = f1 → r0 ≤ r → r < r1 → P.heights (f - 1) r = P.heights (f - 1) (r + 1)) :
    P.actAt r f = rectAct r0 r1 f0 f1 r f := by
  have hb := h
  obtain ⟨b1, b2, b3, b4, b5, b6, hE, hA⟩ := hb
  rw [P.actAt_eq r f hr1]
  unfold rectAct
  by_cases hin : r0 ≤ r ∧ r ≤ r1 ∧ f0 ≤ f ∧ f ≤ f1
  · rw [if_pos hin, if_neg (by rw [h.E_true r f hin.1 hin.2.1 hin.2.2.1 hin.2.2.2]; simp)]
    obtain ⟨i1, i2, i3, i4⟩ := hin
    by_cases hlt : f < f1
    · rw [if_pos hlt, if_pos]
      refine ⟨by omega, h.E_true r (f + 1) i1 i2 (by omega) (by omega), ?_, ?_⟩
      · cases hwb : (P.entry f r).w
        · rfl
        · have := hw hwb
          omega
      · rw [hA r f i1 i2 i3 i4, hA r (f + 1) i1 i2 (by omega) (by omega)]
    · rw [if_neg hlt]
      have hff : f = f1 := by omega
      have hnf : ¬ (f < 62 ∧ P.E r (f + 1) = true ∧ (P.entry f r).w = false ∧
          P.A r f = P.A r (f + 1)) := by
        intro hc
        have := h.E_false r (f + 1) hr1 hr2 (by omega) (by omega) (by omega)
        rw [this] at hc
        exact Bool.noConfusion hc.2.1
      rw [if_neg hnf]
      by_cases hrl : r < r1
      · rw [if_pos hrl, if_pos]
        refine ⟨by omega, h.E_true (r + 1) f (by omega) (by omega) i3 i4, hH hff i1 hrl, ?_⟩
        rw [hA r f i1 i2 i3 i4, hA (r + 1) f (by omega) (by omega) i3 i4]
      · rw [if_neg hrl, if_neg]
        intro hc
        have := h.E_false (r + 1) f (by omega) (by omega) hf1 hf2 (by omega)
        rw [this] at hc
        exact Bool.noConfusion hc.2.1
  · rw [if_neg hin, if_pos (h.E_false r f hr1 hr2 hf1 hf2 hin)]

/-- The walking flag and `merged_right` on entry to each cell of a row. -/
theorem IsRect.entry_of {P : Plane} {r0 r1 f0 f1 : Nat} {a : Nat × Nat}
    (h : IsRect P r0 r1 f0 f1 a) (f : Nat) (hf1 : 1 ≤ f) (hf2 : f ≤ 62)
    (hH : f = f1 → ∀ r, r0 ≤ r → r < r1 → P.heights (f - 1) r = P.heights (f - 1) (r + 1)) :
    ∀ r, 1 ≤ r → r ≤ 63 →
      ((P.entry f r).w = true ↔ (f = f1 ∧ r0 < r ∧ r ≤ r1)) ∧
      (P.entry f r).mr = (if f = f1 ∧ r0 < r ∧ r ≤ r1 then r - r0 else 0) := by
  have hb := h
  obtain ⟨b1, b2, b3, b4, b5, b6, hE, hA⟩ := hb
  intro r hr
  induction r, hr using Nat.le_induction with
  | base =>
    intro _
    rw [P.entry_one f]
    refine ⟨?_, ?_⟩
    · simp only [Bool.false_eq_true, false_iff]
      omega
    · rw [if_neg (by omega)]
  | succ r hr ih =>
    intro hr63
    obtain ⟨ihw, ihm⟩ := ih (by omega)
    have hact := h.actAt_of r f hr (by omega) hf1 hf2 (fun hw => (ihw.mp hw).1)
      (fun e => hH e r)
    have hws := P.entry_w_succ f r hr
    have hms := P.entry_mr_succ f r hr
    generalize (P.entry f (r + 1)).w = w1 at hws ⊢
    generalize (P.entry f (r + 1)).mr = m1 at hms ⊢
    generalize (P.entry f r).w = w0 at hws ihw
    generalize (P.entry f r).mr = m0 at hms ihm
    unfold rectAct at hact
    by_cases hin : r0 ≤ r ∧ r ≤ r1 ∧ f0 ≤ f ∧ f ≤ f1
    · rw [if_pos hin] at hact
      by_cases hlt : f < f1
      · rw [if_pos hlt] at hact
        have e1 : w1 = w0 := by rw [hact] at hws; exact hws
        have e2 : m1 = m0 := by rw [hact] at hms; exact hms
        have hw0 : ¬ (w0 = true) := fun hc => by have := ihw.mp hc; omega
        rw [e1, e2, ihm]
        refine ⟨⟨fun hc => absurd hc hw0, fun hc => by omega⟩, ?_⟩
        split_ifs <;> omega
      · rw [if_neg hlt] at hact
        by_cases hrl : r < r1
        · rw [if_pos hrl] at hact
          have e1 : w1 = true := by rw [hact] at hws; exact hws
          have e2 : m1 = m0 + 1 := by rw [hact] at hms; exact hms
          rw [e1, e2, ihm]
          refine ⟨⟨fun _ => by omega, fun _ => rfl⟩, ?_⟩
          split_ifs <;> omega
        · rw [if_neg hrl] at hact
          have e1 : w1 = false := by rw [hact] at hws; exact hws
          have e2 : m1 = 0 := by rw [hact] at hms; exact hms
          rw [e1, e2]
          refine ⟨⟨fun hc => Bool.noConfusion hc, fun hc => by omega⟩, ?_⟩
          split_ifs <;> omega
    · rw [if_neg hin] at hact
      have e1 : w1 = w0 := by rw [hact] at hws; exact hws
      have e2 : m1 = m0 := by rw [hact] at hms; exact hms
      have hw0 : ¬ (w0 = true) := fun hc => by have := ihw.mp hc; omega
      rw [e1, e2, ihm]
      refine ⟨⟨fun hc => absurd hc hw0, fun hc => by omega⟩, ?_⟩
      split_ifs <;> omega

/-- Heights of the columns after `n` rows. -/
theorem IsRect.heights_of {P : Plane} {r0 r1 f0 f1 : Nat} {a : Nat × Nat}
    (h : IsRect P r0 r1 f0 f1 a) :
    ∀ n, n ≤ 62 → ∀ c, 1 ≤ c → c ≤ 62 → P.heights n c = rectHeight r0 r1 f0 f1 n c := by
  have hb := h
  obtain ⟨b1, b2, b3, b4, b5, b6, hE, hA⟩ := hb
  intro n
  induction n with
  | zero =>
    intro _ c _ _
    unfold rectHeight
    rw [if_neg (by omega)]
    rfl
  | succ n ih =>
    intro hn c hc1 hc2
    have ih2 := ih (by omega)
    have hH : n + 1 = f1 → ∀ r, r0 ≤ r → r < r1 →
        P.heights (n + 1 - 1) r = P.heights (n + 1 - 1) (r + 1) := by
      intro _ r h1 h2
      rw [Nat.add_sub_cancel, ih2 r (by omega) (by omega), ih2 (r + 1) (by omega) (by omega)]
      unfold rectHeight
      split_ifs <;> omega
    have hent := h.entry_of (n + 1) (by omega) hn hH c hc1 (by omega)
    have hact := h.actAt_of c (n + 1) hc1 hc2 (by omega) hn (fun hw => (hent.1.mp hw).1)
      (fun e => hH e c)
    have hrec := P.heights_rec n c hc1 hc2
    have ihc := ih2 c hc1 hc2
    generalize P.heights (n + 1) c = g1 at hrec ⊢
    generalize P.heights n c = g0 at hrec ihc
    unfold rectAct at hact
    unfold rectHeight at ihc ⊢
    by_cases hin : r0 ≤ c ∧ c ≤ r1 ∧ f0 ≤ n + 1 ∧ n + 1 ≤ f1
    · rw [if_pos hin] at hact
      by_cases hlt : n + 1 < f1
      · rw [if_pos hlt] at hact
        have e1 : g1 = g0 + 1 := by rw [hact] at hrec; exact hrec
        rw [e1, ihc]
        split_ifs <;> omega
      · rw [if_neg hlt] at hact
        have e1 : g1 = 0 := by
          by_cases hrl : c < r1
          · rw [if_pos hrl] at hact
            rw [hact] at hrec
            exact hrec
          · rw [if_neg hrl] at hact
            rw [hact] at hrec
            exact hrec
        rw [e1]
        split_ifs <;> omega
    · rw [if_neg hin] at hact
      have e1 : g1 = g0 := by rw [hact] at hrec; exact hrec
      rw [e1, ihc]
      split_ifs <;> omega

theorem IsRect.heights_step {P : Plane} {r0 r1 f0 f1 : Nat} {a : Nat × Nat}
    (h : IsRect P r0 r1 f0 f1 a) (f : Nat) (hf1 : 1 ≤ f) (hf2 : f ≤ 62) :
    f = f1 → ∀ r, r0 ≤ r → r < r1 → P.heights (f - 1) r = P.heights (f - 1) (r + 1) := by
  have hb := h
  obtain ⟨b1, b2, b3, b4, b5, b6, hE, hA⟩ := hb
  intro _ r h1 h2
  rw [h.heights_of (f - 1) (by omega) r (by omega) (by omega),
    h.heights_of (f - 1) (by omega) (r + 1) (by omega) (by omega)]
  unfold rectHeight
  split_ifs <;> omega

/-- The decision at every interior cell of a plane that holds one rectangle. -/
theorem IsRect.actAt {P : Plane} {r0 r1 f0 f1 : Nat} {a : Nat × Nat}
    (h : IsRect P r0 r1 f0 f1 a) (r f : Nat) (hr1 : 1 ≤ r) (hr2 : r ≤ 62) (hf1 : 1 ≤ f)
    (hf2 : f ≤ 62) : P.actAt r f = rectAct r0 r1 f0 f1 r f := by
  have hH := h.heights_step f hf1 hf2
  have hent := h.entry_of f hf1 hf2 hH r hr1 (by omega)
  exact h.actAt_of r f hr1 hr2 hf1 hf2 (fun hw => (hent.1.mp hw).1) (fun e => hH e r)

/-- The plane emits one rectangle, at the far corner, and it is the whole
rectangle. -/
theorem IsRect.quadAt {P : Plane} {r0 r1 f0 f1 : Nat} {a : Nat × Nat}
    (h : IsRect P r0 r1 f0 f1 a) (face k r f : Nat) (hr1 : 1 ≤ r) (hr2 : r ≤ 62) (hf1 : 1 ≤ f)
    (hf2 : f ≤ 62) (hk : k ≤ 62) :
    Mesher.quadAt P face k r f (P.entry f r) =
      if r = r1 ∧ f = f1 then
        [{ face := face, L := r0, R := r1 + 1, F := f0, B := f1 + 1,
           U := k + (if face % 2 = 0 then 1 else 0), type := a.1, light := a.2 }]
      else [] := by
  have hb := h
  obtain ⟨b1, b2, b3, b4, b5, b6, hE, hA⟩ := hb
  have hact : P.act r f (P.entry f r) = rectAct r0 r1 f0 f1 r f := h.actAt r f hr1 hr2 hf1 hf2
  unfold Mesher.quadAt
  rw [hact]
  by_cases hc : r = r1 ∧ f = f1
  · have he : rectAct r0 r1 f0 f1 r f = Act.emit := by
      unfold rectAct
      rw [if_pos (by omega), if_neg (by omega), if_neg (by omega)]
    rw [he, if_pos rfl, if_pos hc]
    have hent := (h.entry_of f hf1 hf2 (h.heights_step f hf1 hf2) r hr1 (by omega)).2
    have hmf : (P.entry f r).mf r = f - f0 := by
      rw [P.entry_mf_self f r hr1, h.heights_of (f - 1) (by omega) r hr1 hr2]
      unfold rectHeight
      split_ifs <;> omega
    have hmr : (P.entry f r).mr = r - r0 := by
      rw [hent]
      split_ifs <;> omega
    rw [hmf, hmr, toU8_sub r (r - r0) (by omega) (by omega),
      toU8_sub f (f - f0) (by omega) (by omega), toU8_succ r (by omega),
      toU8_succ f (by omega), toU8_up face k (by omega),
      hA r f (by omega) (by omega) (by omega) (by omega)]
    have e1 : r - (r - r0) = r0 := by omega
    have e2 : f - (f - f0) = f0 := by omega
    rw [e1, e2, hc.1, hc.2]
  · have hne : rectAct r0 r1 f0 f1 r f ≠ Act.emit := by
      unfold rectAct
      intro e
      split_ifs at e
      all_goals first | exact Act.noConfusion e | omega
    rw [if_neg hne, if_neg hc]

/-- A plane without exposed faces in the interior emits nothing. -/
theorem quadAt_of_empty (P : Plane) (face k r f : Nat) (hr1 : 1 ≤ r)
    (hE : P.E r f = false) : quadAt P face k r f (P.entry f r) = [] := by
  have hact : P.act r f (P.entry f r) = Act.skip := (P.actAt_skip_iff r f hr1).mpr hE
  unfold quadAt
  rw [hact, if_neg (by intro e; exact Act.noConfusion e)]

end Mesher

namespace Mesher

/-! ## The rectangles of a solid box -/

theorem flatMap_single {α β : Type} (l : List α) (g : α → List β) (a : α) (hn : l.Nodup)
    (ha : a ∈ l) (h : ∀ x, x ∈ l → x ≠ a → g x = []) : l.flatMap g = g a := by
  induction l with
  | nil => exact absurd ha (List.not_mem_nil a)
  | cons x xs ih =>
    rw [List.flatMap_cons]
    rw [List.nodup_cons] at hn
    by_cases hx : x = a
    · subst hx
      have hnil : xs.flatMap g = [] := by
        rw [List.flatMap_eq_nil_iff]
        intro y hy
        exact h y (List.mem_cons_of_mem _ hy) (fun e => hn.1 (e ▸ hy))
      rw [hnil, List.append_nil]
    · have hax : a ∈ xs := by
        rcases List.mem_cons.mp ha with e | e
        · exact absurd e.symm hx
        · exact e
      rw [h x (List.mem_cons_self _ _) hx, List.nil_append]
      exact ih hn.2 hax (fun y hy hne => h y (List.mem_cons_of_mem _ hy) hne)

theorem flatMap_nil_of {α β : Type} (l : List α) (g : α → List β)
    (h : ∀ x, x ∈ l → g x = []) : l.flatMap g = [] := by
  rw [List.flatMap_eq_nil_iff]
  exact h

/-- Exposure of a face of a cell when the data is a solid box, in the
coordinates `(right, forward, depth)` of the face. -/
theorem faceBit_box (v : Array Nat) (face R0 R1 F0 F1 K0 K1 t : Nat) (ht : t ≠ 0)
    (hK : K0 ≤ K1)
    (hbox : ∀ r f k, r < 64 → f < 64 → k < 64 →
      v.getD (axisIdx (face / 2) r f k) 0 =
        if R0 ≤ r ∧ r ≤ R1 ∧ F0 ≤ f ∧ f ≤ F1 ∧ K0 ≤ k ∧ k ≤ K1 then t else 0)
    (r f k : Nat) (hr : r ≤ 62) (hf : f ≤ 62) (hk1 : 1 ≤ k) (hk2 : k ≤ 62) :
    faceBit v face r f k = true ↔
      (R0 ≤ r ∧ r ≤ R1 ∧ F0 ≤ f ∧ f ≤ F1) ∧ k = (if face % 2 = 0 then K1 else K0) := by
  unfold faceBit upDepth
  rw [Bool.and_eq_true, decide_eq_true_eq, decide_eq_true_eq]
  by_cases hev : face % 2 = 0
  · rw [if_pos hev, if_pos hev, hbox r f k (by omega) (by omega) (by omega),
      hbox r f (k + 1) (by omega) (by omega) (by omega)]
    constructor
    · intro ⟨h1, h2⟩
      split_ifs at h1 h2 <;> omega
    · intro ⟨h1, h2⟩
      rw [if_pos (by omega), if_neg (by omega)]
      exact ⟨ht, rfl⟩
  · rw [if_neg hev, if_neg hev, hbox r f k (by omega) (by omega) (by omega),
      hbox r f (k - 1) (by omega) (by omega) (by omega)]
    constructor
    · intro ⟨h1, h2⟩
      split_ifs at h1 h2 <;> omega
    · intro ⟨h1, h2⟩
      rw [if_pos (by omega), if_neg (by omega)]
      exact ⟨ht, rfl⟩

/-- The plane at the depth of the side of the box holds one rectangle, when the
light is `lv` on the exterior side of that side. -/
theorem plane_isRect_local (v l : Array Nat) (face R0 R1 F0 F1 K0 K1 t lv : Nat) (ht : t ≠ 0)
    (hR0 : 1 ≤ R0) (hR : R0 ≤ R1) (hR1 : R1 ≤ 62)
    (hF0 : 1 ≤ F0) (hF : F0 ≤ F1) (hF1 : F1 ≤ 62)
    (hK0 : 1 ≤ K0) (hK : K0 ≤ K1) (hK1 : K1 ≤ 62)
    (hbox : ∀ r f k, r < 64 → f < 64 → k < 64 →
      v.getD (axisIdx (face / 2) r f k) 0 =
        if R0 ≤ r ∧ r ≤ R1 ∧ F0 ≤ f ∧ f ≤ F1 ∧ K0 ≤ k ∧ k ≤ K1 then t else 0)
    (hlight : ∀ r f, R0 ≤ r → r ≤ R1 → F0 ≤ f → f ≤ F1 →
      l.getD (axisIdx (face / 2) r f (upDepth face (if face % 2 = 0 then K1 else K0))) 0 = lv) :
    IsRect (plane v l face (if face % 2 = 0 then K1 else K0)) R0 R1 F0 F1 (t, lv) := by
  have hkf1 : 1 ≤ (if face % 2 = 0 then K1 else K0) := by split_ifs <;> omega
  have hkf2 : (if face % 2 = 0 then K1 else K0) ≤ 62 := by split_ifs <;> omega
  have hkf3 : K0 ≤ (if face % 2 = 0 then K1 else K0) := by split_ifs <;> omega
  have hkf4 : (if face % 2 = 0 then K1 else K0) ≤ K1 := by split_ifs <;> omega
  refine ⟨hR0, hR, hR1, hF0, hF, hF1, ?_, ?_⟩
  · intro r f hr1 hr2 hf1 hf2
    show faceBit v face r f _ = true ↔ _
    rw [faceBit_box v face R0 R1 F0 F1 K0 K1 t ht hK hbox r f _ hr2 hf2 hkf1 hkf2]
    exact ⟨fun h => h.1, fun h => ⟨h, rfl⟩⟩
  · intro r f h1 h2 h3 h4
    show attr v l face r f _ = (t, lv)
    unfold attr
    have hl := hlight r f h1 h2 h3 h4
    generalize (if face % 2 = 0 then K1 else K0) = kf at hkf1 hkf2 hkf3 hkf4 hl
    rw [hbox r f kf (by omega) (by omega) (by omega), if_pos ⟨h1, h2, h3, h4, hkf3, hkf4⟩, hl]

/-- The plane at the depth of the side of the box holds one rectangle. -/
theorem plane_isRect (v l : Array Nat) (face R0 R1 F0 F1 K0 K1 t lv : Nat) (ht : t ≠ 0)
    (hR0 : 1 ≤ R0) (hR : R0 ≤ R1) (hR1 : R1 ≤ 62)
    (hF0 : 1 ≤ F0) (hF : F0 ≤ F1) (hF1 : F1 ≤ 62)
    (hK0 : 1 ≤ K0) (hK : K0 ≤ K1) (hK1 : K1 ≤ 62)
    (hbox : ∀ r f k, r < 64 → f < 64 → k < 64 →
      v.getD (axisIdx (face / 2) r f k) 0 =
        if R0 ≤ r ∧ r ≤ R1 ∧ F0 ≤ f ∧ f ≤ F1 ∧ K0 ≤ k ∧ k ≤ K1 then t else 0)
    (hlight : ∀ i, i < CS_P3 → l.getD i 0 = lv) :
    IsRect (plane v l face (if face % 2 = 0 then K1 else K0)) R0 R1 F0 F1 (t, lv) := by
  apply plane_isRect_local v l face R0 R1 F0 F1 K0 K1 t lv ht hR0 hR hR1 hF0 hF hF1 hK0 hK hK1
    hbox
  intro r f _ h2 _ h4
  apply hlight
  rw [CS_P3_eq]
  apply axisIdx_lt _ _ _ _ (by omega) (by omega)
  apply upDepth_lt_mid
  split_ifs <;> omega

/-- The rectangles of one face direction of a solid box: the side of the box,
when the light is `lv` on the exterior side of that side. -/
theorem faceQuads_box_local (v l : Array Nat) (face R0 R1 F0 F1 K0 K1 t lv : Nat) (ht : t ≠ 0)
    (hR0 : 1 ≤ R0) (hR : R0 ≤ R1) (hR1 : R1 ≤ 62)
    (hF0 : 1 ≤ F0) (hF : F0 ≤ F1) (hF1 : F1 ≤ 62)
    (hK0 : 1 ≤ K0) (hK : K0 ≤ K1) (hK1 : K1 ≤ 62)
    (hbox : ∀ r f k, r < 64 → f < 64 → k < 64 →
      v.getD (axisIdx (face / 2) r f k) 0 =
        if R0 ≤ r ∧ r ≤ R1 ∧ F0 ≤ f ∧ f ≤ F1 ∧ K0 ≤ k ∧ k ≤ K1 then t else 0)
    (hlight : ∀ r f, R0 ≤ r → r ≤ R1 → F0 ≤ f → f ≤ F1 →
      l.getD (axisIdx (face / 2) r f (upDepth face (if face % 2 = 0 then K1 else K0))) 0 = lv) :
    faceQuads v l face =
      [{ face := face, L := R0, R := R1 + 1, F := F0, B := F1 + 1,
         U := (if face % 2 = 0 then K1 else K0) + (if face % 2 = 0 then 1 else 0),
         type := t, light := lv }] := by
  have hrect := plane_isRect_local v l face R0 R1 F0 F1 K0 K1 t lv ht hR0 hR hR1 hF0 hF hF1 hK0 hK hK1
    hbox hlight
  have hkf1 : 1 ≤ (if face % 2 = 0 then K1 else K0) := by split_ifs <;> omega
  have hkf2 : (if face % 2 = 0 then K1 else K0) ≤ 62 := by split_ifs <;> omega
  have hfb := faceBit_box v face R0 R1 F0 F1 K0 K1 t ht hK hbox
  generalize (if face % 2 = 0 then K1 else K0) = kf at hrect hkf1 hkf2 hfb ⊢
  have hnd : (List.range' 1 62).Nodup := List.nodup_range' 1 62
  have hcell : ∀ f r, 1 ≤ f → f ≤ 62 → 1 ≤ r → r ≤ 62 →
      cellQuads v l face f r =
        if r = R1 ∧ f = F1 then
          [{ face := face, L := R0, R := R1 + 1, F := F0, B := F1 + 1,
             U := kf + (if face % 2 = 0 then 1 else 0), type := t, light := lv }]
        else [] := by
    intro f r hf1 hf2 hr1 hr2
    unfold cellQuads
    rw [flatMap_single (List.range' 1 62) _ kf hnd (by rw [List.mem_range'_1]; omega)]
    · exact hrect.quadAt face kf r f hr1 hr2 hf1 hf2 hkf2
    · intro k hk hne
      rw [List.mem_range'_1] at hk
      apply quadAt_of_empty _ face k r f hr1
      show faceBit v face r f k = false
      cases hb : faceBit v face r f k
      · rfl
      · exact absurd ((hfb r f k hr2 hf2 hk.1 (by omega)).mp hb).2 hne
  have hrow : ∀ f, 1 ≤ f → f ≤ 62 →
      rowQuads v l face f =
        if f = F1 then
          [{ face := face, L := R0, R := R1 + 1, F := F0, B := F1 + 1,
             U := kf + (if face % 2 = 0 then 1 else 0), type := t, light := lv }]
        else [] := by
    intro f hf1 hf2
    unfold rowQuads
    rw [flatMap_single (List.range' 1 62) _ R1 hnd (by rw [List.mem_range'_1]; omega)]
    · rw [hcell f R1 hf1 hf2 (by omega) hR1]
      by_cases hc : f = F1
      · rw [if_pos ⟨rfl, hc⟩, if_pos hc]
      · rw [if_neg (fun e => hc e.2), if_neg hc]
    · intro r hr hne
      rw [List.mem_range'_1] at hr
      rw [hcell f r hf1 hf2 hr.1 (by omega), if_neg (fun e => hne e.1)]
  unfold faceQuads
  rw [flatMap_single (List.range' 1 62) _ F1 hnd (by rw [List.mem_range'_1]; omega)]
  · rw [hrow F1 (by omega) hF1, if_pos rfl]
  · intro f hf hne
    rw [List.mem_range'_1] at hf
    rw [hrow f hf.1 (by omega), if_neg hne]

/-- The rectangles of one face direction of a solid box: the side of the box. -/
theorem faceQuads_box (v l : Array Nat) (face R0 R1 F0 F1 K0 K1 t lv : Nat) (ht : t ≠ 0)
    (hR0 : 1 ≤ R0) (hR : R0 ≤ R1) (hR1 : R1 ≤ 62)
    (hF0 : 1 ≤ F0) (hF : F0 ≤ F1) (hF1 : F1 ≤ 62)
    (hK0 : 1 ≤ K0) (hK : K0 ≤ K1) (hK1 : K1 ≤ 62)
    (hbox : ∀ r f k, r < 64 → f < 64 → k < 64 →
      v.getD (axisIdx (face / 2) r f k) 0 =
        if R0 ≤ r ∧ r ≤ R1 ∧ F0 ≤ f ∧ f ≤ F1 ∧ K0 ≤ k ∧ k ≤ K1 then t else 0)
    (hlight : ∀ i, i < CS_P3 → l.getD i 0 = lv) :
    faceQuads v l face =
      [{ face := face, L := R0, R := R1 + 1, F := F0, B := F1 + 1,
         U := (if face % 2 = 0 then K1 else K0) + (if face % 2 = 0 then 1 else 0),
         type := t, light := lv }] := by
  apply faceQuads_box_local v l face R0 R1 F0 F1 K0 K1 t lv ht hR0 hR hR1 hF0 hF hF1 hK0 hK hK1
    hbox
  intro r f _ h2 _ h4
  apply hlight
  rw [CS_P3_eq]
  apply axisIdx_lt _ _ _ _ (by omega) (by omega)
  apply upDepth_lt_mid
  split_ifs <;> omega

theorem range6 : List.range 6 = [0, 1, 2, 3, 4, 5] := by decide

/-- The rectangles emitted for a solid box are its six sides, by face. -/
theorem quadList_box (v l : Array Nat) (x0 x1 y0 y1 z0 z1 t lv : Nat) (ht : t ≠ 0)
    (hx0 : 1 ≤ x0) (hx : x0 ≤ x1) (hx1 : x1 ≤ CS)
    (hy0 : 1 ≤ y0) (hy : y0 ≤ y1) (hy1 : y1 ≤ CS)
    (hz0 : 1 ≤ z0) (hz : z0 ≤ z1) (hz1 : z1 ≤ CS)
    (hbox : IsBox v x0 x1 y0 y1 z0 z1 t) (hlight : IsUniform l lv) :
    quadList v l = boxQuads x0 x1 y0 y1 z0 z1 t lv := by
  rw [CS_eq] at hx1 hy1 hz1
  unfold IsBox inBox at hbox
  rw [CS_P_eq, CS_P2_eq] at hbox
  have hb0 : ∀ face, face / 2 = 0 → ∀ r f k, r < 64 → f < 64 → k < 64 →
      v.getD (axisIdx (face / 2) r f k) 0 =
        if x0 ≤ r ∧ r ≤ x1 ∧ z0 ≤ f ∧ f ≤ z1 ∧ y0 ≤ k ∧ k ≤ y1 then t else 0 := by
    intro face hface r f k hr hf hk
    have e : axisIdx (face / 2) r f k = k * 4096 + r * 64 + f := by
      unfold axisIdx
      rw [if_pos hface]
      omega
    rw [e, hbox r k f hr hk hf]
    congr 1
    apply propext
    constructor <;> intro h <;> omega
  have hb1 : ∀ face, face / 2 = 1 → ∀ r f k, r < 64 → f < 64 → k < 64 →
      v.getD (axisIdx (face / 2) r f k) 0 =
        if z0 ≤ r ∧ r ≤ z1 ∧ y0 ≤ f ∧ f ≤ y1 ∧ x0 ≤ k ∧ k ≤ x1 then t else 0 := by
    intro face hface r f k hr hf hk
    have e : axisIdx (face / 2) r f k = f * 4096 + k * 64 + r := by
      unfold axisIdx
      rw [if_neg (by omega), if_pos hface]
      omega
    rw [e, hbox k f r hk hf hr]
    congr 1
    apply propext
    constructor <;> intro h <;> omega
  have hb2 : ∀ face, face / 2 = 2 → ∀ r f k, r < 64 → f < 64 → k < 64 →
      v.getD (axisIdx (face / 2) r f k) 0 =
        if y0 ≤ r ∧ r ≤ y1 ∧ x0 ≤ f ∧ f ≤ x1 ∧ z0 ≤ k ∧ k ≤ z1 then t else 0 := by
    intro face hface r f k hr hf hk
    have e : axisIdx (face / 2) r f k = r * 4096 + f * 64 + k := by
      unfold axisIdx
      rw [if_neg (by omega), if_neg (by omega)]
      omega
    rw [e, hbox f r k hf hr hk]
    congr 1
    apply propext
    constructor <;> intro h <;> omega
  unfold quadList boxQuads
  rw [range6]
  simp only [List.flatMap_cons, List.flatMap_nil, List.append_nil]
  rw [faceQuads_box v l 0 x0 x1 z0 z1 y0 y1 t lv ht hx0 hx hx1 hz0 hz hz1 hy0 hy hy1
      (hb0 0 (by decide)) hlight,
    faceQuads_box v l 1 x0 x1 z0 z1 y0 y1 t lv ht hx0 hx hx1 hz0 hz hz1 hy0 hy hy1
      (hb0 1 (by decide)) hlight,
    faceQuads_box v l 2 z0 z1 y0 y1 x0 x1 t lv ht hz0 hz hz1 hy0 hy hy1 hx0 hx hx1
      (hb1 2 (by decide)) hlight,
    faceQuads_box v l 3 z0 z1 y0 y1 x0 x1 t lv ht hz0 hz hz1 hy0 hy hy1 hx0 hx hx1
      (hb1 3 (by decide)) hlight,
    faceQuads_box v l 4 y0 y1 x0 x1 z0 z1 t lv ht hy0 hy hy1 hx0 hx hx1 hz0 hz hz1
      (hb2 4 (by decide)) hlight,
    faceQuads_box v l 5 y0 y1 x0 x1 z0 z1 t lv ht hy0 hy hy1 hx0 hx hx1 hz0 hz hz1
      (hb2 5 (by decide)) hlight]
  rfl

end Mesher

namespace Mesher

/-! ## Concrete boxes -/

theorem boxVoxels_isBox (x0 x1 y0 y1 z0 z1 t : Nat) :
    IsBox (boxVoxels x0 x1 y0 y1 z0 z1 t) x0 x1 y0 y1 z0 z1 t := by
  intro x y z hx hy hz
  rw [CS_P_eq] at hx hy hz
  have hi : y * CS_P2 + x * CS_P + z < CS_P3 := by
    rw [CS_P_eq, CS_P2_eq, CS_P3_eq]
    omega
  have e1 : (y * CS_P2 + x * CS_P + z) / 64 % 64 = x := by
    rw [CS_P_eq, CS_P2_eq]
    omega
  have e2 : (y * CS_P2 + x * CS_P + z) / 4096 = y := by
    rw [CS_P_eq, CS_P2_eq]
    omega
  have e3 : (y * CS_P2 + x * CS_P + z) % 64 = z := by
    rw [CS_P_eq, CS_P2_eq]
    omega
  generalize y * CS_P2 + x * CS_P + z = i at hi e1 e2 e3
  unfold boxVoxels
  rw [Array.getD, dif_pos (by rw [Array.size_ofFn]; exact hi)]
  simp only [Array.get_eq_getElem, Array.getElem_ofFn, e1, e2, e3]

theorem uniformLight_isUniform (a : Nat) : IsUniform (uniformLight a) a :=
  fun i hi => getD_mkArray CS_P3 a i hi

theorem quadVertices_length (pos : IVec3) (q : Quad) (hq : q.face < 6) :
    (quadVertices pos q).length = 6 := by
  obtain ⟨face, L, R, F, B, U, ty, li⟩ := q
  simp only at hq
  unfold quadVertices
  rw [List.length_map]
  interval_cases face <;> rfl

theorem flatMap_quadVertices_length (pos : IVec3) (qs : List Quad)
    (hq : ∀ q, q ∈ qs → q.face < 6) : (qs.flatMap (quadVertices pos)).length = 6 * qs.length := by
  induction qs with
  | nil => rfl
  | cons q qs ih =>
    rw [List.flatMap_cons, List.length_append, List.length_cons,
      quadVertices_length pos q (hq q (List.mem_cons_self _ _)),
      ih (fun x hx => hq x (List.mem_cons_of_mem _ hx))]
    omega

theorem boxQuads_face (x0 x1 y0 y1 z0 z1 t lv : Nat) (q : Quad)
    (hq : q ∈ boxQuads x0 x1 y0 y1 z0 z1 t lv) : q.face < 6 ∧ q.type = t ∧ q.light = lv := by
  unfold boxQuads at hq
  simp only [List.mem_cons, List.mem_singleton, List.not_mem_nil, or_false] at hq
  rcases hq with h | h | h | h | h | h <;> rw [h] <;> exact ⟨by norm_num, rfl, rfl⟩

/-- Result of `mesh` for a solid box: the six sides of the box. -/
theorem mesh_box_eq (v l : Array Nat) (pos : IVec3) (x0 x1 y0 y1 z0 z1 t lv : Nat)
    (hv : v.size = CS_P3) (hl : l.size = CS_P3) (ht : t ≠ 0)
    (hx0 : 1 ≤ x0) (hx : x0 ≤ x1) (hx1 : x1 ≤ CS)
    (hy0 : 1 ≤ y0) (hy : y0 ≤ y1) (hy1 : y1 ≤ CS)
    (hz0 : 1 ≤ z0) (hz : z0 ≤ z1) (hz1 : z1 ≤ CS)
    (hbox : IsBox v x0 x1 y0 y1 z0 z1 t) (hlight : IsUniform l lv) :
    mesh v l pos =
      .ok (some ((boxQuads x0 x1 y0 y1 z0 z1 t lv).flatMap (quadVertices pos))) := by
  rw [mesh_eq_table v l pos hv hl,
    quadList_box v l x0 x1 y0 y1 z0 z1 t lv ht hx0 hx hx1 hy0 hy hy1 hz0 hz hz1 hbox hlight]
  have hlen := flatMap_quadVertices_length pos (boxQuads x0 x1 y0 y1 z0 z1 t lv)
    (fun q hq => (boxQuads_face x0 x1 y0 y1 z0 z1 t lv q hq).1)
  have h6 : (boxQuads x0 x1 y0 y1 z0 z1 t lv).length = 6 := rfl
  unfold packVertices
  rw [if_neg (by omega)]

/-- C7 (solid box): if `voxels` is `t ≠ 0` inside a box contained in the
interior and `0` elsewhere, and `light_map` is `lv` everywhere, then for every
origin `mesh` returns 36 vertices: the six-vertex blocks of six rectangles, one
for each normal `0..5` in this order, each of type `t` and light `lv` and with
the extents of the whole side of the box, so that the exposed faces of the
input are exactly the faces these rectangles cover. -/
theorem mesh_box (v l : Array Nat) (pos : IVec3) (x0 x1 y0 y1 z0 z1 t lv : Nat)
    (hv : v.size = CS_P3) (hl : l.size = CS_P3) (ht : t ≠ 0)
    (hx0 : 1 ≤ x0) (hx : x0 ≤ x1) (hx1 : x1 ≤ CS)
    (hy0 : 1 ≤ y0) (hy : y0 ≤ y1) (hy1 : y1 ≤ CS)
    (hz0 : 1 ≤ z0) (hz : z0 ≤ z1) (hz1 : z1 ≤ CS)
    (hbox : IsBox v x0 x1 y0 y1 z0 z1 t) (hlight : IsUniform l lv) :
    mesh v l pos =
      .ok (some ((boxQuads x0 x1 y0 y1 z0 z1 t lv).flatMap (quadVertices pos))) ∧
    ((boxQuads x0 x1 y0 y1 z0 z1 t lv).flatMap (quadVertices pos)).length = 36 ∧
    (boxQuads x0 x1 y0 y1 z0 z1 t lv).map Quad.face = [0, 1, 2, 3, 4, 5] ∧
    (∀ q, q ∈ boxQuads x0 x1 y0 y1 z0 z1 t lv → q.type = t ∧ q.light = lv) ∧
    (∀ cell face, exposedFace v cell face ↔
      ∃ q, q ∈ boxQuads x0 x1 y0 y1 z0 z1 t lv ∧ covers q cell face) := by
  have hql := quadList_box v l x0 x1 y0 y1 z0 z1 t lv ht hx0 hx hx1 hy0 hy hy1 hz0 hz hz1
    hbox hlight
  refine ⟨mesh_box_eq v l pos x0 x1 y0 y1 z0 z1 t lv hv hl ht hx0 hx hx1 hy0 hy hy1 hz0 hz hz1
    hbox hlight, ?_, rfl, fun q hq => (boxQuads_face x0 x1 y0 y1 z0 z1 t lv q hq).2, ?_⟩
  · rw [flatMap_quadVertices_length pos _
      (fun q hq => (boxQuads_face x0 x1 y0 y1 z0 z1 t lv q hq).1)]
    rfl
  · intro cell face
    rw [← hql]
    constructor
    · intro hx
      exact exposed_covered v l cell face hx
    · intro ⟨q, hq, hc⟩
      exact covers_exposed v l q hq cell face hc

/-- Witness of C7: the single voxel at `(1, 1, 1)` with light 7, the slab
`[1, 2] × [1, 1] × [1, 2]` and the full interior, at the origin `(0, 0, 0)`. -/
theorem mesh_box_witness :
    (mesh (boxVoxels 1 1 1 1 1 1 1) (uniformLight 7) ⟨0, 0, 0⟩ =
      .ok (some ((boxQuads 1 1 1 1 1 1 1 7).flatMap (quadVertices ⟨0, 0, 0⟩))) ∧
     ((boxQuads 1 1 1 1 1 1 1 7).flatMap (quadVertices ⟨0, 0, 0⟩)).length = 36) ∧
    (mesh (boxVoxels 1 2 1 1 1 2 1) (uniformLight 7) ⟨0, 0, 0⟩ =
      .ok (some ((boxQuads 1 2 1 1 1 2 1 7).flatMap (quadVertices ⟨0, 0, 0⟩))) ∧
     ((boxQuads 1 2 1 1 1 2 1 7).flatMap (quadVertices ⟨0, 0, 0⟩)).length = 36) ∧
    (mesh (boxVoxels 1 62 1 62 1 62 1) (uniformLight 7) ⟨0, 0, 0⟩ =
      .ok (some ((boxQuads 1 62 1 62 1 62 1 7).flatMap (quadVertices ⟨0, 0, 0⟩))) ∧
     ((boxQuads 1 62 1 62 1 62 1 7).flatMap (quadVertices ⟨0, 0, 0⟩)).length = 36) :=
  ⟨(fun h => ⟨h.1, h.2.1⟩) (mesh_box (boxVoxels 1 1 1 1 1 1 1) (uniformLight 7) ⟨0, 0, 0⟩
      1 1 1 1 1 1 1 7 (boxVoxels_size _ _ _ _ _ _ _) (uniformLight_size 7) (by decide)
      (by decide) (by decide) (by decide) (by decide) (by decide) (by decide)
      (by decide) (by decide) (by decide)
      (boxVoxels_isBox _ _ _ _ _ _ _) (uniformLight_isUniform 7)),
   (fun h => ⟨h.1, h.2.1⟩) (mesh_box (boxVoxels 1 2 1 1 1 2 1) (uniformLight 7) ⟨0, 0, 0⟩
      1 2 1 1 1 2 1 7 (boxVoxels_size _ _ _ _ _ _ _) (uniformLight_size 7) (by decide)
      (by decide) (by decide) (by decide) (by decide) (by decide) (by decide)
      (by decide) (by decide) (by decide)
      (boxVoxels_isBox _ _ _ _ _ _ _) (uniformLight_isUniform 7)),
   (fun h => ⟨h.1, h.2.1⟩) (mesh_box (boxVoxels 1 62 1 62 1 62 1) (uniformLight 7) ⟨0, 0, 0⟩
      1 62 1 62 1 62 1 7 (boxVoxels_size _ _ _ _ _ _ _) (uniformLight_size 7) (by decide)
      (by decide) (by decide) (by decide) (by decide) (by decide) (by decide)
      (by decide) (by decide) (by decide)
      (boxVoxels_isBox _ _ _ _ _ _ _) (uniformLight_isUniform 7))⟩

end Mesher

namespace Mesher

/-! ## Format of the output, for every input -/

theorem whileBits_preserve {σ : Type} (body : Nat → σ → Except MeshError σ) (Inv : σ → Prop)
    (hbody : ∀ b s s1, body b s = .ok s1 → Inv s → Inv s1) :
    ∀ fuel bits s s1, whileBits body fuel bits s = .ok s1 → Inv s → Inv s1 := by
  intro fuel
  induction fuel with
  | zero =>
    intro bits s s1 h hs
    unfold whileBits at h
    split at h
    · cases h
      exact hs
    · exact Except.noConfusion h
  | succ n ih =>
    intro bits s s1 h hs
    unfold whileBits at h
    split at h
    · cases h
      exact hs
    · split at h
      · rename_i s2 hb
        exact ih _ s2 s1 h (hbody _ s s2 hb hs)
      · exact Except.noConfusion h

theorem foldlM_preserve {σ α : Type} (f : σ → α → Except MeshError σ) (Inv : σ → Prop)
    (hf : ∀ s a s1, f s a = .ok s1 → Inv s → Inv s1) :
    ∀ (l : List α) s s1, l.foldlM f s = .ok s1 → Inv s → Inv s1 := by
  intro l
  induction l with
  | nil =>
    intro s s1 h hs
    cases h
    exact hs
  | cons a l ih =>
    intro s s1 h hs
    rw [List.foldlM_cons] at h
    cases hfa : f s a with
    | error e =>
      rw [hfa] at h
      exact Except.noConfusion h
    | ok s2 =>
      rw [hfa] at h
      exact ih s2 s1 h (hf s a s2 hfa hs)

theorem emitBlocks_nil (SX SY SZ : Int) : emitBlocks SX SY SZ [] :=
  ⟨[], fun _ h => absurd h (List.not_mem_nil _), rfl⟩

theorem emitBlocks_append (SX SY SZ : Int) (vs : List Vertex) (face a b c d e ty li : Nat)
    (hface : face < 6) (h : emitBlocks SX SY SZ vs) :
    emitBlocks SX SY SZ (vs ++ emitQuad SX SY SZ face a b c d e ty li) := by
  obtain ⟨qs, hq, he⟩ := h
  refine ⟨qs ++ [Quad.mk face a b c d e ty li], ?_, ?_⟩
  · intro q hm
    rcases List.mem_append.mp hm with h1 | h1
    · exact hq q h1
    · rw [List.mem_singleton] at h1
      rw [h1]
      exact hface
  · rw [List.flatMap_append, he]
    simp only [List.flatMap_cons, List.flatMap_nil, List.append_nil]
    rfl

theorem stoppedStep_blocks (v l : Array Nat) (SX SY SZ : Int) (face forward right bmr b : Nat)
    (hface : face < 6) (s s1 : MergeState)
    (h : stoppedStep v l SX SY SZ face forward right bmr b s = .ok s1)
    (hs : emitBlocks SX SY SZ s.vertices) : emitBlocks SX SY SZ s1.vertices := by
  unfold stoppedStep at h
  split at h
  · cases h
    exact hs
  · split at h
    · exact Except.noConfusion h
    · cases h
      exact hs
    · simp only at h
      split at h
      · exact Except.noConfusion h
      · split at h
        · exact Except.noConfusion h
        · cases h
          exact emitBlocks_append SX SY SZ _ face _ _ _ _ _ _ _ hface hs

theorem meshCell_blocks (v l : Array Nat) (cfm : Words (CS_P2 * 6)) (SX SY SZ : Int)
    (face forward : Nat) (hface : face < 6) (s : MergeState) (right : Nat) (s1 : MergeState)
    (h : meshCell v l cfm SX SY SZ face forward s right = .ok s1)
    (hs : emitBlocks SX SY SZ s.vertices) : emitBlocks SX SY SZ s1.vertices := by
  unfold meshCell at h
  simp only at h
  split at h
  · exact Except.noConfusion h
  · exact whileBits_preserve _ (fun t => emitBlocks SX SY SZ t.vertices)
      (fun b t t1 hb ht => stoppedStep_blocks v l SX SY SZ face forward right _ b hface t t1 hb ht)
      _ _ _ s1 h hs

theorem meshRow_blocks (v l : Array Nat) (cfm : Words (CS_P2 * 6)) (SX SY SZ : Int)
    (face : Nat) (hface : face < 6) (s : FaceState) (forward : Nat) (s1 : FaceState)
    (h : meshRow v l cfm SX SY SZ face s forward = .ok s1)
    (hs : emitBlocks SX SY SZ s.vertices) : emitBlocks SX SY SZ s1.vertices := by
  unfold meshRow at h
  split at h
  · exact Except.noConfusion h
  · rename_i t ht
    cases h
    exact foldlM_preserve _ (fun t => emitBlocks SX SY SZ t.vertices)
      (fun a r a1 ha hr => meshCell_blocks v l cfm SX SY SZ face forward hface a r a1 ha hr)
      _ _ t ht hs

theorem meshFace_blocks (v l : Array Nat) (cfm : Words (CS_P2 * 6)) (SX SY SZ : Int)
    (vs : List Vertex) (face : Nat) (hface : face < 6) (vs1 : List Vertex)
    (h : meshFace v l cfm SX SY SZ vs face = .ok vs1)
    (hs : emitBlocks SX SY SZ vs) : emitBlocks SX SY SZ vs1 := by
  unfold meshFace at h
  split at h
  · exact Except.noConfusion h
  · rename_i t ht
    cases h
    exact foldlM_preserve _ (fun t => emitBlocks SX SY SZ t.vertices)
      (fun a r a1 ha hr => meshRow_blocks v l cfm SX SY SZ face hface a r a1 ha hr)
      _ _ t ht hs

theorem foldlM_preserve_mem {σ α : Type} (f : σ → α → Except MeshError σ) (Inv : σ → Prop) :
    ∀ (l : List α), (∀ s a s1, a ∈ l → f s a = .ok s1 → Inv s → Inv s1) →
      ∀ s s1, l.foldlM f s = .ok s1 → Inv s → Inv s1 := by
  intro l
  induction l with
  | nil =>
    intro _ s s1 h hs
    cases h
    exact hs
  | cons a l ih =>
    intro hf s s1 h hs
    rw [List.foldlM_cons] at h
    cases hfa : f s a with
    | error e =>
      rw [hfa] at h
      exact Except.noConfusion h
    | ok s2 =>
      rw [hfa] at h
      exact ih (fun s a s1 ha => hf s a s1 (List.mem_cons_of_mem _ ha)) s2 s1 h
        (hf s a s2 (List.mem_cons_self _ _) hfa hs)

theorem error_bind {α β : Type} (e : MeshError) (f : α → Except MeshError β) :
    ((Except.error e : Except MeshError α) >>= f) = Except.error e := rfl

/-- Whatever the input, a vertex list returned by `mesh` is a concatenation of
blocks inserted by step 3. -/
theorem mesh_blocks (v l : Array Nat) (pos : IVec3) (out : List Vertex)
    (h : mesh v l pos = .ok (some out)) :
    emitBlocks (toShort ((pos.x * CS) - 1)) (toShort ((pos.y * CS) - 1))
      (toShort ((pos.z * CS) - 1)) out := by
  unfold mesh at h
  cases hac : encodeColumns v with
  | error e =>
    rw [hac, error_bind] at h
    exact Except.noConfusion h
  | ok ac =>
    rw [hac, ok_bind] at h
    simp only [] at h
    cases h3 : (List.range 6).foldlM (meshFace v l (cullFaces ac) (toShort ((pos.x * CS) - 1))
        (toShort ((pos.y * CS) - 1)) (toShort ((pos.z * CS) - 1))) [] with
    | error e =>
      rw [h3, error_bind] at h
      exact Except.noConfusion h
    | ok vs =>
      rw [h3, ok_bind] at h
      have hvs := foldlM_preserve_mem _ (fun t => emitBlocks (toShort ((pos.x * CS) - 1))
        (toShort ((pos.y * CS) - 1)) (toShort ((pos.z * CS) - 1)) t) (List.range 6)
        (fun a face a1 hm ha hr => meshFace_blocks v l (cullFaces ac) _ _ _ a face
          (List.mem_range.mp hm) a1 ha hr) [] vs h3 (emitBlocks_nil _ _ _)
      by_cases hlen : vs.length = 0
      · rw [if_pos hlen] at h
        cases h
      · rw [if_neg hlen] at h
        cases h
        exact hvs

end Mesher

namespace Mesher

/-! ## The world offset and the conversion to `short` -/

theorem exact_px_ge (pos : IVec3) (qs : List Quad) (u : Vertex)
    (hu : u ∈ qs.flatMap (quadVerticesExact pos)) : (pos.x * CS) - 1 ≤ u.px := by
  rw [List.mem_flatMap] at hu
  obtain ⟨q, _, hq⟩ := hu
  unfold quadVerticesExact at hq
  rw [List.mem_map] at hq
  obtain ⟨t, _, ht⟩ := hq
  rw [← ht]
  simp only
  omega

/-- Result of `mesh` for the single voxel at `(1, 1, 1)` with light 7. -/
theorem mesh_singleVoxel (pos : IVec3) :
    mesh singleVoxel (uniformLight 7) pos =
      .ok (some ((boxQuads 1 1 1 1 1 1 1 7).flatMap (quadVertices pos))) :=
  mesh_box_eq singleVoxel (uniformLight 7) pos 1 1 1 1 1 1 1 7 (boxVoxels_size _ _ _ _ _ _ _)
    (uniformLight_size 7) (by decide) (by decide) (by decide) (by decide) (by decide)
    (by decide) (by decide) (by decide) (by decide) (by decide)
    (boxVoxels_isBox _ _ _ _ _ _ _) (uniformLight_isUniform 7)

theorem quadVertices_eq_exact (pos : IVec3) (q : Quad) (h : quadInShort pos q) :
    quadVertices pos q = quadVerticesExact pos q := by
  unfold quadVertices quadVerticesExact
  apply List.map_congr_left
  intro t ht
  have hu := h _ (List.mem_map.mpr ⟨t, ht, rfl⟩)
  simp only at hu
  rw [toShort_of_inShort _ hu.1, toShort_of_inShort _ hu.2.1, toShort_of_inShort _ hu.2.2]

/-- Counterexample to C5 as stated: for the single voxel at `(1, 1, 1)` and
the origin `(529, 0, 0)`, `mesh` returns the six blocks of the voxel with
coordinates converted to `short`; its first vertex has `px = -32738`, while
every exact offset value is at least `529 * 62 - 1 = 32797`, so the list is not
a concatenation of blocks offset exactly by `(px * CS - 1, py * CS - 1, pz * CS - 1)`. -/
theorem mesh_format_exact_fails :
    mesh singleVoxel (uniformLight 7) ⟨529, 0, 0⟩ =
      .ok (some ((boxQuads 1 1 1 1 1 1 1 7).flatMap (quadVertices ⟨529, 0, 0⟩))) ∧
    ((boxQuads 1 1 1 1 1 1 1 7).flatMap (quadVertices ⟨529, 0, 0⟩)).head?.map Vertex.px
      = some (-32738) ∧
    ¬ blocksExact ⟨529, 0, 0⟩ ((boxQuads 1 1 1 1 1 1 1 7).flatMap (quadVertices ⟨529, 0, 0⟩)) := by
  refine ⟨mesh_singleVoxel ⟨529, 0, 0⟩, by decide, ?_⟩
  intro ⟨qs, _, he⟩
  have hm : (⟨-32738, 1, 0, 1, 7, 0⟩ : Vertex) ∈
      (boxQuads 1 1 1 1 1 1 1 7).flatMap (quadVertices ⟨529, 0, 0⟩) := by decide
  rw [he] at hm
  have := exact_px_ge ⟨529, 0, 0⟩ qs _ hm
  simp only [CS_eq] at this
  omega

/-- C5 (output format, amended): `mesh` returns a result for every input of
length `CS_P3`, and for every input a vertex list returned by `mesh` is a
concatenation of six-vertex blocks, one for each rectangle of a list `qs`, so
its length is `6 * qs.length`; the block of a rectangle with face `f < 6` and
extents `(L, R, F, B, U)` carries `normal = f`, one type and one light, and its
`(px, py, pz)` are the six triples of row `f` of the table offset by
`(px * CS - 1, py * CS - 1, pz * CS - 1)` and converted to `short`; they are
exactly the offset values whenever these fit a `short`. -/
theorem mesh_output_format (v l : Array Nat) (pos : IVec3) :
    (v.size = CS_P3 → l.size = CS_P3 → ∃ r, mesh v l pos = .ok r) ∧
    ∀ out, mesh v l pos = .ok (some out) →
      ∃ qs : List Quad, (∀ q, q ∈ qs → q.face < 6) ∧ out = qs.flatMap (quadVertices pos) ∧
        out.length = 6 * qs.length ∧
        ∀ q, q ∈ qs → quadInShort pos q → quadVertices pos q = quadVerticesExact pos q := by
  refine ⟨fun hv hl => ⟨_, mesh_eq_table v l pos hv hl⟩, ?_⟩
  intro out h
  obtain ⟨qs, hq, he⟩ := mesh_blocks v l pos out h
  have he2 : out = qs.flatMap (quadVertices pos) := by
    rw [he]
    apply flatMap_congr_mem
    intro q hm
    exact quadEmit_eq pos q (hq q hm)
  refine ⟨qs, hq, he2, ?_, fun q _ hin => quadVertices_eq_exact pos q hin⟩
  rw [he2]
  exact flatMap_quadVertices_length pos qs hq

/-- Witness of C5 at the single voxel `(1, 1, 1)` with light 7 and origin
`(0, 0, 0)`. -/
theorem mesh_output_format_witness :
    mesh singleVoxel (uniformLight 7) ⟨0, 0, 0⟩ =
      .ok (some ((boxQuads 1 1 1 1 1 1 1 7).flatMap (quadVertices ⟨0, 0, 0⟩))) ∧
    ∃ qs : List Quad, (∀ q, q ∈ qs → q.face < 6) ∧
      (boxQuads 1 1 1 1 1 1 1 7).flatMap (quadVertices ⟨0, 0, 0⟩) =
        qs.flatMap (quadVertices ⟨0, 0, 0⟩) ∧
      ((boxQuads 1 1 1 1 1 1 1 7).flatMap (quadVertices ⟨0, 0, 0⟩)).length = 6 * qs.length ∧
      ∀ q, q ∈ qs → quadInShort ⟨0, 0, 0⟩ q →
        quadVertices ⟨0, 0, 0⟩ q = quadVerticesExact ⟨0, 0, 0⟩ q :=
  ⟨mesh_singleVoxel ⟨0, 0, 0⟩,
    (mesh_output_format singleVoxel (uniformLight 7) ⟨0, 0, 0⟩).2 _ (mesh_singleVoxel ⟨0, 0, 0⟩)⟩

end Mesher

namespace Mesher

/-! ## Winding -/

theorem winding_exact (pos : IVec3) (q : Quad) (hface : q.face < 6) (hLR : q.L < q.R)
    (hFB : q.F < q.B) :
    ∃ v0 v1 v2 v3 v4 v5 : Vertex, quadVerticesExact pos q = [v0, v1, v2, v3, v4, v5] ∧
      v0.normal = q.face ∧ windsOutward q.face v0 v1 v2 ∧ windsOutward q.face v3 v4 v5 := by
  obtain ⟨face, L, R, F, B, U, ty, li⟩ := q
  simp only at hface hLR hFB
  have hk : (0 : Int) < ((R : Int) - (L : Int)) * ((B : Int) - (F : Int)) :=
    mul_pos (by omega) (by omega)
  unfold quadVerticesExact
  simp only
  interval_cases face
  all_goals
    refine ⟨_, _, _, _, _, _, rfl, rfl,
      ⟨((R : Int) - (L : Int)) * ((B : Int) - (F : Int)), hk, ?_⟩,
      ⟨((R : Int) - (L : Int)) * ((B : Int) - (F : Int)), hk, ?_⟩⟩
    all_goals
      simp only [cross, outward, Quad.lane, Prod.mk.injEq]
      refine ⟨?_, ?_, ?_⟩ <;> ring

/-- C6 (winding): for every input of length `CS_P3`, `mesh` returns the vertices
of a list of rectangles, each inside the chunk (so that the vertices determine
the rectangles); every rectangle whose coordinates stay in the range of `short`
has six vertices `v0 .. v5` carrying its face as normal, and the cross products
`(v1 - v0) × (v2 - v0)` and `(v4 - v3) × (v5 - v3)` are strictly positive
multiples of the outward unit normal of that face. -/
theorem mesh_winding (v l : Array Nat) (pos : IVec3) (hv : v.size = CS_P3)
    (hl : l.size = CS_P3) :
    ∃ qs : List Quad, mesh v l pos = .ok (packVertices (qs.flatMap (quadVertices pos))) ∧
      (∀ q, q ∈ qs → q.inChunk) ∧
      ∀ q, q ∈ qs → quadInShort pos q →
        ∃ v0 v1 v2 v3 v4 v5 : Vertex, quadVertices pos q = [v0, v1, v2, v3, v4, v5] ∧
          v0.normal = q.face ∧ windsOutward q.face v0 v1 v2 ∧ windsOutward q.face v3 v4 v5 := by
  refine ⟨quadList v l, mesh_eq_table v l pos hv hl, quadList_inChunk v l, ?_⟩
  intro q hq hin
  obtain ⟨face, f, r, k, mr, H, hface, hf1, hf2, hr1, hr2, hk1, hk2, hact, hmr, hH, hmr1, hH1,
    he⟩ := quadList_data v l q hq
  rw [quadVertices_eq_exact pos q hin]
  apply winding_exact pos q
  · rw [he]
    exact hface
  · rw [he]
    simp only
    omega
  · rw [he]
    simp only
    omega

/-- Witness of C6 at the single voxel `(1, 1, 1)` with light 7 and origin
`(0, 0, 0)`. -/
theorem mesh_winding_witness :
    singleVoxel.size = CS_P3 ∧ (uniformLight 7).size = CS_P3 ∧
    ∃ qs : List Quad,
      mesh singleVoxel (uniformLight 7) ⟨0, 0, 0⟩ =
        .ok (packVertices (qs.flatMap (quadVertices ⟨0, 0, 0⟩))) ∧
      (∀ q, q ∈ qs → q.inChunk) ∧
      ∀ q, q ∈ qs → quadInShort ⟨0, 0, 0⟩ q →
        ∃ v0 v1 v2 v3 v4 v5 : Vertex, quadVertices ⟨0, 0, 0⟩ q = [v0, v1, v2, v3, v4, v5] ∧
          v0.normal = q.face ∧ windsOutward q.face v0 v1 v2 ∧ windsOutward q.face v3 v4 v5 :=
  ⟨boxVoxels_size _ _ _ _ _ _ _, uniformLight_size 7,
    mesh_winding singleVoxel (uniformLight 7) ⟨0, 0, 0⟩ (boxVoxels_size _ _ _ _ _ _ _)
      (uniformLight_size 7)⟩

end Mesher

namespace Mesher

/-! ## Translation of the origin along X -/

theorem forall₂_flatMap {α β : Type} (R : β → β → Prop) (f g : α → List β) (qs : List α)
    (h : ∀ q, q ∈ qs → List.Forall₂ R (f q) (g q)) :
    List.Forall₂ R (qs.flatMap f) (qs.flatMap g) := by
  induction qs with
  | nil => exact List.Forall₂.nil
  | cons q qs ih =>
    rw [List.flatMap_cons, List.flatMap_cons]
    exact List.rel_append (h q (List.mem_cons_self _ _))
      (ih (fun x hx => h x (List.mem_cons_of_mem _ hx)))

theorem quadVertices_shift (a b c : Int) (q : Quad) :
    shiftedXShort (quadVertices ⟨a, b, c⟩ q) (quadVertices ⟨a + 1, b, c⟩ q) := by
  unfold shiftedXShort quadVertices
  rw [List.forall₂_map_left_iff, List.forall₂_map_right_iff, List.forall₂_same]
  intro t _
  simp only [CS_eq, and_true]
  refine ⟨?_, ?_⟩
  · unfold toShort
    omega
  · unfold toShort
    omega

theorem flatMap_quadVertices_ne_nil (pos : IVec3) (qs : List Quad)
    (hq : ∀ q, q ∈ qs → q.face < 6) (hne : qs ≠ []) :
    (qs.flatMap (quadVertices pos)).length ≠ 0 := by
  rw [flatMap_quadVertices_length pos qs hq]
  have := List.length_pos.mpr hne
  omega

/-- Counterexample to C10 as stated: for the single voxel at `(1, 1, 1)`, the
first vertex returned at the origin `(528, 0, 0)` has `px = 32736` and the first
vertex returned at the origin `(529, 0, 0)` has `px = -32738`, not
`32736 + 62`. -/
theorem mesh_shift_exact_fails :
    mesh singleVoxel (uniformLight 7) ⟨528, 0, 0⟩ =
      .ok (some ((boxQuads 1 1 1 1 1 1 1 7).flatMap (quadVertices ⟨528, 0, 0⟩))) ∧
    mesh singleVoxel (uniformLight 7) ⟨528 + 1, 0, 0⟩ =
      .ok (some ((boxQuads 1 1 1 1 1 1 1 7).flatMap (quadVertices ⟨528 + 1, 0, 0⟩))) ∧
    ((boxQuads 1 1 1 1 1 1 1 7).flatMap (quadVertices ⟨528, 0, 0⟩)).head?.map Vertex.px
      = some 32736 ∧
    ((boxQuads 1 1 1 1 1 1 1 7).flatMap (quadVertices ⟨528 + 1, 0, 0⟩)).head?.map Vertex.px
      = some (-32738) ∧
    ¬ bothNullOr shiftedX (mesh singleVoxel (uniformLight 7) ⟨528, 0, 0⟩)
        (mesh singleVoxel (uniformLight 7) ⟨528 + 1, 0, 0⟩) := by
  refine ⟨mesh_singleVoxel _, mesh_singleVoxel _, by decide, by decide, ?_⟩
  rw [mesh_singleVoxel, mesh_singleVoxel]
  intro h
  rcases h with ⟨h1, _⟩ | ⟨xs, ys, h1, h2, h3⟩
  · exact Option.noConfusion (Except.ok.inj h1)
  · have e1 := Option.some.inj (Except.ok.inj h1)
    have e2 := Option.some.inj (Except.ok.inj h2)
    rw [← e1, ← e2] at h3
    unfold shiftedX at h3
    revert h3
    decide

/-- C10 (translation of the origin, amended): for inputs of length `CS_P3`, the
results of `mesh` at the origins `(a, b, c)` and `(a + 1, b, c)` are both the
null pointer, or are vertex lists of the same length that agree vertex by
vertex in `py`, `pz`, `type`, `light` and `normal`, with `px` at `(a + 1, b, c)`
equal to `px` at `(a, b, c)` plus `CS = 62` converted to `short`: equal to
`px + 62` whenever that is at most 32767. -/
theorem mesh_shift (v l : Array Nat) (a b c : Int) (hv : v.size = CS_P3)
    (hl : l.size = CS_P3) :
    bothNullOr shiftedXShort (mesh v l ⟨a, b, c⟩) (mesh v l ⟨a + 1, b, c⟩) := by
  rw [mesh_eq_table v l ⟨a, b, c⟩ hv hl, mesh_eq_table v l ⟨a + 1, b, c⟩ hv hl]
  have hq : ∀ q, q ∈ quadList v l → q.face < 6 := fun q hq => quadList_face v l q hq
  by_cases hnil : quadList v l = []
  · left
    rw [hnil]
    exact ⟨rfl, rfl⟩
  · right
    refine ⟨_, _, ?_, ?_, forall₂_flatMap _ _ _ (quadList v l)
      (fun q _ => quadVertices_shift a b c q)⟩
    · unfold packVertices
      rw [if_neg (flatMap_quadVertices_ne_nil _ _ hq hnil)]
    · unfold packVertices
      rw [if_neg (flatMap_quadVertices_ne_nil _ _ hq hnil)]

/-- Witness of C10 at the single voxel `(1, 1, 1)` with light 7 and the origins
`(0, 0, 0)` and `(1, 0, 0)`. -/
theorem mesh_shift_witness :
    singleVoxel.size = CS_P3 ∧ (uniformLight 7).size = CS_P3 ∧
    bothNullOr shiftedXShort (mesh singleVoxel (uniformLight 7) ⟨0, 0, 0⟩)
      (mesh singleVoxel (uniformLight 7) ⟨0 + 1, 0, 0⟩) :=
  ⟨boxVoxels_size _ _ _ _ _ _ _, uniformLight_size 7,
    mesh_shift singleVoxel (uniformLight 7) 0 0 0 (boxVoxels_size _ _ _ _ _ _ _)
      (uniformLight_size 7)⟩

end Mesher

namespace Mesher

/-! ## Planes that agree on the interior -/

/-- The two planes agree on the interior cells. -/
theorem Plane.act_congr (P Q : Plane)
    (h : ∀ r f, 1 ≤ r → r ≤ 62 → 1 ≤ f → f ≤ 62 → P.E r f = Q.E r f ∧ P.A r f = Q.A r f)
    (r f : Nat) (hr1 : 1 ≤ r) (hr2 : r ≤ 62) (hf1 : 1 ≤ f) (hf2 : f ≤ 62) (s : Slice) :
    P.act r f s = Q.act r f s := by
  unfold Plane.act
  obtain ⟨e1, e2⟩ := h r f hr1 hr2 hf1 hf2
  rw [e1, e2]
  have hfw : (f < 62 ∧ P.E r (f + 1) = true ∧ s.w = false ∧ Q.A r f = P.A r (f + 1)) ↔
      (f < 62 ∧ Q.E r (f + 1) = true ∧ s.w = false ∧ Q.A r f = Q.A r (f + 1)) := by
    constructor
    · intro ⟨a, b, c, d⟩
      obtain ⟨e3, e4⟩ := h r (f + 1) hr1 hr2 (by omega) (by omega)
      exact ⟨a, e3 ▸ b, c, e4 ▸ d⟩
    · intro ⟨a, b, c, d⟩
      obtain ⟨e3, e4⟩ := h r (f + 1) hr1 hr2 (by omega) (by omega)
      exact ⟨a, e3 ▸ b, c, e4 ▸ d⟩
  have hrt : (r < 62 ∧ P.E (r + 1) f = true ∧ s.mf r = s.mf (r + 1) ∧ Q.A r f = P.A (r + 1) f) ↔
      (r < 62 ∧ Q.E (r + 1) f = true ∧ s.mf r = s.mf (r + 1) ∧ Q.A r f = Q.A (r + 1) f) := by
    constructor
    · intro ⟨a, b, c, d⟩
      obtain ⟨e3, e4⟩ := h (r + 1) f (by omega) (by omega) hf1 hf2
      exact ⟨a, e3 ▸ b, c, e4 ▸ d⟩
    · intro ⟨a, b, c, d⟩
      obtain ⟨e3, e4⟩ := h (r + 1) f (by omega) (by omega) hf1 hf2
      exact ⟨a, e3 ▸ b, c, e4 ▸ d⟩
  simp only [hfw, hrt]

theorem Plane.rowAt_congr (P Q : Plane)
    (h : ∀ r f, 1 ≤ r → r ≤ 62 → 1 ≤ f → f ≤ 62 → P.E r f = Q.E r f ∧ P.A r f = Q.A r f)
    (f : Nat) (hf1 : 1 ≤ f) (hf2 : f ≤ 62) (s0 : Slice) :
    ∀ n, n ≤ 62 → P.rowAt f s0 n = Q.rowAt f s0 n := by
  intro n
  induction n with
  | zero => intro _; rfl
  | succ n ih =>
    intro hn
    show P.step (n + 1) f (P.rowAt f s0 n) = Q.step (n + 1) f (Q.rowAt f s0 n)
    rw [ih (by omega)]
    unfold Plane.step
    rw [P.act_congr Q h (n + 1) f (by omega) hn hf1 hf2]

theorem Plane.heights_congr (P Q : Plane)
    (h : ∀ r f, 1 ≤ r → r ≤ 62 → 1 ≤ f → f ≤ 62 → P.E r f = Q.E r f ∧ P.A r f = Q.A r f) :
    ∀ n, n ≤ 62 → P.heights n = Q.heights n := by
  intro n
  induction n with
  | zero => intro _; rfl
  | succ n ih =>
    intro hn
    show (P.rowAt (n + 1) { w := false, mr := 0, mf := P.heights n } 62).mf =
      (Q.rowAt (n + 1) { w := false, mr := 0, mf := Q.heights n } 62).mf
    rw [ih (by omega), P.rowAt_congr Q h (n + 1) (by omega) hn _ 62 (le_refl _)]

theorem Plane.entry_congr (P Q : Plane)
    (h : ∀ r f, 1 ≤ r → r ≤ 62 → 1 ≤ f → f ≤ 62 → P.E r f = Q.E r f ∧ P.A r f = Q.A r f)
    (f r : Nat) (hf1 : 1 ≤ f) (hf2 : f ≤ 62) (hr : r ≤ 63) : P.entry f r = Q.entry f r := by
  unfold Plane.entry
  rw [P.heights_congr Q h (f - 1) (by omega), P.rowAt_congr Q h f hf1 hf2 _ (r - 1) (by omega)]

theorem quadAt_congr (P Q : Plane)
    (h : ∀ r f, 1 ≤ r → r ≤ 62 → 1 ≤ f → f ≤ 62 → P.E r f = Q.E r f ∧ P.A r f = Q.A r f)
    (face k r f : Nat) (hr1 : 1 ≤ r) (hr2 : r ≤ 62) (hf1 : 1 ≤ f) (hf2 : f ≤ 62) :
    quadAt P face k r f (P.entry f r) = quadAt Q face k r f (Q.entry f r) := by
  rw [P.entry_congr Q h f r hf1 hf2 (by omega)]
  unfold quadAt
  rw [P.act_congr Q h r f hr1 hr2 hf1 hf2, (h r f hr1 hr2 hf1 hf2).2]

/-- Rectangles of a plane on which the two inputs agree. -/
theorem mem_quadList_congr (v l v2 l2 : Array Nat) (q : Quad) (hq : q ∈ quadList v l)
    (h : ∀ r f, 1 ≤ r → r ≤ 62 → 1 ≤ f → f ≤ 62 →
      faceBit v q.face r f q.depth = faceBit v2 q.face r f q.depth ∧
      attr v l q.face r f q.depth = attr v2 l2 q.face r f q.depth) :
    q ∈ quadList v2 l2 := by
  obtain ⟨face, f, r, k, hface, hf1, hf2, hr1, hr2, hk1, hk2, hact, he⟩ :=
    (mem_quadList v l q).mp hq
  have hfc : q.face = face := by rw [he]
  have hd : q.depth = k := by
    rw [he]
    unfold Quad.depth
    simp only
    split <;> omega
  rw [hfc, hd] at h
  have hP : ∀ r f, 1 ≤ r → r ≤ 62 → 1 ≤ f → f ≤ 62 →
      (plane v l face k).E r f = (plane v2 l2 face k).E r f ∧
      (plane v l face k).A r f = (plane v2 l2 face k).A r f := h
  rw [mem_quadList]
  refine ⟨face, f, r, k, hface, hf1, hf2, hr1, hr2, hk1, hk2, ?_, ?_⟩
  · have e : (plane v2 l2 face k).actAt r f = (plane v l face k).actAt r f := by
      unfold Plane.actAt
      rw [(plane v l face k).entry_congr _ hP f r hf1 hf2 (by omega),
        (plane v l face k).act_congr _ hP r f hr1 hr2 hf1 hf2]
    rw [e]
    exact hact
  · rw [he, (plane v l face k).entry_congr _ hP f r hf1 hf2 (by omega),
      (plane v l face k).heights_congr _ hP (f - 1) (by omega)]
    have ea : attr v l face r f k = attr v2 l2 face r f k := (h r f hr1 hr2 hf1 hf2).2
    rw [ea]

end Mesher

namespace Mesher

/-! ## Padding on the edges and corners -/

theorem axisIdx_xyz (a r f k : Nat) (ha : a < 3) :
    ∃ x y z, axisIdx a r f k = y * CS_P2 + x * CS_P + z ∧
      ((a = 0 ∧ x = r ∧ y = k ∧ z = f) ∨ (a = 1 ∧ x = k ∧ y = f ∧ z = r) ∨
       (a = 2 ∧ x = f ∧ y = r ∧ z = k)) := by
  unfold axisIdx
  rw [CS_P_eq, CS_P2_eq]
  have hc : a = 0 ∨ a = 1 ∨ a = 2 := by omega
  rcases hc with e | e | e
  · subst e
    exact ⟨r, k, f, by rw [if_pos rfl]; omega, Or.inl ⟨rfl, rfl, rfl, rfl⟩⟩
  · subst e
    exact ⟨k, f, r, by rw [if_neg (by decide), if_pos rfl]; omega,
      Or.inr (Or.inl ⟨rfl, rfl, rfl, rfl⟩)⟩
  · subst e
    exact ⟨f, r, k, by rw [if_neg (by decide), if_neg (by decide)]; omega,
      Or.inr (Or.inr ⟨rfl, rfl, rfl, rfl⟩)⟩

theorem upDepth_le (face k : Nat) (hk : k ≤ 62) : upDepth face k ≤ 63 := by
  unfold upDepth
  split <;> omega

/-- The planes of step 3 read only cells with at most one coordinate on the
padding. -/
theorem planes_agree_offEdges (v l v2 l2 : Array Nat) (h : agreeOffEdges v l v2 l2)
    (face k r f : Nat) (hface : face < 6) (hk1 : 1 ≤ k) (hk2 : k ≤ 62)
    (hr1 : 1 ≤ r) (hr2 : r ≤ 62) (hf1 : 1 ≤ f) (hf2 : f ≤ 62) :
    faceBit v face r f k = faceBit v2 face r f k ∧
    attr v l face r f k = attr v2 l2 face r f k := by
  have hcell : ∀ d, d ≤ 63 →
      v.getD (axisIdx (face / 2) r f d) 0 = v2.getD (axisIdx (face / 2) r f d) 0 ∧
      l.getD (axisIdx (face / 2) r f d) 0 = l2.getD (axisIdx (face / 2) r f d) 0 := by
    intro d hd
    obtain ⟨x, y, z, e, hxyz⟩ := axisIdx_xyz (face / 2) r f d (by omega)
    rw [e]
    unfold agreeOffEdges onBorder at h
    rw [CS_P_eq] at h
    rcases hxyz with ⟨_, rfl, rfl, rfl⟩ | ⟨_, rfl, rfl, rfl⟩ | ⟨_, rfl, rfl, rfl⟩
    · exact h _ _ _ (by omega) (by omega) (by omega) (by omega) (by omega) (by omega)
    · exact h _ _ _ (by omega) (by omega) (by omega) (by omega) (by omega) (by omega)
    · exact h _ _ _ (by omega) (by omega) (by omega) (by omega) (by omega) (by omega)
  have h1 := hcell k (by omega)
  have h2 := hcell (upDepth face k) (upDepth_le face k hk2)
  unfold faceBit attr
  rw [h1.1, h2.1, h2.2]
  exact ⟨rfl, rfl⟩

theorem quadList_congr (v l v2 l2 : Array Nat)
    (h : ∀ face k r f, face < 6 → 1 ≤ k → k ≤ 62 → 1 ≤ r → r ≤ 62 → 1 ≤ f → f ≤ 62 →
      faceBit v face r f k = faceBit v2 face r f k ∧
      attr v l face r f k = attr v2 l2 face r f k) :
    quadList v l = quadList v2 l2 := by
  unfold quadList
  apply flatMap_congr_mem
  intro face hface
  rw [List.mem_range] at hface
  unfold faceQuads
  apply flatMap_congr_mem
  intro f hf
  rw [List.mem_range'_1] at hf
  unfold rowQuads
  apply flatMap_congr_mem
  intro r hr
  rw [List.mem_range'_1] at hr
  unfold cellQuads
  apply flatMap_congr_mem
  intro k hk
  rw [List.mem_range'_1] at hk
  exact quadAt_congr (plane v l face k) (plane v2 l2 face k)
    (fun r1 f1 a b c d => h face k r1 f1 hface hk.1 (by omega) a b c d)
    face k r f hr.1 (by omega) hf.1 (by omega)

/-- C20 (edge and corner padding): two inputs of length `CS_P3` that agree on
every cell with at most one coordinate in `{0, 63}` give the same result of
`mesh` for the same origin. -/
theorem mesh_edge_padding_irrelevant (v l v2 l2 : Array Nat) (pos : IVec3)
    (hv : v.size = CS_P3) (hl : l.size = CS_P3) (hv2 : v2.size = CS_P3)
    (hl2 : l2.size = CS_P3) (h : agreeOffEdges v l v2 l2) :
    mesh v l pos = mesh v2 l2 pos := by
  rw [mesh_eq_table v l pos hv hl, mesh_eq_table v2 l2 pos hv2 hl2,
    quadList_congr v l v2 l2 (fun face k r f hface hk1 hk2 hr1 hr2 hf1 hf2 =>
      planes_agree_offEdges v l v2 l2 h face k r f hface hk1 hk2 hr1 hr2 hf1 hf2)]

theorem cornerVoxels_size (t : Nat) : (cornerVoxels t).size = CS_P3 := by
  unfold cornerVoxels
  exact Array.size_ofFn _

theorem cornerVoxels_getD (t i : Nat) (hi : i < CS_P3) :
    (cornerVoxels t).getD i 0 =
      if i = 0 then t
      else if inBox 1 1 1 1 1 1 (i / 64 % 64) (i / 4096) (i % 64) then 1 else 0 := by
  unfold cornerVoxels
  rw [Array.getD, dif_pos (by rw [Array.size_ofFn]; exact hi)]
  simp only [Array.get_eq_getElem, Array.getElem_ofFn]

theorem cornerVoxels_agree (t t2 : Nat) :
    agreeOffEdges (cornerVoxels t) (uniformLight 7) (cornerVoxels t2) (uniformLight 7) := by
  intro x y z hx hy hz h1 h2 h3
  refine ⟨?_, rfl⟩
  unfold onBorder at h1 h2 h3
  rw [CS_P_eq] at hx hy hz h1 h2 h3
  have hi : y * CS_P2 + x * CS_P + z < CS_P3 := by
    rw [CS_P_eq, CS_P2_eq, CS_P3_eq]
    omega
  have hne : y * CS_P2 + x * CS_P + z ≠ 0 := by
    rw [CS_P_eq, CS_P2_eq]
    omega
  rw [cornerVoxels_getD t _ hi, cornerVoxels_getD t2 _ hi, if_neg hne, if_neg hne]

/-- Witness of C20: the single voxel at `(1, 1, 1)` with the corner cell
`(0, 0, 0)` empty and with the corner cell solid of type 9. -/
theorem mesh_edge_padding_irrelevant_witness :
    (cornerVoxels 0).size = CS_P3 ∧ (cornerVoxels 9).size = CS_P3 ∧
    (uniformLight 7).size = CS_P3 ∧
    agreeOffEdges (cornerVoxels 0) (uniformLight 7) (cornerVoxels 9) (uniformLight 7) ∧
    (cornerVoxels 0).getD 0 0 ≠ (cornerVoxels 9).getD 0 0 ∧
    mesh (cornerVoxels 0) (uniformLight 7) ⟨0, 0, 0⟩ =
      mesh (cornerVoxels 9) (uniformLight 7) ⟨0, 0, 0⟩ :=
  ⟨cornerVoxels_size 0, cornerVoxels_size 9, uniformLight_size 7, cornerVoxels_agree 0 9,
    by
      rw [cornerVoxels_getD 0 0 (by decide), cornerVoxels_getD 9 0 (by decide)]
      decide,
    mesh_edge_padding_irrelevant (cornerVoxels 0) (uniformLight 7) (cornerVoxels 9)
      (uniformLight 7) ⟨0, 0, 0⟩ (cornerVoxels_size 0) (uniformLight_size 7)
      (cornerVoxels_size 9) (uniformLight_size 7) (cornerVoxels_agree 0 9)⟩

end Mesher

namespace Mesher

/-! ## Padding on one side -/

theorem cellCoord_axisIdx (a a1 r f k : Nat) (ha : a < 3) (ha1 : a1 < 3) (hr : r < 64)
    (hf : f < 64) (hk : k < 64) :
    (a = a1 → cellCoord a (axisIdx a1 r f k) = k) ∧
    (a ≠ a1 → cellCoord a (axisIdx a1 r f k) = r ∨ cellCoord a (axisIdx a1 r f k) = f) := by
  unfold cellCoord axisIdx
  rw [CS_P_eq, CS_P2_eq]
  have hc : a = 0 ∨ a = 1 ∨ a = 2 := by omega
  have hc1 : a1 = 0 ∨ a1 = 1 ∨ a1 = 2 := by omega
  rcases hc with e | e | e <;> rcases hc1 with e1 | e1 | e1 <;> subst e <;> subst e1 <;>
    simp only [if_true, if_false, OfNat.ofNat_ne_zero, OfNat.ofNat_ne_one, OfNat.zero_ne_ofNat,
      OfNat.one_ne_ofNat, one_ne_zero, zero_ne_one, ne_eq, not_true_eq_false,
      not_false_eq_true, forall_const, false_implies, true_implies, true_and, and_true] <;>
    omega

/-- The planes away from the side on which the inputs differ agree. -/
theorem planes_agree_offSide (axis side : Nat) (v l v2 l2 : Array Nat) (haxis : axis < 3)
    (hside : side = 0 ∨ side = CS_P - 1) (h : agreeOffSide axis side v l v2 l2)
    (face k r f : Nat) (hface : face < 6) (hk1 : 1 ≤ k) (hk2 : k ≤ 62)
    (hkc : face / 2 = axis → k ≠ (if side = 0 then 1 else CS))
    (hr1 : 1 ≤ r) (hr2 : r ≤ 62) (hf1 : 1 ≤ f) (hf2 : f ≤ 62) :
    faceBit v face r f k = faceBit v2 face r f k ∧
    attr v l face r f k = attr v2 l2 face r f k := by
  rw [CS_P_eq] at hside
  rw [CS_eq] at hkc
  have hcell : ∀ d, d ≤ 63 → (face / 2 = axis → d ≠ side) →
      v.getD (axisIdx (face / 2) r f d) 0 = v2.getD (axisIdx (face / 2) r f d) 0 ∧
      l.getD (axisIdx (face / 2) r f d) 0 = l2.getD (axisIdx (face / 2) r f d) 0 := by
    intro d hd hds
    apply h
    · rw [CS_P3_eq]
      exact axisIdx_lt _ _ _ _ (by omega) (by omega) (by omega)
    · obtain ⟨c1, c2⟩ := cellCoord_axisIdx axis (face / 2) r f d haxis (by omega) (by omega)
        (by omega) (by omega)
      by_cases e : axis = face / 2
      · rw [c1 e]
        exact hds e.symm
      · rcases c2 e with c | c <;> rw [c] <;> omega
  have h1 := hcell k (by omega) (by omega)
  have h2 := hcell (upDepth face k) (upDepth_le face k hk2) (by
    intro e
    have := hkc e
    unfold upDepth
    split_ifs at this ⊢ <;> omega)
  unfold faceBit attr
  rw [h1.1, h2.1, h2.2]
  exact ⟨rfl, rfl⟩

theorem agreeOffSide_symm (axis side : Nat) (v l v2 l2 : Array Nat)
    (h : agreeOffSide axis side v l v2 l2) : agreeOffSide axis side v2 l2 v l :=
  fun cell hc hs => ⟨(h cell hc hs).1.symm, (h cell hc hs).2.symm⟩

theorem quadAvoids_mem (axis side : Nat) (v l v2 l2 : Array Nat) (haxis : axis < 3)
    (hside : side = 0 ∨ side = CS_P - 1) (h : agreeOffSide axis side v l v2 l2)
    (q : Quad) (hav : quadAvoids axis (if side = 0 then 1 else CS) q)
    (hq : q ∈ quadList v l) : q ∈ quadList v2 l2 := by
  apply mem_quadList_congr v l v2 l2 q hq
  obtain ⟨face, f, r, k, mr, H, hface, hf1, hf2, hr1, hr2, hk1, hk2, hact, hmr, hH, hmr1, hH1,
    he⟩ := quadList_data v l q hq
  have hfc : q.face = face := by rw [he]
  have hd : q.depth = k := by
    rw [he]
    unfold Quad.depth
    simp only
    split <;> omega
  have hcov : covers q (axisIdx (face / 2) r f k) face := by
    rw [he, covers_iff]
    exact ⟨rfl, r, f, by omega, le_refl _, by omega, le_refl _, rfl⟩
  have hne := hav _ _ hcov
  rw [hfc, hd]
  intro r1 f1 a b c d
  apply planes_agree_offSide axis side v l v2 l2 haxis hside h face k r1 f1 hface hk1 hk2 ?_
    a b c d
  intro e
  rw [(cellCoord_axisIdx axis (face / 2) r f k haxis (by omega) (by omega) (by omega)
    (by omega)).1 e.symm] at hne
  exact hne

/-- C11 (padding isolation): for two inputs of length `CS_P3` that differ only
at cells on one side of the padded cube (coordinate `0` or `63` along one
axis) and for the same origin, `mesh` returns for each input the vertices of a
list of rectangles, each inside the chunk (so that the vertices determine the
rectangles), and a rectangle none of whose covered voxels has the coordinate
`1`, respectively `62`, along that axis is emitted for one input if and only
if it is emitted for the other. -/
theorem mesh_padding_isolation (axis side : Nat) (v l v2 l2 : Array Nat) (pos : IVec3)
    (hv : v.size = CS_P3) (hl : l.size = CS_P3) (hv2 : v2.size = CS_P3)
    (hl2 : l2.size = CS_P3) (haxis : axis < 3) (hside : side = 0 ∨ side = CS_P - 1)
    (h : agreeOffSide axis side v l v2 l2) :
    ∃ qs qs2 : List Quad,
      mesh v l pos = .ok (packVertices (qs.flatMap (quadVertices pos))) ∧
      mesh v2 l2 pos = .ok (packVertices (qs2.flatMap (quadVertices pos))) ∧
      (∀ q, q ∈ qs → q.inChunk) ∧ (∀ q, q ∈ qs2 → q.inChunk) ∧
      ∀ q, quadAvoids axis (if side = 0 then 1 else CS) q → (q ∈ qs ↔ q ∈ qs2) := by
  refine ⟨quadList v l, quadList v2 l2, mesh_eq_table v l pos hv hl,
    mesh_eq_table v2 l2 pos hv2 hl2, quadList_inChunk v l, quadList_inChunk v2 l2, ?_⟩
  intro q hav
  exact ⟨quadAvoids_mem axis side v l v2 l2 haxis hside h q hav,
    quadAvoids_mem axis side v2 l2 v l haxis hside (agreeOffSide_symm axis side v l v2 l2 h)
      q hav⟩

theorem sideVoxels_size (t : Nat) : (sideVoxels t).size = CS_P3 := by
  unfold sideVoxels
  exact Array.size_ofFn _

theorem sideVoxels_getD (t i : Nat) (hi : i < CS_P3) :
    (sideVoxels t).getD i 0 =
      if i = 63 * CS_P2 + 5 * CS_P + 5 then t
      else if inBox 1 1 1 1 1 1 (i / 64 % 64) (i / 4096) (i % 64) then 1 else 0 := by
  unfold sideVoxels
  rw [Array.getD, dif_pos (by rw [Array.size_ofFn]; exact hi)]
  simp only [Array.get_eq_getElem, Array.getElem_ofFn]

theorem sideVoxels_agree (t t2 : Nat) :
    agreeOffSide 0 (CS_P - 1) (sideVoxels t) (uniformLight 7) (sideVoxels t2)
      (uniformLight 7) := by
  intro cell hc hs
  refine ⟨?_, rfl⟩
  unfold cellCoord at hs
  rw [if_pos rfl, CS_P_eq, CS_P2_eq] at hs
  have hne : cell ≠ 63 * CS_P2 + 5 * CS_P + 5 := by
    rw [CS_P_eq, CS_P2_eq]
    omega
  rw [sideVoxels_getD t _ hc, sideVoxels_getD t2 _ hc, if_neg hne, if_neg hne]

/-- Witness of C11: the single voxel at `(1, 1, 1)` with the padding cell
`(5, 63, 5)` empty and with that cell solid of type 9; the two inputs differ
on the side `y = 63` only. -/
theorem mesh_padding_isolation_witness :
    (sideVoxels 0).size = CS_P3 ∧ (sideVoxels 9).size = CS_P3 ∧
    (uniformLight 7).size = CS_P3 ∧ (0 : Nat) < 3 ∧ (CS_P - 1 = 0 ∨ CS_P - 1 = CS_P - 1) ∧
    agreeOffSide 0 (CS_P - 1) (sideVoxels 0) (uniformLight 7) (sideVoxels 9) (uniformLight 7) ∧
    ∃ qs qs2 : List Quad,
      mesh (sideVoxels 0) (uniformLight 7) ⟨0, 0, 0⟩ =
        .ok (packVertices (qs.flatMap (quadVertices ⟨0, 0, 0⟩))) ∧
      mesh (sideVoxels 9) (uniformLight 7) ⟨0, 0, 0⟩ =
        .ok (packVertices (qs2.flatMap (quadVertices ⟨0, 0, 0⟩))) ∧
      (∀ q, q ∈ qs → q.inChunk) ∧ (∀ q, q ∈ qs2 → q.inChunk) ∧
      ∀ q, quadAvoids 0 (if CS_P - 1 = 0 then 1 else CS) q → (q ∈ qs ↔ q ∈ qs2) :=
  ⟨sideVoxels_size 0, sideVoxels_size 9, uniformLight_size 7, by decide, Or.inr rfl,
    sideVoxels_agree 0 9,
    mesh_padding_isolation 0 (CS_P - 1) (sideVoxels 0) (uniformLight 7) (sideVoxels 9)
      (uniformLight 7) ⟨0, 0, 0⟩ (sideVoxels_size 0) (uniformLight_size 7) (sideVoxels_size 9)
      (uniformLight_size 7) (by decide) (Or.inr rfl) (sideVoxels_agree 0 9)⟩

end Mesher

namespace Mesher

/-! ## Face masks and order of emission -/

/-- C16 (face masks): for `voxels` of length `CS_P3`, step 1 returns columns
and step 2 masks such that, for every axis, `right`, `forward` in `[0, 63]` and
every bit `k` in `[0, 63]`: bit `k` of the column is set iff the voxel at
`get_axis_i(axis, right, forward, k)` is solid; bit `k` of the ascending mask is
set iff `k ≤ 62`, the voxel at depth `k` is solid and the one at depth `k + 1`
is empty; bit `k` of the descending mask is set iff `k ≥ 1`, the voxel at depth
`k` is solid and the one at depth `k - 1` is empty. -/
theorem masks_correct (v : Array Nat) (hv : v.size = CS_P3) :
    ∃ ac, encodeColumns v = .ok ac ∧
      ∀ axis right forward k : Nat, axis < 3 → right < CS_P → forward < CS_P → k < 64 →
        ((ac.get (axis * CS_P2 + right + forward * CS_P)).testBit k = true ↔
          v.getD (get_axis_i axis right forward k).toNat 0 ≠ 0) ∧
        (((cullFaces ac).get ((2 * axis) * CS_P2 + right + forward * CS_P)).testBit k = true ↔
          k ≤ 62 ∧ v.getD (get_axis_i axis right forward k).toNat 0 ≠ 0 ∧
            v.getD (get_axis_i axis right forward (k + 1 : Nat)).toNat 0 = 0) ∧
        (((cullFaces ac).get ((2 * axis + 1) * CS_P2 + right + forward * CS_P)).testBit k
            = true ↔
          1 ≤ k ∧ v.getD (get_axis_i axis right forward k).toNat 0 ≠ 0 ∧
            v.getD (get_axis_i axis right forward (k - 1 : Nat)).toNat 0 = 0) := by
  rw [CS_P3_eq] at hv
  obtain ⟨ac, h, hcol⟩ := encodeColumns_axis v (le_of_eq hv.symm)
  obtain ⟨ac2, h2, hmask⟩ := masks_spec v (le_of_eq hv.symm)
  rw [h] at h2
  cases h2
  refine ⟨ac, h, ?_⟩
  intro axis r f k haxis hr hf hk
  rw [CS_P_eq] at hr hf
  rw [get_axis_i_cast, get_axis_i_cast, get_axis_i_cast, Int.toNat_ofNat, Int.toNat_ofNat,
    Int.toNat_ofNat]
  refine ⟨?_, ?_, ?_⟩
  · have e : axis * CS_P2 + r + f * CS_P = 4096 * axis + (r + f * 64) := by
      rw [CS_P_eq, CS_P2_eq]
      omega
    rw [e, hcol axis r f k haxis hr hf]
    exact ⟨fun hh => hh.2, fun hh => ⟨hk, hh⟩⟩
  · have e : 2 * axis * CS_P2 + r + f * CS_P = r + f * 64 + (2 * axis) * 4096 := by
      rw [CS_P_eq, CS_P2_eq]
      omega
    have hm := hmask (2 * axis) r f k (by omega) hr hf
    have e2 : 2 * axis / 2 = axis := by omega
    rw [e2, if_pos (by omega)] at hm
    rw [e, hm]
    constructor
    · intro ⟨_, a, b, c⟩
      exact ⟨by omega, a, c⟩
    · intro ⟨a, b, c⟩
      exact ⟨hk, b, by omega, c⟩
  · have e : (2 * axis + 1) * CS_P2 + r + f * CS_P = r + f * 64 + (2 * axis + 1) * 4096 := by
      rw [CS_P_eq, CS_P2_eq]
      omega
    have hm := hmask (2 * axis + 1) r f k (by omega) hr hf
    have e2 : (2 * axis + 1) / 2 = axis := by omega
    rw [e2, if_neg (by omega)] at hm
    rw [e, hm]
    constructor
    · intro ⟨_, a, b, c⟩
      exact ⟨by omega, a, c⟩
    · intro ⟨a, b, c⟩
      exact ⟨hk, b, by omega, c⟩

/-- Witness of C16 at the single voxel `(1, 1, 1)`. -/
theorem masks_correct_witness :
    singleVoxel.size = CS_P3 ∧
    ∃ ac, encodeColumns singleVoxel = .ok ac ∧
      ∀ axis right forward k : Nat, axis < 3 → right < CS_P → forward < CS_P → k < 64 →
        ((ac.get (axis * CS_P2 + right + forward * CS_P)).testBit k = true ↔
          singleVoxel.getD (get_axis_i axis right forward k).toNat 0 ≠ 0) ∧
        (((cullFaces ac).get ((2 * axis) * CS_P2 + right + forward * CS_P)).testBit k = true ↔
          k ≤ 62 ∧ singleVoxel.getD (get_axis_i axis right forward k).toNat 0 ≠ 0 ∧
            singleVoxel.getD (get_axis_i axis right forward (k + 1 : Nat)).toNat 0 = 0) ∧
        (((cullFaces ac).get ((2 * axis + 1) * CS_P2 + right + forward * CS_P)).testBit k
            = true ↔
          1 ≤ k ∧ singleVoxel.getD (get_axis_i axis right forward k).toNat 0 ≠ 0 ∧
            singleVoxel.getD (get_axis_i axis right forward (k - 1 : Nat)).toNat 0 = 0) :=
  ⟨singleVoxel_size, masks_correct singleVoxel singleVoxel_size⟩

theorem emitBefore_of_quadBefore (v l : Array Nat) (q1 q2 : Quad) (h1 : q1 ∈ quadList v l)
    (h2 : q2 ∈ quadList v l) (hb : quadBefore q1 q2) : emitBefore q1 q2 := by
  obtain ⟨face1, f1, r1, k1, mr1, H1, hface1, hf11, hf12, hr11, hr12, hk11, hk12, hact1, hmr1,
    hH1, hmr11, hH11, he1⟩ := quadList_data v l q1 h1
  obtain ⟨face2, f2, r2, k2, mr2, H2, hface2, hf21, hf22, hr21, hr22, hk21, hk22, hact2, hmr2,
    hH2, hmr21, hH21, he2⟩ := quadList_data v l q2 h2
  unfold quadBefore at hb
  unfold emitBefore Quad.depth
  rw [he1, he2] at hb ⊢
  simp only at hb ⊢
  rcases hb with hb | ⟨e, hb⟩
  · exact Or.inl hb
  · right
    refine ⟨e, ?_⟩
    rw [e] at hb ⊢
    rcases hb with hb | ⟨e3, hb⟩
    · left; omega
    · right
      refine ⟨by omega, ?_⟩
      rcases hb with hb | ⟨e4, hb⟩
      · left; omega
      · right
        exact ⟨by omega, by omega⟩

/-- C17 (order of the output): for inputs of length `CS_P3`, `mesh` returns the
vertices of a list of rectangles, each inside the chunk (so that the vertices
determine the rectangles); the rectangles appear in strictly increasing
lexicographic order of `(normal, mesh_back - 1, mesh_right - 1, depth)`, which
is the cell `(face, forward, right, bit_pos)` at which each rectangle
terminates, and the `normal` field is non-decreasing along the vertex list. -/
theorem mesh_order (v l : Array Nat) (pos : IVec3) (hv : v.size = CS_P3)
    (hl : l.size = CS_P3) :
    ∃ qs : List Quad, mesh v l pos = .ok (packVertices (qs.flatMap (quadVertices pos))) ∧
      (∀ q, q ∈ qs → q.inChunk) ∧
      qs.Pairwise emitBefore ∧
      (∀ q, q ∈ qs →
        (plane v l q.face q.depth).actAt (q.R - 1) (q.B - 1) = Act.emit) ∧
      ((qs.flatMap (quadVertices pos)).map Vertex.normal).Pairwise (fun a b => a ≤ b) := by
  refine ⟨quadList v l, mesh_eq_table v l pos hv hl, quadList_inChunk v l, ?_, ?_, ?_⟩
  · exact List.Pairwise.imp_of_mem (fun ha hb hab => emitBefore_of_quadBefore v l _ _ ha hb hab)
      (quadList_sorted v l)
  · intro q hq
    obtain ⟨face, f, r, k, mr, H, hface, hf1, hf2, hr1, hr2, hk1, hk2, hact, hmr, hH, hmr1, hH1,
      he⟩ := quadList_data v l q hq
    have hd : q.depth = k := by
      rw [he]
      unfold Quad.depth
      simp only
      split <;> omega
    rw [hd, he]
    simp only [Nat.add_sub_cancel]
    exact hact
  · rw [List.pairwise_map, List.pairwise_flatMap]
    constructor
    · intro q _
      rw [List.Pairwise.imp_mem]
      apply List.pairwise_of_forall
      intro x y hx hy
      rw [(quadVertices_attr pos q x hx).2.2, (quadVertices_attr pos q y hy).2.2]
    · refine List.Pairwise.imp ?_ (quadList_sorted v l)
      intro q1 q2 hb x hx y hy
      rw [(quadVertices_attr pos q1 x hx).2.2, (quadVertices_attr pos q2 y hy).2.2]
      unfold quadBefore at hb
      omega

/-- Witness of C17 at the single voxel `(1, 1, 1)` with light 7. -/
theorem mesh_order_witness :
    singleVoxel.size = CS_P3 ∧ (uniformLight 7).size = CS_P3 ∧
    ∃ qs : List Quad,
      mesh singleVoxel (uniformLight 7) ⟨0, 0, 0⟩ =
        .ok (packVertices (qs.flatMap (quadVertices ⟨0, 0, 0⟩))) ∧
      (∀ q, q ∈ qs → q.inChunk) ∧
      qs.Pairwise emitBefore ∧
      (∀ q, q ∈ qs →
        (plane singleVoxel (uniformLight 7) q.face q.depth).actAt (q.R - 1) (q.B - 1)
          = Act.emit) ∧
      ((qs.flatMap (quadVertices ⟨0, 0, 0⟩)).map Vertex.normal).Pairwise (fun a b => a ≤ b) :=
  ⟨singleVoxel_size, uniformLight_size 7,
    mesh_order singleVoxel (uniformLight 7) ⟨0, 0, 0⟩ singleVoxel_size (uniformLight_size 7)⟩

end Mesher

namespace Mesher

/-! ## Scenarios S2 and S6, and origins far from zero -/

/-- Result of `mesh` in scenario S2. -/
theorem mesh_s2_eq :
    mesh s2Voxels (uniformLight 0) ⟨0, 0, 0⟩ =
      .ok (some ((boxQuads 1 2 1 1 1 1 1 0).flatMap (quadVertices ⟨0, 0, 0⟩))) :=
  mesh_box_eq s2Voxels (uniformLight 0) ⟨0, 0, 0⟩ 1 2 1 1 1 1 1 0 (boxVoxels_size _ _ _ _ _ _ _)
    (uniformLight_size 0) (by decide) (by decide) (by decide) (by decide) (by decide)
    (by decide) (by decide) (by decide) (by decide) (by decide)
    (boxVoxels_isBox _ _ _ _ _ _ _) (uniformLight_isUniform 0)

/-- Counterexample to C12 as stated: in scenario S2 `mesh` returns 36
vertices, not 30. -/
theorem mesh_s2_not_thirty :
    ¬ ∃ out, mesh s2Voxels (uniformLight 0) ⟨0, 0, 0⟩ = .ok (some out) ∧ out.length = 30 := by
  rw [mesh_s2_eq]
  intro ⟨out, h, hlen⟩
  have e := Option.some.inj (Except.ok.inj h)
  rw [← e] at hlen
  revert hlen
  decide

/-- C12 (scenario S2, amended): with type 1 at the cells `(1, 1, 1)` and
`(2, 1, 1)`, light 0 everywhere and origin `(0, 0, 0)`, `mesh` returns 36
vertices, the blocks of six rectangles: the top face and the bottom face are
one merged 2x1 rectangle each (`x` in `[1, 3]`, `z` in `[1, 2]`), the `+X` and
`-X` faces are 1x1, and the `+Z` and `-Z` faces are one merged rectangle each
that spans both voxels (`x` in `[1, 3]`, `y` in `[1, 2]`). -/
theorem mesh_s2 :
    mesh s2Voxels (uniformLight 0) ⟨0, 0, 0⟩ =
      .ok (some ((boxQuads 1 2 1 1 1 1 1 0).flatMap (quadVertices ⟨0, 0, 0⟩))) ∧
    ((boxQuads 1 2 1 1 1 1 1 0).flatMap (quadVertices ⟨0, 0, 0⟩)).length = 36 ∧
    boxQuads 1 2 1 1 1 1 1 0 =
      [{ face := 0, L := 1, R := 3, F := 1, B := 2, U := 2, type := 1, light := 0 },
       { face := 1, L := 1, R := 3, F := 1, B := 2, U := 1, type := 1, light := 0 },
       { face := 2, L := 1, R := 2, F := 1, B := 2, U := 3, type := 1, light := 0 },
       { face := 3, L := 1, R := 2, F := 1, B := 2, U := 1, type := 1, light := 0 },
       { face := 4, L := 1, R := 2, F := 1, B := 3, U := 2, type := 1, light := 0 },
       { face := 5, L := 1, R := 2, F := 1, B := 3, U := 1, type := 1, light := 0 }] :=
  ⟨mesh_s2_eq, by decide, rfl⟩

/-- Result of `mesh` in scenario S6. -/
theorem mesh_s6_eq (lv : Nat) :
    mesh s6Voxels (uniformLight lv) ⟨2, 0, -1⟩ =
      .ok (some ((boxQuads 1 62 1 62 1 62 1 lv).flatMap (quadVertices ⟨2, 0, -1⟩))) :=
  mesh_box_eq s6Voxels (uniformLight lv) ⟨2, 0, -1⟩ 1 62 1 62 1 62 1 lv
    (boxVoxels_size _ _ _ _ _ _ _)
    (uniformLight_size lv) (by decide) (by decide) (by decide) (by decide) (by decide)
    (by decide) (by decide) (by decide) (by decide) (by decide)
    (boxVoxels_isBox _ _ _ _ _ _ _) (uniformLight_isUniform lv)

theorem s6_px (lv : Nat) :
    ((boxQuads 1 62 1 62 1 62 1 lv).flatMap (quadVertices ⟨2, 0, -1⟩)).map Vertex.px =
      [124, 124, 186, 186, 186, 124, 124, 124, 186, 186, 186, 124,
       186, 186, 186, 186, 186, 186, 124, 124, 124, 124, 124, 124,
       124, 186, 186, 186, 124, 124, 186, 124, 124, 124, 186, 186] := by
  simp only [boxQuads, List.flatMap_cons, List.flatMap_nil, quadVertices, faceTable,
    List.map_cons, List.map_nil, Quad.lane, List.append_nil, List.cons_append, List.nil_append,
    List.map_append]
  decide

/-- Counterexample to C13 as stated: in scenario S6 with light 7 no vertex of
the output has `px = 123`; the smallest `px` is 124. -/
theorem mesh_s6_min_not_123 :
    ¬ ∃ out, mesh s6Voxels (uniformLight 7) ⟨2, 0, -1⟩ = .ok (some out) ∧
      (∃ u, u ∈ out ∧ u.px = 123) := by
  rw [mesh_s6_eq]
  intro ⟨out, h, u, hu, hpx⟩
  have e := Option.some.inj (Except.ok.inj h)
  rw [← e] at hu
  have hm := List.mem_map_of_mem Vertex.px hu
  rw [s6_px, hpx] at hm
  revert hm
  decide

/-- C13 (scenario S6, amended): with the interior cells of type 1, the
padding empty, a uniform light and origin `(2, 0, -1)`, the `px` of the vertices
returned by `mesh` span `[124, 186]`: the smallest is `2 * 62 - 1 + 1 = 124` and
the largest is `2 * 62 - 1 + 63 = 186`. -/
theorem mesh_s6_px_range (lv : Nat) :
    mesh s6Voxels (uniformLight lv) ⟨2, 0, -1⟩ =
      .ok (some ((boxQuads 1 62 1 62 1 62 1 lv).flatMap (quadVertices ⟨2, 0, -1⟩))) ∧
    (∀ u, u ∈ (boxQuads 1 62 1 62 1 62 1 lv).flatMap (quadVertices ⟨2, 0, -1⟩) →
      124 ≤ u.px ∧ u.px ≤ 186) ∧
    (∃ u, u ∈ (boxQuads 1 62 1 62 1 62 1 lv).flatMap (quadVertices ⟨2, 0, -1⟩) ∧
      u.px = 124) ∧
    (∃ u, u ∈ (boxQuads 1 62 1 62 1 62 1 lv).flatMap (quadVertices ⟨2, 0, -1⟩) ∧
      u.px = 186) := by
  refine ⟨mesh_s6_eq lv, ?_, ?_, ?_⟩
  · intro u hu
    have hm := List.mem_map_of_mem Vertex.px hu
    rw [s6_px] at hm
    generalize u.px = x at hm
    simp only [List.mem_cons, List.mem_singleton, List.not_mem_nil, or_false] at hm
    omega
  · have h : (124 : Int) ∈ ((boxQuads 1 62 1 62 1 62 1 lv).flatMap
        (quadVertices ⟨2, 0, -1⟩)).map Vertex.px := by
      rw [s6_px]
      decide
    obtain ⟨u, hu, e⟩ := List.mem_map.mp h
    exact ⟨u, hu, e⟩
  · have h : (186 : Int) ∈ ((boxQuads 1 62 1 62 1 62 1 lv).flatMap
        (quadVertices ⟨2, 0, -1⟩)).map Vertex.px := by
      rw [s6_px]
      decide
    obtain ⟨u, hu, e⟩ := List.mem_map.mp h
    exact ⟨u, hu, e⟩

end Mesher

namespace Mesher

/-! ## No range check -/

end Mesher

namespace Mesher

/-! ## Inputs of another length -/

/-- A loop whose body advances a counter by `k` while the counter stays within
`N`, and fails with `e0` beyond. -/
theorem foldlM_counter {σ α : Type} (f : σ → α → Except MeshError σ) (c : σ → Nat)
    (N k : Nat) (e0 : MeshError)
    (hstep : ∀ s a, c s ≤ N → (c s + k ≤ N → ∃ s1, f s a = .ok s1 ∧ c s1 = c s + k) ∧
      (N < c s + k → f s a = .error e0)) :
    ∀ (l : List α) (s : σ), c s ≤ N →
      (c s + k * l.length ≤ N → ∃ s1, l.foldlM f s = .ok s1 ∧ c s1 = c s + k * l.length) ∧
      (N < c s + k * l.length → l.foldlM f s = .error e0) := by
  intro l
  induction l with
  | nil =>
    intro s hs
    refine ⟨fun _ => ⟨s, rfl, by simp⟩, fun h => ?_⟩
    simp only [List.length_nil, Nat.mul_zero, Nat.add_zero] at h
    exact absurd h (by omega)
  | cons a l ih =>
    intro s hs
    rw [List.foldlM_cons, List.length_cons]
    have e : k * (l.length + 1) = k + k * l.length := by ring
    rw [e]
    by_cases hk : c s + k ≤ N
    · obtain ⟨s1, h1, h2⟩ := (hstep s a hs).1 hk
      rw [h1, ok_bind]
      obtain ⟨i1, i2⟩ := ih s1 (by omega)
      rw [h2] at i1 i2
      refine ⟨fun h => ?_, fun h => i2 (by omega)⟩
      obtain ⟨s2, h3, h4⟩ := i1 (by omega)
      exact ⟨s2, h3, by omega⟩
    · have h1 := (hstep s a hs).2 (by omega)
      rw [h1]
      refine ⟨fun h => absurd h (by omega), fun _ => rfl⟩

theorem encodeCell_counter (v : Array Nat) (y x : Nat) (s : EncodeState) (z : Nat) :
    (s.p + 1 ≤ v.size → ∃ s1, encodeCell v y x s z = .ok s1 ∧ s1.p = s.p + 1) ∧
    (v.size < s.p + 1 → encodeCell v y x s z = .error .bad_read) := by
  unfold encodeCell deref
  constructor
  · intro h
    rw [if_pos (by omega)]
    simp only
    split
    · exact ⟨_, rfl, rfl⟩
    · exact ⟨_, rfl, rfl⟩
  · intro h
    rw [if_neg (by omega)]

theorem encodeRow_counter (v : Array Nat) (y : Nat) (s : EncodeState) (x : Nat)
    (hs : s.p ≤ v.size) :
    (s.p + 64 ≤ v.size → ∃ s1, encodeRow v y s x = .ok s1 ∧ s1.p = s.p + 64) ∧
    (v.size < s.p + 64 → encodeRow v y s x = .error .bad_read) := by
  have h := foldlM_counter (encodeCell v y x) (fun t => t.p) v.size 1 .bad_read
    (fun t a _ => encodeCell_counter v y x t a) (List.range CS_P)
    { axis_cols := s.axis_cols, p := s.p, zb := 0 } hs
  have hlen : 1 * (List.range CS_P).length = 64 := by rw [List.length_range, CS_P_eq]
  rw [hlen] at h
  simp only at h
  unfold encodeRow
  constructor
  · intro hle
    obtain ⟨s1, h1, h2⟩ := h.1 hle
    rw [h1]
    exact ⟨_, rfl, h2⟩
  · intro hlt
    rw [h.2 hlt]

theorem encodeSlab_counter (v : Array Nat) (s : EncodeState) (y : Nat)
    (hs : s.p ≤ v.size) :
    (s.p + 4096 ≤ v.size → ∃ s1, encodeSlab v s y = .ok s1 ∧ s1.p = s.p + 4096) ∧
    (v.size < s.p + 4096 → encodeSlab v s y = .error .bad_read) := by
  have h := foldlM_counter (encodeRow v y) (fun t => t.p) v.size 64 .bad_read
    (fun t a ht => encodeRow_counter v y t a ht) (List.range CS_P) s hs
  have hlen : 64 * (List.range CS_P).length = 4096 := by rw [List.length_range, CS_P_eq]
  rw [hlen] at h
  exact h

/-- With fewer than `CS_P3` entries in `voxels`, step 1 reads past the end. -/
theorem encodeColumns_short (v : Array Nat) (hv : v.size < CS_P3) :
    encodeColumns v = .error .bad_read := by
  have h := foldlM_counter (encodeSlab v) (fun t => t.p) v.size 4096 .bad_read
    (fun t a ht => encodeSlab_counter v t a ht) (List.range CS_P)
    { axis_cols := Words.zero (CS_P2 * 3), p := 0, zb := 0 } (Nat.zero_le _)
  have hlen : 4096 * (List.range CS_P).length = 262144 := by rw [List.length_range, CS_P_eq]
  rw [hlen] at h
  simp only at h
  rw [CS_P3_eq] at hv
  unfold encodeColumns
  rw [h.2 (by omega)]

theorem mesh_short (v l : Array Nat) (pos : IVec3) (hv : v.size < CS_P3) :
    mesh v l pos = .error .bad_read := by
  unfold mesh
  rw [encodeColumns_short v hv, error_bind]

end Mesher

namespace Mesher

/-! ## All-empty voxels, whatever the light data -/

theorem foldlM_fixed {σ α : Type} (f : σ → α → Except MeshError σ) (l : List α) (s : σ)
    (h : ∀ a, a ∈ l → f s a = .ok s) : l.foldlM f s = .ok s := by
  induction l with
  | nil => rfl
  | cons a l ih =>
    rw [List.foldlM_cons, h a (List.mem_cons_self _ _), ok_bind]
    exact ih (fun b hb => h b (List.mem_cons_of_mem _ hb))

theorem whileBits_zero {σ : Type} (body : Nat → σ → Except MeshError σ) (s : σ) :
    whileBits body 64 0 s = .ok s := by
  unfold whileBits
  rw [if_pos rfl]

/-- A cell whose column of face bits is empty leaves the state unchanged, and
reads neither `voxels` nor `light_map`. -/
theorem meshCell_empty (v l : Array Nat) (cfm : Words (CS_P2 * 6)) (SX SY SZ : Int)
    (face forward right : Nat) (st : MergeState)
    (h : cfm.get (right + (forward * CS_P) + (face * CS_P2)) = 0) :
    meshCell v l cfm SX SY SZ face forward st right = .ok st := by
  unfold meshCell
  simp only [h, Nat.zero_and]
  rw [whileBits_zero]
  simp only
  rw [whileBits_zero]

theorem meshRow_empty (v l : Array Nat) (cfm : Words (CS_P2 * 6)) (SX SY SZ : Int)
    (face forward : Nat) (st : FaceState)
    (h : ∀ right, 1 ≤ right → right ≤ 62 →
      cfm.get (right + (forward * CS_P) + (face * CS_P2)) = 0) :
    meshRow v l cfm SX SY SZ face st forward = .ok st := by
  have hloop := foldlM_fixed (meshCell v l cfm SX SY SZ face forward)
    (List.range' 1 (CS_P - 2))
    { merged_forward := st.merged_forward, bits_walking_right := 0,
      merged_right := Words.zero CS_P, vertices := st.vertices }
    (fun right hr => meshCell_empty v l cfm SX SY SZ face forward right _
      (h right (List.mem_range'_1.mp hr).1 (by
        have := (List.mem_range'_1.mp hr).2
        rw [CS_P_eq] at this
        omega)))
  unfold meshRow
  rw [hloop]

theorem meshFace_empty (v l : Array Nat) (cfm : Words (CS_P2 * 6)) (SX SY SZ : Int)
    (face : Nat) (vs : List Vertex)
    (h : ∀ forward right, 1 ≤ forward → forward ≤ 62 → 1 ≤ right → right ≤ 62 →
      cfm.get (right + (forward * CS_P) + (face * CS_P2)) = 0) :
    meshFace v l cfm SX SY SZ vs face = .ok vs := by
  have hloop := foldlM_fixed (meshRow v l cfm SX SY SZ face)
    (List.range' 1 (CS_P - 2))
    { merged_forward := Words.zero CS_P2, vertices := vs }
    (fun forward hf => meshRow_empty v l cfm SX SY SZ face forward _
      (fun right hr1 hr2 => h forward right (List.mem_range'_1.mp hf).1 (by
        have := (List.mem_range'_1.mp hf).2
        rw [CS_P_eq] at this
        omega) hr1 hr2))
  unfold meshFace
  rw [hloop]

theorem mesh_no_faces (v l : Array Nat) (pos : IVec3) (hv : CS_P3 ≤ v.size)
    (h0 : ∀ i, i < CS_P3 → v.getD i 0 = 0) : mesh v l pos = .ok none := by
  rw [CS_P3_eq] at hv h0
  obtain ⟨ac, hac, hmask⟩ := masks_spec v hv
  have hz : ∀ face r f, face < 6 → r < 64 → f < 64 →
      (cullFaces ac).get (r + (f * CS_P) + (face * CS_P2)) = 0 := by
    intro face r f hface hr hf
    have e : r + (f * CS_P) + (face * CS_P2) = r + f * 64 + face * 4096 := by
      rw [CS_P_eq, CS_P2_eq]
    rw [e]
    apply Nat.eq_of_testBit_eq
    intro k
    rw [Nat.zero_testBit]
    cases hb : ((cullFaces ac).get (r + f * 64 + face * 4096)).testBit k
    · rfl
    · have := ((hmask face r f k hface hr hf).mp hb).2.1
      exact absurd (h0 _ (axisIdx_lt _ _ _ _ hr hf ((hmask face r f k hface hr hf).mp hb).1)) this
  have h3 := foldlM_fixed (meshFace v l (cullFaces ac) (toShort ((pos.x * CS) - 1))
    (toShort ((pos.y * CS) - 1)) (toShort ((pos.z * CS) - 1))) (List.range 6) []
    (fun face hf => meshFace_empty v l (cullFaces ac) _ _ _ face []
      (fun forward right hf1 hf2 hr1 hr2 =>
        hz face right forward (List.mem_range.mp hf) (by omega) (by omega)))
  exact mesh_of_faces v l pos ac [] hac h3

/-! ## Inputs longer than `CS_P3` -/

theorem firstEntries_size (v : Array Nat) : (firstEntries v).size = CS_P3 := by
  unfold firstEntries
  exact Array.size_ofFn _

theorem firstEntries_getD (v : Array Nat) (i : Nat) (hi : i < CS_P3) :
    (firstEntries v).getD i 0 = v.getD i 0 := by
  unfold firstEntries
  rw [Array.getD, dif_pos (by rw [Array.size_ofFn]; exact hi)]
  simp only [Array.get_eq_getElem, Array.getElem_ofFn]

theorem quadList_firstEntries (v l : Array Nat) :
    quadList v l = quadList (firstEntries v) (firstEntries l) := by
  apply quadList_congr
  intro face k r f hface hk1 hk2 hr1 hr2 hf1 hf2
  have h1 : axisIdx (face / 2) r f k < CS_P3 := by
    rw [CS_P3_eq]
    exact axisIdx_lt _ _ _ _ (by omega) (by omega) (by omega)
  have h2 : axisIdx (face / 2) r f (upDepth face k) < CS_P3 := by
    rw [CS_P3_eq]
    exact axisIdx_lt _ _ _ _ (by omega) (by omega) (upDepth_lt_mid face k hk2)
  unfold faceBit attr
  rw [firstEntries_getD v _ h1, firstEntries_getD v _ h2, firstEntries_getD l _ h2]
  exact ⟨rfl, rfl⟩

/-- Counterexample to C15 as stated: all-empty `voxels` of length `CS_P3 + 1`
with a `light_map` of length `CS_P3`, and all-empty `voxels` of length `CS_P3`
with an empty `light_map`, both make `mesh` return the null pointer, not an
error. -/
theorem mesh_length_unchecked :
    (Array.mkArray (CS_P3 + 1) 0).size ≠ CS_P3 ∧
    mesh (Array.mkArray (CS_P3 + 1) 0) (uniformLight 0) ⟨0, 0, 0⟩ = .ok none ∧
    (#[] : Array Nat).size ≠ CS_P3 ∧
    mesh (Array.mkArray CS_P3 0) #[] ⟨0, 0, 0⟩ = .ok none := by
  refine ⟨?_, ?_, by decide, ?_⟩
  · rw [Array.size_mkArray]
    decide
  · apply mesh_no_faces
    · rw [Array.size_mkArray]
      omega
    · intro i hi
      exact getD_mkArray (CS_P3 + 1) 0 i (by omega)
  · apply mesh_no_faces
    · rw [Array.size_mkArray]
    · intro i hi
      exact getD_mkArray CS_P3 0 i hi

/-- C15 (length, amended): `mesh` has no length check. If `voxels` and
`light_map` both have at least `CS_P3` entries, so also when they are longer,
`mesh` does not fail: it returns a vertex list or the null pointer, the result
it gives for the first `CS_P3` entries of each. -/
theorem mesh_length (v l : Array Nat) (pos : IVec3) (hv : CS_P3 ≤ v.size)
    (hl : CS_P3 ≤ l.size) :
    (∃ r, mesh v l pos = .ok r) ∧
    mesh v l pos = mesh (firstEntries v) (firstEntries l) pos := by
  refine ⟨⟨_, mesh_eq_table_ge v l pos hv hl⟩, ?_⟩
  rw [mesh_eq_table_ge v l pos hv hl,
    mesh_eq_table (firstEntries v) (firstEntries l) pos (firstEntries_size v)
      (firstEntries_size l), ← quadList_firstEntries]

/-- Witness of C15: the single voxel `(1, 1, 1)` followed by one more entry,
with the light 7 followed by one more entry. -/
theorem mesh_length_witness :
    CS_P3 ≤ (singleVoxel.push 5).size ∧ CS_P3 ≤ ((uniformLight 7).push 5).size ∧
    (∃ r, mesh (singleVoxel.push 5) ((uniformLight 7).push 5) ⟨0, 0, 0⟩ = .ok r) ∧
    mesh (singleVoxel.push 5) ((uniformLight 7).push 5) ⟨0, 0, 0⟩ =
      mesh (firstEntries (singleVoxel.push 5)) (firstEntries ((uniformLight 7).push 5))
        ⟨0, 0, 0⟩ :=
  ⟨by rw [Array.size_push, singleVoxel_size]; omega,
    by rw [Array.size_push, uniformLight_size]; omega,
    mesh_length (singleVoxel.push 5) ((uniformLight 7).push 5) ⟨0, 0, 0⟩
      (by rw [Array.size_push, singleVoxel_size]; omega)
      (by rw [Array.size_push, uniformLight_size]; omega)⟩

end Mesher

namespace Mesher

/-! ## A plane of four faces, one with a different attribute -/

theorem quadAt_emit (P : Plane) (face k r f : Nat) (hr1 : 1 ≤ r) (hr2 : r ≤ 62)
    (hf1 : 1 ≤ f) (hf2 : f ≤ 62) (hk2 : k ≤ 62) (h : P.actAt r f = Act.emit) :
    quadAt P face k r f (P.entry f r) =
      [{ face := face, L := r - (P.entry f r).mr, R := r + 1,
         F := f - P.heights (f - 1) r, B := f + 1,
         U := k + (if face % 2 = 0 then 1 else 0),
         type := (P.A r f).1, light := (P.A r f).2 }] := by
  unfold quadAt
  have hact : P.act r f (P.entry f r) = P.actAt r f := rfl
  rw [hact, h, if_pos rfl]
  have hmr := (P.row_invariant f r hr1).2.2.2.1
  have hh := (P.heights_invariant r hr1 hr2 (f - 1)).1
  rw [P.entry_mf_self f r hr1]
  rw [toU8_sub r _ (by omega) (by omega), toU8_succ r (by omega),
    toU8_sub f _ (by omega) (by omega), toU8_succ f (by omega), toU8_up face k (by omega)]

theorem quadAt_not_emit (P : Plane) (face k r f : Nat) (h : P.actAt r f ≠ Act.emit) :
    quadAt P face k r f (P.entry f r) = [] := by
  unfold quadAt
  have hact : P.act r f (P.entry f r) = P.actAt r f := rfl
  rw [hact, if_neg h]

theorem SplitPlane.exposed_in {P : Plane} {a b : Nat × Nat} (h : SplitPlane P a b) (r f : Nat)
    (hr1 : 1 ≤ r) (hr2 : r ≤ 2) (hf1 : 1 ≤ f) (hf2 : f ≤ 2) : P.E r f = true :=
  (h.hE r f hr1 (by omega) hf1 (by omega)).mpr ⟨hr2, hf2⟩

theorem SplitPlane.exposed_out {P : Plane} {a b : Nat × Nat} (h : SplitPlane P a b) (r f : Nat)
    (hr1 : 1 ≤ r) (hr2 : r ≤ 62) (hf1 : 1 ≤ f) (hf2 : f ≤ 62) (hn : ¬ (r ≤ 2 ∧ f ≤ 2)) :
    P.E r f = false := by
  cases hb : P.E r f
  · rfl
  · exact absurd ((h.hE r f hr1 hr2 hf1 hf2).mp hb) hn

theorem Plane.actAt_at (P : Plane) (r f r1 f1 f0 : Nat) (hr : 1 ≤ r) (e1 : r1 = r + 1)
    (e2 : f1 = f + 1) (e3 : f0 = f - 1) :
    P.actAt r f =
      if P.E r f = false then Act.skip
      else if f < 62 ∧ P.E r f1 = true ∧ (P.entry f r).w = false ∧ P.A r f = P.A r f1
        then Act.fwd
      else if r < 62 ∧ P.E r1 f = true ∧ P.heights f0 r = P.heights f0 r1 ∧ P.A r f = P.A r1 f
        then Act.right
      else Act.emit := by
  subst e1 e2 e3
  exact P.actAt_eq r f hr

theorem Plane.heights_at (P : Plane) (n n1 c : Nat) (e : n1 = n + 1) (hc1 : 1 ≤ c)
    (hc2 : c ≤ 62) :
    P.heights n1 c =
      match P.actAt c n1 with
      | Act.skip => P.heights n c
      | Act.fwd => P.heights n c + 1
      | Act.right => 0
      | Act.emit => 0 := by
  subst e
  exact P.heights_rec n c hc1 hc2

theorem true_ne_false_eq : ¬ (true = false) := fun h => Bool.noConfusion h

theorem SplitPlane.act11 {P : Plane} {a b : Nat × Nat} (h : SplitPlane P a b) :
    P.actAt 1 1 = Act.fwd := by
  have hE := h.exposed_in 1 1 (by omega) (by omega) (by omega) (by omega)
  have hE2 := h.exposed_in 1 2 (by omega) (by omega) (by omega) (by omega)
  have hw : (P.entry 1 1).w = false := by rw [P.entry_one 1]
  rw [P.actAt_at 1 1 2 2 0 (le_refl _) rfl rfl rfl, hE, if_neg true_ne_false_eq,
    if_pos ⟨by omega, hE2, hw, by rw [h.h11, h.h12]⟩]

theorem SplitPlane.entry12 {P : Plane} {a b : Nat × Nat} (h : SplitPlane P a b) :
    (P.entry 1 2).w = false ∧ (P.entry 1 2).mr = 0 := by
  have hw := P.entry_w_succ 1 1 (le_refl _)
  have hm := P.entry_mr_succ 1 1 (le_refl _)
  rw [h.act11, P.entry_one 1] at hw hm
  exact ⟨hw, hm⟩

theorem SplitPlane.act21 {P : Plane} {a b : Nat × Nat} (h : SplitPlane P a b) :
    P.actAt 2 1 = Act.emit := by
  have hE := h.exposed_in 2 1 (by omega) (by omega) (by omega) (by omega)
  have hE3 := h.exposed_out 3 1 (by omega) (by omega) (by omega) (by omega) (by omega)
  rw [P.actAt_at 2 1 3 2 0 (by omega) rfl rfl rfl, hE, if_neg true_ne_false_eq, if_neg, if_neg]
  · intro hc
    rw [hE3] at hc
    exact Bool.noConfusion hc.2.1
  · intro hc
    have := hc.2.2.2
    rw [h.h21, h.h22] at this
    exact h.hab this

theorem SplitPlane.heights1 {P : Plane} {a b : Nat × Nat} (h : SplitPlane P a b) :
    P.heights 1 1 = 1 ∧ P.heights 1 2 = 0 := by
  have h1 := P.heights_at 0 1 1 rfl (by omega) (by omega)
  have h2 := P.heights_at 0 1 2 rfl (by omega) (by omega)
  rw [h.act11] at h1
  rw [h.act21] at h2
  exact ⟨h1, h2⟩

theorem SplitPlane.act12 {P : Plane} {a b : Nat × Nat} (h : SplitPlane P a b) :
    P.actAt 1 2 = Act.emit := by
  have hE := h.exposed_in 1 2 (by omega) (by omega) (by omega) (by omega)
  have hE3 := h.exposed_out 1 3 (by omega) (by omega) (by omega) (by omega) (by omega)
  rw [P.actAt_at 1 2 2 3 1 (by omega) rfl rfl rfl, hE, if_neg true_ne_false_eq, if_neg, if_neg]
  · intro hc
    have e := hc.2.2.1
    rw [h.heights1.1, h.heights1.2] at e
    omega
  · intro hc
    rw [hE3] at hc
    exact Bool.noConfusion hc.2.1

theorem SplitPlane.entry22 {P : Plane} {a b : Nat × Nat} (h : SplitPlane P a b) :
    (P.entry 2 2).mr = 0 := by
  have hm := P.entry_mr_succ 2 1 (le_refl _)
  rw [h.act12] at hm
  exact hm

theorem SplitPlane.act22 {P : Plane} {a b : Nat × Nat} (h : SplitPlane P a b) :
    P.actAt 2 2 = Act.emit := by
  have hE := h.exposed_in 2 2 (by omega) (by omega) (by omega) (by omega)
  have hE3 := h.exposed_out 3 2 (by omega) (by omega) (by omega) (by omega) (by omega)
  have hE4 := h.exposed_out 2 3 (by omega) (by omega) (by omega) (by omega) (by omega)
  rw [P.actAt_at 2 2 3 3 1 (by omega) rfl rfl rfl, hE, if_neg true_ne_false_eq, if_neg, if_neg]
  · intro hc
    rw [hE3] at hc
    exact Bool.noConfusion hc.2.1
  · intro hc
    rw [hE4] at hc
    exact Bool.noConfusion hc.2.1

/-- The rectangles the plane emits, cell by cell. -/
theorem SplitPlane.quadAt_split {P : Plane} {a b : Nat × Nat} (h : SplitPlane P a b)
    (face k r f : Nat) (hr1 : 1 ≤ r) (hr2 : r ≤ 62) (hf1 : 1 ≤ f) (hf2 : f ≤ 62)
    (hk : k ≤ 62) :
    Mesher.quadAt P face k r f (P.entry f r) =
      if r = 2 ∧ f = 1 then
        [{ face := face, L := 2, R := 3, F := 1, B := 2,
           U := k + (if face % 2 = 0 then 1 else 0), type := a.1, light := a.2 }]
      else if r = 1 ∧ f = 2 then
        [{ face := face, L := 1, R := 2, F := 1, B := 3,
           U := k + (if face % 2 = 0 then 1 else 0), type := a.1, light := a.2 }]
      else if r = 2 ∧ f = 2 then
        [{ face := face, L := 2, R := 3, F := 2, B := 3,
           U := k + (if face % 2 = 0 then 1 else 0), type := b.1, light := b.2 }]
      else [] := by
  by_cases c1 : r = 2 ∧ f = 1
  · obtain ⟨e1, e2⟩ := c1
    subst e1 e2
    rw [if_pos ⟨rfl, rfl⟩, quadAt_emit P face k 2 1 hr1 hr2 hf1 hf2 hk h.act21, h.entry12.2,
      h.h21]
    rfl
  · rw [if_neg c1]
    by_cases c2 : r = 1 ∧ f = 2
    · obtain ⟨e1, e2⟩ := c2
      subst e1 e2
      rw [if_pos ⟨rfl, rfl⟩, quadAt_emit P face k 1 2 hr1 hr2 hf1 hf2 hk h.act12,
        P.entry_one 2, h.h12]
      have e : P.heights (2 - 1) 1 = 1 := h.heights1.1
      rw [e]
      rfl
    · rw [if_neg c2]
      by_cases c3 : r = 2 ∧ f = 2
      · obtain ⟨e1, e2⟩ := c3
        subst e1 e2
        rw [if_pos ⟨rfl, rfl⟩, quadAt_emit P face k 2 2 hr1 hr2 hf1 hf2 hk h.act22, h.entry22,
          h.h22]
        have e : P.heights (2 - 1) 2 = 0 := h.heights1.2
        rw [e]
      · rw [if_neg c3]
        apply quadAt_not_emit
        by_cases c4 : r = 1 ∧ f = 1
        · obtain ⟨e1, e2⟩ := c4
          subst e1 e2
          rw [h.act11]
          exact fun e => Act.noConfusion e
        · have hs : P.actAt r f = Act.skip :=
            (P.actAt_skip_iff r f hr1).mpr (h.exposed_out r f hr1 hr2 hf1 hf2 (by omega))
          rw [hs]
          exact fun e => Act.noConfusion e

end Mesher

namespace Mesher

/-! ## Scenario S5 -/

theorem isBox_axis0 (v : Array Nat) (x0 x1 y0 y1 z0 z1 t : Nat)
    (hbox : IsBox v x0 x1 y0 y1 z0 z1 t) (face : Nat) (hface : face / 2 = 0) :
    ∀ r f k, r < 64 → f < 64 → k < 64 →
      v.getD (axisIdx (face / 2) r f k) 0 =
        if x0 ≤ r ∧ r ≤ x1 ∧ z0 ≤ f ∧ f ≤ z1 ∧ y0 ≤ k ∧ k ≤ y1 then t else 0 := by
  unfold IsBox inBox at hbox
  rw [CS_P_eq, CS_P2_eq] at hbox
  intro r f k hr hf hk
  have e : axisIdx (face / 2) r f k = k * 4096 + r * 64 + f := by
    unfold axisIdx
    rw [if_pos hface]
    omega
  rw [e, hbox r k f hr hk hf]
  congr 1
  apply propext
  constructor <;> intro h <;> omega

theorem isBox_axis1 (v : Array Nat) (x0 x1 y0 y1 z0 z1 t : Nat)
    (hbox : IsBox v x0 x1 y0 y1 z0 z1 t) (face : Nat) (hface : face / 2 = 1) :
    ∀ r f k, r < 64 → f < 64 → k < 64 →
      v.getD (axisIdx (face / 2) r f k) 0 =
        if z0 ≤ r ∧ r ≤ z1 ∧ y0 ≤ f ∧ f ≤ y1 ∧ x0 ≤ k ∧ k ≤ x1 then t else 0 := by
  unfold IsBox inBox at hbox
  rw [CS_P_eq, CS_P2_eq] at hbox
  intro r f k hr hf hk
  have e : axisIdx (face / 2) r f k = f * 4096 + k * 64 + r := by
    unfold axisIdx
    rw [if_neg (by omega), if_pos hface]
    omega
  rw [e, hbox k f r hk hf hr]
  congr 1
  apply propext
  constructor <;> intro h <;> omega

theorem isBox_axis2 (v : Array Nat) (x0 x1 y0 y1 z0 z1 t : Nat)
    (hbox : IsBox v x0 x1 y0 y1 z0 z1 t) (face : Nat) (hface : face / 2 = 2) :
    ∀ r f k, r < 64 → f < 64 → k < 64 →
      v.getD (axisIdx (face / 2) r f k) 0 =
        if y0 ≤ r ∧ r ≤ y1 ∧ x0 ≤ f ∧ f ≤ x1 ∧ z0 ≤ k ∧ k ≤ z1 then t else 0 := by
  unfold IsBox inBox at hbox
  rw [CS_P_eq, CS_P2_eq] at hbox
  intro r f k hr hf hk
  have e : axisIdx (face / 2) r f k = r * 4096 + f * 64 + k := by
    unfold axisIdx
    rw [if_neg (by omega), if_neg (by omega)]
    omega
  rw [e, hbox f r k hf hr hk]
  congr 1
  apply propext
  constructor <;> intro h <;> omega

theorem s3Voxels_size : s3Voxels.size = CS_P3 := boxVoxels_size 1 2 1 1 1 2 1

theorem s3Voxels_isBox : IsBox s3Voxels 1 2 1 1 1 2 1 := boxVoxels_isBox 1 2 1 1 1 2 1

theorem s5Light_size : s5Light.size = CS_P3 := by
  unfold s5Light
  exact Array.size_ofFn _

theorem s5Light_getD (i : Nat) (hi : i < CS_P3) :
    s5Light.getD i 0 = if i = 8322 then 9 else 7 := by
  unfold s5Light
  rw [Array.getD, dif_pos (by rw [Array.size_ofFn]; exact hi)]
  simp only [Array.get_eq_getElem, Array.getElem_ofFn, CS_P_eq, CS_P2_eq]

/-- The top plane of scenario S5. -/
theorem s5_splitPlane (v l : Array Nat) (hbox : IsBox v 1 2 1 1 1 2 1)
    (hl : ∀ i, i < CS_P3 → l.getD i 0 = if i = 8322 then 9 else 7) :
    SplitPlane (plane v l 0 1) (1, 7) (1, 9) := by
  have hb := isBox_axis0 v 1 2 1 1 1 2 1 hbox 0 (by decide)
  have hat : ∀ r f, 1 ≤ r → r ≤ 2 → 1 ≤ f → f ≤ 2 →
      (plane v l 0 1).A r f = (1, if r = 2 ∧ f = 2 then 9 else 7) := by
    intro r f h1 h2 h3 h4
    show attr v l 0 r f 1 = _
    unfold attr
    rw [hb r f 1 (by omega) (by omega) (by omega), if_pos (by omega)]
    have e : axisIdx (0 / 2) r f (upDepth 0 1) = f + r * 64 + 8192 := by
      unfold axisIdx upDepth
      simp
    have hlt : f + r * 64 + 8192 < CS_P3 := by
      rw [CS_P3_eq]
      omega
    rw [e, hl _ hlt]
    by_cases hc : r = 2 ∧ f = 2
    · have e2 : f + r * 64 + 8192 = 8322 := by omega
      rw [if_pos hc, if_pos e2]
    · have e2 : ¬ (f + r * 64 + 8192 = 8322) := by omega
      rw [if_neg hc, if_neg e2]
  refine ⟨?_, ?_, ?_, ?_, ?_, by decide⟩
  · intro r f hr1 hr2 hf1 hf2
    show faceBit v 0 r f 1 = true ↔ _
    rw [faceBit_box v 0 1 2 1 2 1 1 1 (by decide) (le_refl _) hb r f 1 hr2 hf2
      (le_refl _) (by omega)]
    constructor
    · intro h
      exact ⟨h.1.2.1, h.1.2.2.2⟩
    · intro h
      exact ⟨⟨hr1, h.1, hf1, h.2⟩, rfl⟩
  · rw [hat 1 1 (by omega) (by omega) (by omega) (by omega), if_neg (by omega)]
  · rw [hat 2 1 (by omega) (by omega) (by omega) (by omega), if_neg (by omega)]
  · rw [hat 1 2 (by omega) (by omega) (by omega) (by omega), if_neg (by omega)]
  · rw [hat 2 2 (by omega) (by omega) (by omega) (by omega), if_pos ⟨rfl, rfl⟩]

theorem range62_split : List.range' 1 62 = 1 :: 2 :: List.range' 3 60 := by decide

/-- The rectangles of the top face in scenario S5. -/
theorem s5_faceQuads0 (v l : Array Nat) (hbox : IsBox v 1 2 1 1 1 2 1)
    (hl : ∀ i, i < CS_P3 → l.getD i 0 = if i = 8322 then 9 else 7) :
    faceQuads v l 0 =
      [{ face := 0, L := 2, R := 3, F := 1, B := 2, U := 2, type := 1, light := 7 },
       { face := 0, L := 1, R := 2, F := 1, B := 3, U := 2, type := 1, light := 7 },
       { face := 0, L := 2, R := 3, F := 2, B := 3, U := 2, type := 1, light := 9 }] := by
  have hb := isBox_axis0 v 1 2 1 1 1 2 1 hbox 0 (by decide)
  have hsp := s5_splitPlane v l hbox hl
  have hnd : (List.range' 1 62).Nodup := List.nodup_range' 1 62
  have hcell : ∀ f r, 1 ≤ f → f ≤ 62 → 1 ≤ r → r ≤ 62 →
      cellQuads v l 0 f r =
        quadAt (plane v l 0 1) 0 1 r f ((plane v l 0 1).entry f r) := by
    intro f r hf1 hf2 hr1 hr2
    unfold cellQuads
    rw [flatMap_single (List.range' 1 62) _ 1 hnd (by rw [List.mem_range'_1]; omega)]
    intro k hk hne
    rw [List.mem_range'_1] at hk
    apply quadAt_of_empty _ 0 k r f hr1
    show faceBit v 0 r f k = false
    cases hfb : faceBit v 0 r f k
    · rfl
    · have := ((faceBit_box v 0 1 2 1 2 1 1 1 (by decide) (le_refl _) hb r f k hr2 hf2
        hk.1 (by omega)).mp hfb).2
      exact absurd this hne
  have hq : ∀ f r, 1 ≤ f → f ≤ 62 → 1 ≤ r → r ≤ 62 →
      cellQuads v l 0 f r =
        if r = 2 ∧ f = 1 then
          [{ face := 0, L := 2, R := 3, F := 1, B := 2, U := 2, type := 1, light := 7 }]
        else if r = 1 ∧ f = 2 then
          [{ face := 0, L := 1, R := 2, F := 1, B := 3, U := 2, type := 1, light := 7 }]
        else if r = 2 ∧ f = 2 then
          [{ face := 0, L := 2, R := 3, F := 2, B := 3, U := 2, type := 1, light := 9 }]
        else [] :=
    fun f r hf1 hf2 hr1 hr2 =>
      (hcell f r hf1 hf2 hr1 hr2).trans (hsp.quadAt_split 0 1 r f hr1 hr2 hf1 hf2 (by omega))
  have hnil : ∀ f r, 1 ≤ f → f ≤ 62 → 1 ≤ r → r ≤ 62 → ¬ (r = 2 ∧ f = 1) → ¬ (r = 1 ∧ f = 2) →
      ¬ (r = 2 ∧ f = 2) → cellQuads v l 0 f r = [] := by
    intro f r hf1 hf2 hr1 hr2 n1 n2 n3
    rw [hq f r hf1 hf2 hr1 hr2, if_neg n1, if_neg n2, if_neg n3]
  have c21 : cellQuads v l 0 1 2 =
      [{ face := 0, L := 2, R := 3, F := 1, B := 2, U := 2, type := 1, light := 7 }] := by
    rw [hq 1 2 (by omega) (by omega) (by omega) (by omega), if_pos ⟨rfl, rfl⟩]
  have c12 : cellQuads v l 0 2 1 =
      [{ face := 0, L := 1, R := 2, F := 1, B := 3, U := 2, type := 1, light := 7 }] := by
    rw [hq 2 1 (by omega) (by omega) (by omega) (by omega), if_neg (by omega),
      if_pos ⟨rfl, rfl⟩]
  have c22 : cellQuads v l 0 2 2 =
      [{ face := 0, L := 2, R := 3, F := 2, B := 3, U := 2, type := 1, light := 9 }] := by
    rw [hq 2 2 (by omega) (by omega) (by omega) (by omega), if_neg (by omega),
      if_neg (by omega), if_pos ⟨rfl, rfl⟩]
  have hrow1 : rowQuads v l 0 1 =
      [{ face := 0, L := 2, R := 3, F := 1, B := 2, U := 2, type := 1, light := 7 }] := by
    unfold rowQuads
    rw [flatMap_single (List.range' 1 62) _ 2 hnd (by rw [List.mem_range'_1]; omega)]
    · exact c21
    · intro r hr hne
      rw [List.mem_range'_1] at hr
      exact hnil 1 r (by omega) (by omega) hr.1 (by omega) (by omega) (by omega) (by omega)
  have hrow2 : rowQuads v l 0 2 =
      [{ face := 0, L := 1, R := 2, F := 1, B := 3, U := 2, type := 1, light := 7 },
       { face := 0, L := 2, R := 3, F := 2, B := 3, U := 2, type := 1, light := 9 }] := by
    unfold rowQuads
    rw [range62_split, List.flatMap_cons, List.flatMap_cons, c12, c22, flatMap_nil_of]
    · rfl
    · intro r hr
      rw [List.mem_range'_1] at hr
      exact hnil 2 r (by omega) (by omega) (by omega) (by omega) (by omega) (by omega)
        (by omega)
  have hrow3 : ∀ f, 3 ≤ f → f ≤ 62 → rowQuads v l 0 f = [] := by
    intro f hf1 hf2
    unfold rowQuads
    apply flatMap_nil_of
    intro r hr
    rw [List.mem_range'_1] at hr
    exact hnil f r (by omega) hf2 hr.1 (by omega) (by omega) (by omega) (by omega)
  unfold faceQuads
  rw [range62_split, List.flatMap_cons, List.flatMap_cons, hrow1, hrow2, flatMap_nil_of]
  · rfl
  · intro f hf
    rw [List.mem_range'_1] at hf
    exact hrow3 f (by omega) (by omega)

end Mesher

namespace Mesher

/-- The rectangles emitted in scenario S5. -/
theorem quadList_s5 (v l : Array Nat) (hbox : IsBox v 1 2 1 1 1 2 1)
    (hl : ∀ i, i < CS_P3 → l.getD i 0 = if i = 8322 then 9 else 7) :
    quadList v l = s5Quads := by
  have hb0 := isBox_axis0 v 1 2 1 1 1 2 1 hbox
  have hb1 := isBox_axis1 v 1 2 1 1 1 2 1 hbox
  have hb2 := isBox_axis2 v 1 2 1 1 1 2 1 hbox
  have hl7 : ∀ i, i < 8322 → l.getD i 0 = 7 := by
    intro i hi
    rw [hl i (by rw [CS_P3_eq]; omega), if_neg (by omega)]
  have f1 := faceQuads_box_local v l 1 1 2 1 2 1 1 1 7 (by decide) (by decide) (by decide)
    (by decide) (by decide) (by decide) (by decide) (by decide) (by decide) (by decide)
    (hb0 1 (by decide)) (by
      intro r f _ h2 _ h4
      apply hl7
      unfold axisIdx upDepth
      simp
      omega)
  have f2 := faceQuads_box_local v l 2 1 2 1 1 1 2 1 7 (by decide) (by decide) (by decide)
    (by decide) (by decide) (by decide) (by decide) (by decide) (by decide) (by decide)
    (hb1 2 (by decide)) (by
      intro r f _ h2 _ h4
      apply hl7
      unfold axisIdx upDepth
      simp
      omega)
  have f3 := faceQuads_box_local v l 3 1 2 1 1 1 2 1 7 (by decide) (by decide) (by decide)
    (by decide) (by decide) (by decide) (by decide) (by decide) (by decide) (by decide)
    (hb1 3 (by decide)) (by
      intro r f _ h2 _ h4
      apply hl7
      unfold axisIdx upDepth
      simp
      omega)
  have f4 := faceQuads_box_local v l 4 1 1 1 2 1 2 1 7 (by decide) (by decide) (by decide)
    (by decide) (by decide) (by decide) (by decide) (by decide) (by decide) (by decide)
    (hb2 4 (by decide)) (by
      intro r f _ h2 _ h4
      apply hl7
      unfold axisIdx upDepth
      simp
      omega)
  have f5 := faceQuads_box_local v l 5 1 1 1 2 1 2 1 7 (by decide) (by decide) (by decide)
    (by decide) (by decide) (by decide) (by decide) (by decide) (by decide) (by decide)
    (hb2 5 (by decide)) (by
      intro r f _ h2 _ h4
      apply hl7
      unfold axisIdx upDepth
      simp
      omega)
  unfold quadList s5Quads
  rw [range6]
  simp only [List.flatMap_cons, List.flatMap_nil, List.append_nil]
  rw [s5_faceQuads0 v l hbox hl, f1, f2, f3, f4, f5]
  rfl

/-- Result of `mesh` in scenario S5. -/
theorem mesh_s5_eq (pos : IVec3) :
    mesh s3Voxels s5Light pos = .ok (some (s5Quads.flatMap (quadVertices pos))) := by
  rw [mesh_eq_table s3Voxels s5Light pos s3Voxels_size s5Light_size,
    quadList_s5 s3Voxels s5Light s3Voxels_isBox s5Light_getD]
  have hlen := flatMap_quadVertices_length pos s5Quads (by
    intro q hq
    unfold s5Quads at hq
    simp only [List.mem_cons, List.mem_singleton, List.not_mem_nil, or_false] at hq
    rcases hq with h | h | h | h | h | h | h | h <;> rw [h] <;> norm_num)
  have h8 : s5Quads.length = 8 := rfl
  unfold packVertices
  rw [if_neg (by omega)]

end Mesher

namespace Mesher

/-! ## Maximality of the rectangles -/

/-- Agreement with a rectangle of the output, in terms of its plane. -/
theorem agreesAt_iff (v l : Array Nat) (face k r0 f0 mr H : Nat) (hface : face < 6)
    (hk1 : 1 ≤ k) (hk2 : k ≤ 62) (r w : Nat) (hr : r < 64) (hw : w < 64) :
    agreesAt v l (Quad.mk face (r0 - mr) (r0 + 1) (f0 - H) (f0 + 1)
        (k + (if face % 2 = 0 then 1 else 0))
        (attr v l face r0 f0 k).1 (attr v l face r0 f0 k).2) r w ↔
      (1 ≤ r ∧ r ≤ 62 ∧ 1 ≤ w ∧ w ≤ 62 ∧ faceBit v face r w k = true ∧
        attr v l face r w k = attr v l face r0 f0 k) := by
  unfold agreesAt Quad.depth
  simp only
  have hd : k + (if face % 2 = 0 then 1 else 0) - (if face % 2 = 0 then 1 else 0) = k := by
    split <;> omega
  rw [hd, depth_cast face k (Or.inr hk1), get_axis_i_cast, get_axis_i_cast, Int.toNat_ofNat,
    Int.toNat_ofNat, exposedFace_iff v _ face hface]
  constructor
  · intro ⟨⟨r1, f1, k1, a1, a2, a3, a4, a5, a6, e, hb⟩, ht, hli⟩
    obtain ⟨e1, e2, e3⟩ := axisIdx_inj (face / 2) r w k r1 f1 k1 hr hw (by omega) (by omega)
      (by omega) (by omega) e
    subst e1 e2 e3
    refine ⟨a1, a2, a3, a4, hb, ?_⟩
    unfold attr at ht hli ⊢
    simp only at ht hli
    rw [ht, hli]
  · intro ⟨a1, a2, a3, a4, hb, ha⟩
    refine ⟨⟨r, w, k, a1, a2, a3, a4, hk1, hk2, rfl, hb⟩, ?_, ?_⟩
    · have := congrArg Prod.fst ha
      exact this
    · have := congrArg Prod.snd ha
      exact this

/-- The leftmost cell of the last row of a rectangle did not merge forward, and
was not walking right on entry. -/
theorem Plane.rect_corner (P : Plane) (r f : Nat) (hr1 : 1 ≤ r) (hr2 : r ≤ 62)
    (hemit : P.actAt r f = Act.emit) :
    ¬ (f < 62 ∧ P.E (r - (P.entry f r).mr) (f + 1) = true ∧
      P.A (r - (P.entry f r).mr) f = P.A (r - (P.entry f r).mr) (f + 1)) := by
  obtain ⟨_, hw0, hw1, hle, hrun, hstop⟩ := P.row_invariant f r hr1
  have hlo := P.run_lo r f hr1
  -- the walking flag on entry to the leftmost cell is clear
  have hwL : (P.entry f (r - (P.entry f r).mr)).w = false := by
    obtain ⟨_, _, hw1L, _, hrunL, _⟩ := P.row_invariant f (r - (P.entry f r).mr) hlo
    cases hb : (P.entry f (r - (P.entry f r).mr)).w
    · rfl
    · exfalso
      have h1 := hw1L hb
      have hright := hrunL 0 (by omega)
      by_cases hmr : (P.entry f r).mr = 0
      · rw [hmr] at hb
        have := hw0 (by
          cases hbb : (P.entry f r).w
          · rfl
          · have := hw1 hbb
            omega)
        have e : r - 0 = r := Nat.sub_zero r
        rw [e] at hb
        have := hw1 hb
        omega
      · have hle2 := (P.row_invariant f (r - (P.entry f r).mr) hlo).2.2.2.1
        have hns := hstop (by omega)
        have e : r - (P.entry f r).mr - 1 - 0 = r - 1 - (P.entry f r).mr := by omega
        rw [e] at hright
        exact hns hright
  have hnf : P.actAt (r - (P.entry f r).mr) f ≠ Act.fwd := by
    by_cases hmr : (P.entry f r).mr = 0
    · rw [hmr, Nat.sub_zero, hemit]
      exact fun e => Act.noConfusion e
    · rw [P.run_right r f _ hr1 (le_refl _) (by omega)]
      exact fun e => Act.noConfusion e
  have hE : P.E (r - (P.entry f r).mr) f = true := by
    apply P.actAt_E _ f hlo
    by_cases hmr : (P.entry f r).mr = 0
    · rw [hmr, Nat.sub_zero, hemit]
      exact fun e => Act.noConfusion e
    · rw [P.run_right r f _ hr1 (le_refl _) (by omega)]
      exact fun e => Act.noConfusion e
  intro ⟨c1, c2, c3⟩
  apply hnf
  rw [P.actAt_eq _ f hlo, hE, if_neg true_ne_false_eq, if_pos ⟨c1, c2, hwL, c3⟩]

end Mesher

namespace Mesher

/-- Every face of a rectangle of the output agrees with the rectangle. -/
theorem quad_agrees (v l : Array Nat) (q : Quad) (hq : q ∈ quadList v l) (r w : Nat)
    (h1 : q.L ≤ r) (h2 : r < q.R) (h3 : q.F ≤ w) (h4 : w < q.B) : agreesAt v l q r w := by
  obtain ⟨face, f0, r0, k, mr, H, hface, hf1, hf2, hr1, hr2, hk1, hk2, hact, hmr, hH, hmr1, hH1,
    he⟩ := quadList_data v l q hq
  rw [he] at h1 h2 h3 h4 ⊢
  simp only at h1 h2 h3 h4
  have hin : (plane v l face k).inRect r0 f0 r w := by
    unfold Plane.inRect
    rw [← hmr, ← hH]
    exact ⟨h1, by omega, h3, by omega⟩
  have hlo := (plane v l face k).run_lo r0 f0 hr1
  have hflo := (plane v l face k).rect_lo r0 f0 hr1 hr2 hf1
  rw [← hmr] at hlo
  rw [← hH] at hflo
  rw [agreesAt_iff v l face k r0 f0 mr H hface hk1 hk2 r w (by omega) (by omega)]
  exact ⟨by omega, by omega, by omega, by omega,
    (plane v l face k).rect_E r0 f0 r w hr1 hr2 hf1 hact hin,
    (plane v l face k).rect_attr r0 f0 r w hr1 hr2 hf1 hin⟩

/-- No rectangle of the output extends forward. -/
theorem quad_forward_maximal (v l : Array Nat) (q : Quad) (hq : q ∈ quadList v l) (B2 : Nat) :
    ¬ extendsTo v l q q.L q.R q.F B2 := by
  obtain ⟨face, f0, r0, k, mr, H, hface, hf1, hf2, hr1, hr2, hk1, hk2, hact, hmr, hH, hmr1, hH1,
    he⟩ := quadList_data v l q hq
  intro ⟨_, _, _, _, hstrict, hall⟩
  have hB : q.B < B2 := by omega
  have hcell := hall q.L q.B (le_refl _) (by rw [he]; simp only; omega)
    (by rw [he]; simp only; omega) hB
  have hself := quad_agrees v l q hq q.L (q.B - 1) (le_refl _) (by rw [he]; simp only; omega)
    (by rw [he]; simp only; omega) (by rw [he]; simp only; omega)
  rw [he] at hcell hself
  simp only at hcell hself
  rw [agreesAt_iff v l face k r0 f0 mr H hface hk1 hk2 _ _ (by omega) (by omega)] at hcell hself
  obtain ⟨_, _, _, c4, c5, c6⟩ := hcell
  obtain ⟨_, _, _, _, _, s6⟩ := hself
  rw [Nat.add_sub_cancel] at s6
  apply (plane v l face k).rect_corner r0 f0 hr1 hr2 hact
  rw [← hmr]
  exact ⟨by omega, c5, s6.trans c6.symm⟩

/-- In scenario S5 the top face of the voxel `(2, 1, 1)` extends to the left. -/
theorem s5_extends (v l : Array Nat) (hbox : IsBox v 1 2 1 1 1 2 1)
    (hl : ∀ i, i < CS_P3 → l.getD i 0 = if i = 8322 then 9 else 7) :
    extendsTo v l
      { face := 0, L := 2, R := 3, F := 1, B := 2, U := 2, type := 1, light := 7 } 1 3 1 2 := by
  refine ⟨by decide, by decide, by decide, by decide, Or.inl (by decide), ?_⟩
  intro r w h1 h2 h3 h4
  have hw : w = 1 := by omega
  subst hw
  have hsp := s5_splitPlane v l hbox hl
  have hat := agreesAt_iff v l 0 1 2 1 0 0 (by decide) (by decide) (by decide)
    r 1 (by omega) (by omega)
  have ha21 : attr v l 0 2 1 1 = (1, 7) := hsp.h21
  rw [ha21] at hat
  apply hat.mpr
  refine ⟨h1, by omega, le_refl _, by omega, ?_, ?_⟩
  · exact hsp.exposed_in r 1 h1 (by omega) (le_refl _) (by omega)
  · have hr : r = 1 ∨ r = 2 := by omega
    rcases hr with e | e
    · subst e
      exact hsp.h11
    · subst e
      exact hsp.h21

/-- Counterexample to C18 as stated (scenario S5): for the slab
`(1..2, 1, 1..2)` of type 1 with light 7 everywhere except 9 at the cell
`(2, 2, 2)`, the first rectangle of the output is the top face of the voxel
`(2, 1, 1)` alone, and the larger rectangle `x` in `[1, 3)`, `z` in `[1, 2)` of
the same plane consists of exposed faces of type 1 and light 7. -/
theorem mesh_s5_not_maximal :
    mesh s3Voxels s5Light ⟨0, 0, 0⟩ = .ok (some (s5Quads.flatMap (quadVertices ⟨0, 0, 0⟩))) ∧
    s5Quads.head? =
      some { face := 0, L := 2, R := 3, F := 1, B := 2, U := 2, type := 1, light := 7 } ∧
    extendsTo s3Voxels s5Light
      { face := 0, L := 2, R := 3, F := 1, B := 2, U := 2, type := 1, light := 7 } 1 3 1 2 :=
  ⟨mesh_s5_eq ⟨0, 0, 0⟩, rfl, s5_extends s3Voxels s5Light s3Voxels_isBox s5Light_getD⟩

/-- C18 (maximal rectangles, amended): for inputs of length `CS_P3`, `mesh`
returns the vertices of a list of rectangles, each inside the chunk (so that
the vertices determine the rectangles); every rectangle consists only of
exposed interior faces whose voxel type and exterior light value agree with the
rectangle's, and it is maximal in the forward direction: no rectangle of the
same face direction and depth plane with the same left, right and front
extents and a larger back extent consists only of such faces. -/
theorem mesh_forward_maximal (v l : Array Nat) (pos : IVec3) (hv : v.size = CS_P3)
    (hl : l.size = CS_P3) :
    ∃ qs : List Quad, mesh v l pos = .ok (packVertices (qs.flatMap (quadVertices pos))) ∧
      (∀ q, q ∈ qs → q.inChunk) ∧
      ∀ q, q ∈ qs →
        (∀ r w, q.L ≤ r → r < q.R → q.F ≤ w → w < q.B → agreesAt v l q r w) ∧
        ∀ B2, ¬ extendsTo v l q q.L q.R q.F B2 :=
  ⟨quadList v l, mesh_eq_table v l pos hv hl, quadList_inChunk v l, fun q hq =>
    ⟨fun r w h1 h2 h3 h4 => quad_agrees v l q hq r w h1 h2 h3 h4,
      fun B2 => quad_forward_maximal v l q hq B2⟩⟩

/-- Witness of C18 in scenario S5. -/
theorem mesh_forward_maximal_witness :
    s3Voxels.size = CS_P3 ∧ s5Light.size = CS_P3 ∧
    ∃ qs : List Quad,
      mesh s3Voxels s5Light ⟨0, 0, 0⟩ =
        .ok (packVertices (qs.flatMap (quadVertices ⟨0, 0, 0⟩))) ∧
      (∀ q, q ∈ qs → q.inChunk) ∧
      ∀ q, q ∈ qs →
        (∀ r w, q.L ≤ r → r < q.R → q.F ≤ w → w < q.B → agreesAt s3Voxels s5Light q r w) ∧
        ∀ B2, ¬ extendsTo s3Voxels s5Light q q.L q.R q.F B2 :=
  ⟨s3Voxels_size, s5Light_size,
    mesh_forward_maximal s3Voxels s5Light ⟨0, 0, 0⟩ s3Voxels_size s5Light_size⟩

end Mesher

namespace Mesher

/-! ## The checks of the checked embedding never fail -/

theorem need_pos (c : Prop) [Decidable c] (e : Fault) {α : Type} (k : Except Fault α)
    (h : c) : need c e k = k := by
  unfold need
  rw [if_pos h]

theorem liftE_ok {α : Type} (a : α) : liftE (Except.ok a : Except MeshError α) = .ok a := rfl

theorem foldlM_liftE {σ α : Type} (fC : σ → α → Except Fault σ)
    (f : σ → α → Except MeshError σ) (l : List α)
    (h : ∀ a, a ∈ l → ∀ s, fC s a = liftE (f s a)) :
    ∀ s, l.foldlM fC s = liftE (l.foldlM f s) := by
  induction l with
  | nil => intro s; rfl
  | cons a l ih =>
    intro s
    rw [List.foldlM_cons, List.foldlM_cons, h a (List.mem_cons_self _ _) s]
    cases hfa : f s a with
    | error e => rfl
    | ok s1 =>
      show l.foldlM fC s1 = liftE (l.foldlM f s1)
      exact ih (fun b hb => h b (List.mem_cons_of_mem _ hb)) s1

theorem foldlM_pure {σ α : Type} (fC : σ → α → Except Fault σ) (f : σ → α → σ) (l : List α)
    (h : ∀ a, a ∈ l → ∀ s, fC s a = .ok (f s a)) :
    ∀ s, l.foldlM fC s = .ok (l.foldl f s) := by
  induction l with
  | nil => intro s; rfl
  | cons a l ih =>
    intro s
    rw [List.foldlM_cons, h a (List.mem_cons_self _ _) s, List.foldl_cons]
    show l.foldlM fC (f s a) = _
    exact ih (fun b hb => h b (List.mem_cons_of_mem _ hb)) (f s a)

/-! ### Step 1 -/

theorem encodeCellC_eq (v : Array Nat) (y x z : Nat) (hy : y < 64) (hx : x < 64) (hz : z < 64)
    (st : EncodeState) : encodeCellC v y x st z = liftE (encodeCell v y x st z) := by
  unfold encodeCellC encodeCell
  cases deref v st.p with
  | error e => rfl
  | ok b =>
    simp only
    by_cases hb : b > 0
    · rw [if_pos hb, if_pos hb, need_pos _ _ _ (by rw [CS_P_eq, CS_P2_eq]; omega),
        need_pos _ _ _ hy, need_pos _ _ _ (by rw [CS_P_eq, CS_P2_eq]; omega),
        need_pos _ _ _ hx, need_pos _ _ _ hz]
      rfl
    · rw [if_neg hb, if_neg hb]
      rfl

theorem encodeRowC_eq (v : Array Nat) (y x : Nat) (hy : y < 64) (hx : x < 64)
    (st : EncodeState) : encodeRowC v y st x = liftE (encodeRow v y st x) := by
  unfold encodeRowC encodeRow
  rw [foldlM_liftE (encodeCellC v y x) (encodeCell v y x) (List.range CS_P)
    (fun z hz s => encodeCellC_eq v y x z hy hx (by
      rw [List.mem_range, CS_P_eq] at hz
      exact hz) s)]
  cases (List.range CS_P).foldlM (encodeCell v y x)
      { axis_cols := st.axis_cols, p := st.p, zb := 0 } with
  | error e => rfl
  | ok s1 =>
    show need _ _ _ = _
    rw [need_pos _ _ _ (by rw [CS_P_eq, CS_P2_eq]; omega)]
    rfl

theorem encodeSlabC_eq (v : Array Nat) (y : Nat) (hy : y < 64) (st : EncodeState) :
    encodeSlabC v st y = liftE (encodeSlab v st y) := by
  unfold encodeSlabC encodeSlab
  exact foldlM_liftE (encodeRowC v y) (encodeRow v y) (List.range CS_P)
    (fun x hx s => encodeRowC_eq v y x hy (by
      rw [List.mem_range, CS_P_eq] at hx
      exact hx) s) st

theorem encodeColumnsC_eq (v : Array Nat) : encodeColumnsC v = liftE (encodeColumns v) := by
  unfold encodeColumnsC encodeColumns
  rw [foldlM_liftE (encodeSlabC v) (encodeSlab v) (List.range CS_P)
    (fun y hy s => encodeSlabC_eq v y (by
      rw [List.mem_range, CS_P_eq] at hy
      exact hy) s)]
  cases (List.range CS_P).foldlM (encodeSlab v)
      { axis_cols := Words.zero (CS_P2 * 3), p := 0, zb := 0 } with
  | error e => rfl
  | ok s1 => rfl

/-! ### Step 2 -/

theorem cullColumnC_eq (ac : Words (CS_P2 * 3)) (axis i : Nat) (ha : axis < 3)
    (hi : i < CS_P2) (m : Words (CS_P2 * 6)) :
    cullColumnC ac axis m i = .ok (cullColumn ac axis m i) := by
  unfold cullColumnC
  rw [CS_P2_eq] at hi
  rw [need_pos _ _ _ (by rw [CS_P2_eq]; omega), need_pos _ _ _ (by rw [CS_P_eq]; omega),
    need_pos _ _ _ (by rw [CS_P2_eq]; omega), need_pos _ _ _ (by rw [CS_P2_eq]; omega)]

theorem cullFacesC_eq (ac : Words (CS_P2 * 3)) : cullFacesC ac = .ok (cullFaces ac) := by
  unfold cullFacesC cullFaces
  apply foldlM_pure
  intro axis ha m
  rw [List.mem_range] at ha
  apply foldlM_pure
  intro i hi m2
  rw [List.mem_range] at hi
  exact cullColumnC_eq ac axis i ha hi m2

end Mesher

namespace Mesher

/-! ### Step 3 -/

theorem and_lt_of_lt (a b n : Nat) (h : a < n) : a &&& b < n :=
  lt_of_le_of_lt Nat.and_le_left h

theorem whileBitsC_eq {σ : Type} (bodyC : Nat → σ → Except Fault σ)
    (body : Nat → σ → Except MeshError σ)
    (h : ∀ b, b < 64 → ∀ s, bodyC b s = liftE (body b s)) :
    ∀ fuel bits s, bits < 2 ^ 64 →
      whileBitsC bodyC fuel bits s = liftE (whileBits body fuel bits s) := by
  intro fuel
  induction fuel with
  | zero =>
    intro bits s _
    unfold whileBitsC whileBits
    by_cases hb : bits = 0
    · rw [if_pos hb, if_pos hb]
      rfl
    · rw [if_neg hb, if_neg hb]
      rfl
  | succ n ih =>
    intro bits s hlt
    unfold whileBitsC whileBits
    by_cases hb : bits = 0
    · rw [if_pos hb, if_pos hb]
      rfl
    · have hctz := (CTZ_spec bits hb hlt).2.2
      rw [if_neg hb, if_neg hb, need_pos _ _ _ hb, need_pos _ _ _ hctz, h (CTZ bits) hctz s]
      cases body (CTZ bits) s with
      | error e => rfl
      | ok s1 =>
        show whileBitsC bodyC n _ s1 = liftE (whileBits body n _ s1)
        exact ih _ s1 (and_lt_of_lt _ _ _ hlt)

theorem forwardStepC_eq (v l : Array Nat) (face forward right bit_pos : Nat)
    (hr : right < 64) (hb : bit_pos < 64) (st : ForwardState) :
    forwardStepC v l face forward right bit_pos st =
      liftE (forwardStep v l face forward right bit_pos st) := by
  unfold forwardStepC forwardStep
  cases sameTypeLight v l
      (get_axis_i (face / 2 : Nat) right forward bit_pos)
      (get_axis_i (face / 2 : Nat) right (forward + 1 : Nat) bit_pos)
      (get_axis_i (face / 2 : Nat) right forward (bit_pos + lightDir face))
      (get_axis_i (face / 2 : Nat) right (forward + 1 : Nat) (bit_pos + lightDir face)) with
  | error e => rfl
  | ok t =>
    cases t with
    | true =>
      show need _ _ _ = _
      rw [need_pos _ _ _ (by rw [CS_P_eq, CS_P2_eq]; omega)]
      rfl
    | false =>
      show need _ _ _ = _
      rw [need_pos _ _ _ hb]
      rfl

theorem canWalkRightC_eq (v l : Array Nat) (face forward right bmr bit_pos : Nat)
    (hr : right < 63) (hb : bit_pos < 64) (st : MergeState) :
    canWalkRightC v l face forward right bmr bit_pos st =
      liftE (canWalkRight v l face forward right bmr bit_pos st) := by
  unfold canWalkRightC canWalkRight
  rw [need_pos _ _ _ hb]
  by_cases h1 : (bmr &&& (1 <<< bit_pos)) ≠ 0
  · rw [if_pos h1, if_pos h1, need_pos _ _ _ (by rw [CS_P_eq, CS_P2_eq]; omega)]
    by_cases h2 : st.merged_forward.get ((right * CS_P) + bit_pos)
        = st.merged_forward.get ((right + 1) * CS_P + bit_pos)
    · rw [if_pos h2, if_pos h2]
    · rw [if_neg h2, if_neg h2]
      rfl
  · rw [if_neg h1, if_neg h1]
    rfl

theorem stoppedStepC_eq (v l : Array Nat) (SX SY SZ : Int) (face forward right bmr bit_pos : Nat)
    (hr : right < 63) (hb : bit_pos < 64) (st : MergeState) :
    stoppedStepC v l SX SY SZ face forward right bmr bit_pos st =
      liftE (stoppedStep v l SX SY SZ face forward right bmr bit_pos st) := by
  unfold stoppedStepC stoppedStep
  by_cases h0 : bit_pos = 0 ∨ bit_pos = CS_P - 1
  · rw [if_pos h0, if_pos h0]
    rfl
  · rw [if_neg h0, if_neg h0, canWalkRightC_eq v l face forward right bmr bit_pos hr hb st]
    cases canWalkRight v l face forward right bmr bit_pos st with
    | error e => rfl
    | ok t =>
      cases t with
      | true =>
        show need _ _ _ = _
        rw [need_pos _ _ _ hb, need_pos _ _ _ (by rw [CS_P_eq]; omega),
          need_pos _ _ _ (by rw [CS_P_eq, CS_P2_eq]; omega)]
        rfl
      | false =>
        show need _ _ _ = _
        rw [need_pos _ _ _ hb, need_pos _ _ _ (by rw [CS_P_eq]; omega),
          need_pos _ _ _ (by rw [CS_P_eq, CS_P2_eq]; omega)]
        simp only
        cases vecAt v (get_axis_i (face / 2 : Nat) right forward bit_pos) with
        | error e => rfl
        | ok ty =>
          simp only
          cases vecAt l (get_axis_i (face / 2 : Nat) right forward (bit_pos + lightDir face)) with
          | error e => rfl
          | ok li => rfl

theorem meshCellC_eq (v l : Array Nat) (cfm : Words (CS_P2 * 6)) (SX SY SZ : Int)
    (face forward right : Nat) (hface : face < 6) (hf1 : 1 ≤ forward) (hf2 : forward ≤ 62)
    (hr1 : 1 ≤ right) (hr2 : right ≤ 62)
    (hlt : cfm.get (right + (forward * CS_P) + (face * CS_P2)) < 2 ^ 64) (st : MergeState) :
    meshCellC v l cfm SX SY SZ face forward st right =
      liftE (meshCell v l cfm SX SY SZ face forward st right) := by
  unfold meshCellC meshCell
  rw [need_pos _ _ _ (by rw [CS_P_eq, CS_P2_eq]; omega),
    need_pos _ _ _ (by rw [CS_eq, CS_P_eq, CS_P2_eq]; omega),
    need_pos _ _ _ (by rw [CS_eq, CS_P_eq, CS_P2_eq]; omega)]
  simp only
  rw [whileBitsC_eq (forwardStepC v l face forward right) (forwardStep v l face forward right)
    (fun b hb s => forwardStepC_eq v l face forward right b (by omega) hb s) 64 _ _
    (and_lt_of_lt _ _ _ (and_lt_of_lt _ _ _ hlt))]
  cases whileBits (forwardStep v l face forward right) 64 _
      { merged_forward := st.merged_forward, bits_merging_forward := _ } with
  | error e => rfl
  | ok fs =>
    show whileBitsC _ 64 _ _ = liftE (whileBits _ 64 _ _)
    exact whileBitsC_eq _ _
      (fun b hb s => stoppedStepC_eq v l SX SY SZ face forward right _ b (by omega) hb s) 64 _ _
      (and_lt_of_lt _ _ _ hlt)

end Mesher

namespace Mesher

theorem mem_range62 (a : Nat) (h : a ∈ List.range' 1 (CS_P - 2)) : 1 ≤ a ∧ a ≤ 62 := by
  rw [List.mem_range'_1, CS_P_eq] at h
  omega

theorem meshRowC_eq (v l : Array Nat) (cfm : Words (CS_P2 * 6)) (SX SY SZ : Int)
    (face forward : Nat) (hface : face < 6) (hf1 : 1 ≤ forward) (hf2 : forward ≤ 62)
    (hlt : ∀ r f, r < 64 → f < 64 → cfm.get (r + f * 64 + face * 4096) < 2 ^ 64)
    (st : FaceState) :
    meshRowC v l cfm SX SY SZ face st forward =
      liftE (meshRow v l cfm SX SY SZ face st forward) := by
  have hloop := foldlM_liftE (meshCellC v l cfm SX SY SZ face forward)
    (meshCell v l cfm SX SY SZ face forward) (List.range' 1 (CS_P - 2))
    (fun right hr s => by
      obtain ⟨h1, h2⟩ := mem_range62 right hr
      have e : right + (forward * CS_P) + (face * CS_P2) = right + forward * 64 + face * 4096 := by
        rw [CS_P_eq, CS_P2_eq]
      exact meshCellC_eq v l cfm SX SY SZ face forward right hface hf1 hf2 h1 h2
        (by rw [e]; exact hlt right forward (by omega) (by omega)) s)
    { merged_forward := st.merged_forward, bits_walking_right := 0,
      merged_right := Words.zero CS_P, vertices := st.vertices }
  unfold meshRowC meshRow
  rw [hloop]
  cases (List.range' 1 (CS_P - 2)).foldlM (meshCell v l cfm SX SY SZ face forward)
      { merged_forward := st.merged_forward, bits_walking_right := 0,
        merged_right := Words.zero CS_P, vertices := st.vertices } with
  | error e => rfl
  | ok s => rfl

theorem meshFaceC_eq (v l : Array Nat) (cfm : Words (CS_P2 * 6)) (SX SY SZ : Int)
    (face : Nat) (hface : face < 6)
    (hlt : ∀ r f, r < 64 → f < 64 → cfm.get (r + f * 64 + face * 4096) < 2 ^ 64)
    (vs : List Vertex) :
    meshFaceC v l cfm SX SY SZ vs face = liftE (meshFace v l cfm SX SY SZ vs face) := by
  have hloop := foldlM_liftE (meshRowC v l cfm SX SY SZ face)
    (meshRow v l cfm SX SY SZ face) (List.range' 1 (CS_P - 2))
    (fun forward hf s => by
      obtain ⟨h1, h2⟩ := mem_range62 forward hf
      exact meshRowC_eq v l cfm SX SY SZ face forward hface h1 h2 hlt s)
    { merged_forward := Words.zero CS_P2, vertices := vs }
  unfold meshFaceC meshFace
  rw [hloop]
  cases (List.range' 1 (CS_P - 2)).foldlM (meshRow v l cfm SX SY SZ face)
      { merged_forward := Words.zero CS_P2, vertices := vs } with
  | error e => rfl
  | ok s => rfl

theorem meshFacesC_eq (v l : Array Nat) (cfm : Words (CS_P2 * 6)) (SX SY SZ : Int)
    (hlt : ∀ face r f, face < 6 → r < 64 → f < 64 →
      cfm.get (r + f * 64 + face * 4096) < 2 ^ 64) :
    (List.range 6).foldlM (meshFaceC v l cfm SX SY SZ) [] =
      liftE ((List.range 6).foldlM (meshFace v l cfm SX SY SZ) []) :=
  foldlM_liftE (meshFaceC v l cfm SX SY SZ) (meshFace v l cfm SX SY SZ) (List.range 6)
    (fun face hf vs => meshFaceC_eq v l cfm SX SY SZ face (List.mem_range.mp hf)
      (fun r f hr hf2 => hlt face r f (List.mem_range.mp hf) hr hf2) vs) []

theorem error_bindC {α β : Type} (e : Fault) (f : α → Except Fault β) :
    (Except.error e >>= f) = .error e := rfl

theorem ok_bindC {α β : Type} (a : α) (f : α → Except Fault β) :
    (Except.ok a >>= f) = f a := rfl

/-- The checked embedding and the unchecked one agree on every input: no guard
on an array index, on a shift amount or on the argument of `CTZ` ever fails. -/
theorem meshC_eq (v l : Array Nat) (pos : IVec3) : meshC v l pos = liftE (mesh v l pos) := by
  by_cases hv : v.size < CS_P3
  · rw [mesh_short v l pos hv]
    unfold meshC
    rw [encodeColumnsC_eq, encodeColumns_short v hv]
    rfl
  · have hv2 : 262144 ≤ v.size := by
      rw [CS_P3_eq] at hv
      omega
    obtain ⟨ac, hac, hmask⟩ := masks_spec v hv2
    have hlt : ∀ face r f, face < 6 → r < 64 → f < 64 →
        (cullFaces ac).get (r + f * 64 + face * 4096) < 2 ^ 64 :=
      fun face r f hface hr hf => mask_lt v (cullFaces ac) hmask face r f hface hr hf
    have h3 := meshFacesC_eq v l (cullFaces ac) (toShort ((pos.x * CS) - 1))
      (toShort ((pos.y * CS) - 1)) (toShort ((pos.z * CS) - 1)) hlt
    unfold meshC mesh
    rw [encodeColumnsC_eq, hac, liftE_ok, ok_bindC, cullFacesC_eq, ok_bindC, ok_bind]
    simp only []
    rw [h3]
    cases (List.range 6).foldlM (meshFace v l (cullFaces ac) (toShort ((pos.x * CS) - 1))
      (toShort ((pos.y * CS) - 1)) (toShort ((pos.z * CS) - 1))) [] with
    | error e => rfl
    | ok vs =>
      rw [liftE_ok, ok_bindC, ok_bind]
      by_cases h : vs.length = 0
      · rw [if_pos h, if_pos h]; rfl
      · rw [if_neg h, if_neg h]; rfl

/-- C19. For voxels and light_map of length exactly `CS_P3` and every origin,
the run of `mesh` in which every index into `axis_cols`, `col_face_masks`,
`merged_forward` and `merged_right`, every shift amount, every argument of `CTZ`
and every index passed to `voxels.at` and `light_map.at` is checked passes all
of these checks and returns, with the result of `mesh` itself. -/
theorem mesh_no_fault (v l : Array Nat) (pos : IVec3) (hv : v.size = CS_P3)
    (hl : l.size = CS_P3) :
    ∃ r, meshC v l pos = .ok r ∧ mesh v l pos = .ok r := by
  refine ⟨_, ?_, mesh_eq v l pos hv hl⟩
  rw [meshC_eq, mesh_eq v l pos hv hl]
  rfl

theorem mesh_no_fault_witness :
    singleVoxel.size = CS_P3 ∧ (uniformLight 7).size = CS_P3 ∧
    ∃ r, meshC singleVoxel (uniformLight 7) ⟨0, 0, 0⟩ = .ok r ∧
      mesh singleVoxel (uniformLight 7) ⟨0, 0, 0⟩ = .ok r :=
  ⟨singleVoxel_size, uniformLight_size 7,
    mesh_no_fault singleVoxel (uniformLight 7) ⟨0, 0, 0⟩ singleVoxel_size (uniformLight_size 7)⟩

end Mesher

namespace Mesher

/-! ### The vertices determine the rectangles -/

theorem toShort_add_inj (a : Int) (x y : Nat) (h : toShort (a + x) = toShort (a + y))
    (hx : x ≤ 63) (hy : y ≤ 63) : x = y := by
  unfold toShort at h
  omega

/-- A rectangle inside the chunk is determined by its six vertices. -/
theorem quadVertices_inj (pos : IVec3) (q1 q2 : Quad) (h1 : q1.inChunk) (h2 : q2.inChunk)
    (h : quadVertices pos q1 = quadVertices pos q2) : q1 = q2 := by
  have hlen : (quadVertices pos q1).length = 6 := quadVertices_length pos q1 h1.1
  have hface : q1.face = q2.face := by
    obtain ⟨u, hu⟩ := List.exists_mem_of_length_pos (by rw [hlen]; decide :
      0 < (quadVertices pos q1).length)
    have e1 := (quadVertices_attr pos q1 u hu).2.2
    rw [h] at hu
    have e2 := (quadVertices_attr pos q2 u hu).2.2
    rw [← e1, ← e2]
  obtain ⟨face1, L1, R1, F1, B1, U1, t1, g1⟩ := q1
  obtain ⟨face2, L2, R2, F2, B2, U2, t2, g2⟩ := q2
  simp only at hface
  subst hface
  unfold Quad.inChunk Quad.depth at h1 h2
  simp only at h1 h2
  obtain ⟨hf, a1, a2, a3, a4, a5, a6, a7, a8⟩ := h1
  obtain ⟨_, b1, b2, b3, b4, b5, b6, b7, b8⟩ := h2
  have hU1 : U1 ≤ 63 := by split at a8 <;> omega
  have hU2 : U2 ≤ 63 := by split at b8 <;> omega
  interval_cases face1 <;>
    simp only [quadVertices, faceTable, Quad.lane, List.map_cons, List.map_nil,
      List.cons.injEq, Vertex.mk.injEq, and_true, true_and] at h <;>
    obtain ⟨⟨c1, c2, c3, c4, c5⟩, ⟨d1, d2, d3, _, _⟩, ⟨e1, e2, e3, _, _⟩, _⟩ := h <;>
    subst c4 <;> subst c5
  all_goals
    have k1 := toShort_add_inj _ _ _ c1 (by omega) (by omega)
    have k2 := toShort_add_inj _ _ _ c2 (by omega) (by omega)
    have k3 := toShort_add_inj _ _ _ c3 (by omega) (by omega)
    have k4 := toShort_add_inj _ _ _ d1 (by omega) (by omega)
    have k5 := toShort_add_inj _ _ _ d2 (by omega) (by omega)
    have k6 := toShort_add_inj _ _ _ d3 (by omega) (by omega)
    have k7 := toShort_add_inj _ _ _ e1 (by omega) (by omega)
    have k8 := toShort_add_inj _ _ _ e2 (by omega) (by omega)
    have k9 := toShort_add_inj _ _ _ e3 (by omega) (by omega)
    simp only [Quad.mk.injEq, true_and, and_true]
    refine ⟨?_, ?_, ?_, ?_, ?_⟩ <;> omega

/-- Two lists of rectangles inside the chunk that have the same vertices are
equal: the output of `mesh` is the vertex list of at most one such list. -/
theorem quads_unique (pos : IVec3) :
    ∀ qs qs2 : List Quad, (∀ q, q ∈ qs → q.inChunk) → (∀ q, q ∈ qs2 → q.inChunk) →
      qs.flatMap (quadVertices pos) = qs2.flatMap (quadVertices pos) → qs = qs2 := by
  intro qs
  induction qs with
  | nil =>
    intro qs2 _ h2 h
    cases qs2 with
    | nil => rfl
    | cons q2 t2 =>
      exfalso
      have hlen := congrArg List.length h
      rw [List.flatMap_nil, List.flatMap_cons, List.length_append,
        quadVertices_length pos q2 (h2 q2 (List.mem_cons_self _ _)).1] at hlen
      simp only [List.length_nil] at hlen
      omega
  | cons q1 t1 ih =>
    intro qs2 h1 h2 h
    cases qs2 with
    | nil =>
      exfalso
      have hlen := congrArg List.length h
      rw [List.flatMap_nil, List.flatMap_cons, List.length_append,
        quadVertices_length pos q1 (h1 q1 (List.mem_cons_self _ _)).1] at hlen
      simp only [List.length_nil] at hlen
      omega
    | cons q2 t2 =>
      rw [List.flatMap_cons, List.flatMap_cons] at h
      have hl1 := quadVertices_length pos q1 (h1 q1 (List.mem_cons_self _ _)).1
      have hl2 := quadVertices_length pos q2 (h2 q2 (List.mem_cons_self _ _)).1
      obtain ⟨e1, e2⟩ := List.append_inj h (hl1.trans hl2.symm)
      rw [quadVertices_inj pos q1 q2 (h1 q1 (List.mem_cons_self _ _))
        (h2 q2 (List.mem_cons_self _ _)) e1,
        ih t2 (fun q hq => h1 q (List.mem_cons_of_mem _ hq))
          (fun q hq => h2 q (List.mem_cons_of_mem _ hq)) e2]

theorem packVertices_inj (a b : List Vertex) (h : packVertices a = packVertices b) : a = b := by
  unfold packVertices at h
  by_cases ha : a.length = 0
  · by_cases hb : b.length = 0
    · rw [List.length_eq_zero.mp ha, List.length_eq_zero.mp hb]
    · rw [if_pos ha, if_neg hb] at h
      exact absurd h (by simp)
  · by_cases hb : b.length = 0
    · rw [if_neg ha, if_pos hb] at h
      exact absurd h (by simp)
    · rw [if_neg ha, if_neg hb] at h
      exact Option.some.inj h

/-- The output of `mesh` is the vertex list of at most one list of rectangles
inside the chunk: the list of rectangles named in the statements about the
output is determined by the output. -/
theorem mesh_quads_unique (v l : Array Nat) (pos : IVec3) (qs qs2 : List Quad)
    (h1 : ∀ q, q ∈ qs → q.inChunk) (h2 : ∀ q, q ∈ qs2 → q.inChunk)
    (e1 : mesh v l pos = .ok (packVertices (qs.flatMap (quadVertices pos))))
    (e2 : mesh v l pos = .ok (packVertices (qs2.flatMap (quadVertices pos)))) : qs = qs2 := by
  rw [e1] at e2
  exact quads_unique pos qs qs2 h1 h2 (packVertices_inj _ _ (Except.ok.inj e2))

end Mesher
